import Mathlib

/-!
# CSL model checking of sparse CTMCs (storm, `SparseCtmcCslHelper`)

A shallow embedding of `src/storm/modelchecker/csl/helper/SparseCtmcCslHelper.cpp`.

Conventions of the embedding.

* The numeric functions are embedded twice. The definitions without suffix evaluate the
  arithmetic of the function templates exactly, over the rationals `ℚ`: this is the arithmetic
  of the instantiation for `storm::RationalNumber` and the one in which the specification
  states its guarantees; the constant `1.02` is the rational `51/50`. The definitions with the
  suffix `Rounded` (section "The instantiation for `double`") take the rounding that follows
  every arithmetic operation as an argument: with `roundToDouble` they are the instantiation
  for `double`, the only one in which the uniformization functions compute, and with `id` they
  are the exact definitions. A statement about exact values (a row that sums to 1, a result
  inside `[0, 1]`) is proved for the exact definitions, and where rounding breaks it this is
  shown on the rounded ones.
* Division is the total field division of `ℚ`; a division by zero is a caller-contract violation
  of the source and the theorems that need a non-zero divisor assume it.
* A `std::vector<ValueType>` is a `List ℚ`, a `storm::storage::BitVector` is a `List Bool`
  (bit `i` is the membership of state `i`), a `storm::storage::SparseMatrix` keeps its rows as
  lists of `(column, value)` entries in storage order.
* A `for` loop over an index range or over the set bits of a bit vector is a `List.map` or a
  `List.foldl` over the list of indices.
* Errors raised with `STORM_LOG_THROW` are values of `Error` in `Except`.
* Time bounds are `double`s in the source; a lower bound is a rational and an upper bound is
  `Option ℚ`, where `none` is `storm::utility::infinity`.
* Functions of the repository whose code is not among the sources (bit vectors, sparse matrices,
  vector utilities, graph analysis, the multiplier) are modelled from the specification and are
  marked as such; collaborators that are numeric black boxes (Fox-Glynn, the DTMC helper) are
  fields of `Environment`, and those of the long-run-average engine (the decomposition into
  bottom strongly connected components, the linear equation solver factory) are fields of
  `LongRunEnvironment`.
* The loop `while (true)` of the value iteration takes a bound on its rounds; a value of type
  `Option` is `none` when the loop has not been left within the bound. A statement that the
  code returns is a statement for every bound from some bound on.
* Functions with the suffix `Traced` return, next to the result, a ghost record of the calls
  that a claim speaks about (matrix-vector applications, uniformized state sets, solver
  creations and calls). The statements of the source that print to `std::cout` are left out;
  the submatrix that `computeLongRunAveragesForBscc` builds for its output is recorded.
-/

namespace Storm

/-- The numeric domain of the exact definitions: the rationals. The values of type `double` are
rationals as well; the definitions with the suffix `Rounded` round every result to one of
them. -/
abbrev ValueType := ℚ

/-- The exception kinds thrown by the helper. -/
inductive Error where
  | invalidState
  | invalidOperation
  | invalidProperty
  | uncheckedRequirement
  | notSupported
  deriving DecidableEq, Repr

/-! ## Bit vectors -/

/-- Modelled from the spec: `storm::storage::BitVector` (section 6, "State set / bit-set") is not
among the sources. A bit vector is its list of bits. -/
abbrev BitVector := List Bool

/-- Modelled from the spec: `BitVector::get`, the membership test. -/
def BitVector.get (b : BitVector) (i : Nat) : Bool := b.getD i false

/-- Modelled from the spec: iteration over a bit vector, the set bits in ascending index order. -/
def BitVector.setBits (b : BitVector) : List Nat :=
  (List.range b.length).filter (fun i => BitVector.get b i)

/-- Modelled from the spec: `BitVector::getNumberOfSetBits`, the cardinality. -/
def BitVector.getNumberOfSetBits (b : BitVector) : Nat := (BitVector.setBits b).length

/-- Modelled from the spec: `BitVector::empty`, the "none set" check. -/
def BitVector.empty (b : BitVector) : Bool := b.all (fun x => !x)

/-- Modelled from the spec: `BitVector::full`, the "all set" check. -/
def BitVector.full (b : BitVector) : Bool := b.all (fun x => x)

/-- Modelled from the spec: `BitVector::operator~`, the set complement. -/
def BitVector.complement (b : BitVector) : BitVector := b.map (fun x => !x)

/-- Modelled from the spec: `BitVector::operator&`, the intersection. -/
def BitVector.and (a b : BitVector) : BitVector := List.zipWith (fun x y => x && y) a b

/-- Modelled from the spec: `BitVector::operator|`, the union. -/
def BitVector.or (a b : BitVector) : BitVector := List.zipWith (fun x y => x || y) a b

/-- Modelled from the spec: `BitVector::getNumberOfSetBitsBeforeIndices` at one index, the number
of set bits strictly below `i`. -/
def BitVector.rank (b : BitVector) (i : Nat) : Nat :=
  (List.range i).countP (fun j => BitVector.get b j)

/-- Modelled from the spec: `BitVector::operator%`; `a % filter` has one bit per set bit of
`filter`, the membership in `a` of that state. -/
def BitVector.restrict (a filter : BitVector) : BitVector :=
  (BitVector.setBits filter).map (fun i => BitVector.get a i)

/-- Modelled from the spec: the constructor `BitVector(size, value)`. -/
def BitVector.const (size : Nat) (value : Bool) : BitVector := List.replicate size value

/-! ## Sparse matrices -/

/-- Modelled from the spec: `storm::storage::SparseMatrix` (section 6, "Sparse matrix") is not
among the sources. Rows are stored in row-major order, each row as its list of
`(column, value)` entries. -/
structure SparseMatrix where
  columnCount : Nat
  rows : List (List (Nat × ℚ))
  deriving DecidableEq, Repr

/-- Modelled from the spec: `SparseMatrix::getRowCount`, the row count. -/
def SparseMatrix.getRowCount (m : SparseMatrix) : Nat := m.rows.length

/-- Modelled from the spec: `SparseMatrix::getRow`, the entries of row `i` (row iteration). -/
def SparseMatrix.getRow (m : SparseMatrix) (i : Nat) : List (Nat × ℚ) := m.rows.getD i []

/-- The stored entry at `(i, j)`, when there is one: the first entry of row `i` in column `j`. -/
def SparseMatrix.entry (m : SparseMatrix) (i j : Nat) : Option ℚ :=
  ((SparseMatrix.getRow m i).find? (fun e => e.1 == j)).map (fun e => e.2)

/-- The value of a matrix at `(i, j)`: the stored entry, and `0` where nothing is stored. -/
def SparseMatrix.value (m : SparseMatrix) (i j : Nat) : ℚ := (SparseMatrix.entry m i j).getD 0

/-- The sum of a list of entries. -/
def entrySum (row : List (Nat × ℚ)) : ℚ := (row.map (fun e => e.2)).sum

/-- Modelled from the spec: `SparseMatrix::getRowSum`. -/
def SparseMatrix.getRowSum (m : SparseMatrix) (i : Nat) : ℚ := entrySum (SparseMatrix.getRow m i)

/-- The invariant of a sparse matrix that its builder enforces: within a row the columns are
strictly increasing. -/
def SparseMatrix.WellFormed (m : SparseMatrix) : Prop :=
  ∀ row ∈ m.rows, (row.map (fun e => e.1)).Pairwise (fun a b => a < b)

instance (m : SparseMatrix) : Decidable (SparseMatrix.WellFormed m) := by
  unfold SparseMatrix.WellFormed
  infer_instance

/-- Modelled from the spec: one row of `SparseMatrix::getSubmatrix`, which is not among the
sources. The entries whose column is selected are kept in order and their
column is renumbered to its rank among the selected columns; with `insertDiagonalEntries` a zero
entry is inserted at the diagonal position `rowRank` unless the row has an entry there. The flag
`inserted` is the loop variable `insertedDiagonalElement`. -/
def getSubmatrixRow (columnConstraint : BitVector) (insertDiagonalEntries : Bool) (rowRank : Nat) :
    Bool → List (Nat × ℚ) → List (Nat × ℚ)
  | inserted, [] =>
      if insertDiagonalEntries && !inserted
          && decide (rowRank < BitVector.getNumberOfSetBits columnConstraint) then
        [(rowRank, 0)]
      else []
  | inserted, e :: rest =>
      if BitVector.get columnConstraint e.1 then
        if BitVector.rank columnConstraint e.1 = rowRank then
          (BitVector.rank columnConstraint e.1, e.2)
            :: getSubmatrixRow columnConstraint insertDiagonalEntries rowRank true rest
        else if insertDiagonalEntries && !inserted
            && decide (rowRank < BitVector.rank columnConstraint e.1) then
          (rowRank, 0) :: (BitVector.rank columnConstraint e.1, e.2)
            :: getSubmatrixRow columnConstraint insertDiagonalEntries rowRank true rest
        else
          (BitVector.rank columnConstraint e.1, e.2)
            :: getSubmatrixRow columnConstraint insertDiagonalEntries rowRank inserted rest
      else
        getSubmatrixRow columnConstraint insertDiagonalEntries rowRank inserted rest

/-- Modelled from the spec: `SparseMatrix::getSubmatrix(useGroups = false, rowConstraint,
columnConstraint, insertDiagonalEntries)` is not among the sources ("sub-matrix extraction by
row/column subset, with option to force diagonal entries present"). The result has one row per
selected row, in ascending order, and one column per selected column. -/
def SparseMatrix.getSubmatrix (m : SparseMatrix) (rowConstraint columnConstraint : BitVector)
    (insertDiagonalEntries : Bool) : SparseMatrix where
  columnCount := BitVector.getNumberOfSetBits columnConstraint
  rows := (BitVector.setBits rowConstraint).map (fun index =>
    getSubmatrixRow columnConstraint insertDiagonalEntries (BitVector.rank rowConstraint index)
      false (SparseMatrix.getRow m index))

/-- Modelled from the spec: `SparseMatrix::getConstrainedRowSumVector(rowConstraint,
columnConstraint)`, "constrained row-sum over a target column subset": for every selected row the
sum of its entries in selected columns. -/
def SparseMatrix.getConstrainedRowSumVector (m : SparseMatrix)
    (rowConstraint columnConstraint : BitVector) : List ℚ :=
  (BitVector.setBits rowConstraint).map (fun index =>
    entrySum ((SparseMatrix.getRow m index).filter (fun e => BitVector.get columnConstraint e.1)))

/-! ## Vector utilities -/

/-- Modelled from the spec: `storm::utility::vector::setVectorValues(vector, positions, value)`
is not among the sources; it writes `value` at every set position. -/
def setVectorValue (vector : List ℚ) (positions : BitVector) (value : ℚ) : List ℚ :=
  vector.mapIdx (fun i x => if BitVector.get positions i then value else x)

/-- Modelled from the spec: `storm::utility::vector::setVectorValues(vector, positions, values)`
is not among the sources; it writes the `k`-th entry of `values` at the `k`-th set position. -/
def setVectorValues (vector : List ℚ) (positions : BitVector) (values : List ℚ) : List ℚ :=
  vector.mapIdx (fun i x =>
    if BitVector.get positions i then values.getD (BitVector.rank positions i) 0 else x)

/-- Modelled from the spec: `storm::utility::vector::selectVectorValues(vector, positions,
values)` is not among the sources; the result holds the entries of `values` at the set
positions, in ascending order. -/
def selectVectorValues (positions : BitVector) (values : List ℚ) : List ℚ :=
  (BitVector.setBits positions).map (fun i => values.getD i 0)

/-- Modelled from the spec: `storm::utility::vector::applyPointwise(first, second, target, f)`
is not among the sources; the binary pointwise application. -/
def applyPointwise (f : ℚ → ℚ → ℚ) (first second : List ℚ) : List ℚ :=
  List.zipWith f first second

/-! ## The multiplier -/

/-- Modelled from the spec: the product of one sparse row with a dense vector, as the multiplier
computes it. -/
def multiplyRow (row : List (Nat × ℚ)) (x : List ℚ) : ℚ :=
  (row.map (fun e => e.2 * x.getD e.1 0)).sum

/-- Modelled from the spec: `storm::solver::Multiplier::multiply(env, x, b, result)` is not among
the sources (section 6, "Repeated multiplier"); the result is `A * x + b`, and `A * x` when `b`
is the null pointer. -/
def multiply (A : SparseMatrix) (x : List ℚ) (b : Option (List ℚ)) : List ℚ :=
  (List.range A.rows.length).map (fun i =>
    multiplyRow (SparseMatrix.getRow A i) x + (match b with | none => 0 | some v => v.getD i 0))

/-- Modelled from the spec: `storm::solver::Multiplier::repeatedMultiply(env, x, b, n)`, the
`n`-fold application of `multiply` to `x`. -/
def repeatedMultiply (A : SparseMatrix) (x : List ℚ) (b : Option (List ℚ)) (n : Nat) : List ℚ :=
  (fun y => multiply A y b)^[n] x

/-! ## Graph analysis -/

/-- Modelled from the spec: one round of the backward search of `performProbGreater0`, which is
not among the sources: a phi-state joins the set as soon
as `backwardTransitions` has an entry from a state of the set to it. -/
def performProbGreater0Step (backwardTransitions : SparseMatrix) (phiStates : BitVector)
    (current : BitVector) : BitVector :=
  (List.range current.length).map (fun s =>
    BitVector.get current s ||
      (BitVector.get phiStates s &&
        (BitVector.setBits current).any (fun t =>
          (SparseMatrix.getRow backwardTransitions t).any (fun e => e.1 == s))))

/-- Modelled from the spec: `storm::utility::graph::performProbGreater0(backwardTransitions,
phiStates, psiStates)` is not among the sources ("a graph reachability predicate over
phiStates/psiStates": the states that can reach psi through phi). The search starts from the psi
states and runs backwards; every round that changes the set adds a state, so one round per state
reaches the fixed point. -/
def performProbGreater0 (backwardTransitions : SparseMatrix) (phiStates psiStates : BitVector) :
    BitVector :=
  (performProbGreater0Step backwardTransitions phiStates)^[phiStates.length]
    ((List.range phiStates.length).map (fun s => BitVector.get psiStates s))

/-! ## Collaborators -/

/-- Modelled from the spec: `storm::utility::numerical::FoxGlynnResult` (section 3, "Fox-Glynn
result"): the truncation points, the total weight and one weight per index in `[left, right]`. -/
structure FoxGlynnResult where
  left : Nat
  right : Nat
  totalWeight : ℚ
  weights : List ℚ
  deriving DecidableEq, Repr

/-- Modelled from the spec: `storm::solver::SolveGoal` is not among the sources; the helper only
forwards it, or forwards a default-constructed one. -/
structure SolveGoal where
  relevantValues : Option BitVector
  deriving DecidableEq, Repr

/-- The default-constructed `SolveGoal<ValueType>()`. -/
def SolveGoal.default : SolveGoal := ⟨none⟩

/-- The collaborators of the helper that are numeric black boxes: the precision of the general
settings, `storm::utility::numerical::foxGlynn(lambda, precision)` and
`SparseDtmcPrctlHelper::computeUntilProbabilities(goal, probabilityMatrix, backwardTransitions,
phiStates, psiStates, qualitative)`. -/
structure Environment where
  precision : ℚ
  foxGlynn : ℚ → ℚ → FoxGlynnResult
  dtmcComputeUntilProbabilities :
    SolveGoal → SparseMatrix → SparseMatrix → BitVector → BitVector → Bool → Except Error (List ℚ)

/-! ## `SparseCtmcCslHelper` -/

/-- The function `SparseCtmcCslHelper::computeProbabilityMatrix`: every entry of row `row` is
divided by `exitRates[row]`. -/
def computeProbabilityMatrix (rateMatrix : SparseMatrix) (exitRates : List ℚ) : SparseMatrix where
  columnCount := rateMatrix.columnCount
  rows := (List.range rateMatrix.rows.length).map (fun row =>
    (SparseMatrix.getRow rateMatrix row).map (fun entry =>
      (entry.1, entry.2 / exitRates.getD row 0)))

/-- The body of the inner loop of `computeUniformizedMatrix` for one entry of row `currentRow`,
which belongs to state `state`. -/
def uniformizeEntry (uniformizationRate : ℚ) (exitRates : List ℚ) (currentRow state : Nat)
    (element : Nat × ℚ) : Nat × ℚ :=
  if element.1 = currentRow then
    (element.1, (element.2 - exitRates.getD state 0) / uniformizationRate + 1)
  else
    (element.1, element.2 / uniformizationRate)

/-- The function `SparseCtmcCslHelper::computeUniformizedMatrix`. -/
def computeUniformizedMatrix (rateMatrix : SparseMatrix) (maybeStates : BitVector)
    (uniformizationRate : ℚ) (exitRates : List ℚ) : SparseMatrix where
  columnCount := (SparseMatrix.getSubmatrix rateMatrix maybeStates maybeStates true).columnCount
  rows := (List.range (BitVector.setBits maybeStates).length).map (fun currentRow =>
    (SparseMatrix.getRow (SparseMatrix.getSubmatrix rateMatrix maybeStates maybeStates true)
        currentRow).map
      (uniformizeEntry uniformizationRate exitRates currentRow
        ((BitVector.setBits maybeStates).getD currentRow 0)))

/-- The state of the loops of `computeTransientProbabilities`: the vectors `values` and `result`
of the source, and two ghost fields that record, in order, the add-vector argument of every
matrix-vector application of the multiplier and the arguments of every call of Fox-Glynn. -/
structure TransientState where
  values : List ℚ
  result : List ℚ
  applications : List (Option (List ℚ))
  foxGlynnCalls : List (ℚ × ℚ)

/-- The adjustment of the weights for cumulative rewards: `sum += element;
element = (1 - sum) / uniformizationRate`. -/
def mixedPoissonWeights (uniformizationRate : ℚ) : ℚ → List ℚ → List ℚ
  | _, [] => []
  | sum, element :: rest =>
      (1 - (sum + element)) / uniformizationRate
        :: mixedPoissonWeights uniformizationRate (sum + element) rest

/-- The weights that `computeTransientProbabilities` works with: scaled by the total weight, and
adjusted when `useMixedPoissonProbabilities` is set. -/
def transientWeights (useMixedPoissonProbabilities : Bool) (uniformizationRate : ℚ)
    (foxGlynnResult : FoxGlynnResult) : List ℚ :=
  if useMixedPoissonProbabilities then
    mixedPoissonWeights uniformizationRate 0
      (foxGlynnResult.weights.map (fun element => element / foxGlynnResult.totalWeight))
  else
    foxGlynnResult.weights.map (fun element => element / foxGlynnResult.totalWeight)

/-- One round of the loop below the left truncation point in cumulative mode: a multiplication
without add-vector, then `result += values / uniformizationRate`. -/
def belowLeftStep (uniformizedMatrix : SparseMatrix) (uniformizationRate : ℚ)
    (st : TransientState) (_index : Nat) : TransientState :=
  let values := multiply uniformizedMatrix st.values none
  { values := values
    result := applyPointwise (fun a b => a + b / uniformizationRate) st.result values
    applications := st.applications ++ [none]
    foxGlynnCalls := st.foxGlynnCalls }

/-- One round of the loop between the truncation points: a multiplication with the add-vector,
then `result += weights[index - left] * values`. -/
def windowStep (uniformizedMatrix : SparseMatrix) (addVector : Option (List ℚ))
    (weights : List ℚ) (left : Nat) (st : TransientState) (index : Nat) : TransientState :=
  let values := multiply uniformizedMatrix st.values addVector
  { values := values
    result := applyPointwise (fun a b => a + weights.getD (index - left) 0 * b) st.result values
    applications := st.applications ++ [addVector]
    foxGlynnCalls := st.foxGlynnCalls }

/-- The function `SparseCtmcCslHelper::computeTransientProbabilities`, with the template
parameter `useMixedPoissonProbabilities` as an argument; it returns the final state of its
loops. -/
def computeTransientProbabilitiesTraced (env : Environment) (useMixedPoissonProbabilities : Bool)
    (uniformizedMatrix : SparseMatrix) (addVector : Option (List ℚ))
    (timeBound uniformizationRate : ℚ) (values : List ℚ) : TransientState :=
  let lambda := timeBound * uniformizationRate
  if lambda = 0 then
    { values := values, result := values, applications := [], foxGlynnCalls := [] }
  else
    let foxGlynnResult := env.foxGlynn lambda (env.precision / 8)
    let weights := transientWeights useMixedPoissonProbabilities uniformizationRate foxGlynnResult
    let startingIteration := if foxGlynnResult.left = 0 then 1 else foxGlynnResult.left
    let result :=
      if foxGlynnResult.left = 0 then values.map (fun a => a * weights.getD 0 0)
      else if useMixedPoissonProbabilities then values.map (fun a => a / uniformizationRate)
      else List.replicate values.length 0
    let st0 : TransientState :=
      { values := values, result := result, applications := []
        foxGlynnCalls := [(lambda, env.precision / 8)] }
    let st1 : TransientState :=
      if !useMixedPoissonProbabilities && decide (foxGlynnResult.left > 1) then
        { st0 with
          values := repeatedMultiply uniformizedMatrix values addVector (foxGlynnResult.left - 1)
          applications := List.replicate (foxGlynnResult.left - 1) addVector }
      else if useMixedPoissonProbabilities then
        (List.range' 1 (startingIteration - 1)).foldl
          (belowLeftStep uniformizedMatrix uniformizationRate) st0
      else st0
    (List.range' startingIteration (foxGlynnResult.right + 1 - startingIteration)).foldl
      (windowStep uniformizedMatrix addVector weights foxGlynnResult.left) st1

/-- The vector returned by `SparseCtmcCslHelper::computeTransientProbabilities`. -/
def computeTransientProbabilities (env : Environment) (useMixedPoissonProbabilities : Bool)
    (uniformizedMatrix : SparseMatrix) (addVector : Option (List ℚ))
    (timeBound uniformizationRate : ℚ) (values : List ℚ) : List ℚ :=
  (computeTransientProbabilitiesTraced env useMixedPoissonProbabilities uniformizedMatrix
    addVector timeBound uniformizationRate values).result

/-- The function `SparseCtmcCslHelper::computeUntilProbabilities`. -/
def computeUntilProbabilities (env : Environment) (goal : SolveGoal) (rateMatrix : SparseMatrix)
    (backwardTransitions : SparseMatrix) (exitRateVector : List ℚ)
    (phiStates psiStates : BitVector) (qualitative : Bool) : Except Error (List ℚ) :=
  env.dtmcComputeUntilProbabilities goal (computeProbabilityMatrix rateMatrix exitRateVector)
    backwardTransitions phiStates psiStates qualitative

/-- The loop `uniformizationRate = max(uniformizationRate, exitRates[state])` over the states of
`states`, started at zero, followed by `uniformizationRate *= 1.02`; the source repeats it in
every uniformizing branch. -/
def uniformizationRateOf (states : BitVector) (exitRates : List ℚ) : ℚ :=
  (BitVector.setBits states).foldl
    (fun uniformizationRate state => max uniformizationRate (exitRates.getD state 0)) 0 * 1.02

/-- The block that `computeBoundedUntilProbabilities` runs on the 'maybe' states, once for the
interval `[0, t]` (lines 69-88) and once as the first stage of `[t, t']` (lines 130-149): the
uniformization rate and its check, the uniformized matrix, the compensation vector `b` and the
transient probabilities from the all-zero vector. -/
def computeMaybeStateProbabilities (env : Environment) (rateMatrix : SparseMatrix)
    (maybeStates psiStates : BitVector) (exitRates : List ℚ) (timeBound : ℚ) :
    Except Error (List ℚ) :=
  let uniformizationRate := uniformizationRateOf maybeStates exitRates
  if uniformizationRate > 0 then
    let uniformizedMatrix :=
      computeUniformizedMatrix rateMatrix maybeStates uniformizationRate exitRates
    let b := (SparseMatrix.getConstrainedRowSumVector rateMatrix maybeStates psiStates).map
      (fun element => element / uniformizationRate)
    let values := List.replicate (BitVector.getNumberOfSetBits maybeStates) (0 : ℚ)
    Except.ok (computeTransientProbabilities env false uniformizedMatrix (some b) timeBound
      uniformizationRate values)
  else
    Except.error Error.invalidState

/-- The block that propagates a vector over the states `states` for `timeBound` time units
without add-vector (lines 103-114, 155-164 and 178-187): the uniformization rate and its check,
the uniformized matrix and the transient probabilities. -/
def propagateOver (env : Environment) (rateMatrix : SparseMatrix) (states : BitVector)
    (exitRates : List ℚ) (timeBound : ℚ) (values : List ℚ) : Except Error (List ℚ) :=
  let uniformizationRate := uniformizationRateOf states exitRates
  if uniformizationRate > 0 then
    let uniformizedMatrix := computeUniformizedMatrix rateMatrix states uniformizationRate exitRates
    Except.ok (computeTransientProbabilities env false uniformizedMatrix none timeBound
      uniformizationRate values)
  else
    Except.error Error.invalidState

/-- Ghost record of a run of `computeBoundedUntilProbabilities`: whether `performProbGreater0`
was run, and the state sets handed to `computeUniformizedMatrix`, in call order. -/
structure BoundedUntilTrace where
  graphAnalysis : Bool
  uniformized : List BitVector
  deriving DecidableEq, Repr

/-- The function `SparseCtmcCslHelper::computeBoundedUntilProbabilities` for a numeric domain
with exponential support, together with its ghost record. The test `upperBound == infinity` of
the source is the `match`; for an infinite upper bound the tests `isZero(upperBound)` and
`isZero(lowerBound)` that precede it in the source are both false (the interval `[0, inf]` has
returned before). -/
def computeBoundedUntilProbabilitiesTraced (env : Environment) (goal : SolveGoal)
    (rateMatrix backwardTransitions : SparseMatrix) (phiStates psiStates : BitVector)
    (exitRates : List ℚ) (qualitative : Bool) (lowerBound : ℚ) (upperBound : Option ℚ) :
    BoundedUntilTrace × Except Error (List ℚ) :=
  let numberOfStates := SparseMatrix.getRowCount rateMatrix
  if lowerBound = 0 ∧ upperBound = none then
    (⟨false, []⟩, computeUntilProbabilities env goal rateMatrix backwardTransitions exitRates
      phiStates psiStates qualitative)
  else
    let statesWithProbabilityGreater0 :=
      performProbGreater0 backwardTransitions phiStates psiStates
    let statesWithProbabilityGreater0NonPsi :=
      BitVector.and statesWithProbabilityGreater0 (BitVector.complement psiStates)
    if !BitVector.empty statesWithProbabilityGreater0 then
      match upperBound with
      | some upper =>
        if upper = 0 then
          (⟨true, []⟩, Except.ok (setVectorValue (List.replicate numberOfStates 0) psiStates 1))
        else if lowerBound = 0 then
          let result := setVectorValue (List.replicate numberOfStates 0) psiStates 1
          if !BitVector.empty statesWithProbabilityGreater0NonPsi then
            match computeMaybeStateProbabilities env rateMatrix
                statesWithProbabilityGreater0NonPsi psiStates exitRates upper with
            | Except.error e => (⟨true, []⟩, Except.error e)
            | Except.ok subresult =>
              (⟨true, [statesWithProbabilityGreater0NonPsi]⟩,
                Except.ok (setVectorValues result statesWithProbabilityGreater0NonPsi subresult))
          else
            (⟨true, []⟩, Except.ok result)
        else if lowerBound ≠ upper then
          let relevantStates := BitVector.and statesWithProbabilityGreater0 phiStates
          let newSubresult := setVectorValue
            (List.replicate (BitVector.getNumberOfSetBits relevantStates) 0)
            (BitVector.restrict psiStates relevantStates) 1
          let firstStage : Except Error (List ℚ × List BitVector) :=
            if !BitVector.empty statesWithProbabilityGreater0NonPsi then
              match computeMaybeStateProbabilities env rateMatrix
                  statesWithProbabilityGreater0NonPsi psiStates exitRates
                  (upper - lowerBound) with
              | Except.error e => Except.error e
              | Except.ok subresult =>
                Except.ok (setVectorValues newSubresult
                  (BitVector.restrict statesWithProbabilityGreater0NonPsi relevantStates)
                  subresult, [statesWithProbabilityGreater0NonPsi])
            else
              Except.ok (newSubresult, [])
          match firstStage with
          | Except.error e => (⟨true, []⟩, Except.error e)
          | Except.ok (newSubresult, uniformized) =>
            match propagateOver env rateMatrix relevantStates exitRates lowerBound
                newSubresult with
            | Except.error e => (⟨true, uniformized⟩, Except.error e)
            | Except.ok newSubresult =>
              (⟨true, uniformized ++ [relevantStates]⟩,
                Except.ok (setVectorValues
                  (setVectorValue (List.replicate numberOfStates 0)
                    (BitVector.complement relevantStates) 0)
                  relevantStates newSubresult))
        else
          let newSubresult := setVectorValue
            (List.replicate (BitVector.getNumberOfSetBits statesWithProbabilityGreater0) 0)
            (BitVector.restrict psiStates statesWithProbabilityGreater0) 1
          match propagateOver env rateMatrix statesWithProbabilityGreater0 exitRates lowerBound
              newSubresult with
          | Except.error e => (⟨true, []⟩, Except.error e)
          | Except.ok newSubresult =>
            (⟨true, [statesWithProbabilityGreater0]⟩,
              Except.ok (setVectorValues
                (setVectorValue (List.replicate numberOfStates 0)
                  (BitVector.complement statesWithProbabilityGreater0) 0)
                statesWithProbabilityGreater0 newSubresult))
      | none =>
        match computeUntilProbabilities env SolveGoal.default rateMatrix backwardTransitions
            exitRates phiStates psiStates qualitative with
        | Except.error e => (⟨true, []⟩, Except.error e)
        | Except.ok result =>
          let relevantStates := BitVector.and statesWithProbabilityGreater0 phiStates
          let subResult := selectVectorValues relevantStates result
          match propagateOver env rateMatrix relevantStates exitRates lowerBound subResult with
          | Except.error e => (⟨true, []⟩, Except.error e)
          | Except.ok subResult =>
            (⟨true, [relevantStates]⟩,
              Except.ok (setVectorValues
                (setVectorValue result (BitVector.complement relevantStates) 0)
                relevantStates subResult))
    else
      (⟨true, []⟩, Except.ok (List.replicate numberOfStates 0))

/-- The result of `SparseCtmcCslHelper::computeBoundedUntilProbabilities`: the returned vector or
the exception thrown. -/
def computeBoundedUntilProbabilities (env : Environment) (goal : SolveGoal)
    (rateMatrix backwardTransitions : SparseMatrix) (phiStates psiStates : BitVector)
    (exitRates : List ℚ) (qualitative : Bool) (lowerBound : ℚ) (upperBound : Option ℚ) :
    Except Error (List ℚ) :=
  (computeBoundedUntilProbabilitiesTraced env goal rateMatrix backwardTransitions phiStates
    psiStates exitRates qualitative lowerBound upperBound).2

/-! ## Definitions of the specification -/

/-- The indicator vector of a state set over `n` states. -/
def indicatorVector (n : Nat) (states : BitVector) : List ℚ :=
  (List.range n).map (fun s => if BitVector.get states s then 1 else 0)

/-- The sequence of the specification of the Transient Iterator: `x_0 = v` and
`x_(k+1) = P * x_k + a`, where `a` is left out when absent. -/
def transientIterate (P : SparseMatrix) (a : Option (List ℚ)) (v : List ℚ) : Nat → List ℚ
  | 0 => v
  | k + 1 => multiply P (transientIterate P a v k) a

/-- A vector is zero outside a state set, on the first `n` states. -/
def ZeroOutside (states : BitVector) (n : Nat) (result : List ℚ) : Prop :=
  ∀ s, s < n → BitVector.get states s = false → ∀ v, result[s]? = some v → v = 0

/-- The specification of the interval `[t, t]` with `0 < t < inf` in its own words (section 4.4,
case 6): the case for `t ≠ t'` with its first stage replaced by the indicator of the psi states,
so that the second stage uniformizes across the probability-greater-0 phi-states, seeds them
with the indicator of the psi states and propagates over `[0, t]` without add-vector; every
other state gets 0. -/
def pointIntervalBySpecification (env : Environment) (rateMatrix backwardTransitions : SparseMatrix)
    (phiStates psiStates : BitVector) (exitRates : List ℚ) (t : ℚ) : Except Error (List ℚ) :=
  let numberOfStates := SparseMatrix.getRowCount rateMatrix
  let statesWithProbabilityGreater0 :=
    performProbGreater0 backwardTransitions phiStates psiStates
  if !BitVector.empty statesWithProbabilityGreater0 then
    let relevantStates := BitVector.and statesWithProbabilityGreater0 phiStates
    let newSubresult := setVectorValue
      (List.replicate (BitVector.getNumberOfSetBits relevantStates) 0)
      (BitVector.restrict psiStates relevantStates) 1
    match propagateOver env rateMatrix relevantStates exitRates t newSubresult with
    | Except.error e => Except.error e
    | Except.ok newSubresult =>
      Except.ok (setVectorValues
        (setVectorValue (List.replicate numberOfStates 0)
          (BitVector.complement relevantStates) 0)
        relevantStates newSubresult)
  else
    Except.ok (List.replicate numberOfStates 0)

/-! ## Example inputs -/

/-- The chain with rate 2 from state 0 to state 1 and rate 1 from state 0 to state 2; the states
1 and 2 are absorbing. -/
def exampleRateMatrix : SparseMatrix := ⟨3, [[(1, 2), (2, 1)], [], []]⟩

/-- The transpose of `exampleRateMatrix`. -/
def exampleBackwardTransitions : SparseMatrix := ⟨3, [[], [(0, 2)], [(0, 1)]]⟩

/-- The exit rates of `exampleRateMatrix`. -/
def exampleExitRates : List ℚ := [3, 0, 0]

/-- An environment whose Fox-Glynn stage returns the Poisson masses of the indices 0, 1 and 2
for the rate 1.02, scaled by `exp 1.02`, and whose DTMC helper returns the until-probabilities of
`exampleRateMatrix` for the target state 1. -/
def exampleEnvironment : Environment where
  precision := 1 / 1000000
  foxGlynn := fun _ _ => ⟨0, 2, 2.5402, [1, 1.02, 0.5202]⟩
  dtmcComputeUntilProbabilities := fun _ _ _ _ _ _ => Except.ok [2 / 3, 1, 0]

/-- The chain with rate 1 from state 0 to the absorbing state 1. -/
def twoStateRateMatrix : SparseMatrix := ⟨2, [[(1, 1)], []]⟩

/-- The transpose of `twoStateRateMatrix`. -/
def twoStateBackwardTransitions : SparseMatrix := ⟨2, [[], [(0, 1)]]⟩

/-- The set `M` of the specification: the states with positive probability that are not psi
states, the variable `statesWithProbabilityGreater0NonPsi` of the source. -/
abbrev maybeStatesOf (backwardTransitions : SparseMatrix) (phiStates psiStates : BitVector) :
    BitVector :=
  BitVector.and (performProbGreater0 backwardTransitions phiStates psiStates)
    (BitVector.complement psiStates)

/-- The set `Rel` of the specification: the phi states with positive probability, the variable
`relevantStates` of the source. -/
abbrev relevantStatesOf (backwardTransitions : SparseMatrix) (phiStates psiStates : BitVector) :
    BitVector :=
  BitVector.and (performProbGreater0 backwardTransitions phiStates psiStates) phiStates

/-- The number `q` is `1.02` times the maximum of the exit rates of the states `states`: the
maximum is taken at one of the states. -/
def IsInflatedMaximalExitRate (states : BitVector) (exitRates : List ℚ) (q : ℚ) : Prop :=
  ∃ m ∈ BitVector.setBits states, q = 1.02 * exitRates.getD m 0
    ∧ ∀ s ∈ BitVector.setBits states, exitRates.getD s 0 ≤ exitRates.getD m 0

/-- The computation of the specification for the interval `[0, t]` over the states `M`
(section 4.4, case 4): with `q` the rate over `M`, the plain output of the Transient Iterator
for the matrix uniformized across `M`, the add-vector
`b[s] = (sum of the rates from s into the psi states) / q`, the zero initial vector and the time
bound `t`. -/
def maybeStateValuesBySpecification (env : Environment) (rateMatrix : SparseMatrix)
    (M psiStates : BitVector) (exitRates : List ℚ) (t : ℚ) : List ℚ :=
  computeTransientProbabilities env false
    (computeUniformizedMatrix rateMatrix M (uniformizationRateOf M exitRates) exitRates)
    (some ((BitVector.setBits M).map (fun m =>
      entrySum ((SparseMatrix.getRow rateMatrix m).filter
        (fun e => BitVector.get psiStates e.1)) / uniformizationRateOf M exitRates)))
    t (uniformizationRateOf M exitRates)
    (List.replicate (BitVector.getNumberOfSetBits M) 0)

/-- The seed of the second stage of the interval `[t, t']` in the words of the specification
(section 4.4, case 5): one entry per state of `Rel`, in ascending order, that is the value of
the first stage on the states of `M`, 1 on the psi states and 0 elsewhere. -/
def secondStageSeedBySpecification (M Rel psiStates : BitVector) (firstStage : List ℚ) :
    List ℚ :=
  (BitVector.setBits Rel).map (fun r =>
    if BitVector.get M r then firstStage.getD (BitVector.rank M r) 0
    else if BitVector.get psiStates r then 1 else 0)

/-! ## Reward model, transposition and absorbing rows -/

/-- Modelled from the spec: `SparseMatrix::transpose()` is not among the sources ("transpose"):
row `j` of the result holds, in ascending order of `i`, the entries of column `j` of the rows
`i`. -/
def SparseMatrix.transpose (m : SparseMatrix) : SparseMatrix :=
  ⟨SparseMatrix.getRowCount m,
    (List.range m.columnCount).map (fun j =>
      (List.range (SparseMatrix.getRowCount m)).flatMap (fun i =>
        ((SparseMatrix.getRow m i).filter (fun e => e.1 == j)).map (fun e => (i, e.2))))⟩

/-- Modelled from the spec: `SparseMatrix::makeRowsAbsorbing(rows)` is not among the sources
("make psi-states absorbing"): every selected row becomes the row with the single entry 1 on
the diagonal. -/
def SparseMatrix.makeRowsAbsorbing (m : SparseMatrix) (rows : BitVector) : SparseMatrix :=
  ⟨m.columnCount, m.rows.mapIdx (fun i row => if BitVector.get rows i then [(i, 1)] else row)⟩

/-- Modelled from the spec: `storm::models::sparse::StandardRewardModel` is not among the
sources (section 3, "Reward model: external read-only structure exposing optional state
rewards, state-action rewards, and transition rewards; this engine only reads aggregate
accessors"). The aggregate accessor `getTotalRewardVector(transitionMatrix, weights)` is kept
as a function of its two arguments. -/
structure RewardModel where
  optionalStateRewardVector : Option (List ℚ)
  optionalStateActionRewardVector : Option (List ℚ)
  optionalTransitionRewardMatrix : Option SparseMatrix
  getTotalRewardVector : SparseMatrix → List ℚ → List ℚ

/-- Modelled from the spec: `StandardRewardModel::hasStateRewards`. -/
def RewardModel.hasStateRewards (rewardModel : RewardModel) : Bool :=
  rewardModel.optionalStateRewardVector.isSome

/-- Modelled from the spec: `StandardRewardModel::hasStateActionRewards`. -/
def RewardModel.hasStateActionRewards (rewardModel : RewardModel) : Bool :=
  rewardModel.optionalStateActionRewardVector.isSome

/-- Modelled from the spec: `StandardRewardModel::hasTransitionRewards`. -/
def RewardModel.hasTransitionRewards (rewardModel : RewardModel) : Bool :=
  rewardModel.optionalTransitionRewardMatrix.isSome

/-- Modelled from the spec: `StandardRewardModel::empty`, "no state, state-action or transition
rewards". -/
def RewardModel.empty (rewardModel : RewardModel) : Bool :=
  !(RewardModel.hasStateRewards rewardModel || RewardModel.hasStateActionRewards rewardModel
    || RewardModel.hasTransitionRewards rewardModel)

/-- Modelled from the spec: `StandardRewardModel::getStateRewardVector`; a model without state
rewards has no such vector, the empty vector stands in. -/
def RewardModel.getStateRewardVector (rewardModel : RewardModel) : List ℚ :=
  rewardModel.optionalStateRewardVector.getD []

/-! ## Reward and transient entry points -/

/-- The function `SparseCtmcCslHelper::computeInstantaneousRewards` for a numeric domain with
exponential support. The loop over `exitRateVector` visits every entry of the vector. -/
def computeInstantaneousRewards (env : Environment) (_goal : SolveGoal)
    (rateMatrix : SparseMatrix) (exitRateVector : List ℚ) (rewardModel : RewardModel)
    (timeBound : ℚ) : Except Error (List ℚ) :=
  if RewardModel.empty rewardModel then
    Except.error Error.invalidProperty
  else
    let numberOfStates := SparseMatrix.getRowCount rateMatrix
    let result := RewardModel.getStateRewardVector rewardModel
    if timeBound > 0 then
      let uniformizationRate := exitRateVector.foldl
        (fun uniformizationRate rate => max uniformizationRate rate) 0 * 1.02
      if uniformizationRate > 0 then
        let uniformizedMatrix := computeUniformizedMatrix rateMatrix
          (BitVector.const numberOfStates true) uniformizationRate exitRateVector
        Except.ok (computeTransientProbabilities env false uniformizedMatrix none timeBound
          uniformizationRate result)
      else
        Except.error Error.invalidState
    else
      Except.ok result

/-- The function `SparseCtmcCslHelper::computeCumulativeRewards` for a numeric domain with
exponential support. -/
def computeCumulativeRewards (env : Environment) (_goal : SolveGoal)
    (rateMatrix : SparseMatrix) (exitRateVector : List ℚ) (rewardModel : RewardModel)
    (timeBound : ℚ) : Except Error (List ℚ) :=
  if RewardModel.empty rewardModel then
    Except.error Error.invalidProperty
  else
    let numberOfStates := SparseMatrix.getRowCount rateMatrix
    if timeBound = 0 then
      Except.ok (List.replicate numberOfStates 0)
    else
      let uniformizationRate := exitRateVector.foldl
        (fun uniformizationRate rate => max uniformizationRate rate) 0 * 1.02
      if uniformizationRate > 0 then
        let uniformizedMatrix := computeUniformizedMatrix rateMatrix
          (BitVector.const numberOfStates true) uniformizationRate exitRateVector
        let totalRewardVector := rewardModel.getTotalRewardVector rateMatrix exitRateVector
        Except.ok (computeTransientProbabilities env true uniformizedMatrix none timeBound
          uniformizationRate totalRewardVector)
      else
        Except.error Error.invalidState

/-- The exit rates `newRates` of `computeAllTransientProbabilities`: the given ones with 1 on
the psi states. -/
def absorbingExitRates (exitRates : List ℚ) (psiStates : BitVector) : List ℚ :=
  setVectorValue exitRates psiStates 1

/-- The function `SparseCtmcCslHelper::computeAllTransientProbabilities` for a numeric domain
with exponential support. The argument `phiStates` is not read by the source. -/
def computeAllTransientProbabilities (env : Environment) (rateMatrix : SparseMatrix)
    (initialStates _phiStates psiStates : BitVector) (exitRates : List ℚ) (timeBound : ℚ) :
    Except Error (List ℚ) :=
  let numberOfStates := SparseMatrix.getRowCount rateMatrix
  let result := List.replicate numberOfStates (0 : ℚ)
  let transposedMatrix := SparseMatrix.makeRowsAbsorbing rateMatrix psiStates
  let newRates := absorbingExitRates exitRates psiStates
  let relevantStates := BitVector.const numberOfStates true
  if !BitVector.empty relevantStates then
    let uniformizationRate := uniformizationRateOf relevantStates newRates
    if uniformizationRate > 0 then
      let transposedMatrix := SparseMatrix.transpose transposedMatrix
      let uniformizedMatrix :=
        computeUniformizedMatrix transposedMatrix relevantStates uniformizationRate newRates
      let initDist : ℚ := 1 / (BitVector.getNumberOfSetBits initialStates : ℚ)
      let values := (BitVector.setBits relevantStates).map (fun state =>
        if BitVector.get initialStates state then initDist else 0)
      let subresult := computeTransientProbabilities env false uniformizedMatrix none timeBound
        uniformizationRate values
      Except.ok (setVectorValues result relevantStates subresult)
    else
      Except.error Error.invalidState
  else
    Except.ok result

/-- The contract of the specification for an entry point that uniformizes (sections 5 and 7):
the rate `q` is `1.02 * max(0, max of the relevant exit rates)`, the entry point fails with
invalid-state exactly when no relevant exit rate is positive, and when it does not fail it
returns what it computes with `q`, which is positive and at least every relevant exit rate. -/
def UniformizationContract (relevantRates : List ℚ) (q : ℚ) (compute : ℚ → List ℚ)
    (outcome : Except Error (List ℚ)) : Prop :=
  (0 ≤ q ∧ (∀ x ∈ relevantRates, 1.02 * x ≤ q) ∧ (q = 0 ∨ ∃ x ∈ relevantRates, q = 1.02 * x))
  ∧ (outcome = Except.error Error.invalidState ↔ ∀ x ∈ relevantRates, ¬ 0 < x)
  ∧ (outcome ≠ Except.error Error.invalidState →
      outcome = Except.ok (compute q) ∧ 0 < q ∧ ∀ x ∈ relevantRates, x ≤ q)

/-! ## Long-run averages: collaborators -/

/-- Modelled from the spec: `storm::storage::StronglyConnectedComponent` is not among the
sources; a block of states, iterated in ascending order. -/
abbrev StronglyConnectedComponent := List Nat

/-- Modelled from the spec: the collaborators of the long-run-average engine that are not among
the sources (section 6): the decomposition into bottom strongly connected components
(`StronglyConnectedComponentDecomposition` with `onlyBottomSccs`), and the linear equation
solver factory (`GeneralLinearEquationSolverFactory`): whether its problem format is
`EquationSystem`, whether the solver created for a matrix with the given bounds reports an
enabled critical requirement, and the vector that `solveEquations` leaves in `x` for a matrix,
the bounds, the initial `x` and the right-hand side `b`. -/
structure LongRunEnvironment where
  bsccDecomposition : SparseMatrix → List StronglyConnectedComponent
  isEquationSystemFormat : Bool
  hasEnabledCriticalRequirement : SparseMatrix → ℚ → ℚ → Bool
  solveEquations : SparseMatrix → ℚ → ℚ → List ℚ → List ℚ → List ℚ

/-- Modelled from the spec: `storm::utility::vector::max_if(values, filter)` is not among the
sources; the maximum of the values at the set positions, started at the first of them. -/
def max_if (values : List ℚ) (filter : BitVector) : ℚ :=
  match BitVector.setBits filter with
  | [] => 0
  | first :: rest =>
    rest.foldl (fun current index => max (values.getD index 0) current) (values.getD first 0)

/-- Modelled from the spec: `SparseMatrix::convertToEquationSystem()` is not among the sources;
it turns `A` into `I - A`: the diagonal entry `a` of a row becomes `1 - a` and every other
entry is negated. -/
def SparseMatrix.convertToEquationSystem (m : SparseMatrix) : SparseMatrix :=
  ⟨m.columnCount, m.rows.mapIdx (fun row entries =>
    entries.map (fun e => if e.1 = row then (e.1, 1 - e.2) else (e.1, -e.2)))⟩

/-- The bit vector over `size` states with the states of a block set, the loops
`for (auto const& state : bscc) bsccStates.set(state)` of the source. -/
def bsccStatesOf (size : Nat) (bscc : StronglyConnectedComponent) : BitVector :=
  (List.range size).map (fun s => bscc.contains s)

/-! ## Long-run averages: value iteration -/

/-- The uniformization rate of `computeLongRunAveragesForBsccVi`: one, or the maximal exit rate
over the block when exit rates are given, and then `uniformizationRate += 1`. -/
def viUniformizationRate (bsccStates : BitVector) (exitRateVector : Option (List ℚ)) : ℚ :=
  (match exitRateVector with
    | some exitRates => max_if exitRates bsccStates
    | none => 1) + 1

/-- The body of the loop "Uniformize the transitions" of `computeLongRunAveragesForBsccVi` for
one entry of row `subState`, which belongs to state `state`. -/
def viUniformizeEntry (uniformizationRate : ℚ) (exitRateVector : Option (List ℚ))
    (subState state : Nat) (entry : Nat × ℚ) : Nat × ℚ :=
  if entry.1 = subState then
    match exitRateVector with
    | some exitRates => (entry.1, 1 + (entry.2 - exitRates.getD state 0) / uniformizationRate)
    | none => (entry.1, 1 + (entry.2 - 1) / uniformizationRate)
  else
    (entry.1, entry.2 / uniformizationRate)

/-- The uniformized matrix `bsccMatrix` of `computeLongRunAveragesForBsccVi`: the submatrix of
the block with diagonal entries, uniformized entry by entry. -/
def viBsccMatrix (rateMatrix : SparseMatrix) (bsccStates : BitVector)
    (uniformizationRate : ℚ) (exitRateVector : Option (List ℚ)) : SparseMatrix where
  columnCount := (SparseMatrix.getSubmatrix rateMatrix bsccStates bsccStates true).columnCount
  rows := (List.range (BitVector.setBits bsccStates).length).map (fun subState =>
    (SparseMatrix.getRow (SparseMatrix.getSubmatrix rateMatrix bsccStates bsccStates true)
        subState).map
      (viUniformizeEntry uniformizationRate exitRateVector subState
        ((BitVector.setBits bsccStates).getD subState 0)))

/-- The value `markovianRewards[row] + bsccMatrix.multiplyRowWithVector(row, w)` of one row. -/
def viNewValue (bsccMatrix : SparseMatrix) (markovianRewards w : List ℚ) (row : Nat) : ℚ :=
  markovianRewards.getD row 0 + multiplyRow (SparseMatrix.getRow bsccMatrix row) w

/-- The result of one pass over the rows in the loop of `computeLongRunAveragesForBsccVi`. -/
structure ViRound where
  v : List ℚ
  maxDiff : ℚ
  minDiff : ℚ

/-- One pass over the rows: row 0 initialises `maxDiff` and `minDiff`, every further row
updates them, and every row overwrites its entry of `v`; the vector `w` is read only. -/
def viRound (bsccMatrix : SparseMatrix) (markovianRewards v w : List ℚ) : ViRound :=
  let firstDiff := viNewValue bsccMatrix markovianRewards w 0 - v.getD 0 0
  let rest := List.range' 1 (SparseMatrix.getRowCount bsccMatrix - 1)
  { v := (List.range (SparseMatrix.getRowCount bsccMatrix)).map
      (viNewValue bsccMatrix markovianRewards w)
    maxDiff := rest.foldl (fun maxDiff row =>
      max maxDiff (viNewValue bsccMatrix markovianRewards w row - v.getD row 0)) firstDiff
    minDiff := rest.foldl (fun minDiff row =>
      min minDiff (viNewValue bsccMatrix markovianRewards w row - v.getD row 0)) firstDiff }

/-- The loop `while (true)` of `computeLongRunAveragesForBsccVi`, run for at most `fuel`
rounds: `none` when the convergence test has failed in every one of them, and otherwise the
number of the round in which the loop was left together with the vector `v`. The argument
`rounds` counts the rounds already run. -/
def valueIteration (bsccMatrix : SparseMatrix) (markovianRewards : List ℚ) (precision : ℚ)
    (relative : Bool) : Nat → Nat → List ℚ → List ℚ → Option (Nat × List ℚ)
  | 0, _, _, _ => none
  | fuel + 1, rounds, v, w =>
    let round := viRound bsccMatrix markovianRewards v w
    if round.maxDiff - round.minDiff
        ≤ (if relative then precision * (round.v.headD 0 + round.minDiff) else precision) then
      some (rounds + 1, round.v)
    else
      let referenceValue := round.v.headD 0
      valueIteration bsccMatrix markovianRewards precision relative fuel (rounds + 1) round.v
        (round.v.map (fun v_i => v_i - referenceValue))

/-- Ghost record of the computation for one block: the uniformized matrix that was built, if
any, and the number of rounds of the iteration that were run. -/
structure BsccTrace where
  bsccMatrix : Option SparseMatrix
  rounds : Nat

/-- The function `SparseCtmcCslHelper::computeLongRunAveragesForBsccVi` for a numeric domain
that is not parametric, with its ghost record; the loop runs for at most `fuel` rounds and the
value is `none` when it has not been left by then. The argument `backwardTransitions` is not
read by the source. -/
def computeLongRunAveragesForBsccViTraced (fuel : Nat) (bscc : StronglyConnectedComponent)
    (rateMatrix _backwardTransitions : SparseMatrix) (valueGetter : Nat → ℚ)
    (exitRateVector : Option (List ℚ)) : BsccTrace × Option ℚ :=
  let bsccStates := bsccStatesOf (SparseMatrix.getRowCount rateMatrix) bscc
  let uniformizationRate := viUniformizationRate bsccStates exitRateVector
  let bsccMatrix := viBsccMatrix rateMatrix bsccStates uniformizationRate exitRateVector
  let markovianRewards := (BitVector.setBits bsccStates).map (fun state =>
    valueGetter state * (1 / uniformizationRate))
  let precision : ℚ := (1 / 1000000) / uniformizationRate
  let relative := true
  let v := List.replicate (SparseMatrix.getRowCount bsccMatrix) (0 : ℚ)
  match valueIteration bsccMatrix markovianRewards precision relative fuel 0 v v with
  | none => (⟨some bsccMatrix, fuel⟩, none)
  | some (rounds, v) => (⟨some bsccMatrix, rounds⟩, some (v.headD 0 * uniformizationRate))

/-- The value of `SparseCtmcCslHelper::computeLongRunAveragesForBsccVi`. -/
def computeLongRunAveragesForBsccVi (fuel : Nat) (bscc : StronglyConnectedComponent)
    (rateMatrix backwardTransitions : SparseMatrix) (valueGetter : Nat → ℚ)
    (exitRateVector : Option (List ℚ)) : Option ℚ :=
  (computeLongRunAveragesForBsccViTraced fuel bscc rateMatrix backwardTransitions valueGetter
    exitRateVector).2

/-- Ghost record of `computeLongRunAveragesForBscc`: the submatrix `subm` of the block, which
the function extracts with `getSubmatrix(false, bsccStates, bsccStates)` before the size test
(line 559) and prints, and the record of the value iteration, which holds no uniformized matrix
and 0 rounds when the iteration is not called. -/
structure BsccDispatchTrace where
  subm : SparseMatrix
  iteration : BsccTrace

/-- The function `SparseCtmcCslHelper::computeLongRunAveragesForBscc` with its ghost record.
The statements that write to `std::cout` produce console output only (section 9, "Debug/trace
printing interleaved with computation") and are not part of the value; the submatrix `subm`
that lines 556-559 build for them is recorded. The second `return` of the source, which hands
the block to `computeLongRunAveragesForBsccEqSys`, is never reached. -/
def computeLongRunAveragesForBsccTraced (fuel : Nat) (bscc : StronglyConnectedComponent)
    (rateMatrix backwardTransitions : SparseMatrix) (valueGetter : Nat → ℚ)
    (exitRateVector : Option (List ℚ)) : BsccDispatchTrace × Option ℚ :=
  let bsccStates := bsccStatesOf (SparseMatrix.getRowCount rateMatrix) bscc
  let subm := SparseMatrix.getSubmatrix rateMatrix bsccStates bsccStates false
  if bscc.length = 1 then
    (⟨subm, ⟨none, 0⟩⟩, some (valueGetter (bscc.headD 0)))
  else
    let iteration := computeLongRunAveragesForBsccViTraced fuel bscc rateMatrix
      backwardTransitions valueGetter exitRateVector
    (⟨subm, iteration.1⟩, iteration.2)

/-- The value of `SparseCtmcCslHelper::computeLongRunAveragesForBscc`. -/
def computeLongRunAveragesForBscc (fuel : Nat) (bscc : StronglyConnectedComponent)
    (rateMatrix backwardTransitions : SparseMatrix) (valueGetter : Nat → ℚ)
    (exitRateVector : Option (List ℚ)) : Option ℚ :=
  (computeLongRunAveragesForBsccTraced fuel bscc rateMatrix backwardTransitions valueGetter
    exitRateVector).2

/-! ## Long-run averages: the stationary-distribution variant -/

/-- Ghost record of the use of the linear equation solver: the matrices for which a solver was
created, and the arguments (matrix, initial `x`, right-hand side `b`) of every call of
`solveEquations`, in call order. -/
structure SolverTrace where
  created : List SparseMatrix
  solved : List (SparseMatrix × List ℚ × List ℚ)

/-- The map `toLocalIndexMap` of `computeLongRunAveragesForBsccEqSys`: the position of a state
within the block, if it belongs to the block. -/
def toLocalIndex (bscc : StronglyConnectedComponent) (globalIndex : Nat) : Option Nat :=
  if bscc.indexOf globalIndex < bscc.length then some (bscc.indexOf globalIndex) else none

/-- The inner loop of `computeLongRunAveragesForBsccEqSys` over the backward transitions of one
state: the entries added to row `row` of the builder, with the flag `insertedDiagonal` and the
final `if (!insertedDiagonal)`. -/
def eqSysRow (bscc : StronglyConnectedComponent) (isEquationSystemFormat : Bool) (row : Nat)
    (diagonalValue : ℚ) : Bool → List (Nat × ℚ) → List (Nat × ℚ)
  | insertedDiagonal, [] => if !insertedDiagonal then [(row, diagonalValue)] else []
  | insertedDiagonal, backwardsEntry :: rest =>
    match toLocalIndex bscc backwardsEntry.1 with
    | none => eqSysRow bscc isEquationSystemFormat row diagonalValue insertedDiagonal rest
    | some localIndex =>
      let val := if !isEquationSystemFormat then -backwardsEntry.2 else backwardsEntry.2
      if !insertedDiagonal && localIndex == row then
        (row, val + diagonalValue)
          :: eqSysRow bscc isEquationSystemFormat row diagonalValue true rest
      else if !insertedDiagonal && decide (localIndex > row) then
        (row, diagonalValue) :: (localIndex, val)
          :: eqSysRow bscc isEquationSystemFormat row diagonalValue true rest
      else
        (localIndex, val)
          :: eqSysRow bscc isEquationSystemFormat row diagonalValue insertedDiagonal rest

/-- The matrix that `computeLongRunAveragesForBsccEqSys` builds: the first row asserts that the
values sum up to one, every further row belongs to one state of the block but the first. -/
def eqSysMatrix (isEquationSystemFormat : Bool) (bscc : StronglyConnectedComponent)
    (backwardTransitions : SparseMatrix) (exitRateVector : Option (List ℚ)) : SparseMatrix :=
  let firstRow : List (Nat × ℚ) :=
    if isEquationSystemFormat then (List.range bscc.length).map (fun state => (state, 1))
    else (List.range' 1 (bscc.length - 1)).map (fun state => (state, -1))
  let otherRows := (List.range' 1 (bscc.length - 1)).map (fun row =>
    let state := bscc.getD row 0
    let diagonalValue : ℚ := match exitRateVector with
      | none => -1
      | some exitRates => -(exitRates.getD state 0)
    let diagonalValue := if !isEquationSystemFormat then 1 - diagonalValue else diagonalValue
    eqSysRow bscc isEquationSystemFormat row diagonalValue (decide (diagonalValue = 0))
      (SparseMatrix.getRow backwardTransitions state))
  ⟨bscc.length, firstRow :: otherRows⟩

/-- The function `SparseCtmcCslHelper::computeLongRunAveragesForBsccEqSys` with the ghost
record of its use of the solver. The block guarded by `if (false && ...)` is dead. -/
def computeLongRunAveragesForBsccEqSysTraced (env : LongRunEnvironment)
    (bscc : StronglyConnectedComponent) (_rateMatrix backwardTransitions : SparseMatrix)
    (valueGetter : Nat → ℚ) (exitRateVector : Option (List ℚ)) :
    SolverTrace × Except Error ℚ :=
  let matrix := eqSysMatrix env.isEquationSystemFormat bscc backwardTransitions exitRateVector
  if env.hasEnabledCriticalRequirement matrix 0 1 then
    (⟨[matrix], []⟩, Except.error Error.uncheckedRequirement)
  else
    let bsccEquationSystemRightSide : List ℚ := (List.replicate bscc.length (0 : ℚ)).set 0 1
    let bsccEquationSystemSolution : List ℚ :=
      List.replicate bscc.length (1 / (bscc.length : ℚ))
    let solution := env.solveEquations matrix 0 1 bsccEquationSystemSolution
      bsccEquationSystemRightSide
    (⟨[matrix], [(matrix, bsccEquationSystemSolution, bsccEquationSystemRightSide)]⟩,
      Except.ok (((List.range bscc.length).map (fun i =>
        valueGetter (bscc.getD i 0) * solution.getD i 0)).sum))

/-! ## Long-run averages: the engine -/

/-- The loop of `computeLongRunAverages` over the blocks that fills `bsccLra`: the values of the
blocks in order, and `none` as soon as the computation for one block does not return. -/
def computeBsccLra (computeForBscc : StronglyConnectedComponent → Option ℚ) :
    List StronglyConnectedComponent → Option (List ℚ)
  | [] => some []
  | bscc :: rest =>
    match computeForBscc bscc with
    | none => none
    | some value =>
      match computeBsccLra computeForBscc rest with
      | none => none
      | some values => some (value :: values)

/-- The bit vector `statesInBsccs` of `computeLongRunAverages`. -/
def statesInBsccsOf (numberOfStates : Nat) (bsccDecomposition : List StronglyConnectedComponent) :
    BitVector :=
  (List.range numberOfStates).map (fun s => bsccDecomposition.any (fun bscc => bscc.contains s))

/-- The entry `stateToBsccMap[state]` of `computeLongRunAverages`: the index of the last block
that holds the state, and the initial value `-1` of the unsigned entry when there is none. -/
def stateToBsccMap (bsccDecomposition : List StronglyConnectedComponent) (state : Nat) : Nat :=
  (List.range bsccDecomposition.length).foldl (fun current bsccIndex =>
    if (bsccDecomposition.getD bsccIndex []).contains state then bsccIndex else current)
    (2 ^ 64 - 1)

/-- The vector `rewardRightSide` of `computeLongRunAverages`: one entry per state outside the
blocks, in ascending order, accumulated over the entries of the row of the state. -/
def rewardRightSideOf (rateMatrix : SparseMatrix)
    (bsccDecomposition : List StronglyConnectedComponent) (bsccLra : List ℚ)
    (exitRateVector : Option (List ℚ)) : List ℚ :=
  let statesInBsccs := statesInBsccsOf (SparseMatrix.getRowCount rateMatrix) bsccDecomposition
  (BitVector.setBits (BitVector.complement statesInBsccs)).map (fun state =>
    (SparseMatrix.getRow rateMatrix state).foldl (fun reward entry =>
      if BitVector.get statesInBsccs entry.1 then
        match exitRateVector with
        | some exitRates =>
          reward + (entry.2 / exitRates.getD state 0)
            * bsccLra.getD (stateToBsccMap bsccDecomposition entry.1) 0
        | none => reward + entry.2 * bsccLra.getD (stateToBsccMap bsccDecomposition entry.1) 0
      else reward) 0)

/-- The matrix `rewardEquationSystemMatrix` of `computeLongRunAverages`: the submatrix of the
states outside the blocks, every row divided by the exit rate of its state when exit rates are
given, and converted to an equation system in that problem format. -/
def rewardEquationSystemMatrixOf (isEqSysFormat : Bool) (rateMatrix : SparseMatrix)
    (statesNotInBsccs : BitVector) (exitRateVector : Option (List ℚ)) : SparseMatrix :=
  let submatrix :=
    SparseMatrix.getSubmatrix rateMatrix statesNotInBsccs statesNotInBsccs isEqSysFormat
  let scaled : SparseMatrix := match exitRateVector with
    | some exitRates =>
      ⟨submatrix.columnCount, submatrix.rows.mapIdx (fun localRow entries =>
        entries.map (fun entry =>
          (entry.1,
            entry.2 / exitRates.getD ((BitVector.setBits statesNotInBsccs).getD localRow 0) 0)))⟩
    | none => submatrix
  if isEqSysFormat then SparseMatrix.convertToEquationSystem scaled else scaled

/-- The loop of `computeLongRunAverages` that writes the value of every block to its states. -/
def fillBsccValues (result : List ℚ) (bsccDecomposition : List StronglyConnectedComponent)
    (bsccLra : List ℚ) : List ℚ :=
  (List.range bsccDecomposition.length).foldl (fun result bsccIndex =>
    (bsccDecomposition.getD bsccIndex []).foldl (fun result state =>
      result.set state (bsccLra.getD bsccIndex 0)) result) result

/-- The value `maxValue` of `computeLongRunAverages` after its loop over the blocks: the first
value initialises it and every further value updates it. -/
def maxValueOf (bsccLra : List ℚ) : ℚ :=
  bsccLra.tail.foldl (fun maxValue value => max value maxValue) (bsccLra.headD 0)

/-- The value `minValue` of `computeLongRunAverages` after its loop over the blocks. -/
def minValueOf (bsccLra : List ℚ) : ℚ :=
  bsccLra.tail.foldl (fun minValue value => min value minValue) (bsccLra.headD 0)

/-- Ghost record of a run of the long-run-average engine: the matrices that were decomposed
into blocks, and the use of the linear equation solver. -/
structure LongRunTrace where
  decomposed : List SparseMatrix
  solver : SolverTrace

/-- The function `SparseCtmcCslHelper::computeLongRunAverages` with its ghost record; the
iteration of every block runs for at most `fuel` rounds and the value is `none` when one of them
has not been left by then. The matrix `probabilityMatrix` of the source is not read after it has
been built. Without blocks `maxValue` and `minValue` are not initialised in the source; zero
stands in. -/
def computeLongRunAveragesTraced (env : LongRunEnvironment) (fuel : Nat) (_goal : SolveGoal)
    (rateMatrix : SparseMatrix) (valueGetter : Nat → ℚ) (exitRateVector : Option (List ℚ)) :
    LongRunTrace × Option (Except Error (List ℚ)) :=
  let numberOfStates := SparseMatrix.getRowCount rateMatrix
  let bsccDecomposition := env.bsccDecomposition rateMatrix
  let backwardTransitions := SparseMatrix.transpose rateMatrix
  match computeBsccLra (fun bscc => computeLongRunAveragesForBscc fuel bscc rateMatrix
      backwardTransitions valueGetter exitRateVector) bsccDecomposition with
  | none => (⟨[rateMatrix], ⟨[], []⟩⟩, none)
  | some bsccLra =>
    let maxValue := maxValueOf bsccLra
    let minValue := minValueOf bsccLra
    let statesInBsccs := statesInBsccsOf numberOfStates bsccDecomposition
    let statesNotInBsccs := BitVector.complement statesInBsccs
    let result := fillBsccValues (List.replicate numberOfStates 0) bsccDecomposition bsccLra
    if !BitVector.empty statesNotInBsccs then
      let rewardRightSide :=
        rewardRightSideOf rateMatrix bsccDecomposition bsccLra exitRateVector
      let rewardEquationSystemMatrix := rewardEquationSystemMatrixOf
        env.isEquationSystemFormat rateMatrix statesNotInBsccs exitRateVector
      let rewardSolution := List.replicate rewardEquationSystemMatrix.columnCount
        ((maxValue + minValue) / 2)
      if env.hasEnabledCriticalRequirement rewardEquationSystemMatrix minValue maxValue then
        (⟨[rateMatrix], ⟨[rewardEquationSystemMatrix], []⟩⟩,
          some (Except.error Error.uncheckedRequirement))
      else
        let solution := env.solveEquations rewardEquationSystemMatrix minValue maxValue
          rewardSolution rewardRightSide
        (⟨[rateMatrix], ⟨[rewardEquationSystemMatrix],
            [(rewardEquationSystemMatrix, rewardSolution, rewardRightSide)]⟩⟩,
          some (Except.ok (setVectorValues result statesNotInBsccs solution)))
    else
      (⟨[rateMatrix], ⟨[], []⟩⟩, some (Except.ok result))

/-- The result of `SparseCtmcCslHelper::computeLongRunAverages`. -/
def computeLongRunAverages (env : LongRunEnvironment) (fuel : Nat) (goal : SolveGoal)
    (rateMatrix : SparseMatrix) (valueGetter : Nat → ℚ) (exitRateVector : Option (List ℚ)) :
    Option (Except Error (List ℚ)) :=
  (computeLongRunAveragesTraced env fuel goal rateMatrix valueGetter exitRateVector).2

/-- The function `SparseCtmcCslHelper::computeLongRunAverageProbabilities` with its ghost
record. -/
def computeLongRunAverageProbabilitiesTraced (env : LongRunEnvironment) (fuel : Nat)
    (goal : SolveGoal) (rateMatrix : SparseMatrix) (psiStates : BitVector)
    (exitRateVector : Option (List ℚ)) : LongRunTrace × Option (Except Error (List ℚ)) :=
  let numberOfStates := SparseMatrix.getRowCount rateMatrix
  if BitVector.empty psiStates then
    (⟨[], ⟨[], []⟩⟩, some (Except.ok (List.replicate numberOfStates 0)))
  else if BitVector.full psiStates then
    (⟨[], ⟨[], []⟩⟩, some (Except.ok (List.replicate numberOfStates 1)))
  else
    computeLongRunAveragesTraced env fuel goal rateMatrix
      (fun state => if BitVector.get psiStates state then 1 else 0) exitRateVector

/-- The result of `SparseCtmcCslHelper::computeLongRunAverageProbabilities`. -/
def computeLongRunAverageProbabilities (env : LongRunEnvironment) (fuel : Nat)
    (goal : SolveGoal) (rateMatrix : SparseMatrix) (psiStates : BitVector)
    (exitRateVector : Option (List ℚ)) : Option (Except Error (List ℚ)) :=
  (computeLongRunAverageProbabilitiesTraced env fuel goal rateMatrix psiStates
    exitRateVector).2

/-- Modelled from the spec: `SparseMatrix::getPointwiseProductRowSum(otherMatrix, row)` is not
among the sources ("row-wise pointwise product and row-sum"): the sum over the entries of the
row of the products with the values of the other matrix at the same positions. -/
def SparseMatrix.getPointwiseProductRowSum (m otherMatrix : SparseMatrix) (row : Nat) : ℚ :=
  ((SparseMatrix.getRow m row).map (fun e => e.2 * SparseMatrix.value otherMatrix row e.1)).sum

/-- The value function that `computeLongRunAverageRewards` builds from a reward model. -/
def rewardValueGetter (rateMatrix : SparseMatrix) (rewardModel : RewardModel)
    (exitRateVector : Option (List ℚ)) (state : Nat) : ℚ :=
  let result : ℚ := match rewardModel.optionalStateRewardVector with
    | some stateRewards => stateRewards.getD state 0
    | none => 0
  let result := match rewardModel.optionalStateActionRewardVector with
    | some stateActionRewards =>
      (match exitRateVector with
        | some exitRates => result + stateActionRewards.getD state 0 * exitRates.getD state 0
        | none => result + stateActionRewards.getD state 0)
    | none => result
  match rewardModel.optionalTransitionRewardMatrix with
  | some transitionRewards =>
    result + SparseMatrix.getPointwiseProductRowSum rateMatrix transitionRewards state
  | none => result

/-- The overload of `SparseCtmcCslHelper::computeLongRunAverageRewards` for a reward model, with
its ghost record. -/
def computeLongRunAverageRewardsTraced (env : LongRunEnvironment) (fuel : Nat)
    (goal : SolveGoal) (rateMatrix : SparseMatrix) (rewardModel : RewardModel)
    (exitRateVector : Option (List ℚ)) : LongRunTrace × Option (Except Error (List ℚ)) :=
  if RewardModel.empty rewardModel then
    (⟨[], ⟨[], []⟩⟩, some (Except.error Error.invalidProperty))
  else
    computeLongRunAveragesTraced env fuel goal rateMatrix
      (rewardValueGetter rateMatrix rewardModel exitRateVector) exitRateVector

/-- The result of the overload of `computeLongRunAverageRewards` for a reward model. -/
def computeLongRunAverageRewards (env : LongRunEnvironment) (fuel : Nat)
    (goal : SolveGoal) (rateMatrix : SparseMatrix) (rewardModel : RewardModel)
    (exitRateVector : Option (List ℚ)) : Option (Except Error (List ℚ)) :=
  (computeLongRunAverageRewardsTraced env fuel goal rateMatrix rewardModel exitRateVector).2

/-- The overload of `SparseCtmcCslHelper::computeLongRunAverageRewards` for a vector of state
rewards, with its ghost record. -/
def computeLongRunAverageStateRewardsTraced (env : LongRunEnvironment) (fuel : Nat)
    (goal : SolveGoal) (rateMatrix : SparseMatrix) (stateRewardVector : List ℚ)
    (exitRateVector : Option (List ℚ)) : LongRunTrace × Option (Except Error (List ℚ)) :=
  computeLongRunAveragesTraced env fuel goal rateMatrix
    (fun state => stateRewardVector.getD state 0) exitRateVector

/-- Collaborators for `exampleRateMatrix`: its bottom strongly connected components are the
absorbing states 1 and 2; the solver works in equation-system format, reports no requirement
and returns the right-hand side, which solves the system of the only transient state 0, whose
matrix is the identity. -/
def exampleLongRunEnvironment : LongRunEnvironment where
  bsccDecomposition := fun _ => [[1], [2]]
  isEquationSystemFormat := true
  hasEnabledCriticalRequirement := fun _ _ _ => false
  solveEquations := fun _ _ _ _ b => b

/-- The chain with rate 1 from state 0 to state 1 and rate 1 from state 1 to state 0. -/
def cycleRateMatrix : SparseMatrix := ⟨2, [[(1, 1)], [(0, 1)]]⟩

/-- Collaborators for `cycleRateMatrix`: its only bottom strongly connected component holds
both states; the solver is never reached. -/
def cycleLongRunEnvironment : LongRunEnvironment where
  bsccDecomposition := fun _ => [[0, 1]]
  isEquationSystemFormat := true
  hasEnabledCriticalRequirement := fun _ _ _ => false
  solveEquations := fun _ _ _ x _ => x

/-- The block of a state in the words of the specification: the index of the block of the
decomposition that holds the state. -/
def bsccIndexOf (bsccDecomposition : List StronglyConnectedComponent) (state : Nat) : Nat :=
  bsccDecomposition.findIdx (fun bscc => bscc.contains state)

/-- The right-hand side of the system of the states outside the blocks in the words of the
specification (section 4.5): one entry per state `s` outside all blocks, in ascending order,
that is the sum over the transitions from `s` to a state `j` of a block of
`(rate / exitRate(s)) * bsccLra[block of j]`, and of `rate * bsccLra[block of j]` without exit
rates. -/
def rightHandSideBySpecification (rateMatrix : SparseMatrix)
    (bsccDecomposition : List StronglyConnectedComponent) (bsccLra : List ℚ)
    (exitRateVector : Option (List ℚ)) : List ℚ :=
  ((List.range (SparseMatrix.getRowCount rateMatrix)).filter
      (fun s => !bsccDecomposition.any (fun bscc => bscc.contains s))).map (fun s =>
    (((SparseMatrix.getRow rateMatrix s).filter
        (fun e => bsccDecomposition.any (fun bscc => bscc.contains e.1))).map (fun e =>
      match exitRateVector with
      | some exitRates =>
        (e.2 / exitRates.getD s 0) * bsccLra.getD (bsccIndexOf bsccDecomposition e.1) 0
      | none => e.2 * bsccLra.getD (bsccIndexOf bsccDecomposition e.1) 0)).sum)

/-- Collaborators for `exampleRateMatrix` whose solver reports an enabled critical requirement
for every matrix. -/
def strictLongRunEnvironment : LongRunEnvironment where
  bsccDecomposition := fun _ => [[1], [2]]
  isEquationSystemFormat := true
  hasEnabledCriticalRequirement := fun _ _ _ => true
  solveEquations := fun _ _ _ _ b => b

/-! ## Reductions to the discrete-time helper -/

/-- Modelled from the spec: the functions of `SparseDtmcPrctlHelper` that the reward reductions
delegate to are not among the sources (section 6, "external discrete-time reachability-reward
computation"): `computeReachabilityRewards(goal, probabilityMatrix, backwardTransitions,
totalRewardVector, targetStates, qualitative)` and `computeTotalRewards(goal,
probabilityMatrix, backwardTransitions, rewardModel, qualitative)`, whose reward model is the
one that the source constructs from the vector `totalRewardVector` and is represented by that
vector. -/
structure SparseDtmcPrctlHelper where
  computeReachabilityRewards :
    SolveGoal → SparseMatrix → SparseMatrix → List ℚ → BitVector → Bool → Except Error (List ℚ)
  computeTotalRewards :
    SolveGoal → SparseMatrix → SparseMatrix → List ℚ → Bool → Except Error (List ℚ)

/-- Modelled from the spec: `StandardRewardModel::getStateActionRewardVector`; the empty vector
stands in when the model has none. -/
def RewardModel.getStateActionRewardVector (rewardModel : RewardModel) : List ℚ :=
  rewardModel.optionalStateActionRewardVector.getD []

/-- Modelled from the spec: `StandardRewardModel::getTransitionRewardMatrix`; the empty matrix
stands in when the model has none. -/
def RewardModel.getTransitionRewardMatrix (rewardModel : RewardModel) : SparseMatrix :=
  rewardModel.optionalTransitionRewardMatrix.getD ⟨0, []⟩

/-- Modelled from the spec: `SparseMatrix::getPointwiseProductRowSumVector(otherMatrix)` is not
among the sources ("row-wise pointwise product and row-sum"): one entry per row. -/
def SparseMatrix.getPointwiseProductRowSumVector (m otherMatrix : SparseMatrix) : List ℚ :=
  (List.range (SparseMatrix.getRowCount m)).map
    (SparseMatrix.getPointwiseProductRowSum m otherMatrix)

/-- Modelled from the spec: `storm::utility::vector::addVectors(first, second, target)` is not
among the sources; the pointwise sum. -/
def addVectors (first second : List ℚ) : List ℚ :=
  applyPointwise (fun a b => a + b) first second

/-- The function `SparseCtmcCslHelper::computeReachabilityTimes`, with the vector
`totalRewardVector` that it hands to the discrete-time helper. -/
def computeReachabilityTimesTraced (dtmc : SparseDtmcPrctlHelper) (goal : SolveGoal)
    (rateMatrix backwardTransitions : SparseMatrix) (exitRateVector : List ℚ)
    (targetStates : BitVector) (qualitative : Bool) : List ℚ × Except Error (List ℚ) :=
  let probabilityMatrix := computeProbabilityMatrix rateMatrix exitRateVector
  let totalRewardVector := (List.range exitRateVector.length).map (fun i =>
    if BitVector.get targetStates i || decide (exitRateVector.getD i 0 = 0) then (0 : ℚ)
    else 1 / exitRateVector.getD i 0)
  (totalRewardVector,
    dtmc.computeReachabilityRewards goal probabilityMatrix backwardTransitions
      totalRewardVector targetStates qualitative)

/-- The vector `totalRewardVector` that `computeReachabilityRewards` builds (lines 315-334). -/
def reachabilityRewardsTotalRewardVector (probabilityMatrix : SparseMatrix)
    (exitRateVector : List ℚ) (rewardModel : RewardModel) : List ℚ :=
  if RewardModel.hasStateRewards rewardModel then
    let totalRewardVector := applyPointwise (fun a b => a / b)
      (RewardModel.getStateRewardVector rewardModel) exitRateVector
    let totalRewardVector :=
      if RewardModel.hasStateActionRewards rewardModel then
        addVectors totalRewardVector (RewardModel.getStateActionRewardVector rewardModel)
      else totalRewardVector
    if RewardModel.hasTransitionRewards rewardModel then
      addVectors totalRewardVector (SparseMatrix.getPointwiseProductRowSumVector
        probabilityMatrix (RewardModel.getTransitionRewardMatrix rewardModel))
    else totalRewardVector
  else if RewardModel.hasTransitionRewards rewardModel then
    let totalRewardVector := SparseMatrix.getPointwiseProductRowSumVector probabilityMatrix
      (RewardModel.getTransitionRewardMatrix rewardModel)
    if RewardModel.hasStateActionRewards rewardModel then
      addVectors totalRewardVector (RewardModel.getStateActionRewardVector rewardModel)
    else totalRewardVector
  else
    RewardModel.getStateActionRewardVector rewardModel

/-- The function `SparseCtmcCslHelper::computeReachabilityRewards`, with the arguments
`(probabilityMatrix, totalRewardVector)` of its call of the discrete-time helper, if it makes
one. -/
def computeReachabilityRewardsTraced (dtmc : SparseDtmcPrctlHelper) (goal : SolveGoal)
    (rateMatrix backwardTransitions : SparseMatrix) (exitRateVector : List ℚ)
    (rewardModel : RewardModel) (targetStates : BitVector) (qualitative : Bool) :
    Option (SparseMatrix × List ℚ) × Except Error (List ℚ) :=
  if RewardModel.empty rewardModel then
    (none, Except.error Error.invalidProperty)
  else
    let probabilityMatrix := computeProbabilityMatrix rateMatrix exitRateVector
    let totalRewardVector :=
      reachabilityRewardsTotalRewardVector probabilityMatrix exitRateVector rewardModel
    (some (probabilityMatrix, totalRewardVector),
      dtmc.computeReachabilityRewards goal probabilityMatrix backwardTransitions
        totalRewardVector targetStates qualitative)

/-- The result of `SparseCtmcCslHelper::computeReachabilityRewards`. -/
def computeReachabilityRewards (dtmc : SparseDtmcPrctlHelper) (goal : SolveGoal)
    (rateMatrix backwardTransitions : SparseMatrix) (exitRateVector : List ℚ)
    (rewardModel : RewardModel) (targetStates : BitVector) (qualitative : Bool) :
    Except Error (List ℚ) :=
  (computeReachabilityRewardsTraced dtmc goal rateMatrix backwardTransitions exitRateVector
    rewardModel targetStates qualitative).2

/-- The vector `totalRewardVector` that `computeTotalRewards` builds (lines 346-365). -/
def totalRewardsTotalRewardVector (probabilityMatrix : SparseMatrix)
    (exitRateVector : List ℚ) (rewardModel : RewardModel) : List ℚ :=
  if RewardModel.hasStateRewards rewardModel then
    let totalRewardVector := applyPointwise (fun a b => a / b)
      (RewardModel.getStateRewardVector rewardModel) exitRateVector
    let totalRewardVector :=
      if RewardModel.hasStateActionRewards rewardModel then
        addVectors totalRewardVector (RewardModel.getStateActionRewardVector rewardModel)
      else totalRewardVector
    if RewardModel.hasTransitionRewards rewardModel then
      addVectors totalRewardVector (SparseMatrix.getPointwiseProductRowSumVector
        probabilityMatrix (RewardModel.getTransitionRewardMatrix rewardModel))
    else totalRewardVector
  else if RewardModel.hasTransitionRewards rewardModel then
    let totalRewardVector := SparseMatrix.getPointwiseProductRowSumVector probabilityMatrix
      (RewardModel.getTransitionRewardMatrix rewardModel)
    if RewardModel.hasStateActionRewards rewardModel then
      addVectors totalRewardVector (RewardModel.getStateActionRewardVector rewardModel)
    else totalRewardVector
  else
    RewardModel.getStateActionRewardVector rewardModel

/-- The function `SparseCtmcCslHelper::computeTotalRewards`, with the arguments
`(probabilityMatrix, totalRewardVector)` of its call of the discrete-time helper, if it makes
one. -/
def computeTotalRewardsTraced (dtmc : SparseDtmcPrctlHelper) (goal : SolveGoal)
    (rateMatrix backwardTransitions : SparseMatrix) (exitRateVector : List ℚ)
    (rewardModel : RewardModel) (qualitative : Bool) :
    Option (SparseMatrix × List ℚ) × Except Error (List ℚ) :=
  if RewardModel.empty rewardModel then
    (none, Except.error Error.invalidProperty)
  else
    let probabilityMatrix := computeProbabilityMatrix rateMatrix exitRateVector
    let totalRewardVector :=
      totalRewardsTotalRewardVector probabilityMatrix exitRateVector rewardModel
    (some (probabilityMatrix, totalRewardVector),
      dtmc.computeTotalRewards goal probabilityMatrix backwardTransitions totalRewardVector
        qualitative)

/-- The result of `SparseCtmcCslHelper::computeTotalRewards`. -/
def computeTotalRewards (dtmc : SparseDtmcPrctlHelper) (goal : SolveGoal)
    (rateMatrix backwardTransitions : SparseMatrix) (exitRateVector : List ℚ)
    (rewardModel : RewardModel) (qualitative : Bool) : Except Error (List ℚ) :=
  (computeTotalRewardsTraced dtmc goal rateMatrix backwardTransitions exitRateVector
    rewardModel qualitative).2

/-! ## The numeric domains of the instantiations -/

/-- The numeric domains for which the helper is instantiated (lines 977-1047). -/
inductive NumericDomain where
  | double
  | rationalNumber
  | rationalFunction
  deriving DecidableEq, Repr

/-- The two overloads of `SparseCtmcCslHelper::computeBoundedUntilProbabilities`, selected by
`std::enable_if` on `storm::NumberTraits<ValueType>::SupportsExponential`; the trait is not
among the sources and is an argument. The overload for a domain without exponential support
(lines 203-206) reads none of its arguments. -/
def computeBoundedUntilProbabilitiesFor (supportsExponential : Bool) (env : Environment)
    (goal : SolveGoal) (rateMatrix backwardTransitions : SparseMatrix)
    (phiStates psiStates : BitVector) (exitRates : List ℚ) (qualitative : Bool)
    (lowerBound : ℚ) (upperBound : Option ℚ) : Except Error (List ℚ) :=
  if supportsExponential then
    computeBoundedUntilProbabilities env goal rateMatrix backwardTransitions phiStates psiStates
      exitRates qualitative lowerBound upperBound
  else
    Except.error Error.invalidOperation

/-- The two overloads of `SparseCtmcCslHelper::computeInstantaneousRewards`; the one for a
domain without exponential support is at lines 249-252. -/
def computeInstantaneousRewardsFor (supportsExponential : Bool) (env : Environment)
    (goal : SolveGoal) (rateMatrix : SparseMatrix) (exitRateVector : List ℚ)
    (rewardModel : RewardModel) (timeBound : ℚ) : Except Error (List ℚ) :=
  if supportsExponential then
    computeInstantaneousRewards env goal rateMatrix exitRateVector rewardModel timeBound
  else
    Except.error Error.invalidOperation

/-- The two overloads of `SparseCtmcCslHelper::computeCumulativeRewards`; the one for a domain
without exponential support is at lines 285-288. -/
def computeCumulativeRewardsFor (supportsExponential : Bool) (env : Environment)
    (goal : SolveGoal) (rateMatrix : SparseMatrix) (exitRateVector : List ℚ)
    (rewardModel : RewardModel) (timeBound : ℚ) : Except Error (List ℚ) :=
  if supportsExponential then
    computeCumulativeRewards env goal rateMatrix exitRateVector rewardModel timeBound
  else
    Except.error Error.invalidOperation

/-- The two overloads of `SparseCtmcCslHelper::computeAllTransientProbabilities`; the one for a
domain without exponential support is at lines 838-841. -/
def computeAllTransientProbabilitiesFor (supportsExponential : Bool) (env : Environment)
    (rateMatrix : SparseMatrix) (initialStates phiStates psiStates : BitVector)
    (exitRates : List ℚ) (timeBound : ℚ) : Except Error (List ℚ) :=
  if supportsExponential then
    computeAllTransientProbabilities env rateMatrix initialStates phiStates psiStates exitRates
      timeBound
  else
    Except.error Error.invalidOperation

/-- The function `SparseCtmcCslHelper::computeLongRunAveragesForBsccVi` with its explicit
specialization for `storm::RationalFunction` (lines 575-578), which reads none of its
arguments. -/
def computeLongRunAveragesForBsccViFor (domain : NumericDomain) (fuel : Nat)
    (bscc : StronglyConnectedComponent) (rateMatrix backwardTransitions : SparseMatrix)
    (valueGetter : Nat → ℚ) (exitRateVector : Option (List ℚ)) : Option (Except Error ℚ) :=
  match domain with
  | NumericDomain.rationalFunction => some (Except.error Error.notSupported)
  | _ =>
    (computeLongRunAveragesForBsccVi fuel bscc rateMatrix backwardTransitions valueGetter
      exitRateVector).map Except.ok

/-- The function `SparseCtmcCslHelper::computeLongRunAveragesForBscc` for the numeric domain
`domain`: the trivial case for a block of one state, and the value-iteration variant of the
domain otherwise. -/
def computeLongRunAveragesForBsccFor (domain : NumericDomain) (fuel : Nat)
    (bscc : StronglyConnectedComponent) (rateMatrix backwardTransitions : SparseMatrix)
    (valueGetter : Nat → ℚ) (exitRateVector : Option (List ℚ)) : Option (Except Error ℚ) :=
  if bscc.length = 1 then
    some (Except.ok (valueGetter (bscc.headD 0)))
  else
    computeLongRunAveragesForBsccViFor domain fuel bscc rateMatrix backwardTransitions
      valueGetter exitRateVector

/-- The error kind "unsupported-operation" of the specification (section 7): the numeric domain
lacks the required semantics. The source raises it as `InvalidOperationException` in the
overloads without exponential support and as `NotSupportedException` in the value iteration
for rational functions. -/
def Error.isUnsupportedOperation : Error → Bool
  | Error.invalidOperation => true
  | Error.notSupported => true
  | _ => false

/-! ## Further example inputs -/

/-- A discrete-time helper that returns the reward vector handed to it. -/
def exampleDtmcHelper : SparseDtmcPrctlHelper where
  computeReachabilityRewards := fun _ _ _ totalRewardVector _ _ => Except.ok totalRewardVector
  computeTotalRewards := fun _ _ _ totalRewardVector _ => Except.ok totalRewardVector

/-- The reward model with the state rewards `[1, 0, 0]` only. -/
def exampleRewardModel : RewardModel := ⟨some [1, 0, 0], none, none, fun _ _ => [1, 0, 0]⟩

/-- The reward model without rewards. -/
def emptyRewardModel : RewardModel := ⟨none, none, none, fun _ _ => []⟩

/-- The reward vector of the reward reductions as the specification states it, at the state
`state`: the state reward divided by the exit rate if state rewards are present, plus the
state-action reward if state-action rewards are present, plus the sum over all columns of the
products of the probabilities with the transition rewards if transition rewards are present. -/
def totalRewardBySpecification (probabilityMatrix : SparseMatrix) (exitRateVector : List ℚ)
    (rewardModel : RewardModel) (state : Nat) : ℚ :=
  (match rewardModel.optionalStateRewardVector with
    | some stateRewards => stateRewards.getD state 0 / exitRateVector.getD state 0
    | none => 0)
  + (match rewardModel.optionalStateActionRewardVector with
    | some stateActionRewards => stateActionRewards.getD state 0
    | none => 0)
  + (match rewardModel.optionalTransitionRewardMatrix with
    | some transitionRewards =>
        ∑ column in Finset.range probabilityMatrix.columnCount,
          SparseMatrix.value probabilityMatrix state column
            * SparseMatrix.value transitionRewards state column
    | none => 0)

/-- A chain of two states that move to each other with the rates 2 and 4. -/
def rewardRateMatrix : SparseMatrix := ⟨2, [[(1, 2)], [(0, 4)]]⟩

/-- A reward model with the state rewards `[2, 4]`, the state-action rewards `[1, 3]` and the
transition rewards 5 and 7 on the two transitions of `rewardRateMatrix`. -/
def fullRewardModel : RewardModel :=
  ⟨some [2, 4], some [1, 3], some ⟨2, [[(1, 5)], [(0, 7)]]⟩, fun _ _ => []⟩

/-- The coefficient `c_k` of the iterate `x_k` in cumulative mode as the specification states
it: one minus the sum of the normalized weights of the indices `left..k`, divided by the
uniformization rate. -/
def cumulativeCoefficient (foxGlynnResult : FoxGlynnResult) (uniformizationRate : ℚ)
    (k : Nat) : ℚ :=
  (1 - ∑ i in Finset.Icc foxGlynnResult.left k,
      foxGlynnResult.weights.getD (i - foxGlynnResult.left) 0 / foxGlynnResult.totalWeight)
    / uniformizationRate

/-- The normalized weight that a Fox-Glynn result gives to the index `k`: the weight of `k`
divided by the total weight inside the window `left..right`, and 0 outside. -/
def normalizedWeightAt (foxGlynnResult : FoxGlynnResult) (k : Nat) : ℚ :=
  if foxGlynnResult.left ≤ k ∧ k ≤ foxGlynnResult.right then
    foxGlynnResult.weights.getD (k - foxGlynnResult.left) 0 / foxGlynnResult.totalWeight
  else 0

/-- The sum of the normalized weights that a Fox-Glynn result gives to the indices `k ≥ j` of
its window. -/
def normalizedTail (foxGlynnResult : FoxGlynnResult) (j : Nat) : ℚ :=
  ∑ k in Finset.Icc (max foxGlynnResult.left j) foxGlynnResult.right,
    foxGlynnResult.weights.getD (k - foxGlynnResult.left) 0 / foxGlynnResult.totalWeight

/-- The enumeration `LinearityCheckVisitor::LinearityStatus`, whose three values the visitor
returns. -/
inductive LinearityStatus
  | NonLinear
  | LinearWithoutVariables
  | LinearContainsVariables
  deriving DecidableEq, Repr

/-- The enumeration `BinaryNumericalFunctionExpression::OperatorType`, with the seven values of
the `switch` in `visit(BinaryNumericalFunctionExpression)`. -/
inductive BinaryNumericalOperatorType
  | Plus
  | Minus
  | Times
  | Divide
  | Min
  | Max
  | Power
  deriving DecidableEq, Repr

/-- The enumeration `UnaryNumericalFunctionExpression::OperatorType`, with the three values of
the `switch` in `visit(UnaryNumericalFunctionExpression)`. -/
inductive UnaryNumericalOperatorType
  | Minus
  | Floor
  | Ceil
  deriving DecidableEq, Repr

/-- Modelled from the spec: the expression classes are declared outside the sources
("expression representation" is an external collaborator); there is one constructor for every
class that `LinearityCheckVisitor` has a `visit` method for, with the operands and the operator
type that the methods read. -/
inductive BaseExpression
  | IfThenElseExpression (condition thenExpression elseExpression : BaseExpression)
  | BinaryBooleanFunctionExpression (firstOperand secondOperand : BaseExpression)
  | BinaryNumericalFunctionExpression (operatorType : BinaryNumericalOperatorType)
      (firstOperand secondOperand : BaseExpression)
  | BinaryRelationExpression (firstOperand secondOperand : BaseExpression)
  | VariableExpression (variableName : String)
  | UnaryBooleanFunctionExpression (operand : BaseExpression)
  | UnaryNumericalFunctionExpression (operatorType : UnaryNumericalOperatorType)
      (operand : BaseExpression)
  | BooleanLiteralExpression (value : Bool)
  | IntegerLiteralExpression (value : Int)
  | RationalLiteralExpression (value : ℚ)
  deriving Repr

/-- The methods `LinearityCheckVisitor::visit`, one equation per expression class. The operator
types are closed enumerations, so the statements behind the two `switch` blocks, which throw
for an operator outside the enumeration, are not reached. -/
def LinearityCheckVisitor.visit : BaseExpression → LinearityStatus
  | BaseExpression.IfThenElseExpression _ _ _ => LinearityStatus.NonLinear
  | BaseExpression.BinaryBooleanFunctionExpression _ _ => LinearityStatus.NonLinear
  | BaseExpression.BinaryNumericalFunctionExpression operatorType firstOperand secondOperand =>
    let leftResult := LinearityCheckVisitor.visit firstOperand
    if leftResult = LinearityStatus.NonLinear then LinearityStatus.NonLinear
    else
      let rightResult := LinearityCheckVisitor.visit secondOperand
      if rightResult = LinearityStatus.NonLinear then LinearityStatus.NonLinear
      else
        match operatorType with
        | BinaryNumericalOperatorType.Plus | BinaryNumericalOperatorType.Minus =>
          if leftResult = LinearityStatus.LinearContainsVariables
              ∨ rightResult = LinearityStatus.LinearContainsVariables then
            LinearityStatus.LinearContainsVariables
          else LinearityStatus.LinearWithoutVariables
        | BinaryNumericalOperatorType.Times | BinaryNumericalOperatorType.Divide =>
          if leftResult = LinearityStatus.LinearContainsVariables
              ∧ rightResult = LinearityStatus.LinearContainsVariables then
            LinearityStatus.NonLinear
          else if leftResult = LinearityStatus.LinearContainsVariables
              ∨ rightResult = LinearityStatus.LinearContainsVariables then
            LinearityStatus.LinearContainsVariables
          else LinearityStatus.LinearWithoutVariables
        | BinaryNumericalOperatorType.Min => LinearityStatus.NonLinear
        | BinaryNumericalOperatorType.Max => LinearityStatus.NonLinear
        | BinaryNumericalOperatorType.Power => LinearityStatus.NonLinear
  | BaseExpression.BinaryRelationExpression _ _ => LinearityStatus.NonLinear
  | BaseExpression.VariableExpression _ => LinearityStatus.LinearContainsVariables
  | BaseExpression.UnaryBooleanFunctionExpression _ => LinearityStatus.NonLinear
  | BaseExpression.UnaryNumericalFunctionExpression operatorType operand =>
    match operatorType with
    | UnaryNumericalOperatorType.Minus => LinearityCheckVisitor.visit operand
    | UnaryNumericalOperatorType.Floor => LinearityStatus.NonLinear
    | UnaryNumericalOperatorType.Ceil => LinearityStatus.NonLinear
  | BaseExpression.BooleanLiteralExpression _ => LinearityStatus.NonLinear
  | BaseExpression.IntegerLiteralExpression _ => LinearityStatus.LinearWithoutVariables
  | BaseExpression.RationalLiteralExpression _ => LinearityStatus.LinearWithoutVariables

/-- The method `LinearityCheckVisitor::check`. -/
def LinearityCheckVisitor.check (expression : BaseExpression) : Bool :=
  let result := LinearityCheckVisitor.visit expression
  result == LinearityStatus.LinearWithoutVariables
    || result == LinearityStatus.LinearContainsVariables

/-- A chain of two states without transitions. -/
def isolatedRateMatrix : SparseMatrix := ⟨2, [[], []]⟩

/-- The per-state value function of the long-run average reward as the specification states it:
the state reward if state rewards are present, plus the state-action reward, multiplied by the
exit rate when exit rates are given, if state-action rewards are present, plus the sum over
all columns of the products of the rates with the transition rewards if transition rewards are
present. -/
def longRunRewardBySpecification (rateMatrix : SparseMatrix) (rewardModel : RewardModel)
    (exitRateVector : Option (List ℚ)) (state : Nat) : ℚ :=
  (match rewardModel.optionalStateRewardVector with
    | some stateRewards => stateRewards.getD state 0
    | none => 0)
  + (match rewardModel.optionalStateActionRewardVector, exitRateVector with
    | some stateActionRewards, some exitRates =>
        stateActionRewards.getD state 0 * exitRates.getD state 0
    | some stateActionRewards, none => stateActionRewards.getD state 0
    | none, _ => 0)
  + (match rewardModel.optionalTransitionRewardMatrix with
    | some transitionRewards =>
        ∑ column in Finset.range rateMatrix.columnCount,
          SparseMatrix.value rateMatrix state column
            * SparseMatrix.value transitionRewards state column
    | none => 0)

/-- The exit rate that the value iteration subtracts on the diagonal of a state: the exit rate
of the state, and one when no exit rates are given. -/
def viExitRate (exitRateVector : Option (List ℚ)) (state : Nat) : ℚ :=
  match exitRateVector with
  | some exitRates => exitRates.getD state 0
  | none => 1

/-! ## The reward reductions with guarded division -/

/-- Division with an error branch: `none` for the divisor 0, which the total division of the
rational numbers maps to 0. -/
def guardedDivision (dividend divisor : ℚ) : Option ℚ :=
  if divisor = 0 then none else some (dividend / divisor)

/-- The results of a sequence of guarded computations in order, and `none` as soon as one of
them has taken its error branch. -/
def collectGuarded {α : Type} : List (Option α) → Option (List α)
  | [] => some []
  | none :: _ => none
  | some value :: rest =>
    match collectGuarded rest with
    | none => none
    | some values => some (value :: values)

/-- The function `computeProbabilityMatrix` with guarded division: every entry of a row is
divided by the exit rate of the row. -/
def computeProbabilityMatrixGuarded (rateMatrix : SparseMatrix) (exitRates : List ℚ) :
    Option SparseMatrix :=
  match collectGuarded ((List.range rateMatrix.rows.length).map (fun row =>
      collectGuarded ((SparseMatrix.getRow rateMatrix row).map (fun entry =>
        (guardedDivision entry.2 (exitRates.getD row 0)).map (fun value =>
          (entry.1, value)))))) with
  | none => none
  | some rows => some ⟨rateMatrix.columnCount, rows⟩

/-- The vector `totalRewardVector` of `computeReachabilityRewards` (lines 315-334), which
`computeTotalRewards` builds by the same statements (lines 346-365), with guarded division in
the loop `*it1 /= *it2` over the state rewards and the exit rates. -/
def totalRewardVectorGuarded (probabilityMatrix : SparseMatrix) (exitRateVector : List ℚ)
    (rewardModel : RewardModel) : Option (List ℚ) :=
  if RewardModel.hasStateRewards rewardModel then
    match collectGuarded (List.zipWith guardedDivision
        (RewardModel.getStateRewardVector rewardModel) exitRateVector) with
    | none => none
    | some totalRewardVector =>
      let totalRewardVector :=
        if RewardModel.hasStateActionRewards rewardModel then
          addVectors totalRewardVector (RewardModel.getStateActionRewardVector rewardModel)
        else totalRewardVector
      if RewardModel.hasTransitionRewards rewardModel then
        some (addVectors totalRewardVector (SparseMatrix.getPointwiseProductRowSumVector
          probabilityMatrix (RewardModel.getTransitionRewardMatrix rewardModel)))
      else some totalRewardVector
  else if RewardModel.hasTransitionRewards rewardModel then
    let totalRewardVector := SparseMatrix.getPointwiseProductRowSumVector probabilityMatrix
      (RewardModel.getTransitionRewardMatrix rewardModel)
    if RewardModel.hasStateActionRewards rewardModel then
      some (addVectors totalRewardVector (RewardModel.getStateActionRewardVector rewardModel))
    else some totalRewardVector
  else
    some (RewardModel.getStateActionRewardVector rewardModel)

/-- The function `SparseCtmcCslHelper::computeReachabilityRewards` with guarded division:
`none` when a division by zero is reached, and the outcome of the function otherwise. -/
def computeReachabilityRewardsGuarded (dtmc : SparseDtmcPrctlHelper) (goal : SolveGoal)
    (rateMatrix backwardTransitions : SparseMatrix) (exitRateVector : List ℚ)
    (rewardModel : RewardModel) (targetStates : BitVector) (qualitative : Bool) :
    Option (Except Error (List ℚ)) :=
  if RewardModel.empty rewardModel then
    some (Except.error Error.invalidProperty)
  else
    match computeProbabilityMatrixGuarded rateMatrix exitRateVector with
    | none => none
    | some probabilityMatrix =>
      match totalRewardVectorGuarded probabilityMatrix exitRateVector rewardModel with
      | none => none
      | some totalRewardVector =>
        some (dtmc.computeReachabilityRewards goal probabilityMatrix backwardTransitions
          totalRewardVector targetStates qualitative)

/-- The function `SparseCtmcCslHelper::computeTotalRewards` with guarded division. -/
def computeTotalRewardsGuarded (dtmc : SparseDtmcPrctlHelper) (goal : SolveGoal)
    (rateMatrix backwardTransitions : SparseMatrix) (exitRateVector : List ℚ)
    (rewardModel : RewardModel) (qualitative : Bool) : Option (Except Error (List ℚ)) :=
  if RewardModel.empty rewardModel then
    some (Except.error Error.invalidProperty)
  else
    match computeProbabilityMatrixGuarded rateMatrix exitRateVector with
    | none => none
    | some probabilityMatrix =>
      match totalRewardVectorGuarded probabilityMatrix exitRateVector rewardModel with
      | none => none
      | some totalRewardVector =>
        some (dtmc.computeTotalRewards goal probabilityMatrix backwardTransitions
          totalRewardVector qualitative)

/-- The loop "Initialize rewards" of `computeReachabilityTimes` with guarded division. -/
def reachabilityTimesRewardVectorGuarded (exitRateVector : List ℚ) (targetStates : BitVector) :
    Option (List ℚ) :=
  collectGuarded ((List.range exitRateVector.length).map (fun i =>
    if BitVector.get targetStates i || decide (exitRateVector.getD i 0 = 0) then some (0 : ℚ)
    else guardedDivision 1 (exitRateVector.getD i 0)))

/-- The function `SparseCtmcCslHelper::computeReachabilityTimes` with guarded division. -/
def computeReachabilityTimesGuarded (dtmc : SparseDtmcPrctlHelper) (goal : SolveGoal)
    (rateMatrix backwardTransitions : SparseMatrix) (exitRateVector : List ℚ)
    (targetStates : BitVector) (qualitative : Bool) : Option (Except Error (List ℚ)) :=
  match computeProbabilityMatrixGuarded rateMatrix exitRateVector with
  | none => none
  | some probabilityMatrix =>
    match reachabilityTimesRewardVectorGuarded exitRateVector targetStates with
    | none => none
    | some totalRewardVector =>
      some (dtmc.computeReachabilityRewards goal probabilityMatrix backwardTransitions
        totalRewardVector targetStates qualitative)

/-- The generator matrix `Q` of global balance in the words of the specification of the
stationary-distribution variant (section 4.5): `Q[s][s'] = R(s, s')` for `s ≠ s'` and
`Q[s][s] = R(s, s) - r(s)`, where `r(s)` is the exit rate of `s`, and one when no exit rates are
given. -/
def generatorEntry (rateMatrix : SparseMatrix) (exitRateVector : Option (List ℚ))
    (s s' : Nat) : ℚ :=
  if s = s' then SparseMatrix.value rateMatrix s s - viExitRate exitRateVector s
  else SparseMatrix.value rateMatrix s s'

/-- The sum over the entries of a row of the backward transitions whose column is a state of
the block, weighted with the value of the vector at the local index of that state. -/
def localWeightedSum (bscc : StronglyConnectedComponent) (x : List ℚ)
    (entries : List (Nat × ℚ)) : ℚ :=
  (entries.map (fun e =>
    match toLocalIndex bscc e.1 with
    | none => 0
    | some localIndex => e.2 * x.getD localIndex 0)).sum

/-- The chain with rate 1 from state 0 to state 1, rate 1 from state 1 to state 0 and the
absorbing state 2, which no other state reaches. -/
def cycleAndSinkRateMatrix : SparseMatrix := ⟨3, [[(1, 1)], [(0, 1)], []]⟩

/-- Collaborators for `cycleAndSinkRateMatrix`: its bottom strongly connected components are
the block `{0, 1}` and the single state 2; no state lies outside them. -/
def cycleAndSinkLongRunEnvironment : LongRunEnvironment where
  bsccDecomposition := fun _ => [[0, 1], [2]]
  isEquationSystemFormat := true
  hasEnabledCriticalRequirement := fun _ _ _ => false
  solveEquations := fun _ _ _ x _ => x

/-! ## IEEE 754 binary64 arithmetic

The numeric functions of the source are instantiated for `double`. The definitions above
evaluate their arithmetic exactly, over the rational numbers; the definitions of this section
evaluate it as the type `double` does: every operation returns the value of type `double`
nearest to its exact result. -/

/-- Rounding of a rational number to the nearest integer, to the even one of the two when it
lies half-way between them. -/
def roundHalfEven (x : ℚ) : ℤ :=
  if x - ⌊x⌋ < 1 / 2 then ⌊x⌋
  else if 1 / 2 < x - ⌊x⌋ then ⌊x⌋ + 1
  else if ⌊x⌋ % 2 = 0 then ⌊x⌋
  else ⌊x⌋ + 1

/-- The finite value of type `double` (IEEE 754 binary64) nearest to a rational number, the
rounding of the default mode round-to-nearest, ties to even: the significand has 53 bits and the
exponent is at least -1022 (below, the values are the subnormal ones). A result beyond the
largest finite value, which `double` replaces by an infinity, is outside the model, as are the
quotients by zero; the computations below stay far from both. -/
def roundToDouble (x : ℚ) : ℚ :=
  if x = 0 then 0
  else
    (roundHalfEven (x / 2 ^ (max (Int.log 2 |x|) (-1022) - 52)) : ℚ)
      * 2 ^ (max (Int.log 2 |x|) (-1022) - 52)

/-! ## The instantiation for `double`

The definitions above read every arithmetic operation of the source exactly, as the
instantiations for `storm::RationalNumber` compute it. The definitions of this section take the
rounding `fl` that is applied to the result of every arithmetic operation as an argument: with
`roundToDouble` they are the instantiation for `double` (every operation rounded on its own, in
the order of the source), and with `id` they are the definitions above. -/

/-- The sum of a vector accumulated from left to right, every addition rounded. -/
def sumRounded (fl : ℚ → ℚ) (values : List ℚ) : ℚ :=
  values.foldl (fun sum value => fl (sum + value)) 0

/-- The function `SparseCtmcCslHelper::computeProbabilityMatrix` with rounded division. -/
def computeProbabilityMatrixRounded (fl : ℚ → ℚ) (rateMatrix : SparseMatrix)
    (exitRates : List ℚ) : SparseMatrix where
  columnCount := rateMatrix.columnCount
  rows := (List.range rateMatrix.rows.length).map (fun row =>
    (SparseMatrix.getRow rateMatrix row).map (fun entry =>
      (entry.1, fl (entry.2 / exitRates.getD row 0))))

/-- The body of the inner loop of `computeUniformizedMatrix` with rounded operations:
`(element.getValue() - exitRates[state]) / uniformizationRate + one` is a subtraction, a
division and an addition. -/
def uniformizeEntryRounded (fl : ℚ → ℚ) (uniformizationRate : ℚ) (exitRates : List ℚ)
    (currentRow state : Nat) (element : Nat × ℚ) : Nat × ℚ :=
  if element.1 = currentRow then
    (element.1, fl (fl (fl (element.2 - exitRates.getD state 0) / uniformizationRate) + 1))
  else
    (element.1, fl (element.2 / uniformizationRate))

/-- The function `SparseCtmcCslHelper::computeUniformizedMatrix` with rounded operations. -/
def computeUniformizedMatrixRounded (fl : ℚ → ℚ) (rateMatrix : SparseMatrix)
    (maybeStates : BitVector) (uniformizationRate : ℚ) (exitRates : List ℚ) : SparseMatrix where
  columnCount := (SparseMatrix.getSubmatrix rateMatrix maybeStates maybeStates true).columnCount
  rows := (List.range (BitVector.setBits maybeStates).length).map (fun currentRow =>
    (SparseMatrix.getRow (SparseMatrix.getSubmatrix rateMatrix maybeStates maybeStates true)
        currentRow).map
      (uniformizeEntryRounded fl uniformizationRate exitRates currentRow
        ((BitVector.setBits maybeStates).getD currentRow 0)))

/-- Modelled from the spec: the product of one sparse row with a dense vector with rounded
operations: the products of the entries are added one by one, in the order of the row, to the
value `start`. For a row with at most one entry every order of summation gives this value. -/
def multiplyRowRounded (fl : ℚ → ℚ) (start : ℚ) (row : List (Nat × ℚ)) (x : List ℚ) : ℚ :=
  row.foldl (fun sum e => fl (sum + fl (e.2 * x.getD e.1 0))) start

/-- Modelled from the spec: `storm::solver::Multiplier::multiply(env, x, b, result)` with
rounded operations; the sum of a row starts at the entry of `b`, and at zero when `b` is the null
pointer. -/
def multiplyRounded (fl : ℚ → ℚ) (A : SparseMatrix) (x : List ℚ) (b : Option (List ℚ)) :
    List ℚ :=
  (List.range A.rows.length).map (fun i =>
    multiplyRowRounded fl (match b with | none => 0 | some v => v.getD i 0)
      (SparseMatrix.getRow A i) x)

/-- Modelled from the spec: `storm::solver::Multiplier::repeatedMultiply(env, x, b, n)` with
rounded operations. -/
def repeatedMultiplyRounded (fl : ℚ → ℚ) (A : SparseMatrix) (x : List ℚ)
    (b : Option (List ℚ)) (n : Nat) : List ℚ :=
  (fun y => multiplyRounded fl A y b)^[n] x

/-- The adjustment of the weights for cumulative rewards with rounded operations:
`sum += element; element = (1 - sum) / uniformizationRate`. -/
def mixedPoissonWeightsRounded (fl : ℚ → ℚ) (uniformizationRate : ℚ) : ℚ → List ℚ → List ℚ
  | _, [] => []
  | sum, element :: rest =>
      fl (fl (1 - fl (sum + element)) / uniformizationRate)
        :: mixedPoissonWeightsRounded fl uniformizationRate (fl (sum + element)) rest

/-- The weights that `computeTransientProbabilities` works with, with rounded operations. -/
def transientWeightsRounded (fl : ℚ → ℚ) (useMixedPoissonProbabilities : Bool)
    (uniformizationRate : ℚ) (foxGlynnResult : FoxGlynnResult) : List ℚ :=
  if useMixedPoissonProbabilities then
    mixedPoissonWeightsRounded fl uniformizationRate 0
      (foxGlynnResult.weights.map (fun element => fl (element / foxGlynnResult.totalWeight)))
  else
    foxGlynnResult.weights.map (fun element => fl (element / foxGlynnResult.totalWeight))

/-- One round of the loop below the left truncation point in cumulative mode, with rounded
operations. -/
def belowLeftStepRounded (fl : ℚ → ℚ) (uniformizedMatrix : SparseMatrix)
    (uniformizationRate : ℚ) (st : TransientState) (_index : Nat) : TransientState :=
  let values := multiplyRounded fl uniformizedMatrix st.values none
  { values := values
    result := applyPointwise (fun a b => fl (a + fl (b / uniformizationRate))) st.result values
    applications := st.applications ++ [none]
    foxGlynnCalls := st.foxGlynnCalls }

/-- One round of the loop between the truncation points, with rounded operations. -/
def windowStepRounded (fl : ℚ → ℚ) (uniformizedMatrix : SparseMatrix)
    (addVector : Option (List ℚ)) (weights : List ℚ) (left : Nat) (st : TransientState)
    (index : Nat) : TransientState :=
  let values := multiplyRounded fl uniformizedMatrix st.values addVector
  { values := values
    result := applyPointwise (fun a b => fl (a + fl (weights.getD (index - left) 0 * b)))
      st.result values
    applications := st.applications ++ [addVector]
    foxGlynnCalls := st.foxGlynnCalls }

/-- The function `SparseCtmcCslHelper::computeTransientProbabilities` with rounded operations;
it returns the final state of its loops. -/
def computeTransientProbabilitiesTracedRounded (fl : ℚ → ℚ) (env : Environment)
    (useMixedPoissonProbabilities : Bool) (uniformizedMatrix : SparseMatrix)
    (addVector : Option (List ℚ)) (timeBound uniformizationRate : ℚ) (values : List ℚ) :
    TransientState :=
  let lambda := fl (timeBound * uniformizationRate)
  if lambda = 0 then
    { values := values, result := values, applications := [], foxGlynnCalls := [] }
  else
    let foxGlynnResult := env.foxGlynn lambda (fl (env.precision / 8))
    let weights :=
      transientWeightsRounded fl useMixedPoissonProbabilities uniformizationRate foxGlynnResult
    let startingIteration := if foxGlynnResult.left = 0 then 1 else foxGlynnResult.left
    let result :=
      if foxGlynnResult.left = 0 then values.map (fun a => fl (a * weights.getD 0 0))
      else if useMixedPoissonProbabilities then
        values.map (fun a => fl (a / uniformizationRate))
      else List.replicate values.length 0
    let st0 : TransientState :=
      { values := values, result := result, applications := []
        foxGlynnCalls := [(lambda, fl (env.precision / 8))] }
    let st1 : TransientState :=
      if !useMixedPoissonProbabilities && decide (foxGlynnResult.left > 1) then
        { st0 with
          values := repeatedMultiplyRounded fl uniformizedMatrix values addVector
            (foxGlynnResult.left - 1)
          applications := List.replicate (foxGlynnResult.left - 1) addVector }
      else if useMixedPoissonProbabilities then
        (List.range' 1 (startingIteration - 1)).foldl
          (belowLeftStepRounded fl uniformizedMatrix uniformizationRate) st0
      else st0
    (List.range' startingIteration (foxGlynnResult.right + 1 - startingIteration)).foldl
      (windowStepRounded fl uniformizedMatrix addVector weights foxGlynnResult.left) st1

/-- The vector returned by `SparseCtmcCslHelper::computeTransientProbabilities` with rounded
operations. -/
def computeTransientProbabilitiesRounded (fl : ℚ → ℚ) (env : Environment)
    (useMixedPoissonProbabilities : Bool) (uniformizedMatrix : SparseMatrix)
    (addVector : Option (List ℚ)) (timeBound uniformizationRate : ℚ) (values : List ℚ) :
    List ℚ :=
  (computeTransientProbabilitiesTracedRounded fl env useMixedPoissonProbabilities
    uniformizedMatrix addVector timeBound uniformizationRate values).result

/-- The function `SparseCtmcCslHelper::computeUntilProbabilities` with rounded operations. -/
def computeUntilProbabilitiesRounded (fl : ℚ → ℚ) (env : Environment) (goal : SolveGoal)
    (rateMatrix : SparseMatrix) (backwardTransitions : SparseMatrix) (exitRateVector : List ℚ)
    (phiStates psiStates : BitVector) (qualitative : Bool) : Except Error (List ℚ) :=
  env.dtmcComputeUntilProbabilities goal
    (computeProbabilityMatrixRounded fl rateMatrix exitRateVector)
    backwardTransitions phiStates psiStates qualitative

/-- The uniformization rate with rounded operations: the maximum is exact, the literal `1.02`
is the `double` nearest to it and the product is rounded. -/
def uniformizationRateOfRounded (fl : ℚ → ℚ) (states : BitVector) (exitRates : List ℚ) : ℚ :=
  fl ((BitVector.setBits states).foldl
    (fun uniformizationRate state => max uniformizationRate (exitRates.getD state 0)) 0
      * fl 1.02)

/-- Modelled from the spec: `SparseMatrix::getConstrainedRowSumVector(rowConstraint,
columnConstraint)` with rounded operations: the selected entries of a row are added one by one
to zero. -/
def getConstrainedRowSumVectorRounded (fl : ℚ → ℚ) (m : SparseMatrix)
    (rowConstraint columnConstraint : BitVector) : List ℚ :=
  (BitVector.setBits rowConstraint).map (fun index =>
    sumRounded fl (((SparseMatrix.getRow m index).filter
      (fun e => BitVector.get columnConstraint e.1)).map (fun e => e.2)))

/-- The block that `computeBoundedUntilProbabilities` runs on the 'maybe' states, with rounded
operations. -/
def computeMaybeStateProbabilitiesRounded (fl : ℚ → ℚ) (env : Environment)
    (rateMatrix : SparseMatrix) (maybeStates psiStates : BitVector) (exitRates : List ℚ)
    (timeBound : ℚ) : Except Error (List ℚ) :=
  let uniformizationRate := uniformizationRateOfRounded fl maybeStates exitRates
  if uniformizationRate > 0 then
    let uniformizedMatrix :=
      computeUniformizedMatrixRounded fl rateMatrix maybeStates uniformizationRate exitRates
    let b := (getConstrainedRowSumVectorRounded fl rateMatrix maybeStates psiStates).map
      (fun element => fl (element / uniformizationRate))
    let values := List.replicate (BitVector.getNumberOfSetBits maybeStates) (0 : ℚ)
    Except.ok (computeTransientProbabilitiesRounded fl env false uniformizedMatrix (some b)
      timeBound uniformizationRate values)
  else
    Except.error Error.invalidState

/-- The block that propagates a vector over the states `states` without add-vector, with
rounded operations. -/
def propagateOverRounded (fl : ℚ → ℚ) (env : Environment) (rateMatrix : SparseMatrix)
    (states : BitVector) (exitRates : List ℚ) (timeBound : ℚ) (values : List ℚ) :
    Except Error (List ℚ) :=
  let uniformizationRate := uniformizationRateOfRounded fl states exitRates
  if uniformizationRate > 0 then
    let uniformizedMatrix :=
      computeUniformizedMatrixRounded fl rateMatrix states uniformizationRate exitRates
    Except.ok (computeTransientProbabilitiesRounded fl env false uniformizedMatrix none timeBound
      uniformizationRate values)
  else
    Except.error Error.invalidState

/-- The function `SparseCtmcCslHelper::computeBoundedUntilProbabilities` with rounded
operations, together with its ghost record; the difference `upperBound - lowerBound` of the
interval `[t, t']` is rounded as well. -/
def computeBoundedUntilProbabilitiesTracedRounded (fl : ℚ → ℚ) (env : Environment)
    (goal : SolveGoal) (rateMatrix backwardTransitions : SparseMatrix)
    (phiStates psiStates : BitVector) (exitRates : List ℚ) (qualitative : Bool)
    (lowerBound : ℚ) (upperBound : Option ℚ) : BoundedUntilTrace × Except Error (List ℚ) :=
  let numberOfStates := SparseMatrix.getRowCount rateMatrix
  if lowerBound = 0 ∧ upperBound = none then
    (⟨false, []⟩, computeUntilProbabilitiesRounded fl env goal rateMatrix backwardTransitions
      exitRates phiStates psiStates qualitative)
  else
    let statesWithProbabilityGreater0 :=
      performProbGreater0 backwardTransitions phiStates psiStates
    let statesWithProbabilityGreater0NonPsi :=
      BitVector.and statesWithProbabilityGreater0 (BitVector.complement psiStates)
    if !BitVector.empty statesWithProbabilityGreater0 then
      match upperBound with
      | some upper =>
        if upper = 0 then
          (⟨true, []⟩, Except.ok (setVectorValue (List.replicate numberOfStates 0) psiStates 1))
        else if lowerBound = 0 then
          let result := setVectorValue (List.replicate numberOfStates 0) psiStates 1
          if !BitVector.empty statesWithProbabilityGreater0NonPsi then
            match computeMaybeStateProbabilitiesRounded fl env rateMatrix
                statesWithProbabilityGreater0NonPsi psiStates exitRates upper with
            | Except.error e => (⟨true, []⟩, Except.error e)
            | Except.ok subresult =>
              (⟨true, [statesWithProbabilityGreater0NonPsi]⟩,
                Except.ok (setVectorValues result statesWithProbabilityGreater0NonPsi subresult))
          else
            (⟨true, []⟩, Except.ok result)
        else if lowerBound ≠ upper then
          let relevantStates := BitVector.and statesWithProbabilityGreater0 phiStates
          let newSubresult := setVectorValue
            (List.replicate (BitVector.getNumberOfSetBits relevantStates) 0)
            (BitVector.restrict psiStates relevantStates) 1
          let firstStage : Except Error (List ℚ × List BitVector) :=
            if !BitVector.empty statesWithProbabilityGreater0NonPsi then
              match computeMaybeStateProbabilitiesRounded fl env rateMatrix
                  statesWithProbabilityGreater0NonPsi psiStates exitRates
                  (fl (upper - lowerBound)) with
              | Except.error e => Except.error e
              | Except.ok subresult =>
                Except.ok (setVectorValues newSubresult
                  (BitVector.restrict statesWithProbabilityGreater0NonPsi relevantStates)
                  subresult, [statesWithProbabilityGreater0NonPsi])
            else
              Except.ok (newSubresult, [])
          match firstStage with
          | Except.error e => (⟨true, []⟩, Except.error e)
          | Except.ok (newSubresult, uniformized) =>
            match propagateOverRounded fl env rateMatrix relevantStates exitRates lowerBound
                newSubresult with
            | Except.error e => (⟨true, uniformized⟩, Except.error e)
            | Except.ok newSubresult =>
              (⟨true, uniformized ++ [relevantStates]⟩,
                Except.ok (setVectorValues
                  (setVectorValue (List.replicate numberOfStates 0)
                    (BitVector.complement relevantStates) 0)
                  relevantStates newSubresult))
        else
          let newSubresult := setVectorValue
            (List.replicate (BitVector.getNumberOfSetBits statesWithProbabilityGreater0) 0)
            (BitVector.restrict psiStates statesWithProbabilityGreater0) 1
          match propagateOverRounded fl env rateMatrix statesWithProbabilityGreater0 exitRates
              lowerBound newSubresult with
          | Except.error e => (⟨true, []⟩, Except.error e)
          | Except.ok newSubresult =>
            (⟨true, [statesWithProbabilityGreater0]⟩,
              Except.ok (setVectorValues
                (setVectorValue (List.replicate numberOfStates 0)
                  (BitVector.complement statesWithProbabilityGreater0) 0)
                statesWithProbabilityGreater0 newSubresult))
      | none =>
        match computeUntilProbabilitiesRounded fl env SolveGoal.default rateMatrix
            backwardTransitions exitRates phiStates psiStates qualitative with
        | Except.error e => (⟨true, []⟩, Except.error e)
        | Except.ok result =>
          let relevantStates := BitVector.and statesWithProbabilityGreater0 phiStates
          let subResult := selectVectorValues relevantStates result
          match propagateOverRounded fl env rateMatrix relevantStates exitRates lowerBound
              subResult with
          | Except.error e => (⟨true, []⟩, Except.error e)
          | Except.ok subResult =>
            (⟨true, [relevantStates]⟩,
              Except.ok (setVectorValues
                (setVectorValue result (BitVector.complement relevantStates) 0)
                relevantStates subResult))
    else
      (⟨true, []⟩, Except.ok (List.replicate numberOfStates 0))

/-- The result of `SparseCtmcCslHelper::computeBoundedUntilProbabilities` with rounded
operations. -/
def computeBoundedUntilProbabilitiesRounded (fl : ℚ → ℚ) (env : Environment) (goal : SolveGoal)
    (rateMatrix backwardTransitions : SparseMatrix) (phiStates psiStates : BitVector)
    (exitRates : List ℚ) (qualitative : Bool) (lowerBound : ℚ) (upperBound : Option ℚ) :
    Except Error (List ℚ) :=
  (computeBoundedUntilProbabilitiesTracedRounded fl env goal rateMatrix backwardTransitions
    phiStates psiStates exitRates qualitative lowerBound upperBound).2

/-- The function `SparseCtmcCslHelper::computeAllTransientProbabilities` with rounded
operations; `initDist` is the rounded quotient of one by the number of initial states. -/
def computeAllTransientProbabilitiesRounded (fl : ℚ → ℚ) (env : Environment)
    (rateMatrix : SparseMatrix) (initialStates _phiStates psiStates : BitVector)
    (exitRates : List ℚ) (timeBound : ℚ) : Except Error (List ℚ) :=
  let numberOfStates := SparseMatrix.getRowCount rateMatrix
  let result := List.replicate numberOfStates (0 : ℚ)
  let transposedMatrix := SparseMatrix.makeRowsAbsorbing rateMatrix psiStates
  let newRates := absorbingExitRates exitRates psiStates
  let relevantStates := BitVector.const numberOfStates true
  if !BitVector.empty relevantStates then
    let uniformizationRate := uniformizationRateOfRounded fl relevantStates newRates
    if uniformizationRate > 0 then
      let transposedMatrix := SparseMatrix.transpose transposedMatrix
      let uniformizedMatrix := computeUniformizedMatrixRounded fl transposedMatrix
        relevantStates uniformizationRate newRates
      let initDist : ℚ := fl (1 / (BitVector.getNumberOfSetBits initialStates : ℚ))
      let values := (BitVector.setBits relevantStates).map (fun state =>
        if BitVector.get initialStates state then initDist else 0)
      let subresult := computeTransientProbabilitiesRounded fl env false uniformizedMatrix none
        timeBound uniformizationRate values
      Except.ok (setVectorValues result relevantStates subresult)
    else
      Except.error Error.invalidState
  else
    Except.ok result

/-- The uniformization rate of `computeLongRunAveragesForBsccVi` with rounded operations. -/
def viUniformizationRateRounded (fl : ℚ → ℚ) (bsccStates : BitVector)
    (exitRateVector : Option (List ℚ)) : ℚ :=
  fl ((match exitRateVector with
    | some exitRates => max_if exitRates bsccStates
    | none => 1) + 1)

/-- The body of the loop "Uniformize the transitions" of `computeLongRunAveragesForBsccVi`
with rounded operations: `one + (entry.getValue() - exitRate) / uniformizationRate` is a
subtraction, a division and an addition. -/
def viUniformizeEntryRounded (fl : ℚ → ℚ) (uniformizationRate : ℚ)
    (exitRateVector : Option (List ℚ)) (subState state : Nat) (entry : Nat × ℚ) : Nat × ℚ :=
  if entry.1 = subState then
    match exitRateVector with
    | some exitRates =>
      (entry.1, fl (1 + fl (fl (entry.2 - exitRates.getD state 0) / uniformizationRate)))
    | none => (entry.1, fl (1 + fl (fl (entry.2 - 1) / uniformizationRate)))
  else
    (entry.1, fl (entry.2 / uniformizationRate))

/-- The uniformized matrix `bsccMatrix` of `computeLongRunAveragesForBsccVi` with rounded
operations. -/
def viBsccMatrixRounded (fl : ℚ → ℚ) (rateMatrix : SparseMatrix) (bsccStates : BitVector)
    (uniformizationRate : ℚ) (exitRateVector : Option (List ℚ)) : SparseMatrix where
  columnCount := (SparseMatrix.getSubmatrix rateMatrix bsccStates bsccStates true).columnCount
  rows := (List.range (BitVector.setBits bsccStates).length).map (fun subState =>
    (SparseMatrix.getRow (SparseMatrix.getSubmatrix rateMatrix bsccStates bsccStates true)
        subState).map
      (viUniformizeEntryRounded fl uniformizationRate exitRateVector subState
        ((BitVector.setBits bsccStates).getD subState 0)))

/-- The value `markovianRewards[row] + bsccMatrix.multiplyRowWithVector(row, w)` of one row
with rounded operations; the sum of the row starts at zero. -/
def viNewValueRounded (fl : ℚ → ℚ) (bsccMatrix : SparseMatrix) (markovianRewards w : List ℚ)
    (row : Nat) : ℚ :=
  fl (markovianRewards.getD row 0
    + multiplyRowRounded fl 0 (SparseMatrix.getRow bsccMatrix row) w)

/-- One pass over the rows of the loop of `computeLongRunAveragesForBsccVi` with rounded
operations. -/
def viRoundRounded (fl : ℚ → ℚ) (bsccMatrix : SparseMatrix) (markovianRewards v w : List ℚ) :
    ViRound :=
  let firstDiff := fl (viNewValueRounded fl bsccMatrix markovianRewards w 0 - v.getD 0 0)
  let rest := List.range' 1 (SparseMatrix.getRowCount bsccMatrix - 1)
  { v := (List.range (SparseMatrix.getRowCount bsccMatrix)).map
      (viNewValueRounded fl bsccMatrix markovianRewards w)
    maxDiff := rest.foldl (fun maxDiff row =>
      max maxDiff (fl (viNewValueRounded fl bsccMatrix markovianRewards w row - v.getD row 0)))
      firstDiff
    minDiff := rest.foldl (fun minDiff row =>
      min minDiff (fl (viNewValueRounded fl bsccMatrix markovianRewards w row - v.getD row 0)))
      firstDiff }

/-- The loop `while (true)` of `computeLongRunAveragesForBsccVi` with rounded operations, run
for at most `fuel` rounds. -/
def valueIterationRounded (fl : ℚ → ℚ) (bsccMatrix : SparseMatrix) (markovianRewards : List ℚ)
    (precision : ℚ) (relative : Bool) : Nat → Nat → List ℚ → List ℚ → Option (Nat × List ℚ)
  | 0, _, _, _ => none
  | fuel + 1, rounds, v, w =>
    let round := viRoundRounded fl bsccMatrix markovianRewards v w
    if fl (round.maxDiff - round.minDiff)
        ≤ (if relative then fl (precision * fl (round.v.headD 0 + round.minDiff))
          else precision) then
      some (rounds + 1, round.v)
    else
      let referenceValue := round.v.headD 0
      valueIterationRounded fl bsccMatrix markovianRewards precision relative fuel (rounds + 1)
        round.v (round.v.map (fun v_i => fl (v_i - referenceValue)))

/-- The function `SparseCtmcCslHelper::computeLongRunAveragesForBsccVi` with rounded
operations, with its ghost record; the literal `1e-6` is rounded as well. -/
def computeLongRunAveragesForBsccViTracedRounded (fl : ℚ → ℚ) (fuel : Nat)
    (bscc : StronglyConnectedComponent) (rateMatrix _backwardTransitions : SparseMatrix)
    (valueGetter : Nat → ℚ) (exitRateVector : Option (List ℚ)) : BsccTrace × Option ℚ :=
  let bsccStates := bsccStatesOf (SparseMatrix.getRowCount rateMatrix) bscc
  let uniformizationRate := viUniformizationRateRounded fl bsccStates exitRateVector
  let bsccMatrix := viBsccMatrixRounded fl rateMatrix bsccStates uniformizationRate exitRateVector
  let markovianRewards := (BitVector.setBits bsccStates).map (fun state =>
    fl (valueGetter state * fl (1 / uniformizationRate)))
  let precision : ℚ := fl (fl (1 / 1000000) / uniformizationRate)
  let relative := true
  let v := List.replicate (SparseMatrix.getRowCount bsccMatrix) (0 : ℚ)
  match valueIterationRounded fl bsccMatrix markovianRewards precision relative fuel 0 v v with
  | none => (⟨some bsccMatrix, fuel⟩, none)
  | some (rounds, v) =>
    (⟨some bsccMatrix, rounds⟩, some (fl (v.headD 0 * uniformizationRate)))

/-- The value of `SparseCtmcCslHelper::computeLongRunAveragesForBsccVi` with rounded
operations. -/
def computeLongRunAveragesForBsccViRounded (fl : ℚ → ℚ) (fuel : Nat)
    (bscc : StronglyConnectedComponent) (rateMatrix backwardTransitions : SparseMatrix)
    (valueGetter : Nat → ℚ) (exitRateVector : Option (List ℚ)) : Option ℚ :=
  (computeLongRunAveragesForBsccViTracedRounded fl fuel bscc rateMatrix backwardTransitions
    valueGetter exitRateVector).2

/-- The chain with the rates 1, 4 and 1 from state 0 to the absorbing states 1, 2 and 3. -/
def sixthsRateMatrix : SparseMatrix := ⟨4, [[(1, 1), (2, 4), (3, 1)], [], [], []]⟩

/-- The chain with the rates 2, 12 and 3 from state 0 to the absorbing states 1, 2 and 3. -/
def seventeenthsRateMatrix : SparseMatrix := ⟨4, [[(1, 2), (2, 12), (3, 3)], [], [], []]⟩

/-- The chain of two states with the rate 48 from each state to the other one. -/
def fastCycleRateMatrix : SparseMatrix := ⟨2, [[(1, 48)], [(0, 48)]]⟩

/-- An environment whose Fox-Glynn stage returns the window `0..2` with the weights 1, 4 and 1
and their sum 6. -/
def sixthsEnvironment : Environment where
  precision := 1 / 1000000
  foxGlynn := fun _ _ => ⟨0, 2, 6, [1, 4, 1]⟩
  dtmcComputeUntilProbabilities := fun _ _ _ _ _ _ => Except.ok []

/-- The stochastic matrix of the chain that moves from state 0 to state 1 and from state 1 to
the absorbing state 2. -/
def shiftMatrix : SparseMatrix := ⟨3, [[(1, 1)], [(2, 1)], [(2, 1)]]⟩

/-- The chain of ten states with the rate 1 from every state to the next one, and from the last
state to the first one. -/
def tenCycleRateMatrix : SparseMatrix :=
  ⟨10, [[(1, 1)], [(2, 1)], [(3, 1)], [(4, 1)], [(5, 1)], [(6, 1)], [(7, 1)], [(8, 1)], [(9, 1)], [(0, 1)]]⟩

/-- An environment whose Fox-Glynn stage returns, for a rate below 2, the window `12..14` with
the weights 6, 23 and 1 and their sum 30, and otherwise the window `13..15` with the weights 1,
4 and 1 and their sum 6. -/
def skewedWindowEnvironment : Environment where
  precision := 1 / 1000000
  foxGlynn := fun lambda _ =>
    if lambda < 2 then ⟨12, 14, 30, [6, 23, 1]⟩ else ⟨13, 15, 6, [1, 4, 1]⟩
  dtmcComputeUntilProbabilities := fun _ _ _ _ _ _ => Except.ok []

theorem getD_map_range {α : Type} (f : Nat → α) (n i : Nat) (d : α) :
    ((List.range n).map f).getD i d = if i < n then f i else d := by
  by_cases h : i < n
  · simp [List.getD_eq_getElem?_getD, List.getElem?_map, List.getElem?_range, h]
  · simp [List.getD_eq_getElem?_getD, List.getElem?_map, h]
    have : n ≤ i := Nat.le_of_not_lt h
    simp [List.getElem?_eq_none, this]

theorem BitVector.get_lt_length {b : BitVector} {i : Nat} (h : BitVector.get b i = true) :
    i < b.length := by
  by_contra hlt
  have : b.length ≤ i := Nat.le_of_not_lt hlt
  simp [BitVector.get, List.getD_eq_getElem?_getD, List.getElem?_eq_none, this] at h

theorem BitVector.get_of_empty {b : BitVector} (h : BitVector.empty b = true) (i : Nat) :
    BitVector.get b i = false := by
  by_cases hi : i < b.length
  · have hb := List.all_eq_true.mp h (b[i]) (List.getElem_mem hi)
    simp [BitVector.get, List.getD_eq_getElem?_getD, List.getElem?_eq_getElem hi]
    simpa using hb
  · have : b.length ≤ i := Nat.le_of_not_lt hi
    simp [BitVector.get, List.getD_eq_getElem?_getD, List.getElem?_eq_none, this]

theorem BitVector.get_and (a b : BitVector) (i : Nat) :
    BitVector.get (BitVector.and a b) i = (BitVector.get a i && BitVector.get b i) := by
  simp only [BitVector.get, BitVector.and, List.getD_eq_getElem?_getD, List.getElem?_zipWith]
  cases a[i]? <;> cases b[i]? <;> simp

theorem BitVector.length_and (a b : BitVector) :
    (BitVector.and a b).length = min a.length b.length := by
  simp [BitVector.and]

theorem BitVector.get_complement (b : BitVector) (i : Nat) :
    BitVector.get (BitVector.complement b) i = (decide (i < b.length) && !BitVector.get b i) := by
  by_cases hi : i < b.length
  · simp [BitVector.get, BitVector.complement, List.getD_eq_getElem?_getD, hi,
      List.getElem?_eq_getElem hi]
  · have : b.length ≤ i := Nat.le_of_not_lt hi
    simp [BitVector.get, BitVector.complement, List.getD_eq_getElem?_getD, hi,
      List.getElem?_eq_none, this]

theorem length_performProbGreater0Step (bt : SparseMatrix) (phi cur : BitVector) :
    (performProbGreater0Step bt phi cur).length = cur.length := by
  simp [performProbGreater0Step]

theorem get_performProbGreater0Step {bt : SparseMatrix} {phi cur : BitVector} {s : Nat}
    (h : BitVector.get cur s = true) :
    BitVector.get (performProbGreater0Step bt phi cur) s = true := by
  have hs := BitVector.get_lt_length h
  unfold performProbGreater0Step
  rw [BitVector.get, getD_map_range]
  simp [hs, h]

theorem get_iterate_performProbGreater0Step {bt : SparseMatrix} {phi : BitVector} {s : Nat}
    (k : Nat) : ∀ cur : BitVector, BitVector.get cur s = true →
      BitVector.get ((performProbGreater0Step bt phi)^[k] cur) s = true := by
  induction k with
  | zero => intro cur h; simpa using h
  | succ k ih =>
    intro cur h
    rw [Function.iterate_succ_apply']
    exact get_performProbGreater0Step (ih cur h)

theorem length_iterate_performProbGreater0Step (bt : SparseMatrix) (phi : BitVector) (k : Nat) :
    ∀ cur : BitVector, ((performProbGreater0Step bt phi)^[k] cur).length = cur.length := by
  induction k with
  | zero => intro cur; rfl
  | succ k ih =>
    intro cur
    rw [Function.iterate_succ_apply', length_performProbGreater0Step, ih]

theorem length_performProbGreater0 (bt : SparseMatrix) (phi psi : BitVector) :
    (performProbGreater0 bt phi psi).length = phi.length := by
  simp [performProbGreater0, length_iterate_performProbGreater0Step]

/-- The psi states are among the states with probability greater 0. -/
theorem psi_subset_performProbGreater0 (bt : SparseMatrix) (phi psi : BitVector) (s : Nat)
    (hs : s < phi.length) (h : BitVector.get psi s = true) :
    BitVector.get (performProbGreater0 bt phi psi) s = true := by
  unfold performProbGreater0
  apply get_iterate_performProbGreater0Step
  rw [BitVector.get, getD_map_range]
  simp [hs, h]

theorem setVectorValue_replicate (n : Nat) (positions : BitVector) (a value : ℚ) :
    setVectorValue (List.replicate n a) positions value
      = (List.range n).map (fun s => if BitVector.get positions s then value else a) := by
  apply List.ext_getElem
  · simp [setVectorValue]
  · intro i h1 h2
    simp [setVectorValue]

theorem replicate_zero_eq_indicatorVector (n : Nat) (states : BitVector)
    (h : ∀ s, s < n → BitVector.get states s = false) :
    List.replicate n (0 : ℚ) = indicatorVector n states := by
  apply List.ext_getElem
  · simp [indicatorVector]
  · intro i h1 h2
    have hi : i < n := by simpa using h1
    simp [indicatorVector, h i hi]

theorem entrySum_map_div (row : List (Nat × ℚ)) (d : ℚ) :
    entrySum (row.map (fun entry => (entry.1, entry.2 / d))) = entrySum row / d := by
  induction row with
  | nil => simp [entrySum]
  | cons e rest ih =>
    simp only [entrySum, List.map_cons, List.sum_cons] at ih ⊢
    rw [ih, add_div]

theorem getRow_computeProbabilityMatrix (rateMatrix : SparseMatrix) (exitRates : List ℚ)
    (row : Nat) :
    SparseMatrix.getRow (computeProbabilityMatrix rateMatrix exitRates) row
      = (SparseMatrix.getRow rateMatrix row).map (fun entry =>
          (entry.1, entry.2 / exitRates.getD row 0)) := by
  unfold SparseMatrix.getRow computeProbabilityMatrix
  rw [getD_map_range]
  split
  · rfl
  · rename_i h
    have : rateMatrix.rows.length ≤ row := Nat.le_of_not_lt h
    simp [List.getD_eq_getElem?_getD, List.getElem?_eq_none, this]

theorem length_multiply (A : SparseMatrix) (x : List ℚ) (b : Option (List ℚ)) :
    (multiply A x b).length = A.rows.length := by
  simp [multiply]

theorem transientIterate_multiply (P : SparseMatrix) (a : Option (List ℚ)) (v : List ℚ)
    (k : Nat) :
    transientIterate P a (multiply P v a) k = transientIterate P a v (k + 1) := by
  induction k with
  | zero => rfl
  | succ k ih =>
    show multiply P (transientIterate P a (multiply P v a) k) a = _
    rw [ih]
    rfl

theorem transientIterate_add (P : SparseMatrix) (a : Option (List ℚ)) (v : List ℚ)
    (m k : Nat) :
    transientIterate P a (transientIterate P a v m) k = transientIterate P a v (m + k) := by
  induction k with
  | zero => rfl
  | succ k ih =>
    show multiply P (transientIterate P a (transientIterate P a v m) k) a = _
    rw [ih]
    rfl

theorem repeatedMultiply_eq_transientIterate (P : SparseMatrix) (a : Option (List ℚ))
    (v : List ℚ) (k : Nat) :
    repeatedMultiply P v a k = transientIterate P a v k := by
  induction k with
  | zero => rfl
  | succ k ih =>
    unfold repeatedMultiply at ih ⊢
    rw [Function.iterate_succ_apply', ih]
    rfl

theorem length_transientIterate (P : SparseMatrix) (a : Option (List ℚ)) (v : List ℚ)
    (h : P.rows.length = v.length) (k : Nat) : (transientIterate P a v k).length = v.length := by
  cases k with
  | zero => rfl
  | succ k =>
    show (multiply P _ a).length = _
    rw [length_multiply, h]

theorem getD_zipWith_zero (f : ℚ → ℚ → ℚ) (hf : f 0 0 = 0) (l₁ l₂ : List ℚ)
    (h : l₁.length = l₂.length) (i : Nat) :
    (List.zipWith f l₁ l₂).getD i 0 = f (l₁.getD i 0) (l₂.getD i 0) := by
  by_cases hi : i < l₁.length
  · have hi2 : i < l₂.length := h ▸ hi
    simp [List.getD_eq_getElem?_getD, List.getElem?_zipWith, List.getElem?_eq_getElem, hi, hi2]
  · have h1 : l₁.length ≤ i := Nat.le_of_not_lt hi
    have h2 : l₂.length ≤ i := h ▸ h1
    simp [List.getD_eq_getElem?_getD, List.getElem?_zipWith, List.getElem?_eq_none, h1, h2, hf]

theorem getD_replicate_zero (n i : Nat) : (List.replicate n (0 : ℚ)).getD i 0 = 0 := by
  by_cases hi : i < n
  · simp [List.getD_eq_getElem?_getD, List.getElem?_replicate, hi]
  · simp [List.getD_eq_getElem?_getD, List.getElem?_replicate, hi]

theorem getD_map_zero (f : ℚ → ℚ) (hf : f 0 = 0) (l : List ℚ) (i : Nat) :
    (l.map f).getD i 0 = f (l.getD i 0) := by
  have := List.getD_map l 0 (n := i) f
  rw [hf] at this
  exact this

/-- The loop between the truncation points, started in the state `st`: the values advance by
one application per round, the result gains the weighted iterates, and every application carries
the add-vector. -/
theorem foldl_windowStep (P : SparseMatrix) (a : Option (List ℚ)) (w : List ℚ) (left : Nat) :
    ∀ (len start : Nat) (st : TransientState), st.result.length = P.rows.length →
      ((List.range' start len).foldl (windowStep P a w left) st).values
          = transientIterate P a st.values len
        ∧ ((List.range' start len).foldl (windowStep P a w left) st).result.length
          = P.rows.length
        ∧ (∀ i, ((List.range' start len).foldl (windowStep P a w left) st).result.getD i 0
            = st.result.getD i 0 + ∑ j ∈ Finset.range len,
                w.getD (start + j - left) 0 * (transientIterate P a st.values (j + 1)).getD i 0)
        ∧ ((List.range' start len).foldl (windowStep P a w left) st).applications
          = st.applications ++ List.replicate len a
        ∧ ((List.range' start len).foldl (windowStep P a w left) st).foxGlynnCalls
          = st.foxGlynnCalls := by
  intro len
  induction len with
  | zero => intro start st h; simp [transientIterate, h]
  | succ len ih =>
    intro start st h
    have hlen : (windowStep P a w left st start).result.length = P.rows.length := by
      simp [windowStep, applyPointwise, length_multiply, h]
    obtain ⟨h1, h2, h3, h4, h5⟩ := ih (start + 1) (windowStep P a w left st start) hlen
    rw [List.range'_succ, List.foldl_cons]
    refine ⟨?_, h2, ?_, ?_, ?_⟩
    · rw [h1]
      exact transientIterate_multiply P a st.values len
    · intro i
      rw [h3 i, Finset.sum_range_succ']
      have hstep : (windowStep P a w left st start).result.getD i 0
          = st.result.getD i 0 + w.getD (start - left) 0 * (multiply P st.values a).getD i 0 := by
        simp only [windowStep, applyPointwise]
        rw [getD_zipWith_zero _ (by simp) _ _ (by rw [h, length_multiply])]
      rw [hstep]
      have hsum : ∀ j, w.getD (start + 1 + j - left) 0
            * (transientIterate P a (windowStep P a w left st start).values (j + 1)).getD i 0
          = w.getD (start + (j + 1) - left) 0
            * (transientIterate P a st.values (j + 1 + 1)).getD i 0 := by
        intro j
        have e1 : start + 1 + j = start + (j + 1) := by omega
        rw [e1]
        congr 2
        exact transientIterate_multiply P a st.values (j + 1)
      simp only [hsum]
      simp only [Nat.add_zero]
      have e0 : transientIterate P a st.values (0 + 1) = multiply P st.values a := rfl
      rw [e0]
      ring
    · rw [h4]
      simp [windowStep, List.replicate_succ]
    · rw [h5]
      rfl

theorem sum_Icc_eq_sum_range (g : Nat → ℚ) (left right : Nat) :
    ∑ k ∈ Finset.Icc left right, g k = ∑ j ∈ Finset.range (right + 1 - left), g (left + j) := by
  rw [← Nat.Ico_succ_right, Finset.sum_Ico_eq_sum_range]

theorem getD_normalizedWeights (weights : List ℚ) (totalWeight : ℚ) (i : Nat) :
    (weights.map (fun element => element / totalWeight)).getD i 0
      = weights.getD i 0 / totalWeight :=
  getD_map_zero (fun element => element / totalWeight) (zero_div _) weights i

theorem BitVector.rank_succ (b : BitVector) (c : Nat) :
    BitVector.rank b (c + 1) = BitVector.rank b c + (if BitVector.get b c then 1 else 0) := by
  unfold BitVector.rank
  rw [List.range_succ, List.countP_append]
  by_cases h : BitVector.get b c = true <;> simp [h]

theorem BitVector.rank_mono (b : BitVector) {c d : Nat} (h : c ≤ d) :
    BitVector.rank b c ≤ BitVector.rank b d := by
  induction d with
  | zero =>
    have : c = 0 := by omega
    subst this
    exact Nat.le_refl _
  | succ d ih =>
    by_cases hcd : c = d + 1
    · subst hcd
      exact Nat.le_refl _
    · have := ih (by omega)
      rw [BitVector.rank_succ]
      omega

theorem BitVector.rank_lt (b : BitVector) {c d : Nat} (h : c < d)
    (hc : BitVector.get b c = true) : BitVector.rank b c < BitVector.rank b d := by
  have h1 : BitVector.rank b (c + 1) ≤ BitVector.rank b d := BitVector.rank_mono b h
  rw [BitVector.rank_succ, hc] at h1
  simp at h1
  omega

theorem BitVector.rank_injective (b : BitVector) {c d : Nat} (hc : BitVector.get b c = true)
    (hd : BitVector.get b d = true) (h : BitVector.rank b c = BitVector.rank b d) : c = d := by
  rcases Nat.lt_trichotomy c d with h1 | h1 | h1
  · have := BitVector.rank_lt b h1 hc
    omega
  · exact h1
  · have := BitVector.rank_lt b h1 hd
    omega

theorem BitVector.rank_length (b : BitVector) :
    BitVector.rank b b.length = BitVector.getNumberOfSetBits b := by
  unfold BitVector.rank BitVector.getNumberOfSetBits BitVector.setBits
  rw [List.countP_eq_length_filter]

theorem BitVector.rank_lt_getNumberOfSetBits (b : BitVector) {c : Nat}
    (hc : BitVector.get b c = true) : BitVector.rank b c < BitVector.getNumberOfSetBits b := by
  rw [← BitVector.rank_length]
  exact BitVector.rank_lt b (BitVector.get_lt_length hc) hc

theorem BitVector.get_of_mem_setBits (b : BitVector) {c : Nat} (h : c ∈ BitVector.setBits b) :
    BitVector.get b c = true := by
  unfold BitVector.setBits at h
  exact (List.mem_filter.mp h).2

theorem BitVector.lt_length_of_mem_setBits (b : BitVector) {c : Nat}
    (h : c ∈ BitVector.setBits b) : c < b.length :=
  BitVector.get_lt_length (BitVector.get_of_mem_setBits b h)

/-- In the list of the indices below `n` that satisfy `p`, the element at position `a` has `a`
such indices below it. -/
theorem countP_range_getElem_filter (p : Nat → Bool) (n : Nat) :
    ∀ (a : Nat) (h : a < ((List.range n).filter p).length),
      (List.range (((List.range n).filter p)[a])).countP p = a := by
  induction n with
  | zero => intro a h; simp at h
  | succ n ih =>
    intro a h
    have hsplit : (List.range (n + 1)).filter p
        = (List.range n).filter p ++ (if p n then [n] else []) := by
      rw [List.range_succ, List.filter_append]
      by_cases hp : p n = true <;> simp [hp]
    by_cases ha : a < ((List.range n).filter p).length
    · have e : ((List.range (n + 1)).filter p)[a] = ((List.range n).filter p)[a] := by
        simp only [hsplit]
        rw [List.getElem_append_left ha]
      rw [e]
      exact ih a ha
    · have hlen := h
      rw [hsplit, List.length_append] at hlen
      by_cases hp : p n = true
      · simp only [hp, if_true, List.length_singleton] at hlen
        have hae : a = ((List.range n).filter p).length := by omega
        have e : ((List.range (n + 1)).filter p)[a] = n := by
          simp only [hsplit, hp, if_true]
          rw [List.getElem_append_right (by omega)]
          simp
        rw [e, List.countP_eq_length_filter]
        exact hae.symm
      · simp [hp] at hlen
        omega

theorem BitVector.rank_getElem_setBits (b : BitVector) (a : Nat)
    (h : a < (BitVector.setBits b).length) :
    BitVector.rank b ((BitVector.setBits b)[a]) = a :=
  countP_range_getElem_filter (fun i => BitVector.get b i) b.length a h

theorem BitVector.get_getElem_setBits (b : BitVector) (a : Nat)
    (h : a < (BitVector.setBits b).length) :
    BitVector.get b ((BitVector.setBits b)[a]) = true :=
  BitVector.get_of_mem_setBits b (List.getElem_mem h)

theorem entrySum_cons (e : Nat × ℚ) (row : List (Nat × ℚ)) :
    entrySum (e :: row) = e.2 + entrySum row := by
  simp [entrySum]

theorem entrySum_nil : entrySum [] = 0 := by
  simp [entrySum]

theorem entrySum_filter_add_filter_not (p : Nat × ℚ → Bool) (row : List (Nat × ℚ)) :
    entrySum (row.filter p) + entrySum (row.filter (fun e => !p e)) = entrySum row := by
  induction row with
  | nil => simp [entrySum]
  | cons e rest ih =>
    by_cases h : p e = true
    · simp only [List.filter_cons, h, if_true, Bool.not_true, Bool.false_eq_true, if_false,
        entrySum_cons]
      rw [← ih]
      ring
    · have hf : p e = false := by simpa using h
      simp only [List.filter_cons, hf, Bool.false_eq_true, if_false, Bool.not_false, if_true,
        entrySum_cons]
      rw [← ih]
      ring

/-- Once the diagonal has been passed, the uniformized entries of the rest of a row of
`getSubmatrix` are the selected entries divided by the rate. -/
theorem entrySum_uniformize_getSubmatrixRow_inserted (K : BitVector) (q : ℚ) (E : List ℚ)
    (r state : Nat) :
    ∀ rest : List (Nat × ℚ),
      (∀ e ∈ rest, BitVector.get K e.1 = true → BitVector.rank K e.1 ≠ r) →
      entrySum ((getSubmatrixRow K true r true rest).map (uniformizeEntry q E r state))
        = entrySum (rest.filter (fun e => BitVector.get K e.1)) / q := by
  intro rest
  induction rest with
  | nil => intro _; simp [getSubmatrixRow, entrySum]
  | cons e rest ih =>
    intro h
    have ih' := ih (fun e' he' => h e' (List.mem_cons_of_mem _ he'))
    by_cases hK : BitVector.get K e.1 = true
    · have hne := h e (List.mem_cons_self _ _) hK
      simp only [getSubmatrixRow, hK, if_true, hne, if_false, Bool.not_true, Bool.and_false,
        Bool.false_and, Bool.false_eq_true, List.map_cons, List.filter_cons, entrySum_cons]
      rw [ih']
      simp only [uniformizeEntry, hne, if_false]
      ring
    · simp only [getSubmatrixRow, hK, if_false, List.filter_cons, Bool.false_eq_true]
      exact ih'

/-- The uniformized entries of a row of `getSubmatrix` with forced diagonal sum to the selected
entries divided by the rate, plus `1 - exitRate / rate` from the diagonal. -/
theorem entrySum_uniformize_getSubmatrixRow (K : BitVector) (q : ℚ) (E : List ℚ)
    (r state : Nat) (hr : r < BitVector.getNumberOfSetBits K) :
    ∀ rest : List (Nat × ℚ), (rest.map (fun e => e.1)).Pairwise (fun a b => a < b) →
      entrySum ((getSubmatrixRow K true r false rest).map (uniformizeEntry q E r state))
        = entrySum (rest.filter (fun e => BitVector.get K e.1)) / q
          + (1 - E.getD state 0 / q) := by
  intro rest
  induction rest with
  | nil =>
    intro _
    simp [getSubmatrixRow, hr, entrySum, uniformizeEntry]
    ring
  | cons e rest ih =>
    intro hsorted
    rw [List.map_cons, List.pairwise_cons] at hsorted
    obtain ⟨hhead, htail⟩ := hsorted
    have ih' := ih htail
    by_cases hK : BitVector.get K e.1 = true
    · have hafter : ∀ e' ∈ rest, BitVector.get K e'.1 = true →
          BitVector.rank K e.1 < BitVector.rank K e'.1 := by
        intro e' he' _
        exact BitVector.rank_lt K (hhead e'.1 (List.mem_map_of_mem _ he')) hK
      by_cases hdiag : BitVector.rank K e.1 = r
      · have hrest := entrySum_uniformize_getSubmatrixRow_inserted K q E r state rest
          (fun e' he' hK' => by have := hafter e' he' hK'; omega)
        simp only [getSubmatrixRow, hK, if_true, hdiag, List.map_cons, List.filter_cons,
          entrySum_cons]
        rw [hrest]
        simp only [uniformizeEntry, if_true]
        ring
      · by_cases hlt : r < BitVector.rank K e.1
        · have hrest := entrySum_uniformize_getSubmatrixRow_inserted K q E r state rest
            (fun e' he' hK' => by have := hafter e' he' hK'; omega)
          simp only [getSubmatrixRow, hK, if_true, hdiag, if_false, hlt, decide_True,
            Bool.not_false, Bool.and_self, List.map_cons, List.filter_cons, entrySum_cons]
          rw [hrest]
          simp only [uniformizeEntry, if_true, hdiag, if_false]
          ring
        · simp only [getSubmatrixRow, hK, if_true, hdiag, if_false, hlt, decide_False,
            Bool.and_false, Bool.false_eq_true, List.map_cons, List.filter_cons, entrySum_cons]
          rw [ih']
          simp only [uniformizeEntry, hdiag, if_false]
          ring
    · simp only [getSubmatrixRow, hK, if_false, List.filter_cons, Bool.false_eq_true]
      exact ih'

theorem SparseMatrix.getRow_mem_or_nil (m : SparseMatrix) (i : Nat) :
    SparseMatrix.getRow m i ∈ m.rows ∨ SparseMatrix.getRow m i = [] := by
  unfold SparseMatrix.getRow
  by_cases h : i < m.rows.length
  · left
    rw [List.getD_eq_getElem?_getD, List.getElem?_eq_getElem h]
    exact List.getElem_mem h
  · right
    have : m.rows.length ≤ i := Nat.le_of_not_lt h
    simp [List.getD_eq_getElem?_getD, List.getElem?_eq_none, this]

theorem SparseMatrix.sorted_getRow {m : SparseMatrix} (h : SparseMatrix.WellFormed m) (i : Nat) :
    ((SparseMatrix.getRow m i).map (fun e => e.1)).Pairwise (fun a b => a < b) := by
  rcases SparseMatrix.getRow_mem_or_nil m i with hmem | hnil
  · exact h _ hmem
  · rw [hnil]
    exact List.Pairwise.nil

theorem getRow_getSubmatrix (m : SparseMatrix) (rowConstraint columnConstraint : BitVector)
    (insertDiagonalEntries : Bool) (a : Nat) (h : a < (BitVector.setBits rowConstraint).length) :
    SparseMatrix.getRow
        (SparseMatrix.getSubmatrix m rowConstraint columnConstraint insertDiagonalEntries) a
      = getSubmatrixRow columnConstraint insertDiagonalEntries a false
          (SparseMatrix.getRow m ((BitVector.setBits rowConstraint)[a])) := by
  unfold SparseMatrix.getSubmatrix
  simp only [SparseMatrix.getRow]
  rw [List.getD_eq_getElem?_getD, List.getElem?_map, List.getElem?_eq_getElem h]
  simp only [Option.map_some', Option.getD_some]
  rw [BitVector.rank_getElem_setBits rowConstraint a h]

theorem getRow_computeUniformizedMatrix (rateMatrix : SparseMatrix) (maybeStates : BitVector)
    (uniformizationRate : ℚ) (exitRates : List ℚ) (a : Nat)
    (h : a < (BitVector.setBits maybeStates).length) :
    SparseMatrix.getRow
        (computeUniformizedMatrix rateMatrix maybeStates uniformizationRate exitRates) a
      = (getSubmatrixRow maybeStates true a false
          (SparseMatrix.getRow rateMatrix ((BitVector.setBits maybeStates)[a]))).map
            (uniformizeEntry uniformizationRate exitRates a
              ((BitVector.setBits maybeStates)[a])) := by
  have hsub := getRow_getSubmatrix rateMatrix maybeStates maybeStates true a h
  have hrow : SparseMatrix.getRow
      (computeUniformizedMatrix rateMatrix maybeStates uniformizationRate exitRates) a
      = ((List.range (BitVector.setBits maybeStates).length).map (fun currentRow =>
          (SparseMatrix.getRow (SparseMatrix.getSubmatrix rateMatrix maybeStates maybeStates true)
            currentRow).map
          (uniformizeEntry uniformizationRate exitRates currentRow
            ((BitVector.setBits maybeStates).getD currentRow 0)))).getD a [] := rfl
  have hget : (BitVector.setBits maybeStates).getD a 0 = (BitVector.setBits maybeStates)[a] := by
    rw [List.getD_eq_getElem?_getD, List.getElem?_eq_getElem h]
    rfl
  rw [hrow, getD_map_range, if_pos h, hsub, hget]

theorem getRow_computeUniformizedMatrix_of_le (rateMatrix : SparseMatrix)
    (maybeStates : BitVector) (uniformizationRate : ℚ) (exitRates : List ℚ) (a : Nat)
    (h : (BitVector.setBits maybeStates).length ≤ a) :
    SparseMatrix.getRow
        (computeUniformizedMatrix rateMatrix maybeStates uniformizationRate exitRates) a
      = [] := by
  have hrow : SparseMatrix.getRow
      (computeUniformizedMatrix rateMatrix maybeStates uniformizationRate exitRates) a
      = ((List.range (BitVector.setBits maybeStates).length).map (fun currentRow =>
          (SparseMatrix.getRow (SparseMatrix.getSubmatrix rateMatrix maybeStates maybeStates true)
            currentRow).map
          (uniformizeEntry uniformizationRate exitRates currentRow
            ((BitVector.setBits maybeStates).getD currentRow 0)))).getD a [] := rfl
  rw [hrow, getD_map_range, if_neg (by omega)]

/-- The sum of a row of the uniformized matrix, for a well-formed rate matrix:
`1 + (sum of the rates into retained states - exit rate) / rate`. -/
theorem getRowSum_computeUniformizedMatrix (rateMatrix : SparseMatrix) (maybeStates : BitVector)
    (uniformizationRate : ℚ) (exitRates : List ℚ) (hwf : SparseMatrix.WellFormed rateMatrix)
    (a : Nat) (h : a < (BitVector.setBits maybeStates).length) :
    SparseMatrix.getRowSum
        (computeUniformizedMatrix rateMatrix maybeStates uniformizationRate exitRates) a
      = entrySum ((SparseMatrix.getRow rateMatrix ((BitVector.setBits maybeStates)[a])).filter
            (fun e => BitVector.get maybeStates e.1)) / uniformizationRate
          + (1 - exitRates.getD ((BitVector.setBits maybeStates)[a]) 0 / uniformizationRate) := by
  unfold SparseMatrix.getRowSum
  rw [getRow_computeUniformizedMatrix _ _ _ _ a h]
  exact entrySum_uniformize_getSubmatrixRow maybeStates uniformizationRate exitRates a _ h _
    (SparseMatrix.sorted_getRow hwf _)

theorem entrySum_nonneg (row : List (Nat × ℚ)) (h : ∀ e ∈ row, 0 ≤ e.2) : 0 ≤ entrySum row := by
  induction row with
  | nil => simp [entrySum]
  | cons e rest ih =>
    rw [entrySum_cons]
    have h1 := h e (List.mem_cons_self _ _)
    have h2 := ih (fun e' he' => h e' (List.mem_cons_of_mem _ he'))
    linarith

theorem entrySum_eq_zero_iff (row : List (Nat × ℚ)) (h : ∀ e ∈ row, 0 ≤ e.2) :
    entrySum row = 0 ↔ ∀ e ∈ row, ¬ 0 < e.2 := by
  induction row with
  | nil => simp [entrySum]
  | cons e rest ih =>
    rw [entrySum_cons]
    have h1 := h e (List.mem_cons_self _ _)
    have hrest : ∀ e' ∈ rest, 0 ≤ e'.2 := fun e' he' => h e' (List.mem_cons_of_mem _ he')
    have h2 := entrySum_nonneg rest hrest
    have ih' := ih hrest
    constructor
    · intro hsum e' he'
      rcases List.mem_cons.mp he' with rfl | hmem
      · linarith
      · exact ih'.mp (by linarith) e' hmem
    · intro hall
      have he := hall e (List.mem_cons_self _ _)
      have hr := ih'.mpr (fun e' he' => hall e' (List.mem_cons_of_mem _ he'))
      linarith

/-- Away from the diagonal position, looking up the renumbered column `b` in a row of
`getSubmatrix` finds the first selected entry of the original row whose column has rank `b`. -/
theorem find_getSubmatrixRow_offDiagonal (K : BitVector) (ins : Bool) (r b : Nat) (hb : b ≠ r) :
    ∀ (rest : List (Nat × ℚ)) (inserted : Bool),
      ((getSubmatrixRow K ins r inserted rest).find? (fun e => e.1 == b)).map (fun e => e.2)
        = (rest.find? (fun e => BitVector.get K e.1 && (BitVector.rank K e.1 == b))).map
            (fun e => e.2) := by
  intro rest
  induction rest with
  | nil =>
    intro inserted
    have hrb : (r == b) = false := by simpa using fun h => hb h.symm
    unfold getSubmatrixRow
    split <;> simp [List.find?, hrb]
  | cons e rest ih =>
    intro inserted
    have hrb : (r == b) = false := by simpa using fun h => hb h.symm
    by_cases hK : BitVector.get K e.1 = true
    · by_cases hcol : BitVector.rank K e.1 = b
      · have hne : BitVector.rank K e.1 ≠ r := by omega
        unfold getSubmatrixRow
        simp only [hK, if_true, hne, if_false]
        split <;> simp [List.find?, hrb, hcol, hK]
      · have hcolb : (BitVector.rank K e.1 == b) = false := by simpa using hcol
        unfold getSubmatrixRow
        simp only [hK, if_true]
        split
        · simp [List.find?, hcolb, hK, ih]
        · split
          · simp [List.find?, hrb, hcolb, hK, ih]
          · simp [List.find?, hcolb, hK, ih]
    · have hKf : BitVector.get K e.1 = false := by simpa using hK
      unfold getSubmatrixRow
      simp [List.find?, hKf, ih]

/-- With forced diagonal, a row of `getSubmatrix` of a sorted row has an entry at the diagonal
position: the original one when the row has one, and zero otherwise. -/
theorem find_getSubmatrixRow_diagonal (K : BitVector) (r : Nat)
    (hr : r < BitVector.getNumberOfSetBits K) :
    ∀ rest : List (Nat × ℚ), (rest.map (fun e => e.1)).Pairwise (fun a b => a < b) →
      ((getSubmatrixRow K true r false rest).find? (fun e => e.1 == r)).map (fun e => e.2)
        = some (((rest.find? (fun e => BitVector.get K e.1 && (BitVector.rank K e.1 == r))).map
            (fun e => e.2)).getD 0) := by
  intro rest
  induction rest with
  | nil => intro _; simp [getSubmatrixRow, hr]
  | cons e rest ih =>
    intro hsorted
    rw [List.map_cons, List.pairwise_cons] at hsorted
    obtain ⟨hhead, htail⟩ := hsorted
    have ih' := ih htail
    by_cases hK : BitVector.get K e.1 = true
    · have hafter : ∀ e' ∈ rest, BitVector.get K e'.1 = true →
          BitVector.rank K e.1 < BitVector.rank K e'.1 := by
        intro e' he' _
        exact BitVector.rank_lt K (hhead e'.1 (List.mem_map_of_mem _ he')) hK
      by_cases hdiag : BitVector.rank K e.1 = r
      · unfold getSubmatrixRow
        simp [hK, hdiag, List.find?]
      · have hner : (BitVector.rank K e.1 == r) = false := by simpa using hdiag
        by_cases hlt : r < BitVector.rank K e.1
        · have hnone : rest.find?
              (fun e => BitVector.get K e.1 && (BitVector.rank K e.1 == r)) = none := by
            rw [List.find?_eq_none]
            intro e' he'
            by_cases hK' : BitVector.get K e'.1 = true
            · have := hafter e' he' hK'
              have hne' : BitVector.rank K e'.1 ≠ r := by omega
              simp [hne']
            · simp [hK']
          unfold getSubmatrixRow
          simp [hK, hdiag, hlt, List.find?, hner, hnone]
        · unfold getSubmatrixRow
          simp [hK, hdiag, hlt, List.find?, hner, ih']
    · have hKf : BitVector.get K e.1 = false := by simpa using hK
      unfold getSubmatrixRow
      simp [hKf, List.find?, ih']

theorem find_map_uniformizeEntry (q : ℚ) (E : List ℚ) (a state b : Nat)
    (row : List (Nat × ℚ)) :
    (row.map (uniformizeEntry q E a state)).find? (fun e => e.1 == b)
      = (row.find? (fun e => e.1 == b)).map (uniformizeEntry q E a state) := by
  rw [List.find?_map]
  congr 2
  funext e
  unfold uniformizeEntry
  simp only [Function.comp]
  split <;> rfl

theorem find_column_eq (K : BitVector) (c : Nat) (hc : BitVector.get K c = true)
    (row : List (Nat × ℚ)) :
    row.find? (fun e => BitVector.get K e.1 && (BitVector.rank K e.1 == BitVector.rank K c))
      = row.find? (fun e => e.1 == c) := by
  congr 1
  funext e
  by_cases h : e.1 = c
  · simp [h, hc]
  · have hne : (e.1 == c) = false := by simpa using h
    rw [hne]
    by_cases hK : BitVector.get K e.1 = true
    · have : BitVector.rank K e.1 ≠ BitVector.rank K c :=
        fun heq => h (BitVector.rank_injective K hK hc heq)
      simp [this]
    · simp [hK]

theorem BitVector.sorted_setBits (b : BitVector) :
    (BitVector.setBits b).Pairwise (fun x y => x < y) := by
  unfold BitVector.setBits
  exact List.Pairwise.filter _ (List.pairwise_lt_range _)

theorem find_rank_eq (K : BitVector) (a : Nat) (ha : a < (BitVector.setBits K).length)
    (row : List (Nat × ℚ)) :
    row.find? (fun e => BitVector.get K e.1 && (BitVector.rank K e.1 == a))
      = row.find? (fun e => e.1 == (BitVector.setBits K)[a]) := by
  have h := find_column_eq K ((BitVector.setBits K)[a]) (BitVector.get_getElem_setBits K a ha) row
  rw [BitVector.rank_getElem_setBits K a ha] at h
  exact h

theorem exampleRateMatrix_wellFormed : SparseMatrix.WellFormed exampleRateMatrix := by
  simp [SparseMatrix.WellFormed, exampleRateMatrix]

theorem getElem?_setVectorValue (vector : List ℚ) (positions : BitVector) (value : ℚ)
    (s : Nat) :
    (setVectorValue vector positions value)[s]?
      = vector[s]?.map (fun x => if BitVector.get positions s then value else x) := by
  simp [setVectorValue, List.getElem?_mapIdx]

theorem getElem?_setVectorValues (vector : List ℚ) (positions : BitVector) (values : List ℚ)
    (s : Nat) :
    (setVectorValues vector positions values)[s]?
      = vector[s]?.map (fun x =>
          if BitVector.get positions s then values.getD (BitVector.rank positions s) 0
          else x) := by
  simp [setVectorValues, List.getElem?_mapIdx]

theorem zeroOutside_replicate (states : BitVector) (n m : Nat) :
    ZeroOutside states n (List.replicate m 0) := by
  intro s _ _ v hv
  rw [List.getElem?_replicate] at hv
  split at hv
  · exact (Option.some.inj hv).symm
  · cases hv

theorem zeroOutside_setVectorValue {states : BitVector} {n : Nat} {vector : List ℚ}
    (h : ZeroOutside states n vector) (positions : BitVector) (value : ℚ)
    (hsub : ∀ s, s < n → BitVector.get states s = false → BitVector.get positions s = false) :
    ZeroOutside states n (setVectorValue vector positions value) := by
  intro s hs hout v hv
  rw [getElem?_setVectorValue] at hv
  cases hvec : vector[s]? with
  | none => rw [hvec] at hv; cases hv
  | some x =>
    rw [hvec] at hv
    simp only [Option.map_some', hsub s hs hout, Bool.false_eq_true, if_false,
      Option.some.injEq] at hv
    rw [← hv]
    exact h s hs hout x hvec

theorem zeroOutside_setVectorValues {states : BitVector} {n : Nat} {vector : List ℚ}
    (h : ZeroOutside states n vector) (positions : BitVector) (values : List ℚ)
    (hsub : ∀ s, s < n → BitVector.get states s = false → BitVector.get positions s = false) :
    ZeroOutside states n (setVectorValues vector positions values) := by
  intro s hs hout v hv
  rw [getElem?_setVectorValues] at hv
  cases hvec : vector[s]? with
  | none => rw [hvec] at hv; cases hv
  | some x =>
    rw [hvec] at hv
    simp only [Option.map_some', hsub s hs hout, Bool.false_eq_true, if_false,
      Option.some.injEq] at hv
    rw [← hv]
    exact h s hs hout x hvec

/-- Writing zero on the complement of a set that lies inside `states` and spans the first `n`
states makes any vector zero outside `states`. -/
theorem zeroOutside_setVectorValue_complement (states relevant : BitVector) (n : Nat)
    (vector : List ℚ) (hlen : n ≤ relevant.length)
    (hsub : ∀ s, BitVector.get states s = false → BitVector.get relevant s = false) :
    ZeroOutside states n (setVectorValue vector (BitVector.complement relevant) 0) := by
  intro s hs hout v hv
  rw [getElem?_setVectorValue] at hv
  cases hvec : vector[s]? with
  | none => rw [hvec] at hv; cases hv
  | some x =>
    rw [hvec] at hv
    have hc : BitVector.get (BitVector.complement relevant) s = true := by
      rw [BitVector.get_complement, hsub s hout]
      simp
      omega
    simp only [Option.map_some', hc, if_true, Option.some.injEq] at hv
    exact hv.symm

theorem BitVector.get_and_eq_false_left (a b : BitVector) (s : Nat)
    (h : BitVector.get a s = false) : BitVector.get (BitVector.and a b) s = false := by
  rw [BitVector.get_and, h]
  rfl

theorem BitVector.get_and_left {a b : BitVector} {s : Nat}
    (h : BitVector.get (BitVector.and a b) s = true) : BitVector.get a s = true := by
  rw [BitVector.get_and] at h
  exact (Bool.and_eq_true _ _ ▸ h).1

theorem performProbGreater0_example :
    performProbGreater0 exampleBackwardTransitions [true, true, true] [false, true, false]
      = [true, true, false] := by
  decide

theorem uniformizationRateOf_example :
    uniformizationRateOf [true, false, false] exampleExitRates = 3.06 := by
  have h : BitVector.setBits [true, false, false] = [0] := by decide
  simp only [uniformizationRateOf, h, exampleExitRates]
  norm_num

theorem computeUniformizedMatrix_example :
    computeUniformizedMatrix exampleRateMatrix [true, false, false] 3.06 exampleExitRates
      = ⟨1, [[(0, 1 / 51)]]⟩ := by
  simp [computeUniformizedMatrix, SparseMatrix.getSubmatrix, BitVector.getNumberOfSetBits,
    BitVector.setBits, BitVector.get, BitVector.rank, SparseMatrix.getRow, getSubmatrixRow,
    uniformizeEntry, exampleRateMatrix, exampleExitRates, List.range_succ, List.filter]
  norm_num

theorem computeMaybeStateProbabilities_example :
    computeMaybeStateProbabilities exampleEnvironment exampleRateMatrix [true, false, false]
      [false, true, false] exampleExitRates 1 = Except.ok [15200 / 38103] := by
  have hb : SparseMatrix.getConstrainedRowSumVector exampleRateMatrix [true, false, false]
      [false, true, false] = [2] := by
    simp [SparseMatrix.getConstrainedRowSumVector, BitVector.setBits, BitVector.get,
      SparseMatrix.getRow, exampleRateMatrix, entrySum, List.range_succ, List.filter]
  have hn : BitVector.getNumberOfSetBits [true, false, false] = 1 := by decide
  unfold computeMaybeStateProbabilities
  rw [uniformizationRateOf_example]
  simp only []
  rw [computeUniformizedMatrix_example, hb, hn, if_pos (by norm_num)]
  simp [computeTransientProbabilities, computeTransientProbabilitiesTraced, exampleEnvironment,
    transientWeights, windowStep, List.range'_succ, multiply, multiplyRow, applyPointwise,
    SparseMatrix.getRow, List.range_succ]
  norm_num

/-- The example chain on the interval `[0, 1]`, with every state a phi state and state 1 the psi
state: the 'maybe' state 0 is uniformized and state 2, which cannot reach state 1, gets 0. -/
theorem computeBoundedUntilProbabilitiesTraced_example :
    computeBoundedUntilProbabilitiesTraced exampleEnvironment SolveGoal.default
        exampleRateMatrix exampleBackwardTransitions [true, true, true] [false, true, false]
        exampleExitRates false 0 (some 1)
      = (⟨true, [[true, false, false]]⟩, Except.ok [15200 / 38103, 1, 0]) := by
  have hM : BitVector.and [true, true, false] (BitVector.complement [false, true, false])
      = [true, false, false] := by decide
  have hG : (!BitVector.empty [true, true, false]) = true := by decide
  have hMne : (!BitVector.empty [true, false, false]) = true := by decide
  unfold computeBoundedUntilProbabilitiesTraced
  simp only [performProbGreater0_example, hM, hG, hMne, if_true,
    computeMaybeStateProbabilities_example]
  simp [setVectorValues, setVectorValue, SparseMatrix.getRowCount, exampleRateMatrix,
    BitVector.get, BitVector.rank, List.mapIdx_cons]

theorem getElem_one_cons {α : Type} (a b : α) (l : List α) (h : 1 < (a :: b :: l).length) :
    (a :: b :: l)[1] = b := rfl

theorem performProbGreater0_twoState :
    performProbGreater0 twoStateBackwardTransitions [true, false] [false, true]
      = [true, true] := by
  decide

/-- The result of `computeTransientProbabilities` in plain mode as a weighted sum of the
iterates `x_0 = v`, `x_(k+1) = P * x_k + a`. -/
theorem computeTransientProbabilities_plain_formula (env : Environment) (P : SparseMatrix)
    (a : Option (List ℚ)) (timeBound uniformizationRate : ℚ) (v : List ℚ)
    (hlambda : timeBound * uniformizationRate ≠ 0)
    (hP : SparseMatrix.getRowCount P = v.length) :
    (computeTransientProbabilities env false P a timeBound uniformizationRate v).length
        = v.length
      ∧ ∀ i, (computeTransientProbabilities env false P a timeBound uniformizationRate v).getD
            i 0
          = ∑ k ∈ Finset.Icc
                (env.foxGlynn (timeBound * uniformizationRate) (env.precision / 8)).left
                (env.foxGlynn (timeBound * uniformizationRate) (env.precision / 8)).right,
              (env.foxGlynn (timeBound * uniformizationRate) (env.precision / 8)).weights.getD
                  (k - (env.foxGlynn (timeBound * uniformizationRate)
                    (env.precision / 8)).left) 0
                / (env.foxGlynn (timeBound * uniformizationRate)
                    (env.precision / 8)).totalWeight
                * (transientIterate P a v k).getD i 0 := by
  generalize hfg : env.foxGlynn (timeBound * uniformizationRate) (env.precision / 8) = fg
  have hP' : P.rows.length = v.length := hP
  unfold computeTransientProbabilities computeTransientProbabilitiesTraced
  simp only [hlambda, if_false, hfg, transientWeights, Bool.false_eq_true, Bool.not_false,
    Bool.true_and]
  by_cases hleft : fg.left = 0
  · -- the window starts at index 0: the initial vector is scaled by the first weight
    simp only [hleft, if_true]
    rw [if_neg (by decide)]
    obtain ⟨-, h2, h3, -, -⟩ := foldl_windowStep P a
      (fg.weights.map (fun element => element / fg.totalWeight)) 0 (fg.right + 1 - 1) 1
      { values := v
        result := v.map (fun x => x
          * (fg.weights.map (fun element => element / fg.totalWeight)).getD 0 0)
        applications := []
        foxGlynnCalls := [(timeBound * uniformizationRate, env.precision / 8)] }
      (by simp [hP'])
    refine ⟨by rw [h2, hP'], ?_⟩
    intro i
    rw [h3 i, sum_Icc_eq_sum_range]
    simp only [Nat.add_sub_cancel, Nat.sub_zero, Nat.zero_add]
    rw [Finset.sum_range_succ']
    rw [getD_map_zero (fun x => x
      * (fg.weights.map (fun element => element / fg.totalWeight)).getD 0 0) (zero_mul _)]
    simp only [getD_normalizedWeights, transientIterate]
    have : ∀ j, 1 + j = j + 1 := fun j => Nat.add_comm 1 j
    simp only [this]
    ring
  · -- the window starts at `left ≥ 1`: the result starts at zero
    have hpos : 1 ≤ fg.left := Nat.one_le_iff_ne_zero.mpr hleft
    simp only [hleft, if_false]
    have hvalues : (if decide (fg.left > 1) = true then
          ({ values := repeatedMultiply P v a (fg.left - 1)
             result := List.replicate v.length 0
             applications := List.replicate (fg.left - 1) a
             foxGlynnCalls := [(timeBound * uniformizationRate, env.precision / 8)] }
            : TransientState)
        else
          { values := v
            result := List.replicate v.length 0
            applications := []
            foxGlynnCalls := [(timeBound * uniformizationRate, env.precision / 8)] })
        = { values := transientIterate P a v (fg.left - 1)
            result := List.replicate v.length 0
            applications := List.replicate (fg.left - 1) a
            foxGlynnCalls := [(timeBound * uniformizationRate, env.precision / 8)] } := by
      by_cases h1 : fg.left > 1
      · simp [h1, repeatedMultiply_eq_transientIterate]
      · have : fg.left = 1 := by omega
        simp [this, transientIterate]
    rw [hvalues]
    obtain ⟨-, h2, h3, -, -⟩ := foldl_windowStep P a
      (fg.weights.map (fun element => element / fg.totalWeight)) fg.left
      (fg.right + 1 - fg.left) fg.left
      { values := transientIterate P a v (fg.left - 1)
        result := List.replicate v.length 0
        applications := List.replicate (fg.left - 1) a
        foxGlynnCalls := [(timeBound * uniformizationRate, env.precision / 8)] }
      (by simp [hP'])
    refine ⟨by rw [h2, hP'], ?_⟩
    intro i
    rw [h3 i, sum_Icc_eq_sum_range, getD_replicate_zero, zero_add]
    apply Finset.sum_congr rfl
    intro j _
    rw [transientIterate_add, getD_normalizedWeights]
    have e : fg.left - 1 + (j + 1) = fg.left + j := by omega
    rw [e]

theorem uniformizationRateOf_twoState_all :
    uniformizationRateOf [true, true] [1, 0] = 1.02 := by
  have h : BitVector.setBits [true, true] = [0, 1] := by decide
  simp only [uniformizationRateOf, h]
  norm_num

theorem uniformizationRateOf_twoState_phi :
    uniformizationRateOf [true, false] [1, 0] = 1.02 := by
  have h : BitVector.setBits [true, false] = [0] := by decide
  simp only [uniformizationRateOf, h]
  norm_num

theorem computeUniformizedMatrix_twoState_all :
    computeUniformizedMatrix twoStateRateMatrix [true, true] 1.02 [1, 0]
      = ⟨2, [[(0, 1 / 51), (1, 50 / 51)], [(1, 1)]]⟩ := by
  have h : computeUniformizedMatrix twoStateRateMatrix [true, true] 1.02 [1, 0]
      = ⟨2, [[(0, (0 - 1) / 1.02 + 1), (1, 1 / 1.02)], [(1, (0 - 0) / 1.02 + 1)]]⟩ := rfl
  rw [h]
  norm_num

theorem computeUniformizedMatrix_twoState_phi :
    computeUniformizedMatrix twoStateRateMatrix [true, false] 1.02 [1, 0]
      = ⟨1, [[(0, 1 / 51)]]⟩ := by
  have h : computeUniformizedMatrix twoStateRateMatrix [true, false] 1.02 [1, 0]
      = ⟨1, [[(0, (0 - 1) / 1.02 + 1)]]⟩ := rfl
  rw [h]
  norm_num

theorem propagateOver_twoState_all (env : Environment) (v : List ℚ) :
    propagateOver env twoStateRateMatrix [true, true] [1, 0] 1 v
      = Except.ok (computeTransientProbabilities env false
          ⟨2, [[(0, 1 / 51), (1, 50 / 51)], [(1, 1)]]⟩ none 1 1.02 v) := by
  unfold propagateOver
  rw [uniformizationRateOf_twoState_all]
  simp only []
  rw [computeUniformizedMatrix_twoState_all, if_pos (by norm_num)]

theorem propagateOver_twoState_phi (env : Environment) (v : List ℚ) :
    propagateOver env twoStateRateMatrix [true, false] [1, 0] 1 v
      = Except.ok (computeTransientProbabilities env false ⟨1, [[(0, 1 / 51)]]⟩ none 1 1.02
          v) := by
  unfold propagateOver
  rw [uniformizationRateOf_twoState_phi]
  simp only []
  rw [computeUniformizedMatrix_twoState_phi, if_pos (by norm_num)]

/-- The absorbing psi state keeps the value 1 in every iterate of the matrix uniformized across
both states. -/
theorem transientIterate_twoState_all (k : Nat) :
    (transientIterate ⟨2, [[(0, 1 / 51), (1, 50 / 51)], [(1, 1)]]⟩ none [0, 1] k).getD 1 0
      = 1 := by
  induction k with
  | zero => rfl
  | succ k ih =>
    have h : (transientIterate ⟨2, [[(0, 1 / 51), (1, 50 / 51)], [(1, 1)]]⟩ none [0, 1]
        (k + 1)).getD 1 0
        = 1 * (transientIterate ⟨2, [[(0, 1 / 51), (1, 50 / 51)], [(1, 1)]]⟩ none [0, 1]
            k).getD 1 0 + 0 + 0 := rfl
    rw [h, ih]
    norm_num

/-- The zero vector stays zero in every iterate of the matrix uniformized across the phi
state. -/
theorem transientIterate_twoState_phi (k : Nat) :
    transientIterate ⟨1, [[(0, 1 / 51)]]⟩ none [0] k = [0] := by
  induction k with
  | zero => rfl
  | succ k ih =>
    have h : transientIterate ⟨1, [[(0, 1 / 51)]]⟩ none [0] (k + 1)
        = multiply ⟨1, [[(0, 1 / 51)]]⟩ (transientIterate ⟨1, [[(0, 1 / 51)]]⟩ none [0] k)
            none := rfl
    rw [h, ih]
    have h2 : multiply ⟨1, [[(0, 1 / 51)]]⟩ [0] none = [1 / 51 * 0 + 0 + 0] := rfl
    rw [h2]
    norm_num

theorem foldl_max_spec (l : List ℚ) (a : ℚ) :
    a ≤ l.foldl max a ∧ (∀ x ∈ l, x ≤ l.foldl max a)
      ∧ (l.foldl max a = a ∨ l.foldl max a ∈ l) := by
  induction l generalizing a with
  | nil => simp
  | cons y ys ih =>
    obtain ⟨h1, h2, h3⟩ := ih (max a y)
    simp only [List.foldl_cons, List.mem_cons]
    refine ⟨le_trans (le_max_left a y) h1, ?_, ?_⟩
    · intro x hx
      rcases hx with rfl | hx
      · exact le_trans (le_max_right a x) h1
      · exact h2 x hx
    · rcases h3 with h3 | h3
      · rcases max_choice a y with hm | hm
        · left; rw [h3, hm]
        · right; left; rw [h3, hm]
      · right; right; exact h3

theorem uniformizationRateOf_eq (states : BitVector) (exitRates : List ℚ) :
    uniformizationRateOf states exitRates
      = ((BitVector.setBits states).map (fun s => exitRates.getD s 0)).foldl max 0 * 1.02 := by
  unfold uniformizationRateOf
  rw [List.foldl_map]

theorem inflated_pos_iff (l : List ℚ) : 0 < l.foldl max 0 * 1.02 ↔ ∃ x ∈ l, 0 < x := by
  obtain ⟨h1, h2, h3⟩ := foldl_max_spec l 0
  constructor
  · intro h
    have hpos : 0 < l.foldl max 0 := by
      by_contra hn
      have : l.foldl max 0 = 0 := le_antisymm (not_lt.mp hn) h1
      rw [this] at h
      norm_num at h
    rcases h3 with h3 | h3
    · rw [h3] at hpos; exact absurd hpos (lt_irrefl _)
    · exact ⟨_, h3, hpos⟩
  · rintro ⟨x, hx, hpos⟩
    have : 0 < l.foldl max 0 := lt_of_lt_of_le hpos (h2 x hx)
    positivity

theorem inflated_ge (l : List ℚ) : ∀ x ∈ l, x ≤ l.foldl max 0 * 1.02 := by
  obtain ⟨h1, h2, _⟩ := foldl_max_spec l 0
  intro x hx
  have := h2 x hx
  linarith

theorem inflated_attained (l : List ℚ) (h : 0 < l.foldl max 0 * 1.02) :
    ∃ m ∈ l, l.foldl max 0 * 1.02 = 1.02 * m ∧ ∀ x ∈ l, x ≤ m := by
  obtain ⟨h1, h2, h3⟩ := foldl_max_spec l 0
  rcases h3 with h3 | h3
  · rw [h3] at h; norm_num at h
  · exact ⟨_, h3, by ring, h2⟩

theorem uniformizationRateOf_pos_iff (states : BitVector) (exitRates : List ℚ) :
    0 < uniformizationRateOf states exitRates
      ↔ ∃ s ∈ BitVector.setBits states, 0 < exitRates.getD s 0 := by
  rw [uniformizationRateOf_eq, inflated_pos_iff]
  simp

theorem uniformizationRateOf_ge (states : BitVector) (exitRates : List ℚ) :
    ∀ s ∈ BitVector.setBits states, exitRates.getD s 0 ≤ uniformizationRateOf states exitRates := by
  intro s hs
  rw [uniformizationRateOf_eq]
  exact inflated_ge _ _ (List.mem_map_of_mem _ hs)

theorem uniformizationRateOf_nonneg (states : BitVector) (exitRates : List ℚ) :
    0 ≤ uniformizationRateOf states exitRates := by
  rw [uniformizationRateOf_eq]
  have := (foldl_max_spec ((BitVector.setBits states).map (fun s => exitRates.getD s 0)) 0).1
  positivity

theorem isInflatedMaximalExitRate_uniformizationRateOf (states : BitVector) (exitRates : List ℚ)
    (h : 0 < uniformizationRateOf states exitRates) :
    IsInflatedMaximalExitRate states exitRates (uniformizationRateOf states exitRates) := by
  rw [uniformizationRateOf_eq] at h ⊢
  obtain ⟨m, hm, heq, hmax⟩ := inflated_attained _ h
  rw [List.mem_map] at hm
  obtain ⟨s, hs, rfl⟩ := hm
  exact ⟨s, hs, heq, fun s' hs' => hmax _ (List.mem_map_of_mem _ hs')⟩

theorem BitVector.empty_eq_true_iff (b : BitVector) :
    BitVector.empty b = true ↔ ∀ i, BitVector.get b i = false := by
  constructor
  · exact fun h i => BitVector.get_of_empty h i
  · intro h
    unfold BitVector.empty
    rw [List.all_eq_true]
    intro x hx
    obtain ⟨i, hi, rfl⟩ := List.getElem_of_mem hx
    have := h i
    simp [BitVector.get, List.getD_eq_getElem?_getD, List.getElem?_eq_getElem hi] at this
    simp [this]

theorem BitVector.empty_and_of_empty_left {a : BitVector} (b : BitVector)
    (h : BitVector.empty a = true) : BitVector.empty (BitVector.and a b) = true := by
  rw [BitVector.empty_eq_true_iff] at h ⊢
  exact fun i => BitVector.get_and_eq_false_left a b i (h i)

theorem length_setVectorValue (vector : List ℚ) (positions : BitVector) (value : ℚ) :
    (setVectorValue vector positions value).length = vector.length := by
  simp [setVectorValue]

theorem length_setVectorValues (vector : List ℚ) (positions : BitVector) (values : List ℚ) :
    (setVectorValues vector positions values).length = vector.length := by
  simp [setVectorValues]

/-- The interval `[0, t]` with `t ≠ 0`, branch by branch. -/
theorem computeBoundedUntilProbabilities_zero_to (env : Environment) (goal : SolveGoal)
    (rateMatrix backwardTransitions : SparseMatrix) (phiStates psiStates : BitVector)
    (exitRates : List ℚ) (qualitative : Bool) (t : ℚ) (ht : t ≠ 0) :
    computeBoundedUntilProbabilities env goal rateMatrix backwardTransitions phiStates psiStates
        exitRates qualitative 0 (some t)
      = if BitVector.empty (performProbGreater0 backwardTransitions phiStates psiStates) = true
        then Except.ok (List.replicate (SparseMatrix.getRowCount rateMatrix) 0)
        else if BitVector.empty (maybeStatesOf backwardTransitions phiStates psiStates) = true
        then Except.ok
          (setVectorValue (List.replicate (SparseMatrix.getRowCount rateMatrix) 0) psiStates 1)
        else match computeMaybeStateProbabilities env rateMatrix
            (maybeStatesOf backwardTransitions phiStates psiStates) psiStates exitRates t with
          | Except.error e => Except.error e
          | Except.ok subresult => Except.ok (setVectorValues
              (setVectorValue (List.replicate (SparseMatrix.getRowCount rateMatrix) 0)
                psiStates 1)
              (maybeStatesOf backwardTransitions phiStates psiStates) subresult) := by
  unfold computeBoundedUntilProbabilities computeBoundedUntilProbabilitiesTraced maybeStatesOf
  simp only [ht, if_false, true_and, reduceCtorEq, and_false]
  by_cases hG : BitVector.empty (performProbGreater0 backwardTransitions phiStates psiStates)
      = true
  · simp [hG]
  · simp only [hG, Bool.not_eq_true] at *
    simp only [hG, Bool.not_false, if_true]
    by_cases hM : BitVector.empty (BitVector.and
        (performProbGreater0 backwardTransitions phiStates psiStates)
        (BitVector.complement psiStates)) = true
    · simp [hM]
    · simp only [Bool.not_eq_true] at hM
      simp only [hM, Bool.not_false, if_true, Bool.false_eq_true, if_false]
      cases computeMaybeStateProbabilities env rateMatrix
        (BitVector.and (performProbGreater0 backwardTransitions phiStates psiStates)
          (BitVector.complement psiStates)) psiStates exitRates t <;> rfl

theorem computeMaybeStateProbabilities_of_pos (env : Environment) (rateMatrix : SparseMatrix)
    (maybeStates psiStates : BitVector) (exitRates : List ℚ) (timeBound : ℚ)
    (h : 0 < uniformizationRateOf maybeStates exitRates) :
    computeMaybeStateProbabilities env rateMatrix maybeStates psiStates exitRates timeBound
      = Except.ok (computeTransientProbabilities env false
          (computeUniformizedMatrix rateMatrix maybeStates
            (uniformizationRateOf maybeStates exitRates) exitRates)
          (some ((BitVector.setBits maybeStates).map (fun s =>
            entrySum ((SparseMatrix.getRow rateMatrix s).filter
              (fun e => BitVector.get psiStates e.1))
              / uniformizationRateOf maybeStates exitRates)))
          timeBound (uniformizationRateOf maybeStates exitRates)
          (List.replicate (BitVector.getNumberOfSetBits maybeStates) 0)) := by
  unfold computeMaybeStateProbabilities
  simp only [gt_iff_lt, h, if_true, SparseMatrix.getConstrainedRowSumVector, List.map_map]
  rfl

theorem computeMaybeStateProbabilities_of_not_pos (env : Environment)
    (rateMatrix : SparseMatrix) (maybeStates psiStates : BitVector) (exitRates : List ℚ)
    (timeBound : ℚ) (h : ¬ 0 < uniformizationRateOf maybeStates exitRates) :
    computeMaybeStateProbabilities env rateMatrix maybeStates psiStates exitRates timeBound
      = Except.error Error.invalidState := by
  unfold computeMaybeStateProbabilities
  simp only [gt_iff_lt, h, if_false]

theorem propagateOver_of_pos (env : Environment) (rateMatrix : SparseMatrix)
    (states : BitVector) (exitRates : List ℚ) (timeBound : ℚ) (values : List ℚ)
    (h : 0 < uniformizationRateOf states exitRates) :
    propagateOver env rateMatrix states exitRates timeBound values
      = Except.ok (computeTransientProbabilities env false
          (computeUniformizedMatrix rateMatrix states (uniformizationRateOf states exitRates)
            exitRates)
          none timeBound (uniformizationRateOf states exitRates) values) := by
  unfold propagateOver
  simp only [gt_iff_lt, h, if_true]

theorem propagateOver_of_not_pos (env : Environment) (rateMatrix : SparseMatrix)
    (states : BitVector) (exitRates : List ℚ) (timeBound : ℚ) (values : List ℚ)
    (h : ¬ 0 < uniformizationRateOf states exitRates) :
    propagateOver env rateMatrix states exitRates timeBound values
      = Except.error Error.invalidState := by
  unfold propagateOver
  simp only [gt_iff_lt, h, if_false]

theorem maybeStatesOf_example :
    maybeStatesOf exampleBackwardTransitions [true, true, true] [false, true, false]
      = [true, false, false] := by
  decide

/-- The interval `[t, inf]` with `t ≠ 0`, branch by branch. -/
theorem computeBoundedUntilProbabilities_from (env : Environment) (goal : SolveGoal)
    (rateMatrix backwardTransitions : SparseMatrix) (phiStates psiStates : BitVector)
    (exitRates : List ℚ) (qualitative : Bool) (t : ℚ) (ht : t ≠ 0) :
    computeBoundedUntilProbabilities env goal rateMatrix backwardTransitions phiStates psiStates
        exitRates qualitative t none
      = if BitVector.empty (performProbGreater0 backwardTransitions phiStates psiStates) = true
        then Except.ok (List.replicate (SparseMatrix.getRowCount rateMatrix) 0)
        else match computeUntilProbabilities env SolveGoal.default rateMatrix
            backwardTransitions exitRates phiStates psiStates qualitative with
          | Except.error e => Except.error e
          | Except.ok result =>
            match propagateOver env rateMatrix
                (relevantStatesOf backwardTransitions phiStates psiStates) exitRates t
                (selectVectorValues (relevantStatesOf backwardTransitions phiStates psiStates)
                  result) with
            | Except.error e => Except.error e
            | Except.ok subResult => Except.ok (setVectorValues
                (setVectorValue result
                  (BitVector.complement
                    (relevantStatesOf backwardTransitions phiStates psiStates)) 0)
                (relevantStatesOf backwardTransitions phiStates psiStates) subResult) := by
  unfold computeBoundedUntilProbabilities computeBoundedUntilProbabilitiesTraced relevantStatesOf
  simp only [ht, if_false, false_and]
  by_cases hG : BitVector.empty (performProbGreater0 backwardTransitions phiStates psiStates)
      = true
  · simp [hG]
  · simp only [Bool.not_eq_true] at hG
    simp only [hG, Bool.not_false, if_true, Bool.false_eq_true, if_false]
    cases computeUntilProbabilities env SolveGoal.default rateMatrix backwardTransitions
        exitRates phiStates psiStates qualitative with
    | error e => rfl
    | ok result =>
      simp only []
      cases propagateOver env rateMatrix
        (BitVector.and (performProbGreater0 backwardTransitions phiStates psiStates) phiStates)
        exitRates t
        (selectVectorValues
          (BitVector.and (performProbGreater0 backwardTransitions phiStates psiStates)
            phiStates) result) <;> rfl

theorem relevantStatesOf_example :
    relevantStatesOf exampleBackwardTransitions [true, true, true] [false, true, false]
      = [true, true, false] := by
  decide

theorem uniformizationRateOf_example_relevant :
    uniformizationRateOf [true, true, false] exampleExitRates = 3.06 := by
  have h : BitVector.setBits [true, true, false] = [0, 1] := by decide
  simp only [uniformizationRateOf, h, exampleExitRates]
  norm_num

/-- The entry of a state after the values of a state set have been written over a vector that
was zeroed on the complement of the set. -/
theorem getElem?_setVectorValues_complement (vector : List ℚ) (relevant : BitVector)
    (values : List ℚ) (s : Nat) (hs : s < vector.length) (hrel : s < relevant.length) :
    (setVectorValues (setVectorValue vector (BitVector.complement relevant) 0) relevant
        values)[s]?
      = some (if BitVector.get relevant s then values.getD (BitVector.rank relevant s) 0
          else 0) := by
  rw [getElem?_setVectorValues, getElem?_setVectorValue, List.getElem?_eq_getElem hs,
    BitVector.get_complement]
  by_cases h : BitVector.get relevant s = true
  · simp [h]
  · simp only [Bool.not_eq_true] at h
    simp [h, hrel]

/-- Every state of positive probability is a psi state or a phi state. -/
theorem performProbGreater0_subset (bt : SparseMatrix) (phi psi : BitVector) (s : Nat)
    (h : BitVector.get (performProbGreater0 bt phi psi) s = true) :
    BitVector.get psi s = true ∨ BitVector.get phi s = true := by
  have hiter : ∀ (k : Nat) (cur : BitVector),
      (BitVector.get cur s = true → BitVector.get psi s = true ∨ BitVector.get phi s = true) →
      BitVector.get ((performProbGreater0Step bt phi)^[k] cur) s = true →
      BitVector.get psi s = true ∨ BitVector.get phi s = true := by
    intro k
    induction k with
    | zero => intro cur hcur h; exact hcur h
    | succ k ih =>
      intro cur hcur h
      rw [Function.iterate_succ_apply'] at h
      unfold performProbGreater0Step at h
      rw [BitVector.get, getD_map_range] at h
      split at h
      · simp only [Bool.or_eq_true, Bool.and_eq_true] at h
        rcases h with h | h
        · exact ih cur hcur h
        · exact Or.inr h.1
      · cases h
  apply hiter phi.length _ _ h
  intro h0
  rw [BitVector.get, getD_map_range] at h0
  split at h0
  · exact Or.inl h0
  · cases h0

/-- The maybe states are relevant states. -/
theorem maybeStatesOf_subset_relevantStatesOf (bt : SparseMatrix) (phi psi : BitVector)
    (s : Nat) (h : BitVector.get (maybeStatesOf bt phi psi) s = true) :
    BitVector.get (relevantStatesOf bt phi psi) s = true := by
  rw [BitVector.get_and, BitVector.get_complement] at h
  simp only [Bool.and_eq_true, decide_eq_true_eq, Bool.not_eq_true'] at h
  rw [BitVector.get_and, h.1]
  rcases performProbGreater0_subset bt phi psi s h.1 with hpsi | hphi
  · rw [h.2.2] at hpsi; cases hpsi
  · rw [hphi]; rfl

theorem BitVector.length_setBits (b : BitVector) :
    (BitVector.setBits b).length = BitVector.getNumberOfSetBits b := rfl

theorem BitVector.getElem?_setBits_rank (b : BitVector) {c : Nat}
    (hc : BitVector.get b c = true) :
    (BitVector.setBits b)[BitVector.rank b c]? = some c := by
  have hk : BitVector.rank b c < (BitVector.setBits b).length :=
    BitVector.rank_lt_getNumberOfSetBits b hc
  rw [List.getElem?_eq_getElem hk]
  congr 1
  exact BitVector.rank_injective b (BitVector.get_getElem_setBits b _ hk) hc
    (BitVector.rank_getElem_setBits b _ hk)

theorem BitVector.get_restrict (a filter : BitVector) (k : Nat)
    (hk : k < (BitVector.setBits filter).length) :
    BitVector.get (BitVector.restrict a filter) k
      = BitVector.get a ((BitVector.setBits filter)[k]) := by
  unfold BitVector.restrict
  conv_lhs => unfold BitVector.get
  rw [List.getD_eq_getElem?_getD, List.getElem?_map, List.getElem?_eq_getElem hk]
  rfl

/-- The position of a state of `sub` within `sub % sup`, for `sub` inside `sup`. -/
theorem BitVector.rank_restrict (sub sup : BitVector)
    (hsub : ∀ i, BitVector.get sub i = true → BitVector.get sup i = true) (c : Nat) :
    BitVector.rank (BitVector.restrict sub sup) (BitVector.rank sup c)
      = BitVector.rank sub c := by
  induction c with
  | zero => rfl
  | succ c ih =>
    rw [BitVector.rank_succ sup, BitVector.rank_succ sub]
    by_cases hc : BitVector.get sup c = true
    · have hk : BitVector.rank sup c < (BitVector.setBits sup).length :=
        BitVector.rank_lt_getNumberOfSetBits sup hc
      have hget : (BitVector.setBits sup)[BitVector.rank sup c] = c := by
        have := BitVector.getElem?_setBits_rank sup hc
        rw [List.getElem?_eq_getElem hk] at this
        exact Option.some.inj this
      rw [hc, if_pos rfl, BitVector.rank_succ, ih, BitVector.get_restrict _ _ _ hk, hget]
    · simp only [Bool.not_eq_true] at hc
      have hs : BitVector.get sub c = false := by
        by_contra hne
        have := hsub c (by simpa using hne)
        rw [hc] at this
        cases this
      rw [hc, hs]
      simpa using ih

theorem setVectorValue_restrict (psi Rel : BitVector) :
    setVectorValue (List.replicate (BitVector.getNumberOfSetBits Rel) 0)
        (BitVector.restrict psi Rel) 1
      = (BitVector.setBits Rel).map (fun r => if BitVector.get psi r then (1 : ℚ) else 0) := by
  apply List.ext_getElem
  · rw [length_setVectorValue, List.length_replicate, List.length_map,
      BitVector.length_setBits]
  · intro k h1 h2
    have hk : k < (BitVector.setBits Rel).length := by simpa using h2
    have hget := getElem?_setVectorValue (List.replicate (BitVector.getNumberOfSetBits Rel) 0)
      (BitVector.restrict psi Rel) 1 k
    rw [List.getElem?_eq_getElem h1, List.getElem?_replicate,
      if_pos (show k < BitVector.getNumberOfSetBits Rel from hk),
      BitVector.get_restrict _ _ _ hk] at hget
    simp only [Option.map_some', Option.some.injEq] at hget
    rw [hget, List.getElem_map]

/-- The seed of the second stage that the source builds is the seed of the specification. -/
theorem secondStageSeed_eq (M Rel psi : BitVector) (subresult : List ℚ)
    (hsub : ∀ i, BitVector.get M i = true → BitVector.get Rel i = true) :
    setVectorValues
        (setVectorValue (List.replicate (BitVector.getNumberOfSetBits Rel) 0)
          (BitVector.restrict psi Rel) 1)
        (BitVector.restrict M Rel) subresult
      = secondStageSeedBySpecification M Rel psi subresult := by
  rw [setVectorValue_restrict]
  unfold secondStageSeedBySpecification
  apply List.ext_getElem
  · rw [length_setVectorValues, List.length_map, List.length_map]
  · intro k h1 h2
    have hk : k < (BitVector.setBits Rel).length := by simpa using h2
    have hget := getElem?_setVectorValues
      ((BitVector.setBits Rel).map (fun r => if BitVector.get psi r then (1 : ℚ) else 0))
      (BitVector.restrict M Rel) subresult k
    have hrank := BitVector.rank_restrict M Rel hsub ((BitVector.setBits Rel)[k])
    rw [BitVector.rank_getElem_setBits Rel k hk] at hrank
    rw [List.getElem?_eq_getElem h1, List.getElem?_map, List.getElem?_eq_getElem hk,
      BitVector.get_restrict _ _ _ hk, hrank] at hget
    simp only [Option.map_some', Option.some.injEq] at hget
    rw [hget, List.getElem_map]

/-- Without states in `M` the seed of the specification is the indicator of the psi states. -/
theorem secondStageSeed_of_empty (M Rel psi : BitVector) (firstStage : List ℚ)
    (hM : BitVector.empty M = true) :
    setVectorValue (List.replicate (BitVector.getNumberOfSetBits Rel) 0)
        (BitVector.restrict psi Rel) 1
      = secondStageSeedBySpecification M Rel psi firstStage := by
  rw [setVectorValue_restrict]
  unfold secondStageSeedBySpecification
  apply List.map_congr_left
  intro r _
  rw [BitVector.get_of_empty hM]
  rfl

/-- The interval `[t, t']` with `0 ≠ t ≠ t' ≠ 0`, branch by branch. -/
theorem computeBoundedUntilProbabilities_from_to (env : Environment) (goal : SolveGoal)
    (rateMatrix backwardTransitions : SparseMatrix) (phiStates psiStates : BitVector)
    (exitRates : List ℚ) (qualitative : Bool) (t u : ℚ) (ht : t ≠ 0) (hu : u ≠ 0)
    (htu : t ≠ u) :
    computeBoundedUntilProbabilities env goal rateMatrix backwardTransitions phiStates psiStates
        exitRates qualitative t (some u)
      = if BitVector.empty (performProbGreater0 backwardTransitions phiStates psiStates) = true
        then Except.ok (List.replicate (SparseMatrix.getRowCount rateMatrix) (0 : ℚ))
        else
          match (if BitVector.empty (maybeStatesOf backwardTransitions phiStates psiStates)
                = true
              then Except.ok (setVectorValue (List.replicate (BitVector.getNumberOfSetBits
                  (relevantStatesOf backwardTransitions phiStates psiStates)) (0 : ℚ))
                (BitVector.restrict psiStates
                  (relevantStatesOf backwardTransitions phiStates psiStates)) 1)
              else match computeMaybeStateProbabilities env rateMatrix
                  (maybeStatesOf backwardTransitions phiStates psiStates) psiStates exitRates
                  (u - t) with
                | Except.error e => Except.error e
                | Except.ok subresult => Except.ok (setVectorValues
                    (setVectorValue (List.replicate (BitVector.getNumberOfSetBits
                        (relevantStatesOf backwardTransitions phiStates psiStates)) 0)
                      (BitVector.restrict psiStates
                        (relevantStatesOf backwardTransitions phiStates psiStates)) 1)
                    (BitVector.restrict (maybeStatesOf backwardTransitions phiStates psiStates)
                      (relevantStatesOf backwardTransitions phiStates psiStates))
                    subresult) : Except Error (List ℚ)) with
          | Except.error e => Except.error e
          | Except.ok seed =>
            match propagateOver env rateMatrix
                (relevantStatesOf backwardTransitions phiStates psiStates) exitRates t seed with
            | Except.error e => Except.error e
            | Except.ok newSubresult => Except.ok (setVectorValues
                (setVectorValue (List.replicate (SparseMatrix.getRowCount rateMatrix) 0)
                  (BitVector.complement
                    (relevantStatesOf backwardTransitions phiStates psiStates)) 0)
                (relevantStatesOf backwardTransitions phiStates psiStates) newSubresult) := by
  unfold computeBoundedUntilProbabilities computeBoundedUntilProbabilitiesTraced
    relevantStatesOf maybeStatesOf
  simp only [ht, hu, if_false, false_and, ne_eq, htu, not_false_eq_true, if_true]
  by_cases hG : BitVector.empty (performProbGreater0 backwardTransitions phiStates psiStates)
      = true
  · simp [hG]
  · simp only [Bool.not_eq_true] at hG
    simp only [hG, Bool.not_false, if_true, Bool.false_eq_true, if_false]
    by_cases hM : BitVector.empty (BitVector.and
        (performProbGreater0 backwardTransitions phiStates psiStates)
        (BitVector.complement psiStates)) = true
    · simp only [hM, Bool.not_true, Bool.false_eq_true, if_false, if_true]
      cases propagateOver env rateMatrix
        (BitVector.and (performProbGreater0 backwardTransitions phiStates psiStates) phiStates)
        exitRates t
        (setVectorValue
          (List.replicate (BitVector.getNumberOfSetBits (BitVector.and
            (performProbGreater0 backwardTransitions phiStates psiStates) phiStates)) 0)
          (BitVector.restrict psiStates (BitVector.and
            (performProbGreater0 backwardTransitions phiStates psiStates) phiStates)) 1)
        <;> rfl
    · simp only [Bool.not_eq_true] at hM
      simp only [hM, Bool.not_false, if_true, Bool.false_eq_true, if_false]
      cases computeMaybeStateProbabilities env rateMatrix
          (BitVector.and (performProbGreater0 backwardTransitions phiStates psiStates)
            (BitVector.complement psiStates)) psiStates exitRates (u - t) with
      | error e => rfl
      | ok subresult =>
        simp only []
        cases propagateOver env rateMatrix
          (BitVector.and (performProbGreater0 backwardTransitions phiStates psiStates)
            phiStates)
          exitRates t
          (setVectorValues
            (setVectorValue
              (List.replicate (BitVector.getNumberOfSetBits (BitVector.and
                (performProbGreater0 backwardTransitions phiStates psiStates) phiStates)) 0)
              (BitVector.restrict psiStates (BitVector.and
                (performProbGreater0 backwardTransitions phiStates psiStates) phiStates)) 1)
            (BitVector.restrict
              (BitVector.and (performProbGreater0 backwardTransitions phiStates psiStates)
                (BitVector.complement psiStates))
              (BitVector.and (performProbGreater0 backwardTransitions phiStates psiStates)
                phiStates))
            subresult) <;> rfl

/-- The interval `[t, t]` with `t ≠ 0`, branch by branch. -/
theorem computeBoundedUntilProbabilities_point (env : Environment) (goal : SolveGoal)
    (rateMatrix backwardTransitions : SparseMatrix) (phiStates psiStates : BitVector)
    (exitRates : List ℚ) (qualitative : Bool) (t : ℚ) (ht : t ≠ 0) :
    computeBoundedUntilProbabilities env goal rateMatrix backwardTransitions phiStates psiStates
        exitRates qualitative t (some t)
      = if BitVector.empty (performProbGreater0 backwardTransitions phiStates psiStates) = true
        then Except.ok (List.replicate (SparseMatrix.getRowCount rateMatrix) (0 : ℚ))
        else
          match propagateOver env rateMatrix
              (performProbGreater0 backwardTransitions phiStates psiStates) exitRates t
              (setVectorValue
                (List.replicate (BitVector.getNumberOfSetBits
                  (performProbGreater0 backwardTransitions phiStates psiStates)) 0)
                (BitVector.restrict psiStates
                  (performProbGreater0 backwardTransitions phiStates psiStates)) 1) with
          | Except.error e => Except.error e
          | Except.ok newSubresult => Except.ok (setVectorValues
              (setVectorValue (List.replicate (SparseMatrix.getRowCount rateMatrix) 0)
                (BitVector.complement
                  (performProbGreater0 backwardTransitions phiStates psiStates)) 0)
              (performProbGreater0 backwardTransitions phiStates psiStates) newSubresult) := by
  unfold computeBoundedUntilProbabilities computeBoundedUntilProbabilitiesTraced
  simp only [ht, if_false, false_and, ne_eq, not_true_eq_false]
  by_cases hG : BitVector.empty (performProbGreater0 backwardTransitions phiStates psiStates)
      = true
  · simp [hG]
  · simp only [Bool.not_eq_true] at hG
    simp only [hG, Bool.not_false, if_true, Bool.false_eq_true, if_false]
    cases propagateOver env rateMatrix
      (performProbGreater0 backwardTransitions phiStates psiStates) exitRates t
      (setVectorValue
        (List.replicate (BitVector.getNumberOfSetBits
          (performProbGreater0 backwardTransitions phiStates psiStates)) 0)
        (BitVector.restrict psiStates
          (performProbGreater0 backwardTransitions phiStates psiStates)) 1) <;> rfl

theorem computeMaybeStateProbabilities_eq_ite (env : Environment) (rateMatrix : SparseMatrix)
    (maybeStates psiStates : BitVector) (exitRates : List ℚ) (timeBound : ℚ) :
    computeMaybeStateProbabilities env rateMatrix maybeStates psiStates exitRates timeBound
      = if ((BitVector.setBits maybeStates).map (fun s => exitRates.getD s 0)).foldl max 0
            * 1.02 > 0
        then Except.ok ((fun q => computeTransientProbabilities env false
          (computeUniformizedMatrix rateMatrix maybeStates q exitRates)
          (some ((SparseMatrix.getConstrainedRowSumVector rateMatrix maybeStates psiStates).map
            (fun element => element / q)))
          timeBound q (List.replicate (BitVector.getNumberOfSetBits maybeStates) 0))
          (((BitVector.setBits maybeStates).map (fun s => exitRates.getD s 0)).foldl max 0
            * 1.02))
        else Except.error Error.invalidState := by
  unfold computeMaybeStateProbabilities
  rw [uniformizationRateOf_eq]

theorem propagateOver_eq_ite (env : Environment) (rateMatrix : SparseMatrix)
    (states : BitVector) (exitRates : List ℚ) (timeBound : ℚ) (values : List ℚ) :
    propagateOver env rateMatrix states exitRates timeBound values
      = if ((BitVector.setBits states).map (fun s => exitRates.getD s 0)).foldl max 0
            * 1.02 > 0
        then Except.ok ((fun q => computeTransientProbabilities env false
          (computeUniformizedMatrix rateMatrix states q exitRates) none timeBound q values)
          (((BitVector.setBits states).map (fun s => exitRates.getD s 0)).foldl max 0 * 1.02))
        else Except.error Error.invalidState := by
  unfold propagateOver
  rw [uniformizationRateOf_eq]

/-- A stage that fails with invalid-state or hands its vector on keeps the form of the rate
test. -/
theorem match_ite_invalidState (c : Prop) [Decidable c] (x : List ℚ)
    (f : List ℚ → List ℚ) :
    (match (if c then Except.ok x else Except.error Error.invalidState :
        Except Error (List ℚ)) with
      | Except.error e => Except.error e
      | Except.ok subresult => Except.ok (f subresult))
      = (if c then Except.ok (f x) else Except.error Error.invalidState :
          Except Error (List ℚ)) := by
  by_cases h : c
  · simp [h]
  · simp [h]

theorem BitVector.empty_of_empty_and {a b : BitVector}
    (h : BitVector.empty (BitVector.and a b) = false) : BitVector.empty a = false := by
  by_contra hne
  have h1 : BitVector.empty a = true := by simpa using hne
  rw [BitVector.empty_and_of_empty_left b h1] at h
  cases h

theorem BitVector.mem_setBits_of_get (b : BitVector) {c : Nat}
    (h : BitVector.get b c = true) : c ∈ BitVector.setBits b := by
  unfold BitVector.setBits
  rw [List.mem_filter, List.mem_range]
  exact ⟨BitVector.get_lt_length h, h⟩

/-- A positive rate over the maybe states makes the rate over the relevant states positive. -/
theorem uniformizationRateOf_relevant_pos (bt : SparseMatrix) (phi psi : BitVector)
    (exitRates : List ℚ)
    (h : 0 < uniformizationRateOf (maybeStatesOf bt phi psi) exitRates) :
    0 < uniformizationRateOf (relevantStatesOf bt phi psi) exitRates := by
  rw [uniformizationRateOf_pos_iff] at h ⊢
  obtain ⟨s, hs, hpos⟩ := h
  exact ⟨s, BitVector.mem_setBits_of_get _ (maybeStatesOf_subset_relevantStatesOf bt phi psi s
    (BitVector.get_of_mem_setBits _ hs)), hpos⟩

/-- The interval `[0, t]` with a maybe state: the function in the form of the rate test. -/
theorem computeBoundedUntilProbabilities_zero_to_ite (env : Environment) (goal : SolveGoal)
    (rateMatrix backwardTransitions : SparseMatrix) (phiStates psiStates : BitVector)
    (exitRates : List ℚ) (qualitative : Bool) (t : ℚ) (ht : t ≠ 0)
    (hM : BitVector.empty (maybeStatesOf backwardTransitions phiStates psiStates) = false) :
    computeBoundedUntilProbabilities env goal rateMatrix backwardTransitions phiStates psiStates
        exitRates qualitative 0 (some t)
      = if ((BitVector.setBits (maybeStatesOf backwardTransitions phiStates psiStates)).map
            (fun s => exitRates.getD s 0)).foldl max 0 * 1.02 > 0
        then Except.ok ((fun q => setVectorValues
            (setVectorValue (List.replicate (SparseMatrix.getRowCount rateMatrix) 0)
              psiStates 1)
            (maybeStatesOf backwardTransitions phiStates psiStates)
            (computeTransientProbabilities env false
              (computeUniformizedMatrix rateMatrix
                (maybeStatesOf backwardTransitions phiStates psiStates) q exitRates)
              (some ((SparseMatrix.getConstrainedRowSumVector rateMatrix
                (maybeStatesOf backwardTransitions phiStates psiStates) psiStates).map
                (fun element => element / q)))
              t q (List.replicate (BitVector.getNumberOfSetBits
                (maybeStatesOf backwardTransitions phiStates psiStates)) 0)))
          (((BitVector.setBits (maybeStatesOf backwardTransitions phiStates psiStates)).map
            (fun s => exitRates.getD s 0)).foldl max 0 * 1.02))
        else Except.error Error.invalidState := by
  have hG := BitVector.empty_of_empty_and hM
  rw [computeBoundedUntilProbabilities_zero_to _ _ _ _ _ _ _ _ _ ht,
    if_neg (by rw [hG]; exact Bool.false_ne_true), if_neg (by rw [hM]; exact Bool.false_ne_true),
    computeMaybeStateProbabilities_eq_ite]
  exact match_ite_invalidState _ _ _

/-- The interval `[t, t]` with a state of positive probability: the function in the form of the
rate test. -/
theorem computeBoundedUntilProbabilities_point_ite (env : Environment) (goal : SolveGoal)
    (rateMatrix backwardTransitions : SparseMatrix) (phiStates psiStates : BitVector)
    (exitRates : List ℚ) (qualitative : Bool) (t : ℚ) (ht : t ≠ 0)
    (hG : BitVector.empty (performProbGreater0 backwardTransitions phiStates psiStates)
      = false) :
    computeBoundedUntilProbabilities env goal rateMatrix backwardTransitions phiStates psiStates
        exitRates qualitative t (some t)
      = if ((BitVector.setBits (performProbGreater0 backwardTransitions phiStates
            psiStates)).map (fun s => exitRates.getD s 0)).foldl max 0 * 1.02 > 0
        then Except.ok ((fun q => setVectorValues
            (setVectorValue (List.replicate (SparseMatrix.getRowCount rateMatrix) 0)
              (BitVector.complement
                (performProbGreater0 backwardTransitions phiStates psiStates)) 0)
            (performProbGreater0 backwardTransitions phiStates psiStates)
            (computeTransientProbabilities env false
              (computeUniformizedMatrix rateMatrix
                (performProbGreater0 backwardTransitions phiStates psiStates) q exitRates)
              none t q
              (setVectorValue
                (List.replicate (BitVector.getNumberOfSetBits
                  (performProbGreater0 backwardTransitions phiStates psiStates)) 0)
                (BitVector.restrict psiStates
                  (performProbGreater0 backwardTransitions phiStates psiStates)) 1)))
          (((BitVector.setBits (performProbGreater0 backwardTransitions phiStates
            psiStates)).map (fun s => exitRates.getD s 0)).foldl max 0 * 1.02))
        else Except.error Error.invalidState := by
  rw [computeBoundedUntilProbabilities_point _ _ _ _ _ _ _ _ _ ht,
    if_neg (by rw [hG]; exact Bool.false_ne_true), propagateOver_eq_ite]
  exact match_ite_invalidState _ _ _

/-- The interval `[t, inf]` with a state of positive probability and a result of the until
computation: the function in the form of the rate test. -/
theorem computeBoundedUntilProbabilities_from_ite (env : Environment) (goal : SolveGoal)
    (rateMatrix backwardTransitions : SparseMatrix) (phiStates psiStates : BitVector)
    (exitRates : List ℚ) (qualitative : Bool) (t : ℚ) (untilResult : List ℚ) (ht : t ≠ 0)
    (hG : BitVector.empty (performProbGreater0 backwardTransitions phiStates psiStates)
      = false)
    (huntil : computeUntilProbabilities env SolveGoal.default rateMatrix backwardTransitions
      exitRates phiStates psiStates qualitative = Except.ok untilResult) :
    computeBoundedUntilProbabilities env goal rateMatrix backwardTransitions phiStates psiStates
        exitRates qualitative t none
      = if ((BitVector.setBits (relevantStatesOf backwardTransitions phiStates psiStates)).map
            (fun s => exitRates.getD s 0)).foldl max 0 * 1.02 > 0
        then Except.ok ((fun q => setVectorValues
            (setVectorValue untilResult
              (BitVector.complement
                (relevantStatesOf backwardTransitions phiStates psiStates)) 0)
            (relevantStatesOf backwardTransitions phiStates psiStates)
            (computeTransientProbabilities env false
              (computeUniformizedMatrix rateMatrix
                (relevantStatesOf backwardTransitions phiStates psiStates) q exitRates)
              none t q
              (selectVectorValues (relevantStatesOf backwardTransitions phiStates psiStates)
                untilResult)))
          (((BitVector.setBits (relevantStatesOf backwardTransitions phiStates psiStates)).map
            (fun s => exitRates.getD s 0)).foldl max 0 * 1.02))
        else Except.error Error.invalidState := by
  rw [computeBoundedUntilProbabilities_from _ _ _ _ _ _ _ _ _ ht,
    if_neg (by rw [hG]; exact Bool.false_ne_true), huntil]
  simp only []
  rw [propagateOver_eq_ite]
  exact match_ite_invalidState _ _ _

/-- An entry point that computes its rate by the loop of the source and tests it for
positivity meets the contract. -/
theorem uniformizationContract_of_loop (relevantRates : List ℚ) (compute : ℚ → List ℚ)
    (outcome : Except Error (List ℚ))
    (h : outcome = if relevantRates.foldl max 0 * 1.02 > 0
      then Except.ok (compute (relevantRates.foldl max 0 * 1.02))
      else Except.error Error.invalidState) :
    UniformizationContract relevantRates (relevantRates.foldl max 0 * 1.02) compute outcome := by
  obtain ⟨h1, h2, h3⟩ := foldl_max_spec relevantRates 0
  have hpos := inflated_pos_iff relevantRates
  refine ⟨⟨by positivity, ?_, ?_⟩, ?_, ?_⟩
  · intro x hx
    have := h2 x hx
    linarith
  · rcases h3 with h3 | h3
    · left; rw [h3]; norm_num
    · right; exact ⟨_, h3, by ring⟩
  · rw [h]
    by_cases hq : relevantRates.foldl max 0 * 1.02 > 0
    · rw [if_pos hq]
      constructor
      · intro hne; cases hne
      · intro hall
        obtain ⟨x, hx, hxpos⟩ := hpos.mp hq
        exact absurd hxpos (hall x hx)
    · rw [if_neg hq]
      constructor
      · intro _ x hx hxpos
        exact hq (hpos.mpr ⟨x, hx, hxpos⟩)
      · intro _; rfl
  · intro hne
    rw [h] at hne ⊢
    by_cases hq : relevantRates.foldl max 0 * 1.02 > 0
    · rw [if_pos hq]
      exact ⟨rfl, hq, inflated_ge relevantRates⟩
    · rw [if_neg hq] at hne
      exact absurd rfl hne

theorem BitVector.empty_const_true (n : Nat) (h : 0 < n) :
    BitVector.empty (BitVector.const n true) = false := by
  cases n with
  | zero => cases h
  | succ n => simp [BitVector.empty, BitVector.const, List.replicate_succ]

/-- The interval `[t, t']` without maybe states: the function in the form of the rate test. -/
theorem computeBoundedUntilProbabilities_from_to_ite_empty (env : Environment)
    (goal : SolveGoal) (rateMatrix backwardTransitions : SparseMatrix)
    (phiStates psiStates : BitVector) (exitRates : List ℚ) (qualitative : Bool) (t u : ℚ)
    (ht : t ≠ 0) (hu : u ≠ 0) (htu : t ≠ u)
    (hG : BitVector.empty (performProbGreater0 backwardTransitions phiStates psiStates)
      = false)
    (hM : BitVector.empty (maybeStatesOf backwardTransitions phiStates psiStates) = true) :
    computeBoundedUntilProbabilities env goal rateMatrix backwardTransitions phiStates psiStates
        exitRates qualitative t (some u)
      = if ((BitVector.setBits (relevantStatesOf backwardTransitions phiStates psiStates)).map
            (fun s => exitRates.getD s 0)).foldl max 0 * 1.02 > 0
        then Except.ok ((fun q => setVectorValues
            (setVectorValue (List.replicate (SparseMatrix.getRowCount rateMatrix) 0)
              (BitVector.complement
                (relevantStatesOf backwardTransitions phiStates psiStates)) 0)
            (relevantStatesOf backwardTransitions phiStates psiStates)
            (computeTransientProbabilities env false
              (computeUniformizedMatrix rateMatrix
                (relevantStatesOf backwardTransitions phiStates psiStates) q exitRates)
              none t q
              (setVectorValue (List.replicate (BitVector.getNumberOfSetBits
                  (relevantStatesOf backwardTransitions phiStates psiStates)) 0)
                (BitVector.restrict psiStates
                  (relevantStatesOf backwardTransitions phiStates psiStates)) 1)))
          (((BitVector.setBits (relevantStatesOf backwardTransitions phiStates psiStates)).map
            (fun s => exitRates.getD s 0)).foldl max 0 * 1.02))
        else Except.error Error.invalidState := by
  rw [computeBoundedUntilProbabilities_from_to _ _ _ _ _ _ _ _ _ _ ht hu htu,
    if_neg (by rw [hG]; exact Bool.false_ne_true), if_pos hM]
  simp only []
  rw [propagateOver_eq_ite]
  exact match_ite_invalidState _ _ _

/-- The interval `[t, t']` with a maybe state: the function in the form of the rate test of the
first stage; the second stage cannot fail after the first has passed. -/
theorem computeBoundedUntilProbabilities_from_to_ite (env : Environment)
    (goal : SolveGoal) (rateMatrix backwardTransitions : SparseMatrix)
    (phiStates psiStates : BitVector) (exitRates : List ℚ) (qualitative : Bool) (t u : ℚ)
    (ht : t ≠ 0) (hu : u ≠ 0) (htu : t ≠ u)
    (hM : BitVector.empty (maybeStatesOf backwardTransitions phiStates psiStates) = false) :
    computeBoundedUntilProbabilities env goal rateMatrix backwardTransitions phiStates psiStates
        exitRates qualitative t (some u)
      = if ((BitVector.setBits (maybeStatesOf backwardTransitions phiStates psiStates)).map
            (fun s => exitRates.getD s 0)).foldl max 0 * 1.02 > 0
        then Except.ok ((fun q => setVectorValues
            (setVectorValue (List.replicate (SparseMatrix.getRowCount rateMatrix) 0)
              (BitVector.complement
                (relevantStatesOf backwardTransitions phiStates psiStates)) 0)
            (relevantStatesOf backwardTransitions phiStates psiStates)
            (computeTransientProbabilities env false
              (computeUniformizedMatrix rateMatrix
                (relevantStatesOf backwardTransitions phiStates psiStates)
                (uniformizationRateOf
                  (relevantStatesOf backwardTransitions phiStates psiStates) exitRates)
                exitRates)
              none t
              (uniformizationRateOf
                (relevantStatesOf backwardTransitions phiStates psiStates) exitRates)
              (setVectorValues
                (setVectorValue (List.replicate (BitVector.getNumberOfSetBits
                    (relevantStatesOf backwardTransitions phiStates psiStates)) 0)
                  (BitVector.restrict psiStates
                    (relevantStatesOf backwardTransitions phiStates psiStates)) 1)
                (BitVector.restrict (maybeStatesOf backwardTransitions phiStates psiStates)
                  (relevantStatesOf backwardTransitions phiStates psiStates))
                (computeTransientProbabilities env false
                  (computeUniformizedMatrix rateMatrix
                    (maybeStatesOf backwardTransitions phiStates psiStates) q exitRates)
                  (some ((SparseMatrix.getConstrainedRowSumVector rateMatrix
                    (maybeStatesOf backwardTransitions phiStates psiStates) psiStates).map
                    (fun element => element / q)))
                  (u - t) q (List.replicate (BitVector.getNumberOfSetBits
                    (maybeStatesOf backwardTransitions phiStates psiStates)) 0)))))
          (((BitVector.setBits (maybeStatesOf backwardTransitions phiStates psiStates)).map
            (fun s => exitRates.getD s 0)).foldl max 0 * 1.02))
        else Except.error Error.invalidState := by
  have hG := BitVector.empty_of_empty_and hM
  rw [computeBoundedUntilProbabilities_from_to _ _ _ _ _ _ _ _ _ _ ht hu htu,
    if_neg (by rw [hG]; exact Bool.false_ne_true), if_neg (by rw [hM]; exact Bool.false_ne_true),
    computeMaybeStateProbabilities_eq_ite]
  by_cases hq : ((BitVector.setBits (maybeStatesOf backwardTransitions phiStates
      psiStates)).map (fun s => exitRates.getD s 0)).foldl max 0 * 1.02 > 0
  · have hRel : 0 < uniformizationRateOf
        (relevantStatesOf backwardTransitions phiStates psiStates) exitRates := by
      apply uniformizationRateOf_relevant_pos
      rw [uniformizationRateOf_eq]
      exact hq
    rw [if_pos hq, if_pos hq]
    simp only []
    rw [propagateOver_of_pos _ _ _ _ _ _ hRel]
  · rw [if_neg hq, if_neg hq]

theorem length_foldl_set (states : List Nat) (x : ℚ) :
    ∀ r : List ℚ, (states.foldl (fun r st => r.set st x) r).length = r.length := by
  induction states with
  | nil => intro r; rfl
  | cons st rest ih => intro r; rw [List.foldl_cons, ih, List.length_set]

theorem getElem?_foldl_set (states : List Nat) (x : ℚ) (s : Nat) :
    ∀ r : List ℚ, (states.foldl (fun r st => r.set st x) r)[s]?
      = if states.contains s then r[s]?.map (fun _ => x) else r[s]? := by
  induction states with
  | nil => intro r; simp
  | cons st rest ih =>
    intro r
    rw [List.foldl_cons, ih]
    by_cases h1 : s = st
    · subst h1
      by_cases h2 : rest.contains s = true
      · simp only [h2, if_true, List.contains_cons, beq_self_eq_true, Bool.true_or]
        by_cases h3 : s < r.length
        · simp [List.getElem?_set, h3]
        · simp [List.getElem?_set, h3, List.getElem?_eq_none (Nat.le_of_not_lt h3)]
      · simp only [h2, Bool.false_eq_true, if_false, List.contains_cons, beq_self_eq_true,
          Bool.true_or, if_true]
        by_cases h3 : s < r.length
        · simp [List.getElem?_set, h3]
        · simp [List.getElem?_set, h3, List.getElem?_eq_none (Nat.le_of_not_lt h3)]
    · have hne : (s == st) = false := by simpa using h1
      have hset : (r.set st x)[s]? = r[s]? := by
        rw [List.getElem?_set]
        simp [Ne.symm h1]
      simp only [List.contains_cons, hne, Bool.false_or, hset]

theorem length_fillBsccValues (result : List ℚ)
    (bsccDecomposition : List StronglyConnectedComponent) (bsccLra : List ℚ) :
    (fillBsccValues result bsccDecomposition bsccLra).length = result.length := by
  unfold fillBsccValues
  generalize List.range bsccDecomposition.length = indices
  induction indices generalizing result with
  | nil => rfl
  | cons i rest ih => rw [List.foldl_cons, ih, length_foldl_set]

/-- The entry of a state after the values of the first `k` blocks have been written: the value
of the last of these blocks that holds the state. -/
theorem getElem?_fillFirst (bsccDecomposition : List StronglyConnectedComponent)
    (bsccLra : List ℚ) (s initial : Nat) (result : List ℚ) (k : Nat) :
    ((List.range k).foldl (fun result bsccIndex =>
        (bsccDecomposition.getD bsccIndex []).foldl (fun result state =>
          result.set state (bsccLra.getD bsccIndex 0)) result) result)[s]?
      = if (List.range k).any (fun j => (bsccDecomposition.getD j []).contains s)
        then result[s]?.map (fun _ => bsccLra.getD
          ((List.range k).foldl (fun current bsccIndex =>
            if (bsccDecomposition.getD bsccIndex []).contains s then bsccIndex else current)
            initial) 0)
        else result[s]? := by
  induction k with
  | zero => simp
  | succ k ih =>
    rw [List.range_succ, List.foldl_append, List.foldl_append, List.any_append]
    simp only [List.foldl_cons, List.foldl_nil, List.any_cons, List.any_nil, Bool.or_false]
    rw [getElem?_foldl_set, ih]
    by_cases hin : (bsccDecomposition.getD k []).contains s = true
    · simp only [hin, if_true, Bool.or_true]
      split
      · rw [Option.map_map]
        rfl
      · rfl
    · simp only [Bool.not_eq_true] at hin
      simp only [hin, Bool.false_eq_true, if_false, Bool.or_false]

theorem getElem?_fillBsccValues (bsccDecomposition : List StronglyConnectedComponent)
    (bsccLra : List ℚ) (s : Nat) (result : List ℚ) :
    (fillBsccValues result bsccDecomposition bsccLra)[s]?
      = if (List.range bsccDecomposition.length).any
            (fun j => (bsccDecomposition.getD j []).contains s)
        then result[s]?.map (fun _ => bsccLra.getD (stateToBsccMap bsccDecomposition s) 0)
        else result[s]? :=
  getElem?_fillFirst bsccDecomposition bsccLra s (2 ^ 64 - 1) result bsccDecomposition.length

theorem any_range_getD {α : Type} (l : List α) (d : α) (p : α → Bool) :
    (List.range l.length).any (fun j => p (l.getD j d)) = l.any p := by
  rw [Bool.eq_iff_iff, List.any_eq_true, List.any_eq_true]
  constructor
  · rintro ⟨j, hj, hp⟩
    rw [List.mem_range] at hj
    rw [List.getD_eq_getElem _ _ hj] at hp
    exact ⟨_, List.getElem_mem hj, hp⟩
  · rintro ⟨x, hx, hp⟩
    obtain ⟨j, hj, rfl⟩ := List.getElem_of_mem hx
    exact ⟨j, List.mem_range.mpr hj, by rw [List.getD_eq_getElem _ _ hj]; exact hp⟩

theorem get_statesInBsccsOf (numberOfStates : Nat)
    (bsccDecomposition : List StronglyConnectedComponent) (s : Nat) :
    BitVector.get (statesInBsccsOf numberOfStates bsccDecomposition) s
      = (decide (s < numberOfStates)
          && bsccDecomposition.any (fun bscc => bscc.contains s)) := by
  unfold statesInBsccsOf
  rw [BitVector.get, getD_map_range]
  by_cases h : s < numberOfStates <;> simp [h]

theorem length_statesInBsccsOf (numberOfStates : Nat)
    (bsccDecomposition : List StronglyConnectedComponent) :
    (statesInBsccsOf numberOfStates bsccDecomposition).length = numberOfStates := by
  simp [statesInBsccsOf]

/-- The map from states to blocks at a state that lies in exactly one block. -/
theorem stateToBsccMap_of_unique (bsccDecomposition : List StronglyConnectedComponent)
    (s i : Nat) (hi : i < bsccDecomposition.length)
    (hin : (bsccDecomposition.getD i []).contains s = true)
    (hunique : ∀ j, j ≠ i → (bsccDecomposition.getD j []).contains s = false) :
    stateToBsccMap bsccDecomposition s = i := by
  have hfold : ∀ k, (List.range k).foldl (fun current bsccIndex =>
      if (bsccDecomposition.getD bsccIndex []).contains s then bsccIndex else current)
      (2 ^ 64 - 1) = if i < k then i else 2 ^ 64 - 1 := by
    intro k
    induction k with
    | zero => simp
    | succ k ih =>
      rw [List.range_succ, List.foldl_append, ih]
      simp only [List.foldl_cons, List.foldl_nil]
      by_cases hk : k = i
      · subst hk
        rw [if_pos hin, if_pos (Nat.lt_succ_self k)]
      · rw [hunique k hk]
        simp only [Bool.false_eq_true, if_false]
        by_cases h1 : i < k
        · rw [if_pos h1, if_pos (by omega)]
        · rw [if_neg h1, if_neg (by omega)]
  unfold stateToBsccMap
  rw [hfold, if_pos hi]

/-- The loop over the blocks returns exactly when the computation returns for every block, and
then holds the values in order. -/
theorem computeBsccLra_eq_some (f : StronglyConnectedComponent → Option ℚ) :
    ∀ (bsccs : List StronglyConnectedComponent) (lra : List ℚ),
      computeBsccLra f bsccs = some lra →
      lra.length = bsccs.length
        ∧ ∀ i, i < bsccs.length → f (bsccs.getD i []) = some (lra.getD i 0) := by
  intro bsccs
  induction bsccs with
  | nil =>
    intro lra h
    simp only [computeBsccLra, Option.some.injEq] at h
    subst h
    exact ⟨rfl, fun i hi => absurd hi (Nat.not_lt_zero i)⟩
  | cons bscc rest ih =>
    intro lra h
    unfold computeBsccLra at h
    cases hf : f bscc with
    | none => rw [hf] at h; cases h
    | some value =>
      rw [hf] at h
      cases hrest : computeBsccLra f rest with
      | none => rw [hrest] at h; cases h
      | some values =>
        rw [hrest] at h
        simp only [Option.some.injEq] at h
        subst h
        obtain ⟨hlen, hval⟩ := ih values hrest
        refine ⟨by simp [hlen], ?_⟩
        intro i hi
        cases i with
        | zero => simpa using hf
        | succ i =>
          have := hval i (by simpa using hi)
          simpa using this

theorem computeBsccLra_of_forall (f : StronglyConnectedComponent → Option ℚ)
    (g : StronglyConnectedComponent → ℚ) :
    ∀ (bsccs : List StronglyConnectedComponent), (∀ bscc ∈ bsccs, f bscc = some (g bscc)) →
      computeBsccLra f bsccs = some (bsccs.map g) := by
  intro bsccs
  induction bsccs with
  | nil => intro _; rfl
  | cons bscc rest ih =>
    intro h
    unfold computeBsccLra
    rw [h bscc (List.mem_cons_self _ _), ih (fun b hb => h b (List.mem_cons_of_mem _ hb))]
    rfl

/-- The entries of the vector that `computeLongRunAverages` assembles. -/
theorem getElem?_assembled (numberOfStates : Nat)
    (bsccDecomposition : List StronglyConnectedComponent) (bsccLra solution : List ℚ) (s : Nat)
    (hs : s < numberOfStates) :
    (setVectorValues (fillBsccValues (List.replicate numberOfStates 0) bsccDecomposition bsccLra)
        (BitVector.complement (statesInBsccsOf numberOfStates bsccDecomposition)) solution)[s]?
      = some (if bsccDecomposition.any (fun bscc => bscc.contains s)
          then bsccLra.getD (stateToBsccMap bsccDecomposition s) 0
          else solution.getD (BitVector.rank
            (BitVector.complement (statesInBsccsOf numberOfStates bsccDecomposition)) s) 0) := by
  rw [getElem?_setVectorValues, getElem?_fillBsccValues, BitVector.get_complement,
    get_statesInBsccsOf, length_statesInBsccsOf,
    any_range_getD bsccDecomposition [] (fun bscc => bscc.contains s)]
  have hrep : (List.replicate numberOfStates (0 : ℚ))[s]? = some 0 := by
    simp [List.getElem?_replicate, hs]
  rw [hrep]
  by_cases hin : bsccDecomposition.any (fun bscc => bscc.contains s) = true
  · rw [hin]
    simp [hs]
  · simp only [Bool.not_eq_true] at hin
    rw [hin]
    simp [hs]

theorem getElem?_filled (numberOfStates : Nat)
    (bsccDecomposition : List StronglyConnectedComponent) (bsccLra : List ℚ) (s : Nat)
    (hs : s < numberOfStates)
    (hin : bsccDecomposition.any (fun bscc => bscc.contains s) = true) :
    (fillBsccValues (List.replicate numberOfStates 0) bsccDecomposition bsccLra)[s]?
      = some (bsccLra.getD (stateToBsccMap bsccDecomposition s) 0) := by
  rw [getElem?_fillBsccValues,
    any_range_getD bsccDecomposition [] (fun bscc => bscc.contains s), hin]
  simp [List.getElem?_replicate, hs]

/-- The function `computeLongRunAverages` after its loop over the blocks has returned. -/
theorem computeLongRunAveragesTraced_of_some (env : LongRunEnvironment) (fuel : Nat)
    (goal : SolveGoal) (rateMatrix : SparseMatrix) (valueGetter : Nat → ℚ)
    (exitRateVector : Option (List ℚ)) (bsccLra : List ℚ)
    (hlra : computeBsccLra (fun bscc => computeLongRunAveragesForBscc fuel bscc rateMatrix
        (SparseMatrix.transpose rateMatrix) valueGetter exitRateVector)
      (env.bsccDecomposition rateMatrix) = some bsccLra) :
    computeLongRunAveragesTraced env fuel goal rateMatrix valueGetter exitRateVector
      = if (!BitVector.empty (BitVector.complement (statesInBsccsOf
            (SparseMatrix.getRowCount rateMatrix) (env.bsccDecomposition rateMatrix)))) = true
        then
          if env.hasEnabledCriticalRequirement
              (rewardEquationSystemMatrixOf env.isEquationSystemFormat rateMatrix
                (BitVector.complement (statesInBsccsOf (SparseMatrix.getRowCount rateMatrix)
                  (env.bsccDecomposition rateMatrix))) exitRateVector)
              (minValueOf bsccLra) (maxValueOf bsccLra) = true
          then
            (⟨[rateMatrix], ⟨[rewardEquationSystemMatrixOf env.isEquationSystemFormat rateMatrix
                (BitVector.complement (statesInBsccsOf (SparseMatrix.getRowCount rateMatrix)
                  (env.bsccDecomposition rateMatrix))) exitRateVector], []⟩⟩,
              some (Except.error Error.uncheckedRequirement))
          else
            (⟨[rateMatrix], ⟨[rewardEquationSystemMatrixOf env.isEquationSystemFormat rateMatrix
                (BitVector.complement (statesInBsccsOf (SparseMatrix.getRowCount rateMatrix)
                  (env.bsccDecomposition rateMatrix))) exitRateVector],
              [(rewardEquationSystemMatrixOf env.isEquationSystemFormat rateMatrix
                  (BitVector.complement (statesInBsccsOf (SparseMatrix.getRowCount rateMatrix)
                    (env.bsccDecomposition rateMatrix))) exitRateVector,
                List.replicate (rewardEquationSystemMatrixOf env.isEquationSystemFormat
                  rateMatrix
                  (BitVector.complement (statesInBsccsOf (SparseMatrix.getRowCount rateMatrix)
                    (env.bsccDecomposition rateMatrix))) exitRateVector).columnCount
                  ((maxValueOf bsccLra + minValueOf bsccLra) / 2),
                rewardRightSideOf rateMatrix (env.bsccDecomposition rateMatrix) bsccLra
                  exitRateVector)]⟩⟩,
              some (Except.ok (setVectorValues
                (fillBsccValues (List.replicate (SparseMatrix.getRowCount rateMatrix) 0)
                  (env.bsccDecomposition rateMatrix) bsccLra)
                (BitVector.complement (statesInBsccsOf (SparseMatrix.getRowCount rateMatrix)
                  (env.bsccDecomposition rateMatrix)))
                (env.solveEquations
                  (rewardEquationSystemMatrixOf env.isEquationSystemFormat rateMatrix
                    (BitVector.complement (statesInBsccsOf
                      (SparseMatrix.getRowCount rateMatrix)
                      (env.bsccDecomposition rateMatrix))) exitRateVector)
                  (minValueOf bsccLra) (maxValueOf bsccLra)
                  (List.replicate (rewardEquationSystemMatrixOf env.isEquationSystemFormat
                    rateMatrix
                    (BitVector.complement (statesInBsccsOf
                      (SparseMatrix.getRowCount rateMatrix)
                      (env.bsccDecomposition rateMatrix))) exitRateVector).columnCount
                    ((maxValueOf bsccLra + minValueOf bsccLra) / 2))
                  (rewardRightSideOf rateMatrix (env.bsccDecomposition rateMatrix) bsccLra
                    exitRateVector)))))
        else
          (⟨[rateMatrix], ⟨[], []⟩⟩,
            some (Except.ok (fillBsccValues
              (List.replicate (SparseMatrix.getRowCount rateMatrix) 0)
              (env.bsccDecomposition rateMatrix) bsccLra))) := by
  unfold computeLongRunAveragesTraced
  simp only []
  rw [hlra]

theorem computeLongRunAveragesTraced_of_none (env : LongRunEnvironment) (fuel : Nat)
    (goal : SolveGoal) (rateMatrix : SparseMatrix) (valueGetter : Nat → ℚ)
    (exitRateVector : Option (List ℚ))
    (hlra : computeBsccLra (fun bscc => computeLongRunAveragesForBscc fuel bscc rateMatrix
        (SparseMatrix.transpose rateMatrix) valueGetter exitRateVector)
      (env.bsccDecomposition rateMatrix) = none) :
    computeLongRunAveragesTraced env fuel goal rateMatrix valueGetter exitRateVector
      = (⟨[rateMatrix], ⟨[], []⟩⟩, none) := by
  unfold computeLongRunAveragesTraced
  simp only []
  rw [hlra]

theorem computeLongRunAveragesForBsccTraced_singleton (fuel s : Nat)
    (rateMatrix backwardTransitions : SparseMatrix) (valueGetter : Nat → ℚ)
    (exitRateVector : Option (List ℚ)) :
    computeLongRunAveragesForBsccTraced fuel [s] rateMatrix backwardTransitions valueGetter
      exitRateVector
      = (⟨SparseMatrix.getSubmatrix rateMatrix
            (bsccStatesOf (SparseMatrix.getRowCount rateMatrix) [s])
            (bsccStatesOf (SparseMatrix.getRowCount rateMatrix) [s]) false, ⟨none, 0⟩⟩,
          some (valueGetter s)) := by
  simp [computeLongRunAveragesForBsccTraced]

theorem bsccStatesOf_cycle : bsccStatesOf 2 [0, 1] = [true, true] := by
  decide

theorem viUniformizationRate_cycle : viUniformizationRate [true, true] (some [1, 1]) = 2 := by
  have h : BitVector.setBits [true, true] = [0, 1] := by decide
  simp only [viUniformizationRate, max_if, h]
  norm_num

theorem viBsccMatrix_cycle :
    viBsccMatrix cycleRateMatrix [true, true] 2 (some [1, 1])
      = ⟨2, [[(0, 1 / 2), (1, 1 / 2)], [(0, 1 / 2), (1, 1 / 2)]]⟩ := by
  have h : viBsccMatrix cycleRateMatrix [true, true] 2 (some [1, 1])
      = ⟨2, [[(0, 1 + (0 - 1) / 2), (1, 1 / 2)], [(0, 1 / 2), (1, 1 + (0 - 1) / 2)]]⟩ := rfl
  rw [h]
  norm_num

/-- One pass of the iteration over the two rows of the uniformized matrix of the chain
`cycleRateMatrix`. -/
theorem viRound_cycle (r0 r1 v0 v1 w0 w1 : ℚ) :
    viRound ⟨2, [[(0, 1 / 2), (1, 1 / 2)], [(0, 1 / 2), (1, 1 / 2)]]⟩ [r0, r1] [v0, v1]
        [w0, w1]
      = ⟨[r0 + (1 / 2 * w0 + (1 / 2 * w1 + 0)), r1 + (1 / 2 * w0 + (1 / 2 * w1 + 0))],
          max (r0 + (1 / 2 * w0 + (1 / 2 * w1 + 0)) - v0)
            (r1 + (1 / 2 * w0 + (1 / 2 * w1 + 0)) - v1),
          min (r0 + (1 / 2 * w0 + (1 / 2 * w1 + 0)) - v0)
            (r1 + (1 / 2 * w0 + (1 / 2 * w1 + 0)) - v1)⟩ := rfl

/-- On the chain `cycleRateMatrix` with the indicator of state 1 the iteration is left in its
second round, with `v = [1/4, 3/4]`. -/
theorem valueIteration_cycle (fuel : Nat) :
    valueIteration ⟨2, [[(0, 1 / 2), (1, 1 / 2)], [(0, 1 / 2), (1, 1 / 2)]]⟩ [0, 1 / 2]
        (1 / 1000000 / 2) true (fuel + 2) 0 [0, 0] [0, 0]
      = some (2, [1 / 4, 3 / 4]) := by
  have h1 : viRound ⟨2, [[(0, 1 / 2), (1, 1 / 2)], [(0, 1 / 2), (1, 1 / 2)]]⟩ [0, 1 / 2]
      [0, 0] [0, 0] = ⟨[0, 1 / 2], 1 / 2, 0⟩ := by
    rw [viRound_cycle]
    norm_num
  have h2 : viRound ⟨2, [[(0, 1 / 2), (1, 1 / 2)], [(0, 1 / 2), (1, 1 / 2)]]⟩ [0, 1 / 2]
      [0, 1 / 2] [0, 1 / 2] = ⟨[1 / 4, 3 / 4], 1 / 4, 1 / 4⟩ := by
    rw [viRound_cycle]
    norm_num
  rw [valueIteration]
  simp only [h1, List.headD_cons, if_true]
  rw [if_neg (by norm_num)]
  have hw : List.map (fun v_i => v_i - (0 : ℚ)) [0, 1 / 2] = [0, 1 / 2] := by
    simp
  rw [hw, valueIteration]
  simp only [h2, List.headD_cons, if_true]
  rw [if_pos (by norm_num)]

theorem computeLongRunAveragesForBsccViTraced_cycle (k : Nat) (backwardTransitions : SparseMatrix) :
    computeLongRunAveragesForBsccViTraced (k + 2) [0, 1] cycleRateMatrix backwardTransitions
        (fun state => if BitVector.get [false, true] state then 1 else 0) (some [1, 1])
      = (⟨some ⟨2, [[(0, 1 / 2), (1, 1 / 2)], [(0, 1 / 2), (1, 1 / 2)]]⟩, 2⟩, some (1 / 2)) := by
  have hn : SparseMatrix.getRowCount cycleRateMatrix = 2 := rfl
  have hrewards : (BitVector.setBits [true, true]).map
      (fun state => (if BitVector.get [false, true] state then (1 : ℚ) else 0) * (1 / 2))
      = [0, 1 / 2] := by
    have h : BitVector.setBits [true, true] = [0, 1] := by decide
    rw [h]
    simp [BitVector.get]
  have hv : List.replicate (SparseMatrix.getRowCount
      (⟨2, [[(0, 1 / 2), (1, 1 / 2)], [(0, 1 / 2), (1, 1 / 2)]]⟩ : SparseMatrix)) (0 : ℚ)
      = [0, 0] := rfl
  unfold computeLongRunAveragesForBsccViTraced
  simp only [hn, bsccStatesOf_cycle, viUniformizationRate_cycle, viBsccMatrix_cycle, hrewards,
    hv, valueIteration_cycle]
  norm_num

theorem fillBsccValues_cycle (x : ℚ) : fillBsccValues [0, 0] [[0, 1]] [x] = [x, x] := rfl

/-- With a negative constant reward `r` per uniformization step the iteration on the chain
`cycleRateMatrix` stays at `v = [r, r]`, `w = [0, 0]` and its convergence test fails in every
round. -/
theorem valueIteration_cycle_negative (r precision : ℚ) (hr : r < 0) (hprecision : 0 < precision)
    (fuel : Nat) : ∀ rounds : Nat,
    valueIteration ⟨2, [[(0, 1 / 2), (1, 1 / 2)], [(0, 1 / 2), (1, 1 / 2)]]⟩ [r, r]
      precision true fuel rounds [r, r] [0, 0] = none := by
  induction fuel with
  | zero => intro rounds; rfl
  | succ fuel ih =>
    intro rounds
    have h : viRound ⟨2, [[(0, 1 / 2), (1, 1 / 2)], [(0, 1 / 2), (1, 1 / 2)]]⟩ [r, r] [r, r]
        [0, 0] = ⟨[r, r], 0, 0⟩ := by
      rw [viRound_cycle]
      norm_num
    rw [valueIteration]
    simp only [h, List.headD_cons, if_true]
    have hneg : precision * (r + 0) < 0 := by
      rw [add_zero]
      exact mul_neg_of_pos_of_neg hprecision hr
    rw [if_neg (by linarith)]
    have hw : List.map (fun v_i => v_i - r) [r, r] = [0, 0] := by simp
    rw [hw]
    exact ih (rounds + 1)

/-- From the zero vectors the first round of the iteration with a negative constant reward
fails its convergence test as well. -/
theorem valueIteration_cycle_negative_start (r precision : ℚ) (hr : r < 0)
    (hprecision : 0 < precision) (fuel : Nat) :
    valueIteration ⟨2, [[(0, 1 / 2), (1, 1 / 2)], [(0, 1 / 2), (1, 1 / 2)]]⟩ [r, r]
      precision true fuel 0 [0, 0] [0, 0] = none := by
  cases fuel with
  | zero => rfl
  | succ fuel =>
    have h : viRound ⟨2, [[(0, 1 / 2), (1, 1 / 2)], [(0, 1 / 2), (1, 1 / 2)]]⟩ [r, r] [0, 0]
        [0, 0] = ⟨[r, r], r, r⟩ := by
      rw [viRound_cycle]
      norm_num
    rw [valueIteration]
    simp only [h, List.headD_cons, if_true]
    have hneg : precision * (r + r) < 0 :=
      mul_neg_of_pos_of_neg hprecision (by linarith)
    rw [if_neg (by linarith)]
    have hw : List.map (fun v_i => v_i - r) [r, r] = [0, 0] := by simp
    rw [hw]
    exact valueIteration_cycle_negative r precision hr hprecision fuel 1

/-- The value-iteration variant on the block `{0, 1}` of the chain `cycleRateMatrix` with a
value function that is the negative constant `c` on the block: no number of rounds suffices. -/
theorem computeLongRunAveragesForBsccVi_cycle_negative (valueGetter : Nat → ℚ) (c : ℚ)
    (h0 : valueGetter 0 = c) (h1 : valueGetter 1 = c) (hc : c < 0) (fuel : Nat)
    (backwardTransitions : SparseMatrix) :
    computeLongRunAveragesForBsccVi fuel [0, 1] cycleRateMatrix backwardTransitions valueGetter
      (some [1, 1]) = none := by
  have hn : SparseMatrix.getRowCount cycleRateMatrix = 2 := rfl
  have hrewards : (BitVector.setBits [true, true]).map
      (fun state => valueGetter state * (1 / 2)) = [c * (1 / 2), c * (1 / 2)] := by
    have h : BitVector.setBits [true, true] = [0, 1] := by decide
    rw [h]
    simp only [List.map_cons, List.map_nil, h0, h1]
  have hv : List.replicate (SparseMatrix.getRowCount
      (⟨2, [[(0, 1 / 2), (1, 1 / 2)], [(0, 1 / 2), (1, 1 / 2)]]⟩ : SparseMatrix)) (0 : ℚ)
      = [0, 0] := rfl
  unfold computeLongRunAveragesForBsccVi computeLongRunAveragesForBsccViTraced
  simp only [hn, bsccStatesOf_cycle, viUniformizationRate_cycle, viBsccMatrix_cycle, hrewards,
    hv]
  rw [valueIteration_cycle_negative_start (c * (1 / 2)) (1 / 1000000 / 2) (by linarith)
    (by norm_num) fuel]

theorem exampleBlocks_disjoint (i j s : Nat) (hij : i ≠ j)
    (h : (([[1], [2]] : List StronglyConnectedComponent).getD i []).contains s = true) :
    (([[1], [2]] : List StronglyConnectedComponent).getD j []).contains s = false := by
  rcases i with _ | _ | i <;> rcases j with _ | _ | j <;> simp_all

theorem setBits_complement_statesInBsccsOf (numberOfStates : Nat)
    (bsccDecomposition : List StronglyConnectedComponent) :
    BitVector.setBits (BitVector.complement (statesInBsccsOf numberOfStates bsccDecomposition))
      = (List.range numberOfStates).filter
          (fun s => !bsccDecomposition.any (fun bscc => bscc.contains s)) := by
  unfold BitVector.setBits
  have hlen : (BitVector.complement (statesInBsccsOf numberOfStates bsccDecomposition)).length
      = numberOfStates := by
    simp [BitVector.complement, statesInBsccsOf]
  rw [hlen]
  apply List.filter_congr
  intro s hs
  rw [List.mem_range] at hs
  rw [BitVector.get_complement, get_statesInBsccsOf, length_statesInBsccsOf]
  simp [hs]

theorem foldl_ite_add {α : Type} (row : List α) (p : α → Bool) (f : α → ℚ) :
    ∀ a : ℚ, row.foldl (fun reward entry => if p entry then reward + f entry else reward) a
      = a + ((row.filter p).map f).sum := by
  induction row with
  | nil => intro a; simp
  | cons e rest ih =>
    intro a
    rw [List.foldl_cons, ih]
    by_cases h : p e = true
    · simp [h, List.filter_cons, add_assoc]
    · simp [h, List.filter_cons]

/-- The entry of the map from states to blocks is the block of the state, for pairwise disjoint
blocks. -/
theorem stateToBsccMap_eq_bsccIndexOf (bsccDecomposition : List StronglyConnectedComponent)
    (hdisjoint : ∀ i j s, i ≠ j → (bsccDecomposition.getD i []).contains s = true →
      (bsccDecomposition.getD j []).contains s = false)
    (s : Nat) (hin : bsccDecomposition.any (fun bscc => bscc.contains s) = true) :
    stateToBsccMap bsccDecomposition s = bsccIndexOf bsccDecomposition s := by
  have hex : ∃ x ∈ bsccDecomposition, (fun bscc : StronglyConnectedComponent =>
      bscc.contains s) x = true := by
    simpa [List.any_eq_true] using hin
  have hlt : bsccIndexOf bsccDecomposition s < bsccDecomposition.length :=
    List.findIdx_lt_length_of_exists hex
  have hget : (bsccDecomposition.getD (bsccIndexOf bsccDecomposition s) []).contains s
      = true := by
    rw [List.getD_eq_getElem _ _ hlt]
    exact List.findIdx_getElem (w := hlt)
  exact stateToBsccMap_of_unique bsccDecomposition s _ hlt hget
    (fun j hj => hdisjoint _ j s (Ne.symm hj) hget)

/-- The vector `rewardRightSide` of the source is the right-hand side of the specification,
for pairwise disjoint blocks of states of the chain. -/
theorem rewardRightSideOf_eq (rateMatrix : SparseMatrix)
    (bsccDecomposition : List StronglyConnectedComponent) (bsccLra : List ℚ)
    (exitRateVector : Option (List ℚ))
    (hdisjoint : ∀ i j s, i ≠ j → (bsccDecomposition.getD i []).contains s = true →
      (bsccDecomposition.getD j []).contains s = false)
    (hrange : ∀ bscc ∈ bsccDecomposition, ∀ s ∈ bscc, s < SparseMatrix.getRowCount rateMatrix) :
    rewardRightSideOf rateMatrix bsccDecomposition bsccLra exitRateVector
      = rightHandSideBySpecification rateMatrix bsccDecomposition bsccLra exitRateVector := by
  have hget : ∀ j, BitVector.get
      (statesInBsccsOf (SparseMatrix.getRowCount rateMatrix) bsccDecomposition) j
      = bsccDecomposition.any (fun bscc => bscc.contains j) := by
    intro j
    rw [get_statesInBsccsOf]
    by_cases hany : bsccDecomposition.any (fun bscc => bscc.contains j) = true
    · rw [hany]
      obtain ⟨bscc, hb, hj⟩ := List.any_eq_true.mp hany
      have := hrange bscc hb j (by simpa using hj)
      simp [this]
    · simp only [Bool.not_eq_true] at hany
      rw [hany]
      simp
  unfold rewardRightSideOf rightHandSideBySpecification
  simp only []
  rw [setBits_complement_statesInBsccsOf]
  apply List.map_congr_left
  intro s _
  cases exitRateVector with
  | none =>
    simp only []
    rw [foldl_ite_add (SparseMatrix.getRow rateMatrix s)
      (fun entry => BitVector.get
        (statesInBsccsOf (SparseMatrix.getRowCount rateMatrix) bsccDecomposition) entry.1)
      (fun entry => entry.2 * bsccLra.getD (stateToBsccMap bsccDecomposition entry.1) 0) 0,
      zero_add]
    have hfilter : (SparseMatrix.getRow rateMatrix s).filter (fun entry => BitVector.get
        (statesInBsccsOf (SparseMatrix.getRowCount rateMatrix) bsccDecomposition) entry.1)
        = (SparseMatrix.getRow rateMatrix s).filter
            (fun e => bsccDecomposition.any (fun bscc => bscc.contains e.1)) :=
      List.filter_congr (fun e _ => hget e.1)
    rw [hfilter]
    congr 1
    apply List.map_congr_left
    intro e he
    rw [stateToBsccMap_eq_bsccIndexOf bsccDecomposition hdisjoint e.1
      (List.mem_filter.mp he).2]
  | some exitRates =>
    simp only []
    rw [foldl_ite_add (SparseMatrix.getRow rateMatrix s)
      (fun entry => BitVector.get
        (statesInBsccsOf (SparseMatrix.getRowCount rateMatrix) bsccDecomposition) entry.1)
      (fun entry => (entry.2 / exitRates.getD s 0)
        * bsccLra.getD (stateToBsccMap bsccDecomposition entry.1) 0) 0,
      zero_add]
    have hfilter : (SparseMatrix.getRow rateMatrix s).filter (fun entry => BitVector.get
        (statesInBsccsOf (SparseMatrix.getRowCount rateMatrix) bsccDecomposition) entry.1)
        = (SparseMatrix.getRow rateMatrix s).filter
            (fun e => bsccDecomposition.any (fun bscc => bscc.contains e.1)) :=
      List.filter_congr (fun e _ => hget e.1)
    rw [hfilter]
    congr 1
    apply List.map_congr_left
    intro e he
    rw [stateToBsccMap_eq_bsccIndexOf bsccDecomposition hdisjoint e.1
      (List.mem_filter.mp he).2]

theorem rightHandSideBySpecification_example :
    rightHandSideBySpecification exampleRateMatrix [[1], [2]] [1, 0] (some exampleExitRates)
      = [2 / 3] := by
  have h : rightHandSideBySpecification exampleRateMatrix [[1], [2]] [1, 0]
      (some exampleExitRates) = [2 / 3 * 1 + (1 / 3 * 0 + 0)] := rfl
  rw [h]
  norm_num

/-- The long-run-average engine itself never raises invalid-property. -/
theorem computeLongRunAveragesTraced_ne_invalidProperty (env : LongRunEnvironment) (fuel : Nat)
    (goal : SolveGoal) (rateMatrix : SparseMatrix) (valueGetter : Nat → ℚ)
    (exitRateVector : Option (List ℚ)) :
    (computeLongRunAveragesTraced env fuel goal rateMatrix valueGetter exitRateVector).2
      ≠ some (Except.error Error.invalidProperty) := by
  cases hlra : computeBsccLra (fun bscc => computeLongRunAveragesForBscc fuel bscc rateMatrix
      (SparseMatrix.transpose rateMatrix) valueGetter exitRateVector)
      (env.bsccDecomposition rateMatrix) with
  | none =>
    rw [computeLongRunAveragesTraced_of_none env fuel goal rateMatrix valueGetter
      exitRateVector hlra]
    intro h
    cases h
  | some bsccLra =>
    rw [computeLongRunAveragesTraced_of_some env fuel goal rateMatrix valueGetter
      exitRateVector bsccLra hlra]
    split
    · split
      · intro h
        cases h
      · intro h
        cases h
    · intro h
      cases h

theorem computeInstantaneousRewards_ne_invalidProperty (env : Environment) (goal : SolveGoal)
    (rateMatrix : SparseMatrix) (exitRateVector : List ℚ) (rewardModel : RewardModel)
    (timeBound : ℚ) (h : RewardModel.empty rewardModel = false) :
    computeInstantaneousRewards env goal rateMatrix exitRateVector rewardModel timeBound
      ≠ Except.error Error.invalidProperty := by
  unfold computeInstantaneousRewards
  simp only [h, Bool.false_eq_true, if_false]
  split
  · split
    · intro h; cases h
    · intro h; cases h
  · intro h; cases h

theorem computeCumulativeRewards_ne_invalidProperty (env : Environment) (goal : SolveGoal)
    (rateMatrix : SparseMatrix) (exitRateVector : List ℚ) (rewardModel : RewardModel)
    (timeBound : ℚ) (h : RewardModel.empty rewardModel = false) :
    computeCumulativeRewards env goal rateMatrix exitRateVector rewardModel timeBound
      ≠ Except.error Error.invalidProperty := by
  unfold computeCumulativeRewards
  simp only [h, Bool.false_eq_true, if_false]
  split
  · intro h; cases h
  · split
    · intro h; cases h
    · intro h; cases h

theorem BitVector.eq_nil_of_empty_of_full {b : BitVector} (hempty : BitVector.empty b = true)
    (hfull : BitVector.full b = true) : b = [] := by
  cases b with
  | nil => rfl
  | cons x rest =>
    simp only [BitVector.empty, BitVector.full, List.all_cons, Bool.and_eq_true,
      Bool.not_eq_true'] at hempty hfull
    rw [hempty.1] at hfull
    exact absurd hfull.1 Bool.false_ne_true

/-- The sum over the stored entries of a row with strictly increasing columns below `c` is the
sum over all columns below `c` of the values of the row. -/
theorem sum_entries_eq_sum_range (row : List (Nat × ℚ)) (f : Nat → ℚ) (c : Nat)
    (hsorted : (row.map (fun e => e.1)).Pairwise (fun a b => a < b))
    (hcols : ∀ e ∈ row, e.1 < c) :
    (row.map (fun e => e.2 * f e.1)).sum
      = ∑ j in Finset.range c,
          ((row.find? (fun e => e.1 == j)).map (fun e => e.2)).getD 0 * f j := by
  induction row with
  | nil => simp
  | cons e rest ih =>
    rw [List.map_cons, List.pairwise_cons] at hsorted
    have hrest : ∀ x ∈ rest, x.1 < c := fun x hx => hcols x (List.mem_cons_of_mem _ hx)
    have hnone : rest.find? (fun x => x.1 == e.1) = none := by
      rw [List.find?_eq_none]
      intro x hx
      have := hsorted.1 x.1 (List.mem_map_of_mem _ hx)
      simp only [beq_iff_eq, Bool.not_eq_true]
      intro heq
      omega
    have hterm : ∀ j ∈ Finset.range c,
        (((e :: rest).find? (fun x => x.1 == j)).map (fun x => x.2)).getD 0 * f j
          = (if e.1 = j then e.2 * f e.1 else 0)
            + ((rest.find? (fun x => x.1 == j)).map (fun x => x.2)).getD 0 * f j := by
      intro j _
      rw [List.find?_cons]
      by_cases hj : e.1 = j
      · subst hj
        simp [hnone]
      · have hb : (e.1 == j) = false := by simpa using hj
        rw [hb, if_neg hj, zero_add]
    rw [List.map_cons, List.sum_cons, ih hsorted.2 hrest, Finset.sum_congr rfl hterm,
      Finset.sum_add_distrib, Finset.sum_ite_eq, if_pos]
    exact Finset.mem_range.mpr (hcols e (List.mem_cons_self _ _))

theorem getRowCount_computeProbabilityMatrix (rateMatrix : SparseMatrix) (exitRates : List ℚ) :
    SparseMatrix.getRowCount (computeProbabilityMatrix rateMatrix exitRates)
      = SparseMatrix.getRowCount rateMatrix := by
  simp [SparseMatrix.getRowCount, computeProbabilityMatrix]

/-- The row-wise pointwise product and row sum of the probability matrix of a well-formed rate
matrix is the sum over all columns. -/
theorem getPointwiseProductRowSum_computeProbabilityMatrix (rateMatrix : SparseMatrix)
    (exitRates : List ℚ) (otherMatrix : SparseMatrix) (row : Nat)
    (hwf : SparseMatrix.WellFormed rateMatrix)
    (hcols : ∀ r ∈ rateMatrix.rows, ∀ e ∈ r, e.1 < rateMatrix.columnCount) :
    SparseMatrix.getPointwiseProductRowSum (computeProbabilityMatrix rateMatrix exitRates)
        otherMatrix row
      = ∑ column in Finset.range (computeProbabilityMatrix rateMatrix exitRates).columnCount,
          SparseMatrix.value (computeProbabilityMatrix rateMatrix exitRates) row column
            * SparseMatrix.value otherMatrix row column := by
  unfold SparseMatrix.getPointwiseProductRowSum
  have hsum := sum_entries_eq_sum_range
    (SparseMatrix.getRow (computeProbabilityMatrix rateMatrix exitRates) row)
    (fun column => SparseMatrix.value otherMatrix row column)
    (computeProbabilityMatrix rateMatrix exitRates).columnCount
  apply hsum
  · rw [getRow_computeProbabilityMatrix, List.map_map]
    exact SparseMatrix.sorted_getRow hwf row
  · intro e he
    rw [getRow_computeProbabilityMatrix, List.mem_map] at he
    obtain ⟨x, hx, rfl⟩ := he
    rcases SparseMatrix.getRow_mem_or_nil rateMatrix row with hmem | hnil
    · exact hcols _ hmem x hx
    · rw [hnil] at hx
      cases hx

theorem getD_zipWith_of_lt (f : ℚ → ℚ → ℚ) (l₁ l₂ : List ℚ) (i : Nat) (h₁ : i < l₁.length)
    (h₂ : i < l₂.length) :
    (List.zipWith f l₁ l₂).getD i 0 = f (l₁.getD i 0) (l₂.getD i 0) := by
  simp [List.getD_eq_getElem?_getD, List.getElem?_zipWith, List.getElem?_eq_getElem, h₁, h₂]

/-- The vector that `computeReachabilityRewards` builds has one entry per state and at every
state the value of the single formula. -/
theorem reachabilityRewardsTotalRewardVector_formula (rateMatrix : SparseMatrix)
    (exitRateVector : List ℚ) (rewardModel : RewardModel)
    (hmodel : RewardModel.empty rewardModel = false)
    (hwf : SparseMatrix.WellFormed rateMatrix)
    (hcols : ∀ row ∈ rateMatrix.rows, ∀ e ∈ row, e.1 < rateMatrix.columnCount)
    (hrates : exitRateVector.length = SparseMatrix.getRowCount rateMatrix)
    (hstate : ∀ stateRewards, rewardModel.optionalStateRewardVector = some stateRewards →
      stateRewards.length = SparseMatrix.getRowCount rateMatrix)
    (hstateAction : ∀ stateActionRewards,
      rewardModel.optionalStateActionRewardVector = some stateActionRewards →
      stateActionRewards.length = SparseMatrix.getRowCount rateMatrix) :
    (reachabilityRewardsTotalRewardVector (computeProbabilityMatrix rateMatrix exitRateVector)
        exitRateVector rewardModel).length = SparseMatrix.getRowCount rateMatrix
    ∧ ∀ state, state < SparseMatrix.getRowCount rateMatrix →
        (reachabilityRewardsTotalRewardVector
            (computeProbabilityMatrix rateMatrix exitRateVector) exitRateVector
            rewardModel).getD state 0
          = totalRewardBySpecification (computeProbabilityMatrix rateMatrix exitRateVector)
              exitRateVector rewardModel state := by
  obtain ⟨stateRewards, stateActionRewards, transitionRewards, total⟩ := rewardModel
  have hsum := fun (T : SparseMatrix) (state : Nat) =>
    getPointwiseProductRowSum_computeProbabilityMatrix rateMatrix exitRateVector T state hwf
      hcols
  have hcount := getRowCount_computeProbabilityMatrix rateMatrix exitRateVector
  cases stateRewards with
  | none =>
    cases transitionRewards with
    | none =>
      cases stateActionRewards with
      | none => simp [RewardModel.empty, RewardModel.hasStateRewards,
          RewardModel.hasStateActionRewards, RewardModel.hasTransitionRewards] at hmodel
      | some sa =>
        have hsa := hstateAction sa rfl
        refine ⟨?_, ?_⟩
        · simpa [reachabilityRewardsTotalRewardVector, RewardModel.hasStateRewards,
            RewardModel.hasTransitionRewards, RewardModel.getStateActionRewardVector] using hsa
        · intro state _
          simp [reachabilityRewardsTotalRewardVector, RewardModel.hasStateRewards,
            RewardModel.hasTransitionRewards, RewardModel.getStateActionRewardVector,
            totalRewardBySpecification]
    | some T =>
      cases stateActionRewards with
      | none =>
        refine ⟨?_, ?_⟩
        · simp [reachabilityRewardsTotalRewardVector, RewardModel.hasStateRewards,
            RewardModel.hasTransitionRewards, RewardModel.hasStateActionRewards,
            RewardModel.getTransitionRewardMatrix,
            SparseMatrix.getPointwiseProductRowSumVector, hcount]
        · intro state hs
          simp only [reachabilityRewardsTotalRewardVector, RewardModel.hasStateRewards,
            RewardModel.hasTransitionRewards, RewardModel.hasStateActionRewards,
            RewardModel.getTransitionRewardMatrix, Option.isSome_none, Option.isSome_some,
            Bool.false_eq_true, if_false, if_true, Option.getD_some,
            SparseMatrix.getPointwiseProductRowSumVector, hcount, totalRewardBySpecification]
          rw [getD_map_range, if_pos hs, hsum]
          ring
      | some sa =>
        have hsa := hstateAction sa rfl
        refine ⟨?_, ?_⟩
        · simp [reachabilityRewardsTotalRewardVector, RewardModel.hasStateRewards,
            RewardModel.hasTransitionRewards, RewardModel.hasStateActionRewards,
            RewardModel.getTransitionRewardMatrix, RewardModel.getStateActionRewardVector,
            SparseMatrix.getPointwiseProductRowSumVector, hcount, addVectors, applyPointwise,
            hsa]
        · intro state hs
          simp only [reachabilityRewardsTotalRewardVector, RewardModel.hasStateRewards,
            RewardModel.hasTransitionRewards, RewardModel.hasStateActionRewards,
            RewardModel.getTransitionRewardMatrix, RewardModel.getStateActionRewardVector,
            Option.isSome_none, Option.isSome_some,
            Bool.false_eq_true, if_false, if_true, Option.getD_some,
            SparseMatrix.getPointwiseProductRowSumVector, hcount, totalRewardBySpecification,
            addVectors, applyPointwise]
          rw [getD_zipWith_of_lt _ _ _ _ (by simpa using hs) (by rw [hsa]; exact hs),
            getD_map_range, if_pos hs, hsum]
          ring
  | some sr =>
    have hsr := hstate sr rfl
    have hdiv : ∀ state, state < SparseMatrix.getRowCount rateMatrix →
        (List.zipWith (fun a b => a / b) sr exitRateVector).getD state 0
          = sr.getD state 0 / exitRateVector.getD state 0 := fun state hs =>
      getD_zipWith_of_lt _ _ _ _ (by rw [hsr]; exact hs) (by rw [hrates]; exact hs)
    have hdivLength : (List.zipWith (fun a b => a / b) sr exitRateVector).length
        = SparseMatrix.getRowCount rateMatrix := by
      simp [hsr, hrates]
    cases stateActionRewards with
    | none =>
      cases transitionRewards with
      | none =>
        refine ⟨?_, ?_⟩
        · simpa [reachabilityRewardsTotalRewardVector, RewardModel.hasStateRewards,
            RewardModel.hasTransitionRewards, RewardModel.hasStateActionRewards,
            RewardModel.getStateRewardVector, applyPointwise] using hdivLength
        · intro state hs
          simp only [reachabilityRewardsTotalRewardVector, RewardModel.hasStateRewards,
            RewardModel.hasTransitionRewards, RewardModel.hasStateActionRewards,
            RewardModel.getStateRewardVector, Option.isSome_none, Option.isSome_some,
            Bool.false_eq_true, if_false, if_true, Option.getD_some,
            totalRewardBySpecification, applyPointwise]
          rw [hdiv state hs]
          ring
      | some T =>
        refine ⟨?_, ?_⟩
        · simp [reachabilityRewardsTotalRewardVector, RewardModel.hasStateRewards,
            RewardModel.hasTransitionRewards, RewardModel.hasStateActionRewards,
            RewardModel.getStateRewardVector, RewardModel.getTransitionRewardMatrix,
            SparseMatrix.getPointwiseProductRowSumVector, hcount, addVectors, applyPointwise,
            hsr, hrates]
        · intro state hs
          simp only [reachabilityRewardsTotalRewardVector, RewardModel.hasStateRewards,
            RewardModel.hasTransitionRewards, RewardModel.hasStateActionRewards,
            RewardModel.getStateRewardVector, RewardModel.getTransitionRewardMatrix,
            Option.isSome_none, Option.isSome_some,
            Bool.false_eq_true, if_false, if_true, Option.getD_some,
            SparseMatrix.getPointwiseProductRowSumVector, hcount, totalRewardBySpecification,
            addVectors, applyPointwise]
          rw [getD_zipWith_of_lt _ _ _ _ (by rw [hdivLength]; exact hs) (by simpa using hs),
            hdiv state hs, getD_map_range, if_pos hs, hsum]
          ring
    | some sa =>
      have hsa := hstateAction sa rfl
      have hadd : ∀ state, state < SparseMatrix.getRowCount rateMatrix →
          (List.zipWith (fun a b => a + b)
              (List.zipWith (fun a b => a / b) sr exitRateVector) sa).getD state 0
            = sr.getD state 0 / exitRateVector.getD state 0 + sa.getD state 0 := by
        intro state hs
        rw [getD_zipWith_of_lt _ _ _ _ (by rw [hdivLength]; exact hs) (by rw [hsa]; exact hs),
          hdiv state hs]
      cases transitionRewards with
      | none =>
        refine ⟨?_, ?_⟩
        · simp [reachabilityRewardsTotalRewardVector, RewardModel.hasStateRewards,
            RewardModel.hasTransitionRewards, RewardModel.hasStateActionRewards,
            RewardModel.getStateRewardVector, RewardModel.getStateActionRewardVector,
            addVectors, applyPointwise, hsr, hrates, hsa]
        · intro state hs
          simp only [reachabilityRewardsTotalRewardVector, RewardModel.hasStateRewards,
            RewardModel.hasTransitionRewards, RewardModel.hasStateActionRewards,
            RewardModel.getStateRewardVector, RewardModel.getStateActionRewardVector,
            Option.isSome_none, Option.isSome_some,
            Bool.false_eq_true, if_false, if_true, Option.getD_some,
            totalRewardBySpecification, addVectors, applyPointwise]
          rw [hadd state hs]
          ring
      | some T =>
        refine ⟨?_, ?_⟩
        · simp [reachabilityRewardsTotalRewardVector, RewardModel.hasStateRewards,
            RewardModel.hasTransitionRewards, RewardModel.hasStateActionRewards,
            RewardModel.getStateRewardVector, RewardModel.getStateActionRewardVector,
            RewardModel.getTransitionRewardMatrix,
            SparseMatrix.getPointwiseProductRowSumVector, hcount,
            addVectors, applyPointwise, hsr, hrates, hsa]
        · intro state hs
          simp only [reachabilityRewardsTotalRewardVector, RewardModel.hasStateRewards,
            RewardModel.hasTransitionRewards, RewardModel.hasStateActionRewards,
            RewardModel.getStateRewardVector, RewardModel.getStateActionRewardVector,
            RewardModel.getTransitionRewardMatrix,
            Option.isSome_none, Option.isSome_some,
            Bool.false_eq_true, if_false, if_true, Option.getD_some,
            SparseMatrix.getPointwiseProductRowSumVector, hcount, totalRewardBySpecification,
            addVectors, applyPointwise]
          rw [getD_zipWith_of_lt _ _ _ _ (by simp [hsr, hrates, hsa]; exact hs)
            (by simpa using hs), hadd state hs, getD_map_range, if_pos hs, hsum]

theorem totalRewardsTotalRewardVector_eq (probabilityMatrix : SparseMatrix)
    (exitRateVector : List ℚ) (rewardModel : RewardModel) :
    totalRewardsTotalRewardVector probabilityMatrix exitRateVector rewardModel
      = reachabilityRewardsTotalRewardVector probabilityMatrix exitRateVector rewardModel :=
  rfl

/-- The reward vector of the chain with the rates 2 and 4 and the full reward model: `[2/2 + 1 + 1*5, 4/4 + 3 + 1*7]`. -/
theorem reachabilityRewardsTotalRewardVector_example :
    reachabilityRewardsTotalRewardVector (computeProbabilityMatrix rewardRateMatrix [2, 4])
      [2, 4] fullRewardModel = [7, 11] := by
  have h : reachabilityRewardsTotalRewardVector
      (computeProbabilityMatrix rewardRateMatrix [2, 4]) [2, 4] fullRewardModel
      = [2 / 2 + 1 + (2 / 2 * 5 + 0), 4 / 4 + 3 + (4 / 4 * 7 + 0)] := rfl
  rw [h]
  norm_num

theorem BitVector.get_const_true (n i : Nat) :
    BitVector.get (BitVector.const n true) i = decide (i < n) := by
  unfold BitVector.get BitVector.const
  by_cases h : i < n
  · simp [List.getD_eq_getElem?_getD, List.getElem?_replicate, h]
  · simp [List.getD_eq_getElem?_getD, List.getElem?_replicate, h]

theorem BitVector.setBits_const_true (n : Nat) :
    BitVector.setBits (BitVector.const n true) = List.range n := by
  unfold BitVector.setBits
  have hlen : (BitVector.const n true).length = n := by simp [BitVector.const]
  rw [hlen, List.filter_eq_self]
  intro i hi
  rw [BitVector.get_const_true]
  simpa using hi

theorem BitVector.rank_const_true (n i : Nat) (h : i ≤ n) :
    BitVector.rank (BitVector.const n true) i = i := by
  unfold BitVector.rank
  have hall : ∀ j ∈ List.range i, BitVector.get (BitVector.const n true) j = true := by
    intro j hj
    rw [BitVector.get_const_true]
    have := List.mem_range.mp hj
    simp only [decide_eq_true_eq]
    omega
  rw [List.countP_eq_length.mpr hall, List.length_range]

/-- Writing a vector with one entry per state at all states gives that vector. -/
theorem setVectorValues_const_true (n : Nat) (values : List ℚ) (h : values.length = n) :
    setVectorValues (List.replicate n 0) (BitVector.const n true) values = values := by
  apply List.ext_getElem?
  intro s
  rw [getElem?_setVectorValues, List.getElem?_replicate]
  by_cases hs : s < n
  · rw [if_pos hs, Option.map_some', BitVector.get_const_true, if_pos (by simpa using hs),
      BitVector.rank_const_true n s (Nat.le_of_lt hs), List.getD_eq_getElem?_getD,
      List.getElem?_eq_getElem (by rw [h]; exact hs)]
    rfl
  · rw [if_neg hs, Option.map_none', List.getElem?_eq_none (by rw [h]; exact Nat.le_of_not_lt hs)]

theorem getRowCount_computeUniformizedMatrix (rateMatrix : SparseMatrix)
    (maybeStates : BitVector) (uniformizationRate : ℚ) (exitRates : List ℚ) :
    SparseMatrix.getRowCount
        (computeUniformizedMatrix rateMatrix maybeStates uniformizationRate exitRates)
      = (BitVector.setBits maybeStates).length := by
  simp [SparseMatrix.getRowCount, computeUniformizedMatrix]

/-- The plain output has one entry per row of the matrix. -/
theorem length_computeTransientProbabilities_plain (env : Environment) (P : SparseMatrix)
    (a : Option (List ℚ)) (timeBound uniformizationRate : ℚ) (v : List ℚ)
    (hP : SparseMatrix.getRowCount P = v.length) :
    (computeTransientProbabilities env false P a timeBound uniformizationRate v).length
      = v.length := by
  by_cases hlambda : timeBound * uniformizationRate = 0
  · simp [computeTransientProbabilities, computeTransientProbabilitiesTraced, hlambda]
  · exact (computeTransientProbabilities_plain_formula env P a timeBound uniformizationRate v
      hlambda hP).1

theorem getD_absorbingExitRates (exitRates : List ℚ) (psiStates : BitVector) (s : Nat) :
    (absorbingExitRates exitRates psiStates).getD s 0
      = if BitVector.get psiStates s = true ∧ s < exitRates.length then 1
        else exitRates.getD s 0 := by
  unfold absorbingExitRates setVectorValue
  rw [List.getD_eq_getElem?_getD, List.getElem?_mapIdx, List.getD_eq_getElem?_getD]
  by_cases hs : s < exitRates.length
  · rw [List.getElem?_eq_getElem hs]
    by_cases hpsi : BitVector.get psiStates s = true
    · simp [hpsi, hs]
    · simp [hpsi]
  · rw [List.getElem?_eq_none (Nat.le_of_not_lt hs)]
    simp [hs]

/-- The loop below the left truncation point in cumulative mode, started in the state `st`: the
values advance by one application per round and the result gains each iterate divided by the
rate. -/
theorem foldl_belowLeftStep (P : SparseMatrix) (q : ℚ) :
    ∀ (len start : Nat) (st : TransientState), st.result.length = P.rows.length →
      ((List.range' start len).foldl (belowLeftStep P q) st).values
          = transientIterate P none st.values len
        ∧ ((List.range' start len).foldl (belowLeftStep P q) st).result.length
          = P.rows.length
        ∧ (∀ i, ((List.range' start len).foldl (belowLeftStep P q) st).result.getD i 0
            = st.result.getD i 0 + ∑ j ∈ Finset.range len,
                (transientIterate P none st.values (j + 1)).getD i 0 / q)
        ∧ ((List.range' start len).foldl (belowLeftStep P q) st).foxGlynnCalls
          = st.foxGlynnCalls := by
  intro len
  induction len with
  | zero => intro start st h; simp [transientIterate, h]
  | succ len ih =>
    intro start st h
    have hlen : (belowLeftStep P q st start).result.length = P.rows.length := by
      simp [belowLeftStep, applyPointwise, length_multiply, h]
    obtain ⟨h1, h2, h3, h5⟩ := ih (start + 1) (belowLeftStep P q st start) hlen
    rw [List.range'_succ, List.foldl_cons]
    refine ⟨?_, h2, ?_, ?_⟩
    · rw [h1]
      exact transientIterate_multiply P none st.values len
    · intro i
      rw [h3 i, Finset.sum_range_succ']
      have hstep : (belowLeftStep P q st start).result.getD i 0
          = st.result.getD i 0 + (multiply P st.values none).getD i 0 / q := by
        simp only [belowLeftStep, applyPointwise]
        rw [getD_zipWith_zero _ (by simp) _ _ (by rw [h, length_multiply])]
      rw [hstep]
      have hsum : ∀ j,
          (transientIterate P none (belowLeftStep P q st start).values (j + 1)).getD i 0 / q
            = (transientIterate P none st.values (j + 1 + 1)).getD i 0 / q := by
        intro j
        congr 2
        exact transientIterate_multiply P none st.values (j + 1)
      simp only [hsum]
      have e0 : transientIterate P none st.values (0 + 1) = multiply P st.values none := rfl
      rw [e0]
      ring
    · rw [h5]
      rfl

/-- The weights of cumulative mode: entry `j` is one minus the sum of the entries `0..j`,
divided by the rate. -/
theorem getD_mixedPoissonWeights (q : ℚ) :
    ∀ (ws : List ℚ) (sum : ℚ) (j : Nat), j < ws.length →
      (mixedPoissonWeights q sum ws).getD j 0
        = (1 - (sum + ∑ i ∈ Finset.range (j + 1), ws.getD i 0)) / q := by
  intro ws
  induction ws with
  | nil => intro sum j h; cases h
  | cons element rest ih =>
    intro sum j h
    cases j with
    | zero => simp [mixedPoissonWeights]
    | succ j =>
      have hj : j < rest.length := Nat.lt_of_succ_lt_succ h
      rw [mixedPoissonWeights, List.getD_cons_succ, ih (sum + element) j hj,
        Finset.sum_range_succ' _ (j + 1)]
      simp only [List.getD_cons_succ, List.getD_cons_zero]
      ring

/-- The weights of cumulative mode are the coefficients of the specification. -/
theorem getD_transientWeights_cumulative (fg : FoxGlynnResult) (q : ℚ) (k : Nat)
    (hk : fg.left ≤ k) (hlength : k - fg.left < fg.weights.length) :
    (transientWeights true q fg).getD (k - fg.left) 0 = cumulativeCoefficient fg q k := by
  unfold transientWeights cumulativeCoefficient
  rw [if_pos rfl, getD_mixedPoissonWeights q _ 0 _ (by simpa using hlength), zero_add,
    sum_Icc_eq_sum_range]
  have e : k + 1 - fg.left = k - fg.left + 1 := by omega
  rw [e]
  congr 2
  apply Finset.sum_congr rfl
  intro j _
  rw [getD_normalizedWeights, Nat.add_sub_cancel_left]

/-- The result of `computeTransientProbabilities` in cumulative mode without add-vector: the
iterates below the left truncation point divided by the rate, plus the iterates of the window
with the coefficients of the specification. -/
theorem computeTransientProbabilities_cumulative_formula (env : Environment) (P : SparseMatrix)
    (timeBound uniformizationRate : ℚ) (v : List ℚ)
    (hlambda : timeBound * uniformizationRate ≠ 0)
    (hP : SparseMatrix.getRowCount P = v.length)
    (hweights : (env.foxGlynn (timeBound * uniformizationRate) (env.precision / 8)).right + 1
        - (env.foxGlynn (timeBound * uniformizationRate) (env.precision / 8)).left
      ≤ (env.foxGlynn (timeBound * uniformizationRate) (env.precision / 8)).weights.length) :
    (computeTransientProbabilities env true P none timeBound uniformizationRate v).length
        = v.length
      ∧ ∀ i, (computeTransientProbabilities env true P none timeBound uniformizationRate v).getD
            i 0
          = ∑ k ∈ Finset.range
                (env.foxGlynn (timeBound * uniformizationRate) (env.precision / 8)).left,
              (transientIterate P none v k).getD i 0 / uniformizationRate
            + ∑ k ∈ Finset.Icc
                (env.foxGlynn (timeBound * uniformizationRate) (env.precision / 8)).left
                (env.foxGlynn (timeBound * uniformizationRate) (env.precision / 8)).right,
              cumulativeCoefficient
                  (env.foxGlynn (timeBound * uniformizationRate) (env.precision / 8))
                  uniformizationRate k
                * (transientIterate P none v k).getD i 0 := by
  revert hweights
  generalize hfg : env.foxGlynn (timeBound * uniformizationRate) (env.precision / 8) = fg
  intro hweights
  have hP' : P.rows.length = v.length := hP
  unfold computeTransientProbabilities computeTransientProbabilitiesTraced
  simp only [hlambda, if_false, hfg, Bool.not_true, Bool.false_and, Bool.false_eq_true,
    if_true]
  by_cases hleft : fg.left = 0
  · simp only [hleft, if_true]
    rw [hleft] at hweights
    obtain ⟨-, h2, h3, -, -⟩ := foldl_windowStep P none (transientWeights true
        uniformizationRate fg) 0 (fg.right + 1 - 1) 1
      { values := v
        result := v.map (fun x => x * (transientWeights true uniformizationRate fg).getD 0 0)
        applications := []
        foxGlynnCalls := [(timeBound * uniformizationRate, env.precision / 8)] }
      (by simp [hP'])
    simp only [Nat.sub_self, List.range'_zero, List.foldl_nil]
    refine ⟨by rw [h2, hP'], ?_⟩
    intro i
    rw [h3 i, sum_Icc_eq_sum_range]
    simp only [Nat.add_sub_cancel, Nat.sub_zero, Nat.zero_add, Finset.range_zero,
      Finset.sum_empty, zero_add]
    rw [Finset.sum_range_succ']
    rw [getD_map_zero (fun x => x * (transientWeights true uniformizationRate fg).getD 0 0)
      (zero_mul _)]
    have h0 := getD_transientWeights_cumulative fg uniformizationRate 0 (by omega) (by omega)
    rw [hleft] at h0
    simp only [Nat.sub_zero] at h0
    rw [h0, add_comm]
    congr 1
    · apply Finset.sum_congr rfl
      intro j hj
      have hj' := Finset.mem_range.mp hj
      have hc := getD_transientWeights_cumulative fg uniformizationRate (j + 1) (by omega)
        (by omega)
      rw [hleft] at hc
      simp only [Nat.sub_zero] at hc
      rw [Nat.add_comm 1 j, hc]
    · simp only [transientIterate]
      ring
  · have hpos : 1 ≤ fg.left := Nat.one_le_iff_ne_zero.mpr hleft
    simp only [hleft, if_false]
    obtain ⟨b1, b2, b3, -⟩ := foldl_belowLeftStep P uniformizationRate (fg.left - 1) 1
      { values := v
        result := v.map (fun x => x / uniformizationRate)
        applications := []
        foxGlynnCalls := [(timeBound * uniformizationRate, env.precision / 8)] }
      (by simp [hP'])
    obtain ⟨-, h2, h3, -, -⟩ := foldl_windowStep P none (transientWeights true
        uniformizationRate fg) fg.left (fg.right + 1 - fg.left) fg.left
      ((List.range' 1 (fg.left - 1)).foldl (belowLeftStep P uniformizationRate)
        { values := v
          result := v.map (fun x => x / uniformizationRate)
          applications := []
          foxGlynnCalls := [(timeBound * uniformizationRate, env.precision / 8)] })
      b2
    refine ⟨by rw [h2, hP'], ?_⟩
    intro i
    rw [h3 i, b3 i, b1, sum_Icc_eq_sum_range]
    congr 1
    · have hsplit : fg.left = fg.left - 1 + 1 := by omega
      rw [hsplit, Finset.sum_range_succ', ← hsplit]
      rw [getD_map_zero (fun x => x / uniformizationRate) (zero_div _), add_comm]
      rfl
    · apply Finset.sum_congr rfl
      intro j hj
      have hj' := Finset.mem_range.mp hj
      have hc := getD_transientWeights_cumulative fg uniformizationRate (fg.left + j)
        (by omega) (by omega)
      rw [hc, transientIterate_add]
      have e : fg.left - 1 + (j + 1) = fg.left + j := by omega
      rw [e]

theorem sum_range_getD (l : List ℚ) : ∑ j ∈ Finset.range l.length, l.getD j 0 = l.sum := by
  induction l with
  | nil => simp
  | cons a rest ih =>
    rw [List.length_cons, Finset.sum_range_succ', List.sum_cons, ← ih]
    simp only [List.getD_cons_succ, List.getD_cons_zero]
    ring

/-- The normalized weights of a Fox-Glynn result whose total weight is the sum of its weights
and not 0 sum to 1. -/
theorem sum_normalizedWeights (fg : FoxGlynnResult)
    (hlength : fg.weights.length = fg.right + 1 - fg.left)
    (htotal : fg.totalWeight = fg.weights.sum) (hne : fg.totalWeight ≠ 0) :
    ∑ i ∈ Finset.Icc fg.left fg.right, fg.weights.getD (i - fg.left) 0 / fg.totalWeight
      = 1 := by
  rw [sum_Icc_eq_sum_range, ← hlength]
  simp only [Nat.add_sub_cancel_left]
  rw [← Finset.sum_div, sum_range_getD, ← htotal, div_self hne]

/-- The coefficient of the specification as a tail sum of the normalized weights. -/
theorem cumulativeCoefficient_eq_tail (fg : FoxGlynnResult) (q : ℚ)
    (hlength : fg.weights.length = fg.right + 1 - fg.left)
    (htotal : fg.totalWeight = fg.weights.sum) (hne : fg.totalWeight ≠ 0) (k : Nat)
    (hleft : fg.left ≤ k) (hright : k ≤ fg.right) :
    cumulativeCoefficient fg q k
      = (∑ i ∈ Finset.Icc (k + 1) fg.right,
          fg.weights.getD (i - fg.left) 0 / fg.totalWeight) / q := by
  unfold cumulativeCoefficient
  congr 1
  have hone := sum_normalizedWeights fg hlength htotal hne
  simp only [← Nat.Ico_succ_right, Nat.succ_eq_add_one] at hone ⊢
  rw [← Finset.sum_Ico_consecutive _ (show fg.left ≤ k + 1 by omega)
    (show k + 1 ≤ fg.right + 1 by omega)] at hone
  linarith

theorem cumulativeCoefficient_succ_le (fg : FoxGlynnResult) (q : ℚ)
    (htotal : fg.totalWeight = fg.weights.sum) (hq : 0 < q)
    (hnonneg : ∀ w ∈ fg.weights, 0 ≤ w) (k : Nat) (hleft : fg.left ≤ k) :
    cumulativeCoefficient fg q (k + 1) ≤ cumulativeCoefficient fg q k := by
  unfold cumulativeCoefficient
  have htw : 0 ≤ fg.totalWeight := by
    rw [htotal]
    exact List.sum_nonneg hnonneg
  have hw : 0 ≤ fg.weights.getD (k + 1 - fg.left) 0 / fg.totalWeight := by
    apply div_nonneg _ htw
    rw [List.getD_eq_getElem?_getD]
    by_cases h : k + 1 - fg.left < fg.weights.length
    · rw [List.getElem?_eq_getElem h]
      exact hnonneg _ (List.getElem_mem h)
    · rw [List.getElem?_eq_none (Nat.le_of_not_lt h)]
      exact le_refl _
  simp only [← Nat.Ico_succ_right, Nat.succ_eq_add_one]
  rw [Finset.sum_Ico_succ_top (show fg.left ≤ k + 1 by omega)]
  apply div_le_div_of_nonneg_right _ (le_of_lt hq)
  linarith

theorem left_le_right_of_totalWeight_ne_zero (fg : FoxGlynnResult)
    (hlength : fg.weights.length = fg.right + 1 - fg.left)
    (htotal : fg.totalWeight = fg.weights.sum) (hne : fg.totalWeight ≠ 0) :
    fg.left ≤ fg.right := by
  by_contra h
  have hzero : fg.weights.length = 0 := by omega
  rw [List.length_eq_zero] at hzero
  rw [htotal, hzero] at hne
  exact hne rfl

/-- Summation by parts from above: for a non-decreasing sequence `x` and differences `d` of
weights whose sums over the indices from `j` on are non-negative, the weighted sum from `m` on
is at least `x m` times the sum of the differences from `m` on. -/
theorem sum_Ico_mul_ge (d x : Nat → ℚ) (N : Nat) (hx : ∀ k, x k ≤ x (k + 1))
    (htail : ∀ j, 1 ≤ j → 0 ≤ ∑ k ∈ Finset.Ico j N, d k) :
    ∀ (c m : Nat), m + c = N → 1 ≤ m → 0 ≤ x m →
      x m * ∑ k ∈ Finset.Ico m N, d k ≤ ∑ k ∈ Finset.Ico m N, d k * x k := by
  intro c
  induction c with
  | zero =>
    intro m hm _ _
    have : m = N := by omega
    subst this
    simp
  | succ c ih =>
    intro m hm h1 hxm
    have hlt : m < N := by omega
    have hnext := ih (m + 1) (by omega) (by omega) (le_trans hxm (hx m))
    rw [Finset.sum_eq_sum_Ico_succ_bot hlt, Finset.sum_eq_sum_Ico_succ_bot hlt]
    have ht := htail (m + 1) (by omega)
    have hmono := hx m
    nlinarith [mul_nonneg (sub_nonneg.mpr hmono) ht]

/-- Weights with larger sums from every index `j ≥ 1` on give a larger weighted sum of a
non-decreasing sequence that starts at 0. -/
theorem sum_weighted_le_of_tail_le (u₁ u₂ x : Nat → ℚ) (N : Nat) (hx0 : x 0 = 0)
    (hx : ∀ k, x k ≤ x (k + 1))
    (htail : ∀ j, 1 ≤ j → ∑ k ∈ Finset.Ico j N, u₁ k ≤ ∑ k ∈ Finset.Ico j N, u₂ k) :
    ∑ k ∈ Finset.range N, u₁ k * x k ≤ ∑ k ∈ Finset.range N, u₂ k * x k := by
  rw [← sub_nonneg, ← Finset.sum_sub_distrib]
  have hd : ∀ j, 1 ≤ j → 0 ≤ ∑ k ∈ Finset.Ico j N, (u₂ k - u₁ k) := by
    intro j hj
    rw [Finset.sum_sub_distrib, sub_nonneg]
    exact htail j hj
  have hrewrite : ∀ k ∈ Finset.range N, u₂ k * x k - u₁ k * x k = (u₂ k - u₁ k) * x k := by
    intro k _
    ring
  rw [Finset.sum_congr rfl hrewrite]
  cases N with
  | zero => simp
  | succ N =>
    rw [Finset.sum_range_succ', hx0, mul_zero, add_zero]
    have hx1 : 0 ≤ x 1 := by
      have := hx 0
      rw [hx0] at this
      exact this
    have hmain := sum_Ico_mul_ge (fun k => u₂ k - u₁ k) x (N + 1) hx hd N 1 (by omega)
      (le_refl 1) hx1
    have hshift : ∑ k ∈ Finset.range N, (u₂ (k + 1) - u₁ (k + 1)) * x (k + 1)
        = ∑ k ∈ Finset.Ico 1 (N + 1), (u₂ k - u₁ k) * x k := by
      rw [Finset.sum_Ico_eq_sum_range]
      simp only [Nat.add_sub_cancel]
      apply Finset.sum_congr rfl
      intro k _
      rw [Nat.add_comm 1 k]
    rw [hshift]
    exact le_trans (mul_nonneg hx1 (hd 1 (le_refl 1))) hmain

theorem sum_window_eq_sum_range (fg : FoxGlynnResult) (f : Nat → ℚ) (N : Nat)
    (hN : fg.right < N) :
    ∑ k ∈ Finset.Icc fg.left fg.right,
        fg.weights.getD (k - fg.left) 0 / fg.totalWeight * f k
      = ∑ k ∈ Finset.range N, normalizedWeightAt fg k * f k := by
  unfold normalizedWeightAt
  simp only [ite_mul, zero_mul]
  rw [← Finset.sum_filter]
  apply Finset.sum_congr _ (fun _ _ => rfl)
  ext k
  simp only [Finset.mem_Icc, Finset.mem_filter, Finset.mem_range]
  omega

theorem normalizedTail_eq_sum_Ico (fg : FoxGlynnResult) (j N : Nat) (hN : fg.right < N) :
    normalizedTail fg j = ∑ k ∈ Finset.Ico j N, normalizedWeightAt fg k := by
  unfold normalizedTail normalizedWeightAt
  rw [← Finset.sum_filter]
  apply Finset.sum_congr _ (fun _ _ => rfl)
  ext k
  simp only [Finset.mem_Icc, Finset.mem_filter, Finset.mem_Ico]
  omega

theorem normalizedTail_nonneg (fg : FoxGlynnResult) (hweights : ∀ w ∈ fg.weights, 0 ≤ w)
    (htotal : 0 ≤ fg.totalWeight) (j : Nat) : 0 ≤ normalizedTail fg j := by
  unfold normalizedTail
  apply Finset.sum_nonneg
  intro k _
  apply div_nonneg _ htotal
  rw [List.getD_eq_getElem?_getD]
  by_cases h : k - fg.left < fg.weights.length
  · rw [List.getElem?_eq_getElem h]
    exact hweights _ (List.getElem_mem h)
  · rw [List.getElem?_eq_none (Nat.le_of_not_lt h)]
    exact le_refl _

theorem getD_multiply (A : SparseMatrix) (x : List ℚ) (b : Option (List ℚ)) (i : Nat) :
    (multiply A x b).getD i 0
      = if i < A.rows.length then
          multiplyRow (SparseMatrix.getRow A i) x
            + (match b with | none => 0 | some v => v.getD i 0)
        else 0 := by
  unfold multiply
  exact getD_map_range _ _ _ _

theorem multiplyRow_mono (row : List (Nat × ℚ)) (y z : List ℚ) (hrow : ∀ e ∈ row, 0 ≤ e.2)
    (hyz : ∀ c, y.getD c 0 ≤ z.getD c 0) : multiplyRow row y ≤ multiplyRow row z := by
  unfold multiplyRow
  induction row with
  | nil => simp
  | cons e rest ih =>
    rw [List.map_cons, List.sum_cons, List.map_cons, List.sum_cons]
    have h1 := mul_le_mul_of_nonneg_left (hyz e.1) (hrow e (List.mem_cons_self _ _))
    have h2 := ih (fun e' he' => hrow e' (List.mem_cons_of_mem _ he'))
    linarith

theorem multiplyRow_replicate_zero (row : List (Nat × ℚ)) (n : Nat) :
    multiplyRow row (List.replicate n 0) = 0 := by
  unfold multiplyRow
  induction row with
  | nil => simp
  | cons e rest ih =>
    rw [List.map_cons, List.sum_cons, ih, getD_replicate_zero]
    ring

theorem multiply_mono (A : SparseMatrix) (b : Option (List ℚ)) (y z : List ℚ)
    (hA : ∀ i, ∀ e ∈ SparseMatrix.getRow A i, 0 ≤ e.2)
    (hyz : ∀ c, y.getD c 0 ≤ z.getD c 0) (i : Nat) :
    (multiply A y b).getD i 0 ≤ (multiply A z b).getD i 0 := by
  rw [getD_multiply, getD_multiply]
  split
  · have := multiplyRow_mono _ y z (hA i) hyz
    linarith
  · exact le_refl _

/-- The iterates `x_0 = 0`, `x_(k+1) = P * x_k + b` of a matrix and an add-vector without
negative entries do not decrease from one round to the next. -/
theorem transientIterate_mono (P : SparseMatrix) (b : List ℚ) (n : Nat)
    (hP : ∀ i, ∀ e ∈ SparseMatrix.getRow P i, 0 ≤ e.2) (hb : ∀ i, 0 ≤ b.getD i 0) :
    ∀ k i, (transientIterate P (some b) (List.replicate n 0) k).getD i 0
      ≤ (transientIterate P (some b) (List.replicate n 0) (k + 1)).getD i 0 := by
  intro k
  induction k with
  | zero =>
    intro i
    show (List.replicate n (0 : ℚ)).getD i 0 ≤ (multiply P (List.replicate n 0) (some b)).getD i 0
    rw [getD_replicate_zero, getD_multiply]
    split
    · rw [multiplyRow_replicate_zero, zero_add]
      exact hb i
    · exact le_refl _
  | succ k ih =>
    intro i
    exact multiply_mono P (some b) _ _ hP ih i

theorem getSubmatrixRow_nonneg (K : BitVector) (ins : Bool) (r : Nat) :
    ∀ (row : List (Nat × ℚ)) (inserted : Bool), (∀ e ∈ row, 0 ≤ e.2) →
      ∀ e ∈ getSubmatrixRow K ins r inserted row, 0 ≤ e.2 := by
  intro row
  induction row with
  | nil =>
    intro inserted _ e he
    unfold getSubmatrixRow at he
    split at he
    · rw [List.mem_singleton] at he
      rw [he]
    · cases he
  | cons x rest ih =>
    intro inserted hrow e he
    have hx := hrow x (List.mem_cons_self _ _)
    have hrest : ∀ e ∈ rest, 0 ≤ e.2 := fun e' he' => hrow e' (List.mem_cons_of_mem _ he')
    unfold getSubmatrixRow at he
    split at he
    · split at he
      · rcases List.mem_cons.mp he with h | h
        · rw [h]
          exact hx
        · exact ih _ hrest e h
      · split at he
        · rcases List.mem_cons.mp he with h | h
          · rw [h]
          · rcases List.mem_cons.mp h with h | h
            · rw [h]
              exact hx
            · exact ih _ hrest e h
        · rcases List.mem_cons.mp he with h | h
          · rw [h]
            exact hx
          · exact ih _ hrest e h
    · exact ih _ hrest e he

theorem uniformizeEntry_nonneg (q : ℚ) (E : List ℚ) (a state : Nat) (e : Nat × ℚ)
    (hq : 0 < q) (hE : E.getD state 0 ≤ q) (he : 0 ≤ e.2) :
    0 ≤ (uniformizeEntry q E a state e).2 := by
  unfold uniformizeEntry
  split
  · show 0 ≤ (e.2 - E.getD state 0) / q + 1
    have : (e.2 - E.getD state 0) / q + 1 = (e.2 + (q - E.getD state 0)) / q := by
      field_simp
      ring
    rw [this]
    apply div_nonneg _ (le_of_lt hq)
    linarith
  · exact div_nonneg he (le_of_lt hq)

/-- The uniformized matrix of a rate matrix without negative entries has no negative entries
when the rate is positive and at least every exit rate of the selected states. -/
theorem computeUniformizedMatrix_nonneg (rateMatrix : SparseMatrix) (maybeStates : BitVector)
    (q : ℚ) (exitRates : List ℚ) (hR : ∀ row ∈ rateMatrix.rows, ∀ e ∈ row, 0 ≤ e.2)
    (hq : 0 < q) (hE : ∀ s ∈ BitVector.setBits maybeStates, exitRates.getD s 0 ≤ q) :
    ∀ a, ∀ e ∈ SparseMatrix.getRow (computeUniformizedMatrix rateMatrix maybeStates q
      exitRates) a, 0 ≤ e.2 := by
  intro a e he
  by_cases ha : a < (BitVector.setBits maybeStates).length
  · rw [getRow_computeUniformizedMatrix _ _ _ _ a ha, List.mem_map] at he
    obtain ⟨x, hx, rfl⟩ := he
    apply uniformizeEntry_nonneg q exitRates a _ x hq (hE _ (List.getElem_mem ha))
    apply getSubmatrixRow_nonneg maybeStates true a _ false _ x hx
    intro y hy
    rcases SparseMatrix.getRow_mem_or_nil rateMatrix ((BitVector.setBits maybeStates)[a])
      with hmem | hnil
    · exact hR _ hmem y hy
    · rw [hnil] at hy
      cases hy
  · rw [getRow_computeUniformizedMatrix_of_le _ _ _ _ a (Nat.le_of_not_lt ha)] at he
    cases he

theorem getConstrainedRowSumVector_nonneg (rateMatrix : SparseMatrix)
    (rowConstraint columnConstraint : BitVector) (q : ℚ) (hq : 0 < q)
    (hR : ∀ row ∈ rateMatrix.rows, ∀ e ∈ row, 0 ≤ e.2) (i : Nat) :
    0 ≤ ((SparseMatrix.getConstrainedRowSumVector rateMatrix rowConstraint
      columnConstraint).map (fun element => element / q)).getD i 0 := by
  rw [getD_map_zero (fun element => element / q) (zero_div _)]
  apply div_nonneg _ (le_of_lt hq)
  unfold SparseMatrix.getConstrainedRowSumVector
  rw [List.getD_eq_getElem?_getD, List.getElem?_map]
  cases h : (BitVector.setBits rowConstraint)[i]? with
  | none => exact le_refl _
  | some index =>
    simp only [Option.map_some', Option.getD_some]
    apply entrySum_nonneg
    intro e he
    have hmem := (List.mem_filter.mp he).1
    rcases SparseMatrix.getRow_mem_or_nil rateMatrix index with hrow | hnil
    · exact hR _ hrow e hmem
    · rw [hnil] at hmem
      cases hmem

theorem constrainedRowSums_nonneg (rateMatrix : SparseMatrix)
    (rowConstraint columnConstraint : BitVector) (q : ℚ) (hq : 0 < q)
    (hR : ∀ row ∈ rateMatrix.rows, ∀ e ∈ row, 0 ≤ e.2) (i : Nat) :
    0 ≤ ((BitVector.setBits rowConstraint).map (fun s =>
      entrySum ((SparseMatrix.getRow rateMatrix s).filter
        (fun e => BitVector.get columnConstraint e.1)) / q)).getD i 0 := by
  rw [List.getD_eq_getElem?_getD, List.getElem?_map]
  cases h : (BitVector.setBits rowConstraint)[i]? with
  | none => exact le_refl _
  | some index =>
    simp only [Option.map_some', Option.getD_some]
    apply div_nonneg _ (le_of_lt hq)
    apply entrySum_nonneg
    intro e he
    have hmem := (List.mem_filter.mp he).1
    rcases SparseMatrix.getRow_mem_or_nil rateMatrix index with hrow | hnil
    · exact hR _ hrow e hmem
    · rw [hnil] at hmem
      cases hmem

/-- The plain output for the zero initial vector, a matrix and an add-vector without negative
entries, and Fox-Glynn weights without negative entries, has no negative entry. -/
theorem computeTransientProbabilities_plain_nonneg (env : Environment) (P : SparseMatrix)
    (b : List ℚ) (n : Nat) (t q : ℚ)
    (hP : ∀ i, ∀ e ∈ SparseMatrix.getRow P i, 0 ≤ e.2) (hb : ∀ i, 0 ≤ b.getD i 0)
    (hrows : SparseMatrix.getRowCount P = n) (ht : t * q ≠ 0)
    (hweights : ∀ w ∈ (env.foxGlynn (t * q) (env.precision / 8)).weights, 0 ≤ w)
    (htotal : 0 ≤ (env.foxGlynn (t * q) (env.precision / 8)).totalWeight) (i : Nat) :
    0 ≤ (computeTransientProbabilities env false P (some b) t q (List.replicate n 0)).getD
      i 0 := by
  have hlen : SparseMatrix.getRowCount P = (List.replicate n (0 : ℚ)).length := by
    rw [hrows, List.length_replicate]
  rw [(computeTransientProbabilities_plain_formula env P (some b) t q _ ht hlen).2 i]
  generalize env.foxGlynn (t * q) (env.precision / 8) = fg at hweights htotal ⊢
  rw [sum_window_eq_sum_range fg _ (fg.right + 1) (Nat.lt_succ_self _)]
  have h := sum_weighted_le_of_tail_le (fun _ => 0) (normalizedWeightAt fg)
    (fun k => (transientIterate P (some b) (List.replicate n 0) k).getD i 0) (fg.right + 1)
    (getD_replicate_zero n i) (fun k => transientIterate_mono P b n hP hb k i)
    (by
      intro j _
      rw [← normalizedTail_eq_sum_Ico fg j _ (Nat.lt_succ_self _)]
      simp only [Finset.sum_const_zero]
      exact normalizedTail_nonneg fg hweights htotal j)
  simpa using h

theorem getD_setVectorValues (vector : List ℚ) (positions : BitVector) (values : List ℚ)
    (s : Nat) :
    (setVectorValues vector positions values).getD s 0
      = if s < vector.length then
          (if BitVector.get positions s then values.getD (BitVector.rank positions s) 0
            else vector.getD s 0)
        else 0 := by
  rw [List.getD_eq_getElem?_getD, getElem?_setVectorValues]
  by_cases h : s < vector.length
  · have hget : vector.getD s 0 = vector[s] := by
      rw [List.getD_eq_getElem?_getD, List.getElem?_eq_getElem h]
      rfl
    rw [if_pos h, List.getElem?_eq_getElem h, hget]
    rfl
  · rw [if_neg h, List.getElem?_eq_none (Nat.le_of_not_lt h)]
    rfl

theorem getD_setVectorValue (vector : List ℚ) (positions : BitVector) (value : ℚ) (s : Nat) :
    (setVectorValue vector positions value).getD s 0
      = if s < vector.length then
          (if BitVector.get positions s then value else vector.getD s 0)
        else 0 := by
  rw [List.getD_eq_getElem?_getD, getElem?_setVectorValue]
  by_cases h : s < vector.length
  · have hget : vector.getD s 0 = vector[s] := by
      rw [List.getD_eq_getElem?_getD, List.getElem?_eq_getElem h]
      rfl
    rw [if_pos h, List.getElem?_eq_getElem h, hget]
    rfl
  · rw [if_neg h, List.getElem?_eq_none (Nat.le_of_not_lt h)]
    rfl

theorem maybeStatesOf_disjoint_psi (backwardTransitions : SparseMatrix)
    (phiStates psiStates : BitVector) (s : Nat)
    (h : BitVector.get (maybeStatesOf backwardTransitions phiStates psiStates) s = true) :
    BitVector.get psiStates s = false := by
  rw [BitVector.get_and, BitVector.get_complement] at h
  cases hpsi : BitVector.get psiStates s
  · rfl
  · rw [hpsi] at h
    simp at h

/-- Every solver that `computeLongRunAverages` creates is the one for the states outside the
blocks: the computation for a block creates none. -/
theorem created_computeLongRunAveragesTraced (env : LongRunEnvironment) (fuel : Nat)
    (goal : SolveGoal) (rateMatrix : SparseMatrix) (valueGetter : Nat → ℚ)
    (exitRateVector : Option (List ℚ)) :
    ∀ matrix ∈ (computeLongRunAveragesTraced env fuel goal rateMatrix valueGetter
        exitRateVector).1.solver.created,
      matrix = rewardEquationSystemMatrixOf env.isEquationSystemFormat rateMatrix
        (BitVector.complement (statesInBsccsOf (SparseMatrix.getRowCount rateMatrix)
          (env.bsccDecomposition rateMatrix))) exitRateVector := by
  intro matrix hmem
  cases hlra : computeBsccLra (fun bscc => computeLongRunAveragesForBscc fuel bscc rateMatrix
      (SparseMatrix.transpose rateMatrix) valueGetter exitRateVector)
      (env.bsccDecomposition rateMatrix) with
  | none =>
    rw [computeLongRunAveragesTraced_of_none _ _ _ _ _ _ hlra] at hmem
    cases hmem
  | some bsccLra =>
    rw [computeLongRunAveragesTraced_of_some _ _ _ _ _ _ _ hlra] at hmem
    split at hmem
    · split at hmem
      · exact List.mem_singleton.mp hmem
      · exact List.mem_singleton.mp hmem
    · cases hmem

theorem performProbGreater0_isolated :
    performProbGreater0 isolatedRateMatrix [true, true] [false, true] = [false, true] := by
  decide

theorem maybeStatesOf_isolated :
    maybeStatesOf isolatedRateMatrix [true, true] [false, true] = [false, false] := by
  decide

theorem relevantStatesOf_isolated :
    relevantStatesOf isolatedRateMatrix [true, true] [false, true] = [false, true] := by
  decide

theorem uniformizationRateOf_isolated :
    uniformizationRateOf [false, true] [0, 0] = 0 := by
  have h : BitVector.setBits [false, true] = [1] := by decide
  simp only [uniformizationRateOf, h]
  norm_num

/-- The row-wise pointwise product and row sum of a well-formed matrix is the sum over all
columns. -/
theorem getPointwiseProductRowSum_eq_sum (m otherMatrix : SparseMatrix) (row : Nat)
    (hwf : SparseMatrix.WellFormed m)
    (hcols : ∀ r ∈ m.rows, ∀ e ∈ r, e.1 < m.columnCount) :
    SparseMatrix.getPointwiseProductRowSum m otherMatrix row
      = ∑ column in Finset.range m.columnCount,
          SparseMatrix.value m row column * SparseMatrix.value otherMatrix row column := by
  unfold SparseMatrix.getPointwiseProductRowSum
  have hsum := sum_entries_eq_sum_range (SparseMatrix.getRow m row)
    (fun column => SparseMatrix.value otherMatrix row column) m.columnCount
  apply hsum
  · exact SparseMatrix.sorted_getRow hwf row
  · intro e he
    rcases SparseMatrix.getRow_mem_or_nil m row with hmem | hnil
    · exact hcols _ hmem e he
    · rw [hnil] at he
      cases he

theorem rewardValueGetter_eq (rateMatrix : SparseMatrix) (rewardModel : RewardModel)
    (exitRateVector : Option (List ℚ)) (state : Nat)
    (hwf : SparseMatrix.WellFormed rateMatrix)
    (hcols : ∀ row ∈ rateMatrix.rows, ∀ e ∈ row, e.1 < rateMatrix.columnCount) :
    rewardValueGetter rateMatrix rewardModel exitRateVector state
      = longRunRewardBySpecification rateMatrix rewardModel exitRateVector state := by
  obtain ⟨stateRewards, stateActionRewards, transitionRewards, total⟩ := rewardModel
  unfold rewardValueGetter longRunRewardBySpecification
  cases stateRewards <;> cases stateActionRewards <;> cases transitionRewards <;>
    cases exitRateVector <;>
    simp only [getPointwiseProductRowSum_eq_sum rateMatrix _ state hwf hcols] <;> ring

/-- The value function of the chain with the rates 2 and 4 and the full reward model at
state 0: `2 + 1 * 2 + 2 * 5`. -/
theorem rewardValueGetter_example :
    rewardValueGetter rewardRateMatrix fullRewardModel (some [2, 4]) 0 = 14 := by
  have h : rewardValueGetter rewardRateMatrix fullRewardModel (some [2, 4]) 0
      = 2 + 1 * 2 + (2 * 5 + 0) := rfl
  rw [h]
  norm_num

theorem get_bsccStatesOf (n : Nat) (bscc : StronglyConnectedComponent) (s : Nat) :
    BitVector.get (bsccStatesOf n bscc) s = (decide (s < n) && bscc.contains s) := by
  unfold BitVector.get bsccStatesOf
  rw [getD_map_range]
  by_cases h : s < n
  · simp [h]
  · simp [h]

theorem mem_setBits_bsccStatesOf (n : Nat) (bscc : StronglyConnectedComponent) (s : Nat) :
    s ∈ BitVector.setBits (bsccStatesOf n bscc) ↔ s < n ∧ s ∈ bscc := by
  constructor
  · intro h
    have hget := BitVector.get_of_mem_setBits _ h
    rw [get_bsccStatesOf] at hget
    simpa using hget
  · intro h
    apply BitVector.mem_setBits_of_get
    rw [get_bsccStatesOf]
    simpa using h

theorem foldl_max_flip_ge (values : List ℚ) (rest : List Nat) (a : ℚ) :
    a ≤ rest.foldl (fun current index => max (values.getD index 0) current) a
      ∧ ∀ s ∈ rest, values.getD s 0
          ≤ rest.foldl (fun current index => max (values.getD index 0) current) a := by
  induction rest generalizing a with
  | nil => simp
  | cons y ys ih =>
    obtain ⟨h1, h2⟩ := ih (max (values.getD y 0) a)
    simp only [List.foldl_cons, List.mem_cons]
    refine ⟨le_trans (le_max_right _ a) h1, ?_⟩
    intro s hs
    rcases hs with rfl | hs
    · exact le_trans (le_max_left _ a) h1
    · exact h2 s hs

/-- The value of `max_if` is at least every value at a set position. -/
theorem max_if_ge (values : List ℚ) (filter : BitVector) :
    ∀ s ∈ BitVector.setBits filter, values.getD s 0 ≤ max_if values filter := by
  intro s hs
  unfold max_if
  cases hbits : BitVector.setBits filter with
  | nil =>
    rw [hbits] at hs
    cases hs
  | cons first rest =>
    rw [hbits] at hs
    simp only []
    rcases List.mem_cons.mp hs with rfl | hrest
    · exact (foldl_max_flip_ge values rest _).1
    · exact (foldl_max_flip_ge values rest _).2 s hrest

theorem max_if_nonneg (values : List ℚ) (filter : BitVector)
    (h : ∀ s ∈ BitVector.setBits filter, 0 ≤ values.getD s 0) : 0 ≤ max_if values filter := by
  cases hbits : BitVector.setBits filter with
  | nil =>
    unfold max_if
    rw [hbits]
  | cons first rest =>
    have hfirst : first ∈ BitVector.setBits filter := by
      rw [hbits]
      exact List.mem_cons_self _ _
    exact le_trans (h first hfirst) (max_if_ge values filter first hfirst)

/-- The rate of the value iteration is at least 1 when the exit rates of the block are not
negative. -/
theorem viUniformizationRate_ge_one (bsccStates : BitVector)
    (exitRateVector : Option (List ℚ))
    (h : ∀ exitRates, exitRateVector = some exitRates →
      ∀ s ∈ BitVector.setBits bsccStates, 0 ≤ exitRates.getD s 0) :
    1 ≤ viUniformizationRate bsccStates exitRateVector := by
  unfold viUniformizationRate
  cases exitRateVector with
  | none => norm_num
  | some exitRates =>
    have := max_if_nonneg exitRates bsccStates (h exitRates rfl)
    simp only []
    linarith

theorem foldl_max_const (rows : List Nat) (f : Nat → ℚ) (d : ℚ) (h : ∀ row ∈ rows, f row = d) :
    rows.foldl (fun maxDiff row => max maxDiff (f row)) d = d := by
  induction rows with
  | nil => rfl
  | cons row rest ih =>
    rw [List.foldl_cons, h row (List.mem_cons_self _ _), max_self]
    exact ih (fun r hr => h r (List.mem_cons_of_mem _ hr))

theorem foldl_min_const (rows : List Nat) (f : Nat → ℚ) (d : ℚ) (h : ∀ row ∈ rows, f row = d) :
    rows.foldl (fun minDiff row => min minDiff (f row)) d = d := by
  induction rows with
  | nil => rfl
  | cons row rest ih =>
    rw [List.foldl_cons, h row (List.mem_cons_self _ _), min_self]
    exact ih (fun r hr => h r (List.mem_cons_of_mem _ hr))

/-- The first pass of the value iteration when every step reward is `d`: every new value and
every difference is `d`. -/
theorem viRound_const (bsccMatrix : SparseMatrix) (markovianRewards : List ℚ) (d : ℚ)
    (hrows : 0 < SparseMatrix.getRowCount bsccMatrix)
    (hrewards : ∀ row, row < SparseMatrix.getRowCount bsccMatrix →
      markovianRewards.getD row 0 = d) :
    viRound bsccMatrix markovianRewards
        (List.replicate (SparseMatrix.getRowCount bsccMatrix) 0)
        (List.replicate (SparseMatrix.getRowCount bsccMatrix) 0)
      = ⟨List.replicate (SparseMatrix.getRowCount bsccMatrix) d, d, d⟩ := by
  have hnew : ∀ row, row < SparseMatrix.getRowCount bsccMatrix →
      viNewValue bsccMatrix markovianRewards
        (List.replicate (SparseMatrix.getRowCount bsccMatrix) 0) row = d := by
    intro row hrow
    unfold viNewValue
    rw [hrewards row hrow, multiplyRow_replicate_zero, add_zero]
  have hdiff : ∀ row, row < SparseMatrix.getRowCount bsccMatrix →
      viNewValue bsccMatrix markovianRewards
          (List.replicate (SparseMatrix.getRowCount bsccMatrix) 0) row
        - (List.replicate (SparseMatrix.getRowCount bsccMatrix) (0 : ℚ)).getD row 0 = d := by
    intro row hrow
    rw [hnew row hrow, getD_replicate_zero, sub_zero]
  have hrest : ∀ row ∈ List.range' 1 (SparseMatrix.getRowCount bsccMatrix - 1),
      row < SparseMatrix.getRowCount bsccMatrix := by
    intro row hrow
    rw [List.mem_range'_1] at hrow
    omega
  unfold viRound
  simp only []
  rw [hdiff 0 hrows]
  congr 1
  · apply List.ext_getElem
    · simp
    · intro i h1 h2
      simp only [List.getElem_map, List.getElem_range, List.getElem_replicate]
      exact hnew i (by simpa using h1)
  · exact foldl_max_const _ _ d (fun row hrow => hdiff row (hrest row hrow))
  · exact foldl_min_const _ _ d (fun row hrow => hdiff row (hrest row hrow))

/-- The value iteration with constant step rewards `d ≥ 0` is left in its first round. -/
theorem valueIteration_const (bsccMatrix : SparseMatrix) (markovianRewards : List ℚ)
    (d precision : ℚ) (fuel : Nat) (hrows : 0 < SparseMatrix.getRowCount bsccMatrix)
    (hrewards : ∀ row, row < SparseMatrix.getRowCount bsccMatrix →
      markovianRewards.getD row 0 = d)
    (hd : 0 ≤ d) (hprecision : 0 ≤ precision) :
    valueIteration bsccMatrix markovianRewards precision true (fuel + 1) 0
        (List.replicate (SparseMatrix.getRowCount bsccMatrix) 0)
        (List.replicate (SparseMatrix.getRowCount bsccMatrix) 0)
      = some (1, List.replicate (SparseMatrix.getRowCount bsccMatrix) d) := by
  rw [valueIteration]
  simp only [viRound_const bsccMatrix markovianRewards d hrows hrewards, sub_self, if_true]
  rw [if_pos]
  exact mul_nonneg hprecision (add_nonneg (by
    cases hn : SparseMatrix.getRowCount bsccMatrix with
    | zero => omega
    | succ n => simpa [List.replicate_succ] using hd) hd)

theorem getRowCount_viBsccMatrix (rateMatrix : SparseMatrix) (bsccStates : BitVector)
    (uniformizationRate : ℚ) (exitRateVector : Option (List ℚ)) :
    SparseMatrix.getRowCount
        (viBsccMatrix rateMatrix bsccStates uniformizationRate exitRateVector)
      = (BitVector.setBits bsccStates).length := by
  simp [SparseMatrix.getRowCount, viBsccMatrix]

/-- The value iteration for a value function that is a constant `c ≥ 0` on a block with a state
of the chain and exit rates that are not negative: one round, and the value `c`. -/
theorem computeLongRunAveragesForBsccViTraced_const (fuel : Nat)
    (bscc : StronglyConnectedComponent) (rateMatrix backwardTransitions : SparseMatrix)
    (valueGetter : Nat → ℚ) (exitRateVector : Option (List ℚ)) (c : ℚ)
    (hsize : 0 < bscc.length)
    (hstates : ∀ s ∈ bscc, s < SparseMatrix.getRowCount rateMatrix)
    (hexit : ∀ exitRates, exitRateVector = some exitRates →
      ∀ s ∈ bscc, 0 ≤ exitRates.getD s 0)
    (hvalue : ∀ s ∈ bscc, valueGetter s = c) (hc : 0 ≤ c) :
    computeLongRunAveragesForBsccViTraced (fuel + 1) bscc rateMatrix backwardTransitions
        valueGetter exitRateVector
      = (⟨some (viBsccMatrix rateMatrix
            (bsccStatesOf (SparseMatrix.getRowCount rateMatrix) bscc)
            (viUniformizationRate (bsccStatesOf (SparseMatrix.getRowCount rateMatrix) bscc)
              exitRateVector) exitRateVector), 1⟩, some c) := by
  have hrate : 1 ≤ viUniformizationRate
      (bsccStatesOf (SparseMatrix.getRowCount rateMatrix) bscc) exitRateVector :=
    viUniformizationRate_ge_one _ _ (fun exitRates h s hs =>
      hexit exitRates h s ((mem_setBits_bsccStatesOf _ _ _).mp hs).2)
  have hpos : 0 < viUniformizationRate
      (bsccStatesOf (SparseMatrix.getRowCount rateMatrix) bscc) exitRateVector := by linarith
  have hrows : 0 < SparseMatrix.getRowCount (viBsccMatrix rateMatrix
      (bsccStatesOf (SparseMatrix.getRowCount rateMatrix) bscc)
      (viUniformizationRate (bsccStatesOf (SparseMatrix.getRowCount rateMatrix) bscc)
        exitRateVector) exitRateVector) := by
    rw [getRowCount_viBsccMatrix]
    obtain ⟨s, hs⟩ := List.exists_mem_of_length_pos hsize
    exact List.length_pos_of_mem ((mem_setBits_bsccStatesOf _ _ _).mpr ⟨hstates s hs, hs⟩)
  have hrewards : ∀ row, row < SparseMatrix.getRowCount (viBsccMatrix rateMatrix
        (bsccStatesOf (SparseMatrix.getRowCount rateMatrix) bscc)
        (viUniformizationRate (bsccStatesOf (SparseMatrix.getRowCount rateMatrix) bscc)
          exitRateVector) exitRateVector) →
      ((BitVector.setBits (bsccStatesOf (SparseMatrix.getRowCount rateMatrix) bscc)).map
        (fun state => valueGetter state * (1 / viUniformizationRate
          (bsccStatesOf (SparseMatrix.getRowCount rateMatrix) bscc) exitRateVector))).getD
          row 0
        = c * (1 / viUniformizationRate
          (bsccStatesOf (SparseMatrix.getRowCount rateMatrix) bscc) exitRateVector) := by
    intro row hrow
    rw [getRowCount_viBsccMatrix] at hrow
    rw [List.getD_eq_getElem?_getD, List.getElem?_map, List.getElem?_eq_getElem hrow]
    simp only [Option.map_some', Option.getD_some]
    rw [hvalue _ ((mem_setBits_bsccStatesOf _ _ _).mp (List.getElem_mem hrow)).2]
  have hd : 0 ≤ c * (1 / viUniformizationRate
      (bsccStatesOf (SparseMatrix.getRowCount rateMatrix) bscc) exitRateVector) :=
    mul_nonneg hc (div_nonneg zero_le_one (le_of_lt hpos))
  have hprecision : (0 : ℚ) ≤ 1 / 1000000 / viUniformizationRate
      (bsccStatesOf (SparseMatrix.getRowCount rateMatrix) bscc) exitRateVector :=
    div_nonneg (by norm_num) (le_of_lt hpos)
  unfold computeLongRunAveragesForBsccViTraced
  simp only []
  rw [valueIteration_const _ _ _ _ fuel hrows hrewards hd hprecision]
  simp only []
  congr 2
  cases hn : SparseMatrix.getRowCount (viBsccMatrix rateMatrix
      (bsccStatesOf (SparseMatrix.getRowCount rateMatrix) bscc)
      (viUniformizationRate (bsccStatesOf (SparseMatrix.getRowCount rateMatrix) bscc)
        exitRateVector) exitRateVector) with
  | zero => omega
  | succ n =>
    rw [List.replicate_succ, List.headD_cons]
    field_simp

theorem value_nonneg (m : SparseMatrix) (hm : ∀ row ∈ m.rows, ∀ e ∈ row, 0 ≤ e.2)
    (i j : Nat) : 0 ≤ SparseMatrix.value m i j := by
  unfold SparseMatrix.value SparseMatrix.entry
  cases hfind : (SparseMatrix.getRow m i).find? (fun e => e.1 == j) with
  | none => exact le_refl _
  | some e =>
    simp only [Option.map_some', Option.getD_some]
    have hmem := List.mem_of_find?_eq_some hfind
    rcases SparseMatrix.getRow_mem_or_nil m i with hrow | hnil
    · exact hm _ hrow e hmem
    · rw [hnil] at hmem
      cases hmem

theorem collectGuarded_map_some {α : Type} (values : List α) :
    collectGuarded (values.map some) = some values := by
  induction values with
  | nil => rfl
  | cons value rest ih =>
    rw [List.map_cons, collectGuarded, ih]

theorem collectGuarded_eq_none_iff {α : Type} (results : List (Option α)) :
    collectGuarded results = none ↔ none ∈ results := by
  induction results with
  | nil => simp [collectGuarded]
  | cons result rest ih =>
    cases result with
    | none => simp [collectGuarded]
    | some value =>
      rw [collectGuarded]
      cases hrest : collectGuarded rest with
      | none =>
        rw [hrest] at ih
        simp [ih.mp rfl]
      | some values =>
        rw [hrest] at ih
        have : none ∉ rest := fun h => by simpa using ih.mpr h
        simp [this]

/-- The guarded loop over the state rewards and the exit rates takes its error branch exactly
when an exit rate is 0, and gives the quotients otherwise. -/
theorem collectGuarded_zipWith_guardedDivision :
    ∀ (rewards rates : List ℚ), rewards.length = rates.length →
      (collectGuarded (List.zipWith guardedDivision rewards rates) = none ↔ (0 : ℚ) ∈ rates)
      ∧ ((0 : ℚ) ∉ rates →
          collectGuarded (List.zipWith guardedDivision rewards rates)
            = some (List.zipWith (fun a b => a / b) rewards rates)) := by
  intro rewards
  induction rewards with
  | nil =>
    intro rates h
    have : rates = [] := List.length_eq_zero.mp h.symm
    subst this
    simp [collectGuarded]
  | cons reward rest ih =>
    intro rates h
    cases rates with
    | nil => simp at h
    | cons rate rates =>
      have hlen : rest.length = rates.length := by simpa using h
      obtain ⟨h1, h2⟩ := ih rates hlen
      by_cases hrate : rate = 0
      · subst hrate
        simp [guardedDivision, collectGuarded]
      · have hne : (0 : ℚ) ≠ rate := fun h => hrate h.symm
        constructor
        · rw [List.zipWith_cons_cons, guardedDivision, if_neg hrate, collectGuarded,
            List.mem_cons]
          constructor
          · intro hnone
            right
            apply h1.mp
            cases hrest : collectGuarded (List.zipWith guardedDivision rest rates) with
            | none => rfl
            | some values =>
              rw [hrest] at hnone
              cases hnone
          · intro hmem
            rcases hmem with h0 | h0
            · exact absurd h0 hne
            · rw [h1.mpr h0]
        · intro hnot
          have hnot' : (0 : ℚ) ∉ rates := fun h => hnot (List.mem_cons_of_mem _ h)
          rw [List.zipWith_cons_cons, guardedDivision, if_neg hrate, collectGuarded,
            h2 hnot', List.zipWith_cons_cons]

/-- For a chain in which the states with exit rate 0 have no stored transition the guarded
division of the rates never takes its error branch. -/
theorem computeProbabilityMatrixGuarded_eq (rateMatrix : SparseMatrix) (exitRates : List ℚ)
    (hrows : ∀ s, exitRates.getD s 0 = 0 → SparseMatrix.getRow rateMatrix s = []) :
    computeProbabilityMatrixGuarded rateMatrix exitRates
      = some (computeProbabilityMatrix rateMatrix exitRates) := by
  have hrow : ∀ row, collectGuarded ((SparseMatrix.getRow rateMatrix row).map (fun entry =>
        (guardedDivision entry.2 (exitRates.getD row 0)).map (fun value =>
          (entry.1, value))))
      = some ((SparseMatrix.getRow rateMatrix row).map (fun entry =>
          (entry.1, entry.2 / exitRates.getD row 0))) := by
    intro row
    by_cases hzero : exitRates.getD row 0 = 0
    · rw [hrows row hzero]
      rfl
    · rw [← collectGuarded_map_some, List.map_map]
      congr 1
      apply List.map_congr_left
      intro entry _
      show (guardedDivision entry.2 (exitRates.getD row 0)).map (fun value =>
        (entry.1, value)) = some (entry.1, entry.2 / exitRates.getD row 0)
      rw [guardedDivision, if_neg hzero]
      rfl
  have hmap : (List.range rateMatrix.rows.length).map (fun row =>
        some ((SparseMatrix.getRow rateMatrix row).map (fun entry =>
          (entry.1, entry.2 / exitRates.getD row 0))))
      = ((List.range rateMatrix.rows.length).map (fun row =>
          (SparseMatrix.getRow rateMatrix row).map (fun entry =>
            (entry.1, entry.2 / exitRates.getD row 0)))).map some := by
    rw [List.map_map]
    rfl
  unfold computeProbabilityMatrixGuarded computeProbabilityMatrix
  simp only [hrow]
  rw [hmap, collectGuarded_map_some]

theorem totalRewardVectorGuarded_spec (probabilityMatrix : SparseMatrix)
    (exitRateVector : List ℚ) (rewardModel : RewardModel)
    (hlength : ∀ stateRewards, rewardModel.optionalStateRewardVector = some stateRewards →
      stateRewards.length = exitRateVector.length) :
    (totalRewardVectorGuarded probabilityMatrix exitRateVector rewardModel = none
        ↔ RewardModel.hasStateRewards rewardModel = true ∧ (0 : ℚ) ∈ exitRateVector)
    ∧ (¬ (RewardModel.hasStateRewards rewardModel = true ∧ (0 : ℚ) ∈ exitRateVector) →
        totalRewardVectorGuarded probabilityMatrix exitRateVector rewardModel
          = some (reachabilityRewardsTotalRewardVector probabilityMatrix exitRateVector
              rewardModel)) := by
  obtain ⟨stateRewards, stateActionRewards, transitionRewards, total⟩ := rewardModel
  cases stateRewards with
  | none =>
    constructor
    · simp only [RewardModel.hasStateRewards, Option.isSome_none, Bool.false_eq_true,
        false_and, iff_false]
      unfold totalRewardVectorGuarded
      simp only [RewardModel.hasStateRewards, Option.isSome_none, Bool.false_eq_true,
        if_false]
      split
      · split <;> simp
      · simp
    · intro _
      unfold totalRewardVectorGuarded reachabilityRewardsTotalRewardVector
      simp only [RewardModel.hasStateRewards, Option.isSome_none, Bool.false_eq_true,
        if_false]
      split
      · split <;> rfl
      · rfl
  | some sr =>
    have hlen := hlength sr rfl
    obtain ⟨h1, h2⟩ := collectGuarded_zipWith_guardedDivision sr exitRateVector hlen
    constructor
    · simp only [RewardModel.hasStateRewards, Option.isSome_some, true_and]
      unfold totalRewardVectorGuarded
      simp only [RewardModel.hasStateRewards, Option.isSome_some, if_true,
        RewardModel.getStateRewardVector, Option.getD_some]
      constructor
      · intro hnone
        apply h1.mp
        cases hdiv : collectGuarded (List.zipWith guardedDivision sr exitRateVector) with
        | none => rfl
        | some quotients =>
          rw [hdiv] at hnone
          simp only [] at hnone
          split at hnone <;> cases hnone
      · intro hmem
        rw [h1.mpr hmem]
    · intro hnot
      have hnot' : (0 : ℚ) ∉ exitRateVector := fun h => hnot ⟨rfl, h⟩
      unfold totalRewardVectorGuarded reachabilityRewardsTotalRewardVector
      simp only [RewardModel.hasStateRewards, Option.isSome_some, if_true,
        RewardModel.getStateRewardVector, Option.getD_some, h2 hnot', applyPointwise]
      split <;> rfl

theorem reachabilityTimesRewardVectorGuarded_eq (exitRateVector : List ℚ)
    (targetStates : BitVector) :
    reachabilityTimesRewardVectorGuarded exitRateVector targetStates
      = some ((List.range exitRateVector.length).map (fun i =>
          if BitVector.get targetStates i || decide (exitRateVector.getD i 0 = 0) then (0 : ℚ)
          else 1 / exitRateVector.getD i 0)) := by
  unfold reachabilityTimesRewardVectorGuarded
  rw [← collectGuarded_map_some, List.map_map]
  congr 1
  apply List.map_congr_left
  intro i _
  by_cases h : exitRateVector.getD i 0 = 0
  · show (if (BitVector.get targetStates i || decide (exitRateVector.getD i 0 = 0)) = true
        then some (0 : ℚ) else guardedDivision 1 (exitRateVector.getD i 0))
      = some (if (BitVector.get targetStates i || decide (exitRateVector.getD i 0 = 0)) = true
        then (0 : ℚ) else 1 / exitRateVector.getD i 0)
    have hcond : (BitVector.get targetStates i || decide (exitRateVector.getD i 0 = 0))
        = true := by
      rw [h]
      simp
    rw [if_pos hcond, if_pos hcond]
  · show (if (BitVector.get targetStates i || decide (exitRateVector.getD i 0 = 0)) = true
        then some (0 : ℚ) else guardedDivision 1 (exitRateVector.getD i 0))
      = some (if (BitVector.get targetStates i || decide (exitRateVector.getD i 0 = 0)) = true
        then (0 : ℚ) else 1 / exitRateVector.getD i 0)
    rw [guardedDivision, if_neg h]
    split <;> rfl

theorem hasStateRewards_of_empty (rewardModel : RewardModel)
    (h : RewardModel.empty rewardModel = true) :
    RewardModel.hasStateRewards rewardModel = false := by
  unfold RewardModel.empty at h
  cases hs : RewardModel.hasStateRewards rewardModel
  · rfl
  · rw [hs] at h
    simp at h

theorem multiplyRow_nonneg (row : List (Nat × ℚ)) (y : List ℚ) (hrow : ∀ e ∈ row, 0 ≤ e.2)
    (hy : ∀ c, 0 ≤ y.getD c 0) : 0 ≤ multiplyRow row y := by
  unfold multiplyRow
  apply List.sum_nonneg
  intro x hx
  rw [List.mem_map] at hx
  obtain ⟨e, he, rfl⟩ := hx
  exact mul_nonneg (hrow e he) (hy e.1)

theorem multiplyRow_le_entrySum (row : List (Nat × ℚ)) (y : List ℚ)
    (hrow : ∀ e ∈ row, 0 ≤ e.2) (hy : ∀ c, y.getD c 0 ≤ 1) :
    multiplyRow row y ≤ entrySum row := by
  unfold multiplyRow entrySum
  induction row with
  | nil => simp
  | cons e rest ih =>
    rw [List.map_cons, List.sum_cons, List.map_cons, List.sum_cons]
    have h1 := mul_le_mul_of_nonneg_left (hy e.1) (hrow e (List.mem_cons_self _ _))
    have h2 := ih (fun e' he' => hrow e' (List.mem_cons_of_mem _ he'))
    linarith

/-- The iterates `x_0 = 0`, `x_(k+1) = P * x_k + b` stay within `[0, 1]` when `P` and `b` have
no negative entry and every row sum of `P` plus the entry of `b` is at most 1. -/
theorem transientIterate_mem_unit (P : SparseMatrix) (b : List ℚ) (n : Nat)
    (hP : ∀ i, ∀ e ∈ SparseMatrix.getRow P i, 0 ≤ e.2) (hb : ∀ i, 0 ≤ b.getD i 0)
    (hsum : ∀ i, i < P.rows.length → SparseMatrix.getRowSum P i + b.getD i 0 ≤ 1) :
    ∀ k i, 0 ≤ (transientIterate P (some b) (List.replicate n 0) k).getD i 0
      ∧ (transientIterate P (some b) (List.replicate n 0) k).getD i 0 ≤ 1 := by
  intro k
  induction k with
  | zero =>
    intro i
    show 0 ≤ (List.replicate n (0 : ℚ)).getD i 0 ∧ (List.replicate n (0 : ℚ)).getD i 0 ≤ 1
    rw [getD_replicate_zero]
    exact ⟨le_refl 0, zero_le_one⟩
  | succ k ih =>
    intro i
    show 0 ≤ (multiply P (transientIterate P (some b) (List.replicate n 0) k) (some b)).getD
        i 0
      ∧ (multiply P (transientIterate P (some b) (List.replicate n 0) k) (some b)).getD i 0
        ≤ 1
    rw [getD_multiply]
    split
    · rename_i hi
      have h1 := multiplyRow_nonneg _ _ (hP i) (fun c => (ih c).1)
      have h2 := multiplyRow_le_entrySum _ _ (hP i) (fun c => (ih c).2)
      have h3 := hsum i hi
      have h4 := hb i
      unfold SparseMatrix.getRowSum at h3
      constructor
      · show 0 ≤ multiplyRow (SparseMatrix.getRow P i) _ + b.getD i 0
        linarith
      · show multiplyRow (SparseMatrix.getRow P i) _ + b.getD i 0 ≤ 1
        linarith
    · exact ⟨le_refl 0, zero_le_one⟩

theorem entrySum_filter_add_filter_le (p q : Nat × ℚ → Bool) (row : List (Nat × ℚ))
    (hrow : ∀ e ∈ row, 0 ≤ e.2) (hdisjoint : ∀ e, p e = true → q e = false) :
    entrySum (row.filter p) + entrySum (row.filter q) ≤ entrySum row := by
  induction row with
  | nil => simp [entrySum]
  | cons e rest ih =>
    have he := hrow e (List.mem_cons_self _ _)
    have hrest := ih (fun e' he' => hrow e' (List.mem_cons_of_mem _ he'))
    rw [entrySum_cons]
    by_cases hp : p e = true
    · rw [List.filter_cons_of_pos hp, List.filter_cons_of_neg (by rw [hdisjoint e hp]; simp),
        entrySum_cons]
      linarith
    · by_cases hq : q e = true
      · rw [List.filter_cons_of_neg hp, List.filter_cons_of_pos hq, entrySum_cons]
        linarith
      · rw [List.filter_cons_of_neg hp, List.filter_cons_of_neg hq]
        linarith

theorem sum_range_getD_le (l : List ℚ) (hl : ∀ x ∈ l, 0 ≤ x) :
    ∀ m, ∑ j ∈ Finset.range m, l.getD j 0 ≤ l.sum := by
  induction l with
  | nil =>
    intro m
    simp
  | cons a rest ih =>
    intro m
    have ha := hl a (List.mem_cons_self _ _)
    have hrest : ∀ x ∈ rest, 0 ≤ x := fun x hx => hl x (List.mem_cons_of_mem _ hx)
    cases m with
    | zero =>
      rw [Finset.sum_range_zero]
      exact List.sum_nonneg hl
    | succ m =>
      rw [Finset.sum_range_succ', List.sum_cons]
      simp only [List.getD_cons_succ, List.getD_cons_zero]
      have := ih hrest m
      linarith

/-- The normalized weights of the window of a Fox-Glynn result with weights that are not
negative and a total weight that is their sum add up to at most 1. -/
theorem sum_normalizedWeights_le_one (fg : FoxGlynnResult)
    (hweights : ∀ w ∈ fg.weights, 0 ≤ w) (htotal : fg.totalWeight = fg.weights.sum) :
    ∑ k ∈ Finset.Icc fg.left fg.right, fg.weights.getD (k - fg.left) 0 / fg.totalWeight
      ≤ 1 := by
  rw [sum_Icc_eq_sum_range]
  simp only [Nat.add_sub_cancel_left]
  rw [← Finset.sum_div]
  have hnonneg : 0 ≤ fg.totalWeight := by
    rw [htotal]
    exact List.sum_nonneg hweights
  rcases eq_or_lt_of_le hnonneg with hzero | hpos
  · rw [← hzero, div_zero]
    exact zero_le_one
  · rw [div_le_one hpos, htotal]
    exact sum_range_getD_le fg.weights hweights _

/-- Every row sum of the uniformized matrix of the maybe states plus the entry of the
add-vector is at most 1 when the exit rates are the row sums of a rate matrix without negative
rates. -/
theorem uniformized_rowSum_add_le_one (rateMatrix : SparseMatrix)
    (maybeStates psiStates : BitVector) (q : ℚ) (exitRates : List ℚ)
    (hwf : SparseMatrix.WellFormed rateMatrix)
    (hR : ∀ row ∈ rateMatrix.rows, ∀ e ∈ row, 0 ≤ e.2) (hq : 0 < q)
    (hE : ∀ s ∈ BitVector.setBits maybeStates,
      exitRates.getD s 0 = SparseMatrix.getRowSum rateMatrix s)
    (hdisjoint : ∀ s, BitVector.get maybeStates s = true → BitVector.get psiStates s = false)
    (i : Nat)
    (hi : i < (computeUniformizedMatrix rateMatrix maybeStates q exitRates).rows.length) :
    SparseMatrix.getRowSum (computeUniformizedMatrix rateMatrix maybeStates q exitRates) i
      + ((BitVector.setBits maybeStates).map (fun s =>
          entrySum ((SparseMatrix.getRow rateMatrix s).filter
            (fun e => BitVector.get psiStates e.1)) / q)).getD i 0 ≤ 1 := by
  have hi' : i < (BitVector.setBits maybeStates).length := by
    have := getRowCount_computeUniformizedMatrix rateMatrix maybeStates q exitRates
    unfold SparseMatrix.getRowCount at this
    rw [this] at hi
    exact hi
  have hb : ((BitVector.setBits maybeStates).map (fun s =>
        entrySum ((SparseMatrix.getRow rateMatrix s).filter
          (fun e => BitVector.get psiStates e.1)) / q)).getD i 0
      = entrySum ((SparseMatrix.getRow rateMatrix ((BitVector.setBits maybeStates)[i])).filter
          (fun e => BitVector.get psiStates e.1)) / q := by
    rw [List.getD_eq_getElem?_getD, List.getElem?_map, List.getElem?_eq_getElem hi']
    rfl
  rw [getRowSum_computeUniformizedMatrix rateMatrix maybeStates q exitRates hwf i hi', hb]
  have hrow : ∀ e ∈ SparseMatrix.getRow rateMatrix ((BitVector.setBits maybeStates)[i]),
      0 ≤ e.2 := by
    intro e he
    rcases SparseMatrix.getRow_mem_or_nil rateMatrix ((BitVector.setBits maybeStates)[i])
      with hmem | hnil
    · exact hR _ hmem e he
    · rw [hnil] at he
      cases he
  have hle := entrySum_filter_add_filter_le (fun e => BitVector.get maybeStates e.1)
    (fun e => BitVector.get psiStates e.1) _ hrow (fun e h => hdisjoint e.1 h)
  rw [hE _ (List.getElem_mem hi')]
  unfold SparseMatrix.getRowSum
  have hcombine : entrySum ((SparseMatrix.getRow rateMatrix
        ((BitVector.setBits maybeStates)[i])).filter
          (fun e => BitVector.get maybeStates e.1)) / q
      + (1 - entrySum (SparseMatrix.getRow rateMatrix ((BitVector.setBits maybeStates)[i]))
          / q)
      + entrySum ((SparseMatrix.getRow rateMatrix
        ((BitVector.setBits maybeStates)[i])).filter
          (fun e => BitVector.get psiStates e.1)) / q
      = 1 - (entrySum (SparseMatrix.getRow rateMatrix ((BitVector.setBits maybeStates)[i]))
          - (entrySum ((SparseMatrix.getRow rateMatrix
              ((BitVector.setBits maybeStates)[i])).filter
                (fun e => BitVector.get maybeStates e.1))
            + entrySum ((SparseMatrix.getRow rateMatrix
              ((BitVector.setBits maybeStates)[i])).filter
                (fun e => BitVector.get psiStates e.1)))) / q := by
    field_simp
    ring
  rw [hcombine]
  have : 0 ≤ (entrySum (SparseMatrix.getRow rateMatrix ((BitVector.setBits maybeStates)[i]))
          - (entrySum ((SparseMatrix.getRow rateMatrix
              ((BitVector.setBits maybeStates)[i])).filter
                (fun e => BitVector.get maybeStates e.1))
            + entrySum ((SparseMatrix.getRow rateMatrix
              ((BitVector.setBits maybeStates)[i])).filter
                (fun e => BitVector.get psiStates e.1)))) / q :=
    div_nonneg (by linarith) (le_of_lt hq)
  linarith

/-- The plain output for the zero initial vector is at most 1 at every position when the
iterates are at most 1 and the Fox-Glynn weights are not negative with their sum as total
weight. -/
theorem computeTransientProbabilities_plain_le_one (env : Environment) (P : SparseMatrix)
    (b : List ℚ) (n : Nat) (t q : ℚ)
    (hrows : SparseMatrix.getRowCount P = n) (ht : t * q ≠ 0)
    (hiterates : ∀ k i, (transientIterate P (some b) (List.replicate n 0) k).getD i 0 ≤ 1)
    (hweights : ∀ w ∈ (env.foxGlynn (t * q) (env.precision / 8)).weights, 0 ≤ w)
    (htotal : (env.foxGlynn (t * q) (env.precision / 8)).totalWeight
      = (env.foxGlynn (t * q) (env.precision / 8)).weights.sum) (i : Nat) :
    (computeTransientProbabilities env false P (some b) t q (List.replicate n 0)).getD i 0
      ≤ 1 := by
  have hlen : SparseMatrix.getRowCount P = (List.replicate n (0 : ℚ)).length := by
    rw [hrows, List.length_replicate]
  rw [(computeTransientProbabilities_plain_formula env P (some b) t q _ ht hlen).2 i]
  generalize env.foxGlynn (t * q) (env.precision / 8) = fg at hweights htotal ⊢
  have hnonneg : 0 ≤ fg.totalWeight := by
    rw [htotal]
    exact List.sum_nonneg hweights
  refine le_trans (Finset.sum_le_sum (fun k _ => ?_))
    (sum_normalizedWeights_le_one fg hweights htotal)
  have hw : 0 ≤ fg.weights.getD (k - fg.left) 0 / fg.totalWeight := by
    apply div_nonneg _ hnonneg
    rw [List.getD_eq_getElem?_getD]
    by_cases h : k - fg.left < fg.weights.length
    · rw [List.getElem?_eq_getElem h]
      exact hweights _ (List.getElem_mem h)
    · rw [List.getElem?_eq_none (Nat.le_of_not_lt h)]
      exact le_refl _
  calc fg.weights.getD (k - fg.left) 0 / fg.totalWeight
        * (transientIterate P (some b) (List.replicate n 0) k).getD i 0
      ≤ fg.weights.getD (k - fg.left) 0 / fg.totalWeight * 1 :=
        mul_le_mul_of_nonneg_left (hiterates k i) hw
    _ = fg.weights.getD (k - fg.left) 0 / fg.totalWeight := mul_one _

theorem multiplyRow_cons (e : Nat × ℚ) (row : List (Nat × ℚ)) (y : List ℚ) :
    multiplyRow (e :: row) y = e.2 * y.getD e.1 0 + multiplyRow row y := by
  simp [multiplyRow]

theorem multiplyRow_nil (y : List ℚ) : multiplyRow [] y = 0 := by
  simp [multiplyRow]

/-- The sum of the selected entries of a row weighted by the values at their ranks. -/
theorem multiplyRow_uniformize_getSubmatrixRow_inserted (K : BitVector) (q : ℚ) (E : List ℚ)
    (r state : Nat) (y : List ℚ) :
    ∀ rest : List (Nat × ℚ),
      (∀ e ∈ rest, BitVector.get K e.1 = true → BitVector.rank K e.1 ≠ r) →
      multiplyRow ((getSubmatrixRow K true r true rest).map (uniformizeEntry q E r state)) y
        = ((rest.filter (fun e => BitVector.get K e.1)).map
            (fun e => e.2 * y.getD (BitVector.rank K e.1) 0)).sum / q := by
  intro rest
  induction rest with
  | nil => intro _; simp [getSubmatrixRow, multiplyRow]
  | cons e rest ih =>
    intro h
    have ih' := ih (fun e' he' => h e' (List.mem_cons_of_mem _ he'))
    by_cases hK : BitVector.get K e.1 = true
    · have hne := h e (List.mem_cons_self _ _) hK
      simp only [getSubmatrixRow, hK, if_true, hne, if_false, Bool.not_true, Bool.and_false,
        Bool.false_and, Bool.false_eq_true, List.map_cons, List.filter_cons, multiplyRow_cons,
        List.sum_cons]
      rw [ih']
      simp only [uniformizeEntry, hne, if_false]
      ring
    · simp only [getSubmatrixRow, hK, if_false, List.filter_cons, Bool.false_eq_true]
      exact ih'

/-- The product of a uniformized row of `getSubmatrix` with forced diagonal and a vector: the
selected entries divided by the rate, weighted by the values at their ranks, plus
`1 - exitRate / rate` times the value at the diagonal. -/
theorem multiplyRow_uniformize_getSubmatrixRow (K : BitVector) (q : ℚ) (E : List ℚ)
    (r state : Nat) (y : List ℚ) (hr : r < BitVector.getNumberOfSetBits K) :
    ∀ rest : List (Nat × ℚ), (rest.map (fun e => e.1)).Pairwise (fun a b => a < b) →
      multiplyRow ((getSubmatrixRow K true r false rest).map (uniformizeEntry q E r state)) y
        = ((rest.filter (fun e => BitVector.get K e.1)).map
            (fun e => e.2 * y.getD (BitVector.rank K e.1) 0)).sum / q
          + (1 - E.getD state 0 / q) * y.getD r 0 := by
  intro rest
  induction rest with
  | nil =>
    intro _
    have hcond : (true && !false && decide (r < BitVector.getNumberOfSetBits K)) = true := by
      simp [hr]
    simp only [getSubmatrixRow, hcond, if_true, List.map_cons, List.map_nil, multiplyRow_cons,
      multiplyRow_nil, List.filter_nil, List.sum_nil, uniformizeEntry]
    ring
  | cons e rest ih =>
    intro hsorted
    rw [List.map_cons, List.pairwise_cons] at hsorted
    obtain ⟨hhead, htail⟩ := hsorted
    have ih' := ih htail
    by_cases hK : BitVector.get K e.1 = true
    · have hafter : ∀ e' ∈ rest, BitVector.get K e'.1 = true →
          BitVector.rank K e.1 < BitVector.rank K e'.1 := by
        intro e' he' _
        exact BitVector.rank_lt K (hhead e'.1 (List.mem_map_of_mem _ he')) hK
      by_cases hdiag : BitVector.rank K e.1 = r
      · have hrest := multiplyRow_uniformize_getSubmatrixRow_inserted K q E r state y rest
          (fun e' he' hK' => by have := hafter e' he' hK'; omega)
        simp only [getSubmatrixRow, hK, if_true, hdiag, List.map_cons, List.filter_cons,
          multiplyRow_cons, List.sum_cons]
        rw [hrest]
        simp only [uniformizeEntry, if_true]
        ring
      · by_cases hlt : r < BitVector.rank K e.1
        · have hrest := multiplyRow_uniformize_getSubmatrixRow_inserted K q E r state y rest
            (fun e' he' hK' => by have := hafter e' he' hK'; omega)
          simp only [getSubmatrixRow, hK, if_true, hdiag, if_false, hlt, decide_True,
            Bool.not_false, Bool.and_self, List.map_cons, List.filter_cons, multiplyRow_cons,
            List.sum_cons]
          rw [hrest]
          simp only [uniformizeEntry, if_true, hdiag, if_false]
          ring
        · simp only [getSubmatrixRow, hK, if_true, hdiag, if_false, hlt, decide_False,
            Bool.and_false, Bool.false_eq_true, List.map_cons, List.filter_cons,
            multiplyRow_cons, List.sum_cons]
          rw [ih']
          simp only [uniformizeEntry, hdiag, if_false]
          ring
    · simp only [getSubmatrixRow, hK, if_false, List.filter_cons, Bool.false_eq_true]
      exact ih'

theorem sum_map_range (f : Nat → ℚ) (n : Nat) :
    ((List.range n).map f).sum = ∑ i ∈ Finset.range n, f i := by
  induction n with
  | zero => simp
  | succ n ih =>
    rw [List.range_succ, List.map_append, List.sum_append, ih, Finset.sum_range_succ]
    simp

theorem sum_map_flatMap {α β : Type} (f : α → List β) (g : β → ℚ) (l : List α) :
    ((l.flatMap f).map g).sum = (l.map (fun a => ((f a).map g).sum)).sum := by
  induction l with
  | nil => simp
  | cons a rest ih =>
    rw [List.flatMap_cons, List.map_append, List.sum_append, ih, List.map_cons, List.sum_cons]

/-- The rows of the transpose. -/
theorem getRow_transpose (m : SparseMatrix) (j : Nat) :
    SparseMatrix.getRow (SparseMatrix.transpose m) j
      = if j < m.columnCount then
          (List.range (SparseMatrix.getRowCount m)).flatMap (fun i =>
            ((SparseMatrix.getRow m i).filter (fun e => e.1 == j)).map (fun e => (i, e.2)))
        else [] := by
  unfold SparseMatrix.getRow SparseMatrix.transpose
  exact getD_map_range _ _ _ _

theorem getRowCount_transpose (m : SparseMatrix) :
    SparseMatrix.getRowCount (SparseMatrix.transpose m) = m.columnCount := by
  simp [SparseMatrix.getRowCount, SparseMatrix.transpose]

/-- The columns of the stored entries of a row of the transpose are row indices of the
matrix. -/
theorem mem_getRow_transpose (m : SparseMatrix) (j : Nat) (e : Nat × ℚ)
    (he : e ∈ SparseMatrix.getRow (SparseMatrix.transpose m) j) :
    e.1 < SparseMatrix.getRowCount m := by
  rw [getRow_transpose] at he
  by_cases hj : j < m.columnCount
  · rw [if_pos hj, List.mem_flatMap] at he
    obtain ⟨i, hi, hmem⟩ := he
    rw [List.mem_map] at hmem
    obtain ⟨x, -, hx⟩ := hmem
    rw [← hx]
    exact List.mem_range.mp hi
  · rw [if_neg hj] at he
    cases he

/-- The transpose of a well-formed matrix is well-formed. -/
theorem wellFormed_transpose (m : SparseMatrix) (hwf : SparseMatrix.WellFormed m) :
    SparseMatrix.WellFormed (SparseMatrix.transpose m) := by
  intro row hrow
  have hrow' : row ∈ (List.range m.columnCount).map (fun j =>
      (List.range (SparseMatrix.getRowCount m)).flatMap (fun i =>
        ((SparseMatrix.getRow m i).filter (fun e => e.1 == j)).map (fun e => (i, e.2)))) := hrow
  rw [List.mem_map] at hrow'
  obtain ⟨j, -, hj⟩ := hrow'
  rw [← hj, List.map_flatMap, List.pairwise_flatMap]
  constructor
  · intro i _
    have hsorted := SparseMatrix.sorted_getRow hwf i
    rw [List.map_map]
    rw [List.pairwise_map] at hsorted ⊢
    have hfilter := hsorted.filter (fun e : Nat × ℚ => e.1 == j)
    refine hfilter.imp_of_mem ?_
    intro a b ha hb hab
    have ha' := (List.mem_filter.mp ha).2
    have hb' := (List.mem_filter.mp hb).2
    simp only [beq_iff_eq] at ha' hb'
    omega
  · have hrange : (List.range (SparseMatrix.getRowCount m)).Pairwise (fun a b => a < b) :=
      List.pairwise_lt_range _
    refine hrange.imp ?_
    intro a b hab x hx y hy
    rw [List.map_map, List.mem_map] at hx hy
    obtain ⟨_, -, hx⟩ := hx
    obtain ⟨_, -, hy⟩ := hy
    rw [← hx, ← hy]
    exact hab

/-- The sum over all columns below `c` of the entries of a row in that column is the sum of the
row, when every column of the row is below `c`. -/
theorem sum_range_entrySum_filter (row : List (Nat × ℚ)) (c : Nat)
    (hcols : ∀ e ∈ row, e.1 < c) :
    ∑ i ∈ Finset.range c, entrySum (row.filter (fun e => e.1 == i)) = entrySum row := by
  induction row with
  | nil => simp [entrySum]
  | cons e rest ih =>
    have hrest := ih (fun x hx => hcols x (List.mem_cons_of_mem _ hx))
    have hterm : ∀ i ∈ Finset.range c,
        entrySum ((e :: rest).filter (fun x => x.1 == i))
          = (if e.1 = i then e.2 else 0) + entrySum (rest.filter (fun x => x.1 == i)) := by
      intro i _
      rw [List.filter_cons]
      by_cases hi : e.1 = i
      · have hb : (e.1 == i) = true := by simpa using hi
        rw [hb, if_pos rfl, if_pos hi, entrySum_cons]
      · have hb : (e.1 == i) = false := by simpa using hi
        rw [hb, if_neg hi, zero_add]
        rfl
    rw [Finset.sum_congr rfl hterm, Finset.sum_add_distrib, hrest, entrySum_cons,
      Finset.sum_ite_eq]
    rw [if_pos (Finset.mem_range.mpr (hcols e (List.mem_cons_self _ _)))]

/-- The product of a row of the uniformized transpose, over all states, with a vector. -/
theorem multiplyRow_uniformized_transpose (m : SparseMatrix) (q : ℚ) (E : List ℚ) (y : List ℚ)
    (hwf : SparseMatrix.WellFormed m) (hsquare : m.columnCount = SparseMatrix.getRowCount m)
    (i : Nat) (hi : i < SparseMatrix.getRowCount m) :
    multiplyRow (SparseMatrix.getRow (computeUniformizedMatrix (SparseMatrix.transpose m)
        (BitVector.const (SparseMatrix.getRowCount m) true) q E) i) y
      = (∑ j ∈ Finset.range (SparseMatrix.getRowCount m),
          entrySum ((SparseMatrix.getRow m j).filter (fun e => e.1 == i)) * y.getD j 0) / q
        + (1 - E.getD i 0 / q) * y.getD i 0 := by
  have hlen : i < (BitVector.setBits
      (BitVector.const (SparseMatrix.getRowCount m) true)).length := by
    rw [BitVector.setBits_const_true, List.length_range]
    exact hi
  have hstate : (BitVector.setBits (BitVector.const (SparseMatrix.getRowCount m) true))[i]
      = i := by
    simp [BitVector.setBits_const_true]
  rw [getRow_computeUniformizedMatrix _ _ _ _ i hlen, hstate,
    multiplyRow_uniformize_getSubmatrixRow _ _ _ _ _ _
      (by unfold BitVector.getNumberOfSetBits; exact hlen) _
      (SparseMatrix.sorted_getRow (wellFormed_transpose m hwf) i)]
  congr 2
  have hfilter : (SparseMatrix.getRow (SparseMatrix.transpose m) i).filter
      (fun e => BitVector.get (BitVector.const (SparseMatrix.getRowCount m) true) e.1)
      = SparseMatrix.getRow (SparseMatrix.transpose m) i := by
    rw [List.filter_eq_self]
    intro e he
    rw [BitVector.get_const_true]
    simpa using mem_getRow_transpose m i e he
  have hmap : (SparseMatrix.getRow (SparseMatrix.transpose m) i).map
      (fun e => e.2 * y.getD
        (BitVector.rank (BitVector.const (SparseMatrix.getRowCount m) true) e.1) 0)
      = (SparseMatrix.getRow (SparseMatrix.transpose m) i).map
          (fun e => e.2 * y.getD e.1 0) := by
    apply List.map_congr_left
    intro e he
    rw [BitVector.rank_const_true _ _ (Nat.le_of_lt (mem_getRow_transpose m i e he))]
  rw [hfilter, hmap, getRow_transpose, if_pos (by rw [hsquare]; exact hi), sum_map_flatMap,
    sum_map_range]
  apply Finset.sum_congr rfl
  intro j _
  rw [List.map_map, entrySum, ← List.sum_map_mul_right]
  rfl

/-- Mass preservation: the uniformized transpose of a square well-formed matrix whose exit rates
are its row sums maps every vector to a vector with the same sum. -/
theorem sum_multiply_uniformized_transpose (m : SparseMatrix) (q : ℚ) (E : List ℚ) (y : List ℚ)
    (hwf : SparseMatrix.WellFormed m) (hsquare : m.columnCount = SparseMatrix.getRowCount m)
    (hcols : ∀ j, ∀ e ∈ SparseMatrix.getRow m j, e.1 < SparseMatrix.getRowCount m)
    (hexit : ∀ j, j < SparseMatrix.getRowCount m → E.getD j 0 = SparseMatrix.getRowSum m j) :
    ∑ i ∈ Finset.range (SparseMatrix.getRowCount m),
        (multiply (computeUniformizedMatrix (SparseMatrix.transpose m)
          (BitVector.const (SparseMatrix.getRowCount m) true) q E) y none).getD i 0
      = ∑ i ∈ Finset.range (SparseMatrix.getRowCount m), y.getD i 0 := by
  have hrows : (computeUniformizedMatrix (SparseMatrix.transpose m)
      (BitVector.const (SparseMatrix.getRowCount m) true) q E).rows.length
      = SparseMatrix.getRowCount m := by
    have h := getRowCount_computeUniformizedMatrix (SparseMatrix.transpose m)
      (BitVector.const (SparseMatrix.getRowCount m) true) q E
    rw [BitVector.setBits_const_true, List.length_range] at h
    exact h
  have hterm : ∀ i ∈ Finset.range (SparseMatrix.getRowCount m),
      (multiply (computeUniformizedMatrix (SparseMatrix.transpose m)
          (BitVector.const (SparseMatrix.getRowCount m) true) q E) y none).getD i 0
        = (∑ j ∈ Finset.range (SparseMatrix.getRowCount m),
            entrySum ((SparseMatrix.getRow m j).filter (fun e => e.1 == i)) * y.getD j 0) / q
          + (y.getD i 0 - SparseMatrix.getRowSum m i * y.getD i 0 / q) := by
    intro i hi
    have hi' := Finset.mem_range.mp hi
    rw [getD_multiply, hrows, if_pos hi',
      multiplyRow_uniformized_transpose m q E y hwf hsquare i hi', hexit i hi']
    ring
  rw [Finset.sum_congr rfl hterm, Finset.sum_add_distrib, ← Finset.sum_div, Finset.sum_comm,
    Finset.sum_sub_distrib, ← Finset.sum_div]
  have hswap : ∀ j ∈ Finset.range (SparseMatrix.getRowCount m),
      ∑ i ∈ Finset.range (SparseMatrix.getRowCount m),
        entrySum ((SparseMatrix.getRow m j).filter (fun e => e.1 == i)) * y.getD j 0
        = SparseMatrix.getRowSum m j * y.getD j 0 := by
    intro j _
    rw [← Finset.sum_mul, sum_range_entrySum_filter _ _ (hcols j)]
    rfl
  rw [Finset.sum_congr rfl hswap]
  ring

theorem getRowCount_makeRowsAbsorbing (m : SparseMatrix) (rows : BitVector) :
    SparseMatrix.getRowCount (SparseMatrix.makeRowsAbsorbing m rows)
      = SparseMatrix.getRowCount m := by
  simp [SparseMatrix.getRowCount, SparseMatrix.makeRowsAbsorbing]

/-- The rows of a matrix after `makeRowsAbsorbing`. -/
theorem getRow_makeRowsAbsorbing (m : SparseMatrix) (rows : BitVector) (j : Nat) :
    SparseMatrix.getRow (SparseMatrix.makeRowsAbsorbing m rows) j
      = if j < SparseMatrix.getRowCount m ∧ BitVector.get rows j = true then [(j, 1)]
        else SparseMatrix.getRow m j := by
  unfold SparseMatrix.getRow SparseMatrix.makeRowsAbsorbing SparseMatrix.getRowCount
  simp only [List.getD_eq_getElem?_getD, List.getElem?_mapIdx]
  by_cases hj : j < m.rows.length
  · rw [List.getElem?_eq_getElem hj]
    by_cases hb : BitVector.get rows j = true
    · simp [hj, hb]
    · simp [hb]
  · rw [List.getElem?_eq_none (by omega)]
    simp [hj]

/-- A matrix all of whose rows have strictly increasing columns is well-formed. -/
theorem wellFormed_of_sorted_getRow (m : SparseMatrix)
    (h : ∀ i, ((SparseMatrix.getRow m i).map (fun e => e.1)).Pairwise (fun a b => a < b)) :
    SparseMatrix.WellFormed m := by
  intro row hrow
  obtain ⟨i, hi, hget⟩ := List.mem_iff_getElem.mp hrow
  have hrowi : SparseMatrix.getRow m i = row := by
    unfold SparseMatrix.getRow
    rw [List.getD_eq_getElem?_getD, List.getElem?_eq_getElem hi, hget]
    rfl
  rw [← hrowi]
  exact h i

theorem wellFormed_makeRowsAbsorbing (m : SparseMatrix) (rows : BitVector)
    (hwf : SparseMatrix.WellFormed m) :
    SparseMatrix.WellFormed (SparseMatrix.makeRowsAbsorbing m rows) := by
  apply wellFormed_of_sorted_getRow
  intro i
  rw [getRow_makeRowsAbsorbing]
  by_cases h : i < SparseMatrix.getRowCount m ∧ BitVector.get rows i = true
  · rw [if_pos h]
    simp
  · rw [if_neg h]
    exact SparseMatrix.sorted_getRow hwf i

/-- The sum of a vector that holds `c` at the positions of a set and 0 elsewhere. -/
theorem sum_map_ite_const (p : Nat → Bool) (c : ℚ) (l : List Nat) :
    (l.map (fun s => if p s then c else 0)).sum = ((l.filter p).length : ℚ) * c := by
  induction l with
  | nil => simp
  | cons a rest ih =>
    rw [List.map_cons, List.sum_cons, ih, List.filter_cons]
    by_cases ha : p a = true
    · simp only [ha, if_true, List.length_cons]
      push_cast
      ring
    · simp only [ha, if_false, Bool.false_eq_true]
      ring

/-- The initial distribution of `computeAllTransientProbabilities` has total mass 1. -/
theorem sum_initialDistribution (initialStates : BitVector)
    (hinitial : 0 < BitVector.getNumberOfSetBits initialStates) :
    ((List.range initialStates.length).map (fun state =>
      if BitVector.get initialStates state
      then 1 / (BitVector.getNumberOfSetBits initialStates : ℚ) else 0)).sum = 1 := by
  rw [sum_map_ite_const]
  have hne : (BitVector.getNumberOfSetBits initialStates : ℚ) ≠ 0 := by
    exact_mod_cast Nat.pos_iff_ne_zero.mp hinitial
  have hlen : ((List.range initialStates.length).filter
      (fun s => BitVector.get initialStates s)).length
      = BitVector.getNumberOfSetBits initialStates := rfl
  rw [hlen]
  field_simp

/-- Every iterate of the uniformized transpose has the total mass of the initial vector. -/
theorem sum_transientIterate_uniformized_transpose (m : SparseMatrix) (q : ℚ) (E : List ℚ)
    (v : List ℚ) (hwf : SparseMatrix.WellFormed m)
    (hsquare : m.columnCount = SparseMatrix.getRowCount m)
    (hcols : ∀ j, ∀ e ∈ SparseMatrix.getRow m j, e.1 < SparseMatrix.getRowCount m)
    (hexit : ∀ j, j < SparseMatrix.getRowCount m → E.getD j 0 = SparseMatrix.getRowSum m j)
    (k : Nat) :
    ∑ i ∈ Finset.range (SparseMatrix.getRowCount m),
        (transientIterate (computeUniformizedMatrix (SparseMatrix.transpose m)
          (BitVector.const (SparseMatrix.getRowCount m) true) q E) none v k).getD i 0
      = ∑ i ∈ Finset.range (SparseMatrix.getRowCount m), v.getD i 0 := by
  induction k with
  | zero => rfl
  | succ k ih =>
    rw [← ih]
    exact sum_multiply_uniformized_transpose m q E _ hwf hsquare hcols hexit

/-- The plain output of `computeTransientProbabilities` for the uniformized transpose has the
total mass of the initial vector, for a Fox-Glynn result whose total weight is the sum of its
weights and not 0. -/
theorem sum_computeTransientProbabilities_uniformized_transpose (env : Environment)
    (m : SparseMatrix) (t q : ℚ) (E : List ℚ) (v : List ℚ)
    (hwf : SparseMatrix.WellFormed m)
    (hsquare : m.columnCount = SparseMatrix.getRowCount m)
    (hcols : ∀ j, ∀ e ∈ SparseMatrix.getRow m j, e.1 < SparseMatrix.getRowCount m)
    (hexit : ∀ j, j < SparseMatrix.getRowCount m → E.getD j 0 = SparseMatrix.getRowSum m j)
    (hv : v.length = SparseMatrix.getRowCount m)
    (hlength : t * q ≠ 0 → (env.foxGlynn (t * q) (env.precision / 8)).weights.length
      = (env.foxGlynn (t * q) (env.precision / 8)).right + 1
        - (env.foxGlynn (t * q) (env.precision / 8)).left)
    (htotal : t * q ≠ 0 → (env.foxGlynn (t * q) (env.precision / 8)).totalWeight
      = (env.foxGlynn (t * q) (env.precision / 8)).weights.sum)
    (hne : t * q ≠ 0 → (env.foxGlynn (t * q) (env.precision / 8)).totalWeight ≠ 0) :
    (computeTransientProbabilities env false
        (computeUniformizedMatrix (SparseMatrix.transpose m)
          (BitVector.const (SparseMatrix.getRowCount m) true) q E) none t q v).sum = v.sum := by
  by_cases hlambda : t * q = 0
  · simp [computeTransientProbabilities, computeTransientProbabilitiesTraced, hlambda]
  · have hP : SparseMatrix.getRowCount (computeUniformizedMatrix (SparseMatrix.transpose m)
        (BitVector.const (SparseMatrix.getRowCount m) true) q E) = v.length := by
      rw [getRowCount_computeUniformizedMatrix, BitVector.setBits_const_true, List.length_range,
        hv]
    obtain ⟨hlen, hformula⟩ := computeTransientProbabilities_plain_formula env _ none t q v
      hlambda hP
    rw [← sum_range_getD, hlen, ← sum_range_getD v, hv]
    simp only [hformula]
    rw [Finset.sum_comm]
    simp only [← Finset.mul_sum]
    simp only [sum_transientIterate_uniformized_transpose m q E v hwf hsquare hcols hexit]
    rw [← Finset.sum_mul, sum_normalizedWeights _ (hlength hlambda) (htotal hlambda)
      (hne hlambda), one_mul]

/-- The product of a row with the unit vector of a column is the sum of the entries of the row
in that column. -/
theorem multiplyRow_unitVector (row : List (Nat × ℚ)) (n j : Nat) (hj : j < n) :
    multiplyRow row ((List.range n).map (fun s => if s = j then (1 : ℚ) else 0))
      = entrySum (row.filter (fun e => e.1 == j)) := by
  induction row with
  | nil => simp [multiplyRow, entrySum]
  | cons e rest ih =>
    rw [multiplyRow_cons, ih, List.filter_cons, getD_map_range]
    by_cases he : e.1 = j
    · have hb : (e.1 == j) = true := by simpa using he
      rw [hb, if_pos rfl, entrySum_cons, if_pos (by omega), if_pos he, mul_one]
    · have hb : (e.1 == j) = false := by simpa using he
      rw [hb, if_neg he, ite_self, mul_zero, zero_add]
      rfl

/-- Where the rate is positive, `computeAllTransientProbabilities` returns the plain output of
`computeTransientProbabilities` for the uniformized transpose. -/
theorem computeAllTransientProbabilities_of_pos (env : Environment)
    (rateMatrix : SparseMatrix) (initialStates phiStates psiStates : BitVector)
    (exitRates : List ℚ) (timeBound : ℚ)
    (hn : 0 < SparseMatrix.getRowCount rateMatrix)
    (hq : 0 < uniformizationRateOf (BitVector.const (SparseMatrix.getRowCount rateMatrix) true)
        (absorbingExitRates exitRates psiStates)) :
    computeAllTransientProbabilities env rateMatrix initialStates phiStates psiStates exitRates
        timeBound
      = Except.ok (computeTransientProbabilities env false
          (computeUniformizedMatrix
            (SparseMatrix.transpose (SparseMatrix.makeRowsAbsorbing rateMatrix psiStates))
            (BitVector.const (SparseMatrix.getRowCount rateMatrix) true)
            (uniformizationRateOf (BitVector.const (SparseMatrix.getRowCount rateMatrix) true)
              (absorbingExitRates exitRates psiStates))
            (absorbingExitRates exitRates psiStates))
          none timeBound
          (uniformizationRateOf (BitVector.const (SparseMatrix.getRowCount rateMatrix) true)
            (absorbingExitRates exitRates psiStates))
          ((List.range (SparseMatrix.getRowCount rateMatrix)).map (fun state =>
            if BitVector.get initialStates state
            then 1 / (BitVector.getNumberOfSetBits initialStates : ℚ) else 0))) := by
  unfold computeAllTransientProbabilities
  simp only [BitVector.empty_const_true _ hn, Bool.not_false, if_true, gt_iff_lt, hq,
    BitVector.setBits_const_true]
  rw [setVectorValues_const_true]
  rw [length_computeTransientProbabilities_plain]
  · simp
  · rw [getRowCount_computeUniformizedMatrix, BitVector.setBits_const_true]
    simp

/-- The exit rates with 1 on the psi states are the row sums of the matrix with absorbing psi
rows, when the given exit rates are the row sums of the matrix. -/
theorem absorbingExitRates_eq_getRowSum (rateMatrix : SparseMatrix) (psiStates : BitVector)
    (exitRates : List ℚ) (hrates : exitRates.length = SparseMatrix.getRowCount rateMatrix)
    (hexit : ∀ s, s < SparseMatrix.getRowCount rateMatrix →
      exitRates.getD s 0 = SparseMatrix.getRowSum rateMatrix s)
    (j : Nat) (hj : j < SparseMatrix.getRowCount rateMatrix) :
    (absorbingExitRates exitRates psiStates).getD j 0
      = SparseMatrix.getRowSum (SparseMatrix.makeRowsAbsorbing rateMatrix psiStates) j := by
  rw [getD_absorbingExitRates, SparseMatrix.getRowSum, getRow_makeRowsAbsorbing]
  by_cases hpsi : BitVector.get psiStates j = true
  · rw [if_pos ⟨hpsi, by rw [hrates]; exact hj⟩, if_pos ⟨hj, hpsi⟩]
    simp [entrySum]
  · rw [if_neg (fun h => hpsi h.1), if_neg (fun h => hpsi h.2), hexit j hj]
    rfl

/-- The columns of the matrix with absorbing psi rows are states, when those of the matrix
are. -/
theorem columns_makeRowsAbsorbing (rateMatrix : SparseMatrix) (psiStates : BitVector)
    (hcols : ∀ j, ∀ e ∈ SparseMatrix.getRow rateMatrix j,
      e.1 < SparseMatrix.getRowCount rateMatrix) :
    ∀ j, ∀ e ∈ SparseMatrix.getRow (SparseMatrix.makeRowsAbsorbing rateMatrix psiStates) j,
      e.1 < SparseMatrix.getRowCount (SparseMatrix.makeRowsAbsorbing rateMatrix psiStates) := by
  intro j e he
  rw [getRowCount_makeRowsAbsorbing]
  rw [getRow_makeRowsAbsorbing] at he
  by_cases h : j < SparseMatrix.getRowCount rateMatrix ∧ BitVector.get psiStates j = true
  · rw [if_pos h] at he
    rw [List.mem_singleton.mp he]
    exact h.1
  · rw [if_neg h] at he
    exact hcols j e he

theorem localWeightedSum_cons (bscc : StronglyConnectedComponent) (x : List ℚ) (e : Nat × ℚ)
    (rest : List (Nat × ℚ)) :
    localWeightedSum bscc x (e :: rest)
      = (match toLocalIndex bscc e.1 with
          | none => 0
          | some localIndex => e.2 * x.getD localIndex 0)
        + localWeightedSum bscc x rest := by
  simp [localWeightedSum]

/-- The product of a row built by the inner loop of `computeLongRunAveragesForBsccEqSys` in
equation-system format with a vector: the diagonal value is added exactly once, unless the flag
`insertedDiagonal` was set at the start. -/
theorem multiplyRow_eqSysRow (bscc : StronglyConnectedComponent) (row : Nat) (d : ℚ)
    (x : List ℚ) :
    ∀ (entries : List (Nat × ℚ)) (insertedDiagonal : Bool),
      multiplyRow (eqSysRow bscc true row d insertedDiagonal entries) x
        = (if insertedDiagonal then 0 else d * x.getD row 0)
          + localWeightedSum bscc x entries := by
  intro entries
  induction entries with
  | nil =>
    intro ins
    cases ins <;> simp [eqSysRow, multiplyRow, localWeightedSum]
  | cons e rest ih =>
    intro ins
    rw [localWeightedSum_cons]
    cases hlocal : toLocalIndex bscc e.1 with
    | none =>
      simp only [eqSysRow, hlocal]
      rw [ih ins]
      ring
    | some l =>
      by_cases hfirst : (!ins && l == row) = true
      · have hins : ins = false := by
          cases ins
          · rfl
          · simp at hfirst
        have hl : l = row := by
          rw [hins] at hfirst
          simpa using hfirst
        simp only [eqSysRow, hlocal, hfirst, if_true, multiplyRow_cons]
        rw [ih true, hins, hl]
        simp only [Bool.not_true, Bool.false_eq_true, if_false, if_true]
        ring
      · by_cases hsecond : (!ins && decide (l > row)) = true
        · have hins : ins = false := by
            cases ins
            · rfl
            · simp at hsecond
          simp only [eqSysRow, hlocal, hfirst, hsecond, if_true, if_false, multiplyRow_cons,
            Bool.false_eq_true]
          rw [ih true, hins]
          simp only [Bool.not_true, Bool.false_eq_true, if_false, if_true]
          ring
        · simp only [eqSysRow, hlocal, hfirst, hsecond, if_false, multiplyRow_cons,
            Bool.false_eq_true]
          rw [ih ins]
          simp only [Bool.not_true, Bool.false_eq_true, if_false]
          ring

/-- In a row with strictly increasing columns the sum of the entries in a column is the value
of the row at that column. -/
theorem entrySum_filter_eq_find (row : List (Nat × ℚ)) (j : Nat)
    (hsorted : (row.map (fun e => e.1)).Pairwise (fun a b => a < b)) :
    entrySum (row.filter (fun e => e.1 == j))
      = ((row.find? (fun e => e.1 == j)).map (fun e => e.2)).getD 0 := by
  induction row with
  | nil => simp [entrySum]
  | cons e rest ih =>
    rw [List.map_cons, List.pairwise_cons] at hsorted
    rw [List.filter_cons, List.find?_cons]
    by_cases he : e.1 = j
    · have hb : (e.1 == j) = true := by simpa using he
      have hnone : rest.filter (fun x => x.1 == j) = [] := by
        rw [List.filter_eq_nil_iff]
        intro x hx
        have := hsorted.1 x.1 (List.mem_map_of_mem _ hx)
        simp only [beq_iff_eq]
        omega
      rw [hb, if_pos rfl, hnone]
      simp [entrySum]
    · have hb : (e.1 == j) = false := by simpa using he
      rw [hb]
      exact ih hsorted.2

theorem value_eq_entrySum_filter (m : SparseMatrix) (hwf : SparseMatrix.WellFormed m)
    (i j : Nat) :
    SparseMatrix.value m i j
      = entrySum ((SparseMatrix.getRow m i).filter (fun e => e.1 == j)) := by
  rw [entrySum_filter_eq_find _ _ (SparseMatrix.sorted_getRow hwf i)]
  rfl

theorem toLocalIndex_of_not_mem (bscc : StronglyConnectedComponent) (s : Nat)
    (hs : s ∉ bscc) : toLocalIndex bscc s = none := by
  unfold toLocalIndex
  rw [if_neg]
  rw [List.indexOf_lt_length]
  exact hs

theorem toLocalIndex_getD (bscc : StronglyConnectedComponent) (hnodup : bscc.Nodup) (l : Nat)
    (hl : l < bscc.length) : toLocalIndex bscc (bscc.getD l 0) = some l := by
  have hget : bscc.getD l 0 = bscc[l] := by
    rw [List.getD_eq_getElem?_getD, List.getElem?_eq_getElem hl]
    rfl
  unfold toLocalIndex
  rw [hget, List.indexOf_getElem hnodup l hl, if_pos hl]

theorem getD_mem (bscc : StronglyConnectedComponent) (l : Nat) (hl : l < bscc.length) :
    bscc.getD l 0 ∈ bscc := by
  have hget : bscc.getD l 0 = bscc[l] := by
    rw [List.getD_eq_getElem?_getD, List.getElem?_eq_getElem hl]
    rfl
  rw [hget]
  exact List.getElem_mem hl

/-- A sum over the states that only counts the states of a block is the sum over the local
indices of the block. -/
theorem sum_range_toLocalIndex (bscc : StronglyConnectedComponent) (hnodup : bscc.Nodup)
    (n : Nat) (hstates : ∀ s ∈ bscc, s < n) (g : Nat → Nat → ℚ) :
    ∑ i ∈ Finset.range n,
        (match toLocalIndex bscc i with
          | none => 0
          | some localIndex => g localIndex i)
      = ∑ l ∈ Finset.range bscc.length, g l (bscc.getD l 0) := by
  have hsubset : bscc.toFinset ⊆ Finset.range n := by
    intro s hs
    exact Finset.mem_range.mpr (hstates s (List.mem_toFinset.mp hs))
  rw [← Finset.sum_subset hsubset (fun s _ hs => by
    rw [toLocalIndex_of_not_mem bscc s (fun h => hs (List.mem_toFinset.mpr h))])]
  rw [List.sum_toFinset _ hnodup, ← sum_range_getD, List.length_map]
  apply Finset.sum_congr rfl
  intro l hl
  have hl' := Finset.mem_range.mp hl
  have hget : (bscc.map (fun i =>
      match toLocalIndex bscc i with
      | none => 0
      | some localIndex => g localIndex i)).getD l 0
      = (match toLocalIndex bscc (bscc.getD l 0) with
        | none => 0
        | some localIndex => g localIndex (bscc.getD l 0)) := by
    rw [List.getD_eq_getElem?_getD, List.getD_eq_getElem?_getD, List.getElem?_map,
      List.getElem?_eq_getElem hl']
    rfl
  rw [hget, toLocalIndex_getD bscc hnodup l hl']

/-- The weighted sum over the row of a state in the transpose: the values of the column of the
state at the states of the block, weighted with the vector. -/
theorem localWeightedSum_transpose (m : SparseMatrix) (bscc : StronglyConnectedComponent)
    (x : List ℚ) (hwf : SparseMatrix.WellFormed m) (hnodup : bscc.Nodup)
    (hstates : ∀ s ∈ bscc, s < SparseMatrix.getRowCount m)
    (s : Nat) (hs : s < m.columnCount) :
    localWeightedSum bscc x (SparseMatrix.getRow (SparseMatrix.transpose m) s)
      = ∑ l ∈ Finset.range bscc.length,
          x.getD l 0 * SparseMatrix.value m (bscc.getD l 0) s := by
  unfold localWeightedSum
  rw [getRow_transpose, if_pos hs, sum_map_flatMap, sum_map_range]
  have hterm : ∀ i ∈ Finset.range (SparseMatrix.getRowCount m),
      ((((SparseMatrix.getRow m i).filter (fun e => e.1 == s)).map (fun e => (i, e.2))).map
        (fun e =>
          match toLocalIndex bscc e.1 with
          | none => 0
          | some localIndex => e.2 * x.getD localIndex 0)).sum
      = (match toLocalIndex bscc i with
          | none => 0
          | some localIndex => x.getD localIndex 0 * SparseMatrix.value m i s) := by
    intro i _
    have hcomp : ((SparseMatrix.getRow m i).filter (fun e => e.1 == s)).map
        ((fun e : Nat × ℚ =>
          match toLocalIndex bscc e.1 with
          | none => (0 : ℚ)
          | some localIndex => e.2 * x.getD localIndex 0) ∘ (fun e : Nat × ℚ => (i, e.2)))
        = ((SparseMatrix.getRow m i).filter (fun e => e.1 == s)).map
          (fun e : Nat × ℚ =>
            match toLocalIndex bscc i with
            | none => (0 : ℚ)
            | some localIndex => e.2 * x.getD localIndex 0) := rfl
    rw [List.map_map, hcomp, value_eq_entrySum_filter m hwf]
    cases hlocal : toLocalIndex bscc i with
    | none => simp
    | some l =>
      simp only [entrySum]
      rw [← List.sum_map_mul_left]
      congr 1
      apply List.map_congr_left
      intro e _
      ring
  refine (Finset.sum_congr rfl hterm).trans ?_
  exact sum_range_toLocalIndex bscc hnodup _ hstates
    (fun l i => x.getD l 0 * SparseMatrix.value m i s)

theorem length_rows_eqSysMatrix (format : Bool) (bscc : StronglyConnectedComponent)
    (backwardTransitions : SparseMatrix) (exitRateVector : Option (List ℚ))
    (hsize : 0 < bscc.length) :
    (eqSysMatrix format bscc backwardTransitions exitRateVector).rows.length = bscc.length := by
  simp only [eqSysMatrix, List.length_cons, List.length_map, List.length_range']
  omega

/-- The first row of the matrix of `computeLongRunAveragesForBsccEqSys` in equation-system
format holds a one for every state of the block. -/
theorem getRow_eqSysMatrix_zero (bscc : StronglyConnectedComponent)
    (backwardTransitions : SparseMatrix) (exitRateVector : Option (List ℚ)) :
    SparseMatrix.getRow (eqSysMatrix true bscc backwardTransitions exitRateVector) 0
      = (List.range bscc.length).map (fun state => (state, (1 : ℚ))) := rfl

/-- The row of a state after the first of the matrix of `computeLongRunAveragesForBsccEqSys`
in equation-system format. -/
theorem getRow_eqSysMatrix_succ (bscc : StronglyConnectedComponent)
    (backwardTransitions : SparseMatrix) (exitRateVector : Option (List ℚ)) (k : Nat)
    (hk : k + 1 < bscc.length) :
    SparseMatrix.getRow (eqSysMatrix true bscc backwardTransitions exitRateVector) (k + 1)
      = eqSysRow bscc true (k + 1) (-viExitRate exitRateVector (bscc.getD (k + 1) 0))
          (decide (-viExitRate exitRateVector (bscc.getD (k + 1) 0) = 0))
          (SparseMatrix.getRow backwardTransitions (bscc.getD (k + 1) 0)) := by
  have hidx : (List.range' 1 (bscc.length - 1))[k]? = some (k + 1) := by
    rw [List.getElem?_range' 1 1 (by omega)]
    congr 1
    omega
  have hrow : SparseMatrix.getRow (eqSysMatrix true bscc backwardTransitions exitRateVector)
      (k + 1)
      = ((List.range' 1 (bscc.length - 1)).map (fun row =>
          eqSysRow bscc true row (-viExitRate exitRateVector (bscc.getD row 0))
            (decide (-viExitRate exitRateVector (bscc.getD row 0) = 0))
            (SparseMatrix.getRow backwardTransitions (bscc.getD row 0)))).getD k [] := by
    cases exitRateVector <;> rfl
  rw [hrow, List.getD_eq_getElem?_getD, List.getElem?_map, hidx]
  rfl

theorem multiplyRow_ones (n : Nat) (x : List ℚ) :
    multiplyRow ((List.range n).map (fun state => (state, (1 : ℚ)))) x
      = ∑ l ∈ Finset.range n, x.getD l 0 := by
  unfold multiplyRow
  rw [List.map_map, sum_map_range]
  apply Finset.sum_congr rfl
  intro l _
  simp

/-- The product of the row of a state after the first with a vector, for the backward
transitions that are the transpose of the rate matrix: the balance at that state. -/
theorem multiplyRow_eqSysMatrix_succ (m : SparseMatrix) (bscc : StronglyConnectedComponent)
    (exitRateVector : Option (List ℚ)) (x : List ℚ)
    (hwf : SparseMatrix.WellFormed m) (hnodup : bscc.Nodup)
    (hstates : ∀ s ∈ bscc, s < SparseMatrix.getRowCount m ∧ s < m.columnCount)
    (k : Nat) (hk : k + 1 < bscc.length) :
    multiplyRow (SparseMatrix.getRow
        (eqSysMatrix true bscc (SparseMatrix.transpose m) exitRateVector) (k + 1)) x
      = ∑ l ∈ Finset.range bscc.length,
          x.getD l 0 * generatorEntry m exitRateVector (bscc.getD l 0) (bscc.getD (k + 1) 0) := by
  rw [getRow_eqSysMatrix_succ _ _ _ k hk, multiplyRow_eqSysRow,
    localWeightedSum_transpose m bscc x hwf hnodup (fun s hs => (hstates s hs).1) _
      (hstates _ (getD_mem bscc (k + 1) hk)).2]
  have hdiag : (if decide (-viExitRate exitRateVector (bscc.getD (k + 1) 0) = 0) = true then 0
      else -viExitRate exitRateVector (bscc.getD (k + 1) 0) * x.getD (k + 1) 0)
      = -viExitRate exitRateVector (bscc.getD (k + 1) 0) * x.getD (k + 1) 0 := by
    by_cases hzero : -viExitRate exitRateVector (bscc.getD (k + 1) 0) = 0
    · rw [if_pos (by simpa using hzero), hzero, zero_mul]
    · rw [if_neg (by simpa using hzero)]
  rw [hdiag]
  have hterm : ∀ l ∈ Finset.range bscc.length,
      x.getD l 0 * generatorEntry m exitRateVector (bscc.getD l 0) (bscc.getD (k + 1) 0)
        = x.getD l 0 * SparseMatrix.value m (bscc.getD l 0) (bscc.getD (k + 1) 0)
          + (if l = k + 1 then
              -viExitRate exitRateVector (bscc.getD (k + 1) 0) * x.getD (k + 1) 0 else 0) := by
    intro l hl
    have hl' := Finset.mem_range.mp hl
    unfold generatorEntry
    by_cases hlk : l = k + 1
    · rw [hlk, if_pos rfl, if_pos rfl]
      ring
    · have hne : bscc.getD l 0 ≠ bscc.getD (k + 1) 0 := by
        intro heq
        have h1 := toLocalIndex_getD bscc hnodup l hl'
        have h2 := toLocalIndex_getD bscc hnodup (k + 1) hk
        rw [heq, h2] at h1
        exact hlk (Option.some.inj h1).symm
      rw [if_neg hne, if_neg hlk, add_zero]
  rw [Finset.sum_congr rfl hterm, Finset.sum_add_distrib, Finset.sum_ite_eq',
    if_pos (Finset.mem_range.mpr hk)]
  ring

/-- The values of a row of the rate matrix at the states of a block sum to the sum of the row,
when every transition of the row stays inside the block. -/
theorem sum_value_block (m : SparseMatrix) (bscc : StronglyConnectedComponent)
    (hwf : SparseMatrix.WellFormed m) (hnodup : bscc.Nodup) (s : Nat)
    (hclosed : ∀ e ∈ SparseMatrix.getRow m s, e.1 ∈ bscc) :
    ∑ k ∈ Finset.range bscc.length, SparseMatrix.value m s (bscc.getD k 0)
      = SparseMatrix.getRowSum m s := by
  simp only [value_eq_entrySum_filter m hwf]
  unfold SparseMatrix.getRowSum
  generalize SparseMatrix.getRow m s = row at hclosed
  induction row with
  | nil => simp [entrySum]
  | cons e rest ih =>
    have hrest := ih (fun x hx => hclosed x (List.mem_cons_of_mem _ hx))
    have he := hclosed e (List.mem_cons_self _ _)
    have hterm : ∀ k ∈ Finset.range bscc.length,
        entrySum ((e :: rest).filter (fun x => x.1 == bscc.getD k 0))
          = (if k = bscc.indexOf e.1 then e.2 else 0)
            + entrySum (rest.filter (fun x => x.1 == bscc.getD k 0)) := by
      intro k hk
      have hk' := Finset.mem_range.mp hk
      rw [List.filter_cons]
      have hindex : toLocalIndex bscc e.1 = some (bscc.indexOf e.1) := by
        unfold toLocalIndex
        rw [if_pos (List.indexOf_lt_length.mpr he)]
      by_cases hcol : e.1 = bscc.getD k 0
      · have hb : (e.1 == bscc.getD k 0) = true := by simpa using hcol
        have hkeq : k = bscc.indexOf e.1 := by
          have h1 := toLocalIndex_getD bscc hnodup k hk'
          rw [← hcol, hindex] at h1
          exact (Option.some.inj h1).symm
        rw [hb, if_pos rfl, if_pos hkeq, entrySum_cons]
      · have hb : (e.1 == bscc.getD k 0) = false := by simpa using hcol
        have hkne : k ≠ bscc.indexOf e.1 := by
          intro hkeq
          apply hcol
          have hlt : bscc.indexOf e.1 < bscc.length := List.indexOf_lt_length.mpr he
          have hget : bscc.getD (bscc.indexOf e.1) 0 = e.1 := by
            rw [List.getD_eq_getElem?_getD, List.getElem?_eq_getElem hlt]
            exact List.getElem_indexOf hlt
          rw [hkeq, hget]
        rw [hb, if_neg hkne, zero_add]
        rfl
    rw [Finset.sum_congr rfl hterm, Finset.sum_add_distrib, hrest, entrySum_cons,
      Finset.sum_ite_eq']
    rw [if_pos (Finset.mem_range.mpr (List.indexOf_lt_length.mpr he))]

/-- The row of the generator of a state of a block sums to zero over the block, when the exit
rate of the state is the sum of its row and every transition of the row stays inside the
block. -/
theorem sum_generatorEntry_block (m : SparseMatrix) (bscc : StronglyConnectedComponent)
    (exitRateVector : Option (List ℚ)) (hwf : SparseMatrix.WellFormed m) (hnodup : bscc.Nodup)
    (l : Nat) (hl : l < bscc.length)
    (hclosed : ∀ e ∈ SparseMatrix.getRow m (bscc.getD l 0), e.1 ∈ bscc)
    (hexit : viExitRate exitRateVector (bscc.getD l 0)
      = SparseMatrix.getRowSum m (bscc.getD l 0)) :
    ∑ k ∈ Finset.range bscc.length,
        generatorEntry m exitRateVector (bscc.getD l 0) (bscc.getD k 0) = 0 := by
  have hterm : ∀ k ∈ Finset.range bscc.length,
      generatorEntry m exitRateVector (bscc.getD l 0) (bscc.getD k 0)
        = SparseMatrix.value m (bscc.getD l 0) (bscc.getD k 0)
          + (if l = k then -viExitRate exitRateVector (bscc.getD l 0) else 0) := by
    intro k hk
    have hk' := Finset.mem_range.mp hk
    unfold generatorEntry
    by_cases hlk : l = k
    · rw [← hlk, if_pos rfl, if_pos rfl]
      ring
    · have hne : bscc.getD l 0 ≠ bscc.getD k 0 := by
        intro heq
        have h1 := toLocalIndex_getD bscc hnodup l hl
        have h2 := toLocalIndex_getD bscc hnodup k hk'
        rw [heq, h2] at h1
        exact hlk (Option.some.inj h1).symm
      rw [if_neg hne, if_neg hlk, add_zero]
  rw [Finset.sum_congr rfl hterm, Finset.sum_add_distrib, Finset.sum_ite_eq,
    if_pos (Finset.mem_range.mpr hl), sum_value_block m bscc hwf hnodup _ hclosed, hexit]
  ring

theorem getD_rightSide_zero (n : Nat) (hn : 0 < n) :
    ((List.replicate n (0 : ℚ)).set 0 1).getD 0 0 = 1 := by
  cases n with
  | zero => omega
  | succ k => rfl

theorem getD_rightSide_succ (n k : Nat) :
    ((List.replicate n (0 : ℚ)).set 0 1).getD (k + 1) 0 = 0 := by
  cases n with
  | zero => rfl
  | succ j =>
    rw [List.replicate_succ, List.set_cons_zero, List.getD_cons_succ,
      List.getD_eq_getElem?_getD, List.getElem?_replicate]
    by_cases h : k < j
    · rw [if_pos h]; rfl
    · rw [if_neg h]; rfl

/-- The uniform vector solves the system of the two-state cycle. -/
theorem multiply_eqSysMatrix_cycle :
    multiply (eqSysMatrix true [0, 1] (SparseMatrix.transpose cycleRateMatrix) (some [1, 1]))
        [1 / 2, 1 / 2] none
      = (List.replicate ([0, 1] : List Nat).length (0 : ℚ)).set 0 1 := by
  have hrow : SparseMatrix.getRow
      (eqSysMatrix true [0, 1] (SparseMatrix.transpose cycleRateMatrix) (some [1, 1])) 1
      = [(0, 1), (1, -1)] := by
    rw [getRow_eqSysMatrix_succ _ _ _ 0 (by decide)]
    have hd : -viExitRate (some [1, 1]) (([0, 1] : List Nat).getD (0 + 1) 0) = -1 := rfl
    have hbackward : SparseMatrix.getRow (SparseMatrix.transpose cycleRateMatrix)
        (([0, 1] : List Nat).getD (0 + 1) 0) = [(0, 1)] := by decide
    rw [hd, hbackward]
    have hflag : decide ((-1 : ℚ) = 0) = false := by
      rw [decide_eq_false_iff_not]
      norm_num
    rw [hflag]
    simp [eqSysRow, toLocalIndex]
  have hmultiply : multiply
      (eqSysMatrix true [0, 1] (SparseMatrix.transpose cycleRateMatrix) (some [1, 1]))
      [1 / 2, 1 / 2] none
      = [multiplyRow (SparseMatrix.getRow
            (eqSysMatrix true [0, 1] (SparseMatrix.transpose cycleRateMatrix) (some [1, 1])) 0)
          [1 / 2, 1 / 2] + 0,
        multiplyRow (SparseMatrix.getRow
            (eqSysMatrix true [0, 1] (SparseMatrix.transpose cycleRateMatrix) (some [1, 1])) 1)
          [1 / 2, 1 / 2] + 0] := rfl
  rw [hmultiply, hrow, getRow_eqSysMatrix_zero]
  simp [multiplyRow, List.range_succ, getElem_one_cons]
  norm_num

/-- The loop over the blocks returns exactly when the computation of every block returns. -/
theorem computeBsccLra_isSome_iff (f : StronglyConnectedComponent → Option ℚ) :
    ∀ bsccs : List StronglyConnectedComponent,
      (∃ lra, computeBsccLra f bsccs = some lra) ↔ ∀ bscc ∈ bsccs, f bscc ≠ none := by
  intro bsccs
  induction bsccs with
  | nil => simp [computeBsccLra]
  | cons bscc rest ih =>
    unfold computeBsccLra
    cases hb : f bscc with
    | none =>
      simp only [List.mem_cons, forall_eq_or_imp, hb, ne_eq, not_true_eq_false, false_and,
        iff_false, not_exists]
      intro lra h
      cases h
    | some value =>
      simp only [List.mem_cons, forall_eq_or_imp, hb, ne_eq, reduceCtorEq, not_false_eq_true,
        true_and]
      rw [← ih]
      cases hrest : computeBsccLra f rest with
      | none => simp
      | some values => simp

theorem computeBsccLra_eq_none_iff (f : StronglyConnectedComponent → Option ℚ)
    (bsccs : List StronglyConnectedComponent) :
    computeBsccLra f bsccs = none ↔ ∃ bscc ∈ bsccs, f bscc = none := by
  have h := computeBsccLra_isSome_iff f bsccs
  constructor
  · intro hnone
    by_contra hall
    have hall' : ∀ bscc ∈ bsccs, f bscc ≠ none := fun b hb hbn => hall ⟨b, hb, hbn⟩
    obtain ⟨lra, hlra⟩ := h.mpr hall'
    rw [hnone] at hlra
    cases hlra
  · rintro ⟨b, hb, hbn⟩
    cases hc : computeBsccLra f bsccs with
    | none => rfl
    | some lra => exact absurd hbn (h.mp ⟨lra, hc⟩ b hb)

/-- The engine returns nothing exactly when the loop over the blocks does not return. -/
theorem computeLongRunAverages_eq_none_iff (env : LongRunEnvironment) (fuel : Nat)
    (goal : SolveGoal) (rateMatrix : SparseMatrix) (valueGetter : Nat → ℚ)
    (exitRateVector : Option (List ℚ)) :
    computeLongRunAverages env fuel goal rateMatrix valueGetter exitRateVector = none
      ↔ computeBsccLra (fun bscc => computeLongRunAveragesForBscc fuel bscc rateMatrix
          (SparseMatrix.transpose rateMatrix) valueGetter exitRateVector)
        (env.bsccDecomposition rateMatrix) = none := by
  unfold computeLongRunAverages
  cases hlra : computeBsccLra (fun bscc => computeLongRunAveragesForBscc fuel bscc rateMatrix
      (SparseMatrix.transpose rateMatrix) valueGetter exitRateVector)
      (env.bsccDecomposition rateMatrix) with
  | none =>
    rw [computeLongRunAveragesTraced_of_none env fuel goal rateMatrix valueGetter
      exitRateVector hlra]
    simp
  | some bsccLra =>
    rw [computeLongRunAveragesTraced_of_some env fuel goal rateMatrix valueGetter
      exitRateVector bsccLra hlra]
    simp only [reduceCtorEq, iff_false]
    split_ifs <;> simp

theorem bsccStatesOf_cycleAndSink : bsccStatesOf 3 [0, 1] = [true, true, false] := by
  decide

theorem viUniformizationRate_cycleAndSink :
    viUniformizationRate [true, true, false] (some [1, 1, 0]) = 2 := by
  have h : BitVector.setBits [true, true, false] = [0, 1] := by decide
  simp only [viUniformizationRate, max_if, h]
  norm_num

theorem viBsccMatrix_cycleAndSink :
    viBsccMatrix cycleAndSinkRateMatrix [true, true, false] 2 (some [1, 1, 0])
      = ⟨2, [[(0, 1 / 2), (1, 1 / 2)], [(0, 1 / 2), (1, 1 / 2)]]⟩ := by
  have h : viBsccMatrix cycleAndSinkRateMatrix [true, true, false] 2 (some [1, 1, 0])
      = ⟨2, [[(0, 1 + (0 - 1) / 2), (1, 1 / 2)], [(0, 1 / 2), (1, 1 + (0 - 1) / 2)]]⟩ := rfl
  rw [h]
  norm_num

/-- The value iteration on the block `{0, 1}` of the chain `cycleAndSinkRateMatrix` with a value
function that is the negative constant `c` on the block: no number of rounds suffices. -/
theorem computeLongRunAveragesForBsccVi_cycleAndSink_negative (valueGetter : Nat → ℚ) (c : ℚ)
    (h0 : valueGetter 0 = c) (h1 : valueGetter 1 = c) (hc : c < 0) (fuel : Nat)
    (backwardTransitions : SparseMatrix) :
    computeLongRunAveragesForBsccVi fuel [0, 1] cycleAndSinkRateMatrix backwardTransitions
      valueGetter (some [1, 1, 0]) = none := by
  have hn : SparseMatrix.getRowCount cycleAndSinkRateMatrix = 3 := rfl
  have hrewards : (BitVector.setBits [true, true, false]).map
      (fun state => valueGetter state * (1 / 2)) = [c * (1 / 2), c * (1 / 2)] := by
    have h : BitVector.setBits [true, true, false] = [0, 1] := by decide
    rw [h]
    simp only [List.map_cons, List.map_nil, h0, h1]
  have hv : List.replicate (SparseMatrix.getRowCount
      (⟨2, [[(0, 1 / 2), (1, 1 / 2)], [(0, 1 / 2), (1, 1 / 2)]]⟩ : SparseMatrix)) (0 : ℚ)
      = [0, 0] := rfl
  unfold computeLongRunAveragesForBsccVi computeLongRunAveragesForBsccViTraced
  simp only [hn, bsccStatesOf_cycleAndSink, viUniformizationRate_cycleAndSink,
    viBsccMatrix_cycleAndSink, hrewards, hv]
  rw [valueIteration_cycle_negative_start (c * (1 / 2)) (1 / 1000000 / 2) (by linarith)
    (by norm_num) fuel]

/-- The value of the dispatcher for a block with other than one state is the value of the value
iteration. -/
theorem computeLongRunAveragesForBscc_of_ne_one (fuel : Nat) (bscc : StronglyConnectedComponent)
    (rateMatrix backwardTransitions : SparseMatrix) (valueGetter : Nat → ℚ)
    (exitRateVector : Option (List ℚ)) (hne : bscc.length ≠ 1) :
    computeLongRunAveragesForBscc fuel bscc rateMatrix backwardTransitions valueGetter
        exitRateVector
      = computeLongRunAveragesForBsccVi fuel bscc rateMatrix backwardTransitions valueGetter
          exitRateVector := by
  unfold computeLongRunAveragesForBscc computeLongRunAveragesForBsccVi
    computeLongRunAveragesForBsccTraced
  rw [if_neg hne]

/-- The value of the dispatcher for a block of one state. -/
theorem computeLongRunAveragesForBscc_of_length_one (fuel : Nat)
    (bscc : StronglyConnectedComponent) (rateMatrix backwardTransitions : SparseMatrix)
    (valueGetter : Nat → ℚ) (exitRateVector : Option (List ℚ)) (hone : bscc.length = 1) :
    computeLongRunAveragesForBscc fuel bscc rateMatrix backwardTransitions valueGetter
        exitRateVector = some (valueGetter (bscc.headD 0)) := by
  unfold computeLongRunAveragesForBscc computeLongRunAveragesForBsccTraced
  rw [if_pos hone]

/-- On the chain `cycleAndSinkRateMatrix` with a value function that is negative on the block
`{0, 1}` the engine returns nothing, whatever the bound on the rounds. -/
theorem computeLongRunAverages_cycleAndSink_negative (valueGetter : Nat → ℚ) (c : ℚ)
    (h0 : valueGetter 0 = c) (h1 : valueGetter 1 = c) (hc : c < 0) (fuel : Nat)
    (goal : SolveGoal) :
    computeLongRunAverages cycleAndSinkLongRunEnvironment fuel goal cycleAndSinkRateMatrix
      valueGetter (some [1, 1, 0]) = none := by
  rw [computeLongRunAverages_eq_none_iff, computeBsccLra_eq_none_iff]
  refine ⟨[0, 1], by simp [cycleAndSinkLongRunEnvironment], ?_⟩
  rw [computeLongRunAveragesForBscc_of_ne_one _ _ _ _ _ _ (by decide)]
  exact computeLongRunAveragesForBsccVi_cycleAndSink_negative valueGetter c h0 h1 hc fuel _

/-- On the chain `cycleRateMatrix` with a value function that is negative on its block the
engine returns nothing, whatever the bound on the rounds. -/
theorem computeLongRunAverages_cycle_negative (valueGetter : Nat → ℚ) (c : ℚ)
    (h0 : valueGetter 0 = c) (h1 : valueGetter 1 = c) (hc : c < 0) (fuel : Nat)
    (goal : SolveGoal) :
    computeLongRunAverages cycleLongRunEnvironment fuel goal cycleRateMatrix
      valueGetter (some [1, 1]) = none := by
  rw [computeLongRunAverages_eq_none_iff, computeBsccLra_eq_none_iff]
  refine ⟨[0, 1], by simp [cycleLongRunEnvironment], ?_⟩
  rw [computeLongRunAveragesForBscc_of_ne_one _ _ _ _ _ _ (by decide)]
  exact computeLongRunAveragesForBsccVi_cycle_negative valueGetter c h0 h1 hc fuel _

/-- Every vector that the engine returns holds the value of the value function at the state of
a block of one state. -/
theorem computeLongRunAverages_singleton_entry (env : LongRunEnvironment) (fuel : Nat)
    (goal : SolveGoal) (rateMatrix : SparseMatrix) (valueGetter : Nat → ℚ)
    (exitRateVector : Option (List ℚ)) (s i : Nat) (result : List ℚ)
    (hs : s < SparseMatrix.getRowCount rateMatrix)
    (hi : i < (env.bsccDecomposition rateMatrix).length)
    (hblock : (env.bsccDecomposition rateMatrix).getD i [] = [s])
    (hunique : ∀ j, j ≠ i → ((env.bsccDecomposition rateMatrix).getD j []).contains s = false)
    (hreturn : computeLongRunAverages env fuel goal rateMatrix valueGetter exitRateVector
      = some (Except.ok result)) :
    result[s]? = some (valueGetter s) := by
  have hin : ((env.bsccDecomposition rateMatrix).getD i []).contains s = true := by
    rw [hblock]
    simp
  have hany : (env.bsccDecomposition rateMatrix).any (fun bscc => bscc.contains s) = true := by
    rw [← any_range_getD (env.bsccDecomposition rateMatrix) [] (fun bscc => bscc.contains s),
      List.any_eq_true]
    exact ⟨i, List.mem_range.mpr hi, hin⟩
  have hmap := stateToBsccMap_of_unique (env.bsccDecomposition rateMatrix) s i hi hin hunique
  cases hlra : computeBsccLra (fun bscc => computeLongRunAveragesForBscc fuel bscc rateMatrix
      (SparseMatrix.transpose rateMatrix) valueGetter exitRateVector)
      (env.bsccDecomposition rateMatrix) with
  | none =>
    rw [(computeLongRunAverages_eq_none_iff env fuel goal rateMatrix valueGetter
      exitRateVector).mpr hlra] at hreturn
    cases hreturn
  | some bsccLra =>
    have hvalue : bsccLra.getD i 0 = valueGetter s := by
      have h1 := (computeBsccLra_eq_some _ _ _ hlra).2 i hi
      rw [hblock] at h1
      unfold computeLongRunAveragesForBscc at h1
      rw [computeLongRunAveragesForBsccTraced_singleton] at h1
      exact (Option.some.inj h1).symm
    unfold computeLongRunAverages at hreturn
    rw [computeLongRunAveragesTraced_of_some env fuel goal rateMatrix valueGetter
      exitRateVector bsccLra hlra] at hreturn
    by_cases hout : (!BitVector.empty (BitVector.complement (statesInBsccsOf
        (SparseMatrix.getRowCount rateMatrix) (env.bsccDecomposition rateMatrix)))) = true
    · rw [if_pos hout] at hreturn
      by_cases hreq : env.hasEnabledCriticalRequirement
          (rewardEquationSystemMatrixOf env.isEquationSystemFormat rateMatrix
            (BitVector.complement (statesInBsccsOf (SparseMatrix.getRowCount rateMatrix)
              (env.bsccDecomposition rateMatrix))) exitRateVector)
          (minValueOf bsccLra) (maxValueOf bsccLra) = true
      · rw [if_pos hreq] at hreturn
        simp at hreturn
      · rw [if_neg hreq] at hreturn
        simp only [Option.some.injEq, Except.ok.injEq] at hreturn
        rw [← hreturn, getElem?_assembled _ _ _ _ _ hs, hany, if_pos rfl, hmap, hvalue]
    · rw [if_neg hout] at hreturn
      simp only [Option.some.injEq, Except.ok.injEq] at hreturn
      rw [← hreturn, getElem?_filled _ _ _ _ hs hany, hmap, hvalue]

/-- When every block has one state the engine returns, for every bound on the rounds. -/
theorem computeLongRunAverages_ne_none_of_singletons (env : LongRunEnvironment) (fuel : Nat)
    (goal : SolveGoal) (rateMatrix : SparseMatrix) (valueGetter : Nat → ℚ)
    (exitRateVector : Option (List ℚ))
    (hblocks : ∀ bscc ∈ env.bsccDecomposition rateMatrix, bscc.length = 1) :
    computeLongRunAverages env fuel goal rateMatrix valueGetter exitRateVector ≠ none := by
  rw [ne_eq, computeLongRunAverages_eq_none_iff, computeBsccLra_eq_none_iff]
  rintro ⟨bscc, hmem, hnone⟩
  rw [computeLongRunAveragesForBscc_of_length_one _ _ _ _ _ _ (hblocks bscc hmem)] at hnone
  cases hnone

/-- The engine returns nothing exactly when the value iteration of a block with other than one
state has not stopped within the bound on the rounds. -/
theorem computeLongRunAverages_eq_none_iff_valueIteration (env : LongRunEnvironment)
    (fuel : Nat) (goal : SolveGoal) (rateMatrix : SparseMatrix) (valueGetter : Nat → ℚ)
    (exitRateVector : Option (List ℚ)) :
    computeLongRunAverages env fuel goal rateMatrix valueGetter exitRateVector = none
      ↔ ∃ bscc ∈ env.bsccDecomposition rateMatrix, bscc.length ≠ 1
          ∧ computeLongRunAveragesForBsccVi fuel bscc rateMatrix
              (SparseMatrix.transpose rateMatrix) valueGetter exitRateVector = none := by
  rw [computeLongRunAverages_eq_none_iff, computeBsccLra_eq_none_iff]
  constructor
  · rintro ⟨bscc, hmem, hnone⟩
    by_cases hone : bscc.length = 1
    · rw [computeLongRunAveragesForBscc_of_length_one _ _ _ _ _ _ hone] at hnone
      cases hnone
    · rw [computeLongRunAveragesForBscc_of_ne_one _ _ _ _ _ _ hone] at hnone
      exact ⟨bscc, hmem, hone, hnone⟩
  · rintro ⟨bscc, hmem, hone, hnone⟩
    refine ⟨bscc, hmem, ?_⟩
    rw [computeLongRunAveragesForBscc_of_ne_one _ _ _ _ _ _ hone]
    exact hnone

theorem getSubmatrix_cycleAndSink :
    SparseMatrix.getSubmatrix cycleAndSinkRateMatrix
        (bsccStatesOf (SparseMatrix.getRowCount cycleAndSinkRateMatrix) [2])
        (bsccStatesOf (SparseMatrix.getRowCount cycleAndSinkRateMatrix) [2]) false
      = ⟨1, [[]]⟩ := by
  decide

/-- The dispatcher on a block of one state, and the entry of the state in the vector that the
engine returns when the loop over the blocks returns. -/
theorem computeLongRunAveragesForBscc_singleton_of_some (fuel s : Nat)
    (rateMatrix : SparseMatrix) (valueGetter : Nat → ℚ) (exitRateVector : Option (List ℚ)) :
    (∀ backwardTransitions : SparseMatrix,
      computeLongRunAveragesForBsccTraced fuel [s] rateMatrix backwardTransitions valueGetter
        exitRateVector
        = (⟨SparseMatrix.getSubmatrix rateMatrix
              (bsccStatesOf (SparseMatrix.getRowCount rateMatrix) [s])
              (bsccStatesOf (SparseMatrix.getRowCount rateMatrix) [s]) false, ⟨none, 0⟩⟩,
            some (valueGetter s)))
    ∧ ∀ (env : LongRunEnvironment) (goal : SolveGoal) (i : Nat) (bsccLra : List ℚ),
        s < SparseMatrix.getRowCount rateMatrix →
        i < (env.bsccDecomposition rateMatrix).length →
        (env.bsccDecomposition rateMatrix).getD i [] = [s] →
        (∀ j, j ≠ i → ((env.bsccDecomposition rateMatrix).getD j []).contains s = false) →
        computeBsccLra (fun bscc => computeLongRunAveragesForBscc fuel bscc rateMatrix
            (SparseMatrix.transpose rateMatrix) valueGetter exitRateVector)
          (env.bsccDecomposition rateMatrix) = some bsccLra →
        env.hasEnabledCriticalRequirement
            (rewardEquationSystemMatrixOf env.isEquationSystemFormat rateMatrix
              (BitVector.complement (statesInBsccsOf (SparseMatrix.getRowCount rateMatrix)
                (env.bsccDecomposition rateMatrix))) exitRateVector)
            (minValueOf bsccLra) (maxValueOf bsccLra) = false →
        ∃ result : List ℚ,
          computeLongRunAverages env fuel goal rateMatrix valueGetter exitRateVector
            = some (Except.ok result)
          ∧ result[s]? = some (valueGetter s) := by
  refine ⟨fun backwardTransitions =>
    computeLongRunAveragesForBsccTraced_singleton fuel s rateMatrix backwardTransitions
      valueGetter exitRateVector, ?_⟩
  intro env goal i bsccLra hs hi hblock hunique hlra hreq
  have hin : ((env.bsccDecomposition rateMatrix).getD i []).contains s = true := by
    rw [hblock]
    simp
  have hany : (env.bsccDecomposition rateMatrix).any (fun bscc => bscc.contains s) = true := by
    rw [← any_range_getD (env.bsccDecomposition rateMatrix) [] (fun bscc => bscc.contains s),
      List.any_eq_true]
    exact ⟨i, List.mem_range.mpr hi, hin⟩
  have hmap := stateToBsccMap_of_unique (env.bsccDecomposition rateMatrix) s i hi hin hunique
  have hvalue : bsccLra.getD i 0 = valueGetter s := by
    have h1 := (computeBsccLra_eq_some _ _ _ hlra).2 i hi
    rw [hblock] at h1
    unfold computeLongRunAveragesForBscc at h1
    rw [computeLongRunAveragesForBsccTraced_singleton] at h1
    exact (Option.some.inj h1).symm
  unfold computeLongRunAverages
  rw [computeLongRunAveragesTraced_of_some env fuel goal rateMatrix valueGetter exitRateVector
    bsccLra hlra]
  by_cases hout : (!BitVector.empty (BitVector.complement (statesInBsccsOf
      (SparseMatrix.getRowCount rateMatrix) (env.bsccDecomposition rateMatrix)))) = true
  · rw [if_pos hout, if_neg (by rw [hreq]; exact Bool.false_ne_true)]
    refine ⟨_, rfl, ?_⟩
    rw [getElem?_assembled _ _ _ _ _ hs, hany, if_pos rfl, hmap, hvalue]
  · rw [if_neg hout]
    refine ⟨_, rfl, ?_⟩
    rw [getElem?_filled _ _ _ _ hs hany, hmap, hvalue]

/-- The assembly of the result: when the loop of `computeLongRunAverages` over the blocks returns, the solver reports
no critical requirement and the blocks are pairwise disjoint, `computeLongRunAverages` returns a
vector with exactly one entry per state in which every state of the `i`-th block holds the
value that `computeLongRunAveragesForBscc` returned for the `i`-th block, and every state
outside the blocks holds the entry of the solution of the one call of `solveEquations` at the
position `n`, where the state is the `n`-th state outside the blocks in ascending order; when
every state lies in a block no linear solver is created or invoked. -/
theorem computeLongRunAverages_assembly_of_some (env : LongRunEnvironment) (fuel : Nat)
    (goal : SolveGoal) (rateMatrix : SparseMatrix) (valueGetter : Nat → ℚ)
    (exitRateVector : Option (List ℚ)) (bsccLra : List ℚ)
    (hdisjoint : ∀ i j s, i ≠ j →
      ((env.bsccDecomposition rateMatrix).getD i []).contains s = true →
      ((env.bsccDecomposition rateMatrix).getD j []).contains s = false)
    (hlra : computeBsccLra (fun bscc => computeLongRunAveragesForBscc fuel bscc rateMatrix
        (SparseMatrix.transpose rateMatrix) valueGetter exitRateVector)
      (env.bsccDecomposition rateMatrix) = some bsccLra)
    (hreq : env.hasEnabledCriticalRequirement
        (rewardEquationSystemMatrixOf env.isEquationSystemFormat rateMatrix
          (BitVector.complement (statesInBsccsOf (SparseMatrix.getRowCount rateMatrix)
            (env.bsccDecomposition rateMatrix))) exitRateVector)
        (minValueOf bsccLra) (maxValueOf bsccLra) = false) :
    ∃ result : List ℚ,
      computeLongRunAverages env fuel goal rateMatrix valueGetter exitRateVector
        = some (Except.ok result)
      ∧ result.length = SparseMatrix.getRowCount rateMatrix
      ∧ (∀ i s, i < (env.bsccDecomposition rateMatrix).length →
          s < SparseMatrix.getRowCount rateMatrix →
          ((env.bsccDecomposition rateMatrix).getD i []).contains s = true →
          computeLongRunAveragesForBscc fuel ((env.bsccDecomposition rateMatrix).getD i [])
              rateMatrix (SparseMatrix.transpose rateMatrix) valueGetter exitRateVector
            = some (bsccLra.getD i 0)
          ∧ result[s]? = some (bsccLra.getD i 0))
      ∧ (∀ s, s < SparseMatrix.getRowCount rateMatrix →
          (env.bsccDecomposition rateMatrix).any (fun bscc => bscc.contains s) = false →
          ∃ (A : SparseMatrix) (x b : List ℚ),
            (computeLongRunAveragesTraced env fuel goal rateMatrix valueGetter
              exitRateVector).1.solver.solved = [(A, x, b)]
            ∧ result[s]? = some ((env.solveEquations A (minValueOf bsccLra)
                (maxValueOf bsccLra) x b).getD
                (BitVector.rank (BitVector.complement (statesInBsccsOf
                  (SparseMatrix.getRowCount rateMatrix) (env.bsccDecomposition rateMatrix)))
                  s) 0))
      ∧ (BitVector.empty (BitVector.complement (statesInBsccsOf
            (SparseMatrix.getRowCount rateMatrix) (env.bsccDecomposition rateMatrix))) = true →
          (computeLongRunAveragesTraced env fuel goal rateMatrix valueGetter
              exitRateVector).1.solver.created = []
          ∧ (computeLongRunAveragesTraced env fuel goal rateMatrix valueGetter
              exitRateVector).1.solver.solved = []) := by
  have hblock : ∀ i s, i < (env.bsccDecomposition rateMatrix).length →
      ((env.bsccDecomposition rateMatrix).getD i []).contains s = true →
      (env.bsccDecomposition rateMatrix).any (fun bscc => bscc.contains s) = true
      ∧ stateToBsccMap (env.bsccDecomposition rateMatrix) s = i := by
    intro i s hi hin
    refine ⟨?_, stateToBsccMap_of_unique _ s i hi hin
      (fun j hj => hdisjoint i j s (Ne.symm hj) hin)⟩
    rw [← any_range_getD (env.bsccDecomposition rateMatrix) [] (fun bscc => bscc.contains s),
      List.any_eq_true]
    exact ⟨i, List.mem_range.mpr hi, hin⟩
  unfold computeLongRunAverages
  rw [computeLongRunAveragesTraced_of_some env fuel goal rateMatrix valueGetter exitRateVector
    bsccLra hlra]
  by_cases hout : (!BitVector.empty (BitVector.complement (statesInBsccsOf
      (SparseMatrix.getRowCount rateMatrix) (env.bsccDecomposition rateMatrix)))) = true
  · rw [if_pos hout, if_neg (by rw [hreq]; exact Bool.false_ne_true)]
    refine ⟨_, rfl, ?_, ?_, ?_, ?_⟩
    · rw [length_setVectorValues, length_fillBsccValues, List.length_replicate]
    · intro i s hi hs hin
      obtain ⟨hany, hmap⟩ := hblock i s hi hin
      refine ⟨(computeBsccLra_eq_some _ _ _ hlra).2 i hi, ?_⟩
      rw [getElem?_assembled _ _ _ _ _ hs, hany, if_pos rfl, hmap]
    · intro s hs hnone
      refine ⟨_, _, _, rfl, ?_⟩
      rw [getElem?_assembled _ _ _ _ _ hs, hnone]
      rfl
    · intro hempty
      rw [hempty] at hout
      cases hout
  · rw [if_neg hout]
    have hempty : BitVector.empty (BitVector.complement (statesInBsccsOf
        (SparseMatrix.getRowCount rateMatrix) (env.bsccDecomposition rateMatrix))) = true := by
      simpa using hout
    refine ⟨_, rfl, ?_, ?_, ?_, fun _ => ⟨rfl, rfl⟩⟩
    · rw [length_fillBsccValues, List.length_replicate]
    · intro i s hi hs hin
      obtain ⟨hany, hmap⟩ := hblock i s hi hin
      refine ⟨(computeBsccLra_eq_some _ _ _ hlra).2 i hi, ?_⟩
      rw [getElem?_filled _ _ _ _ hs hany, hmap]
    · intro s hs hnone
      have hget := BitVector.get_of_empty hempty s
      rw [BitVector.get_complement, get_statesInBsccsOf, length_statesInBsccsOf, hnone] at hget
      simp [hs] at hget

/-- The guarded conversion to the probability matrix takes its error branch exactly when a state
with exit rate 0 has a stored transition. -/
theorem computeProbabilityMatrixGuarded_eq_none_iff (rateMatrix : SparseMatrix)
    (exitRates : List ℚ) :
    computeProbabilityMatrixGuarded rateMatrix exitRates = none
      ↔ ∃ s, exitRates.getD s 0 = 0 ∧ SparseMatrix.getRow rateMatrix s ≠ [] := by
  constructor
  · intro hnone
    by_contra hnot
    have hrows : ∀ s, exitRates.getD s 0 = 0 → SparseMatrix.getRow rateMatrix s = [] := by
      intro s hs
      by_contra hrow
      exact hnot ⟨s, hs, hrow⟩
    rw [computeProbabilityMatrixGuarded_eq rateMatrix exitRates hrows] at hnone
    cases hnone
  · rintro ⟨s, hzero, hrow⟩
    have hs : s < rateMatrix.rows.length := by
      by_contra hge
      apply hrow
      unfold SparseMatrix.getRow
      rw [List.getD_eq_getElem?_getD, List.getElem?_eq_none (by omega)]
      rfl
    have hinner : collectGuarded ((SparseMatrix.getRow rateMatrix s).map (fun entry =>
        (guardedDivision entry.2 (exitRates.getD s 0)).map (fun value =>
          (entry.1, value)))) = none := by
      rw [collectGuarded_eq_none_iff]
      obtain ⟨entry, rest, hcons⟩ := List.exists_cons_of_ne_nil hrow
      rw [hcons, List.map_cons, hzero]
      simp [guardedDivision]
    have houter : collectGuarded ((List.range rateMatrix.rows.length).map (fun row =>
        collectGuarded ((SparseMatrix.getRow rateMatrix row).map (fun entry =>
          (guardedDivision entry.2 (exitRates.getD row 0)).map (fun value =>
            (entry.1, value)))))) = none := by
      rw [collectGuarded_eq_none_iff, List.mem_map]
      exact ⟨s, List.mem_range.mpr hs, hinner⟩
    unfold computeProbabilityMatrixGuarded
    rw [houter]

/-- The reward models that are not empty. -/
theorem empty_eq_false_of_hasStateRewards (rewardModel : RewardModel)
    (h : RewardModel.hasStateRewards rewardModel = true) :
    RewardModel.empty rewardModel = false := by
  cases hempty : RewardModel.empty rewardModel
  · rfl
  · rw [hasStateRewards_of_empty rewardModel hempty] at h
    exact absurd h Bool.false_ne_true

/-- The reward reductions with guarded division for a chain in which the states with exit rate
0 have no stored transition. -/
theorem rewardReduction_guardedDivision_of_rows (dtmc : SparseDtmcPrctlHelper) (goal : SolveGoal)
    (rateMatrix backwardTransitions : SparseMatrix) (exitRateVector : List ℚ)
    (rewardModel : RewardModel) (targetStates : BitVector) (qualitative : Bool)
    (hrows : ∀ s, exitRateVector.getD s 0 = 0 → SparseMatrix.getRow rateMatrix s = [])
    (hlength : ∀ stateRewards, rewardModel.optionalStateRewardVector = some stateRewards →
      stateRewards.length = exitRateVector.length) :
    (computeReachabilityRewardsGuarded dtmc goal rateMatrix backwardTransitions exitRateVector
        rewardModel targetStates qualitative = none
      ↔ RewardModel.hasStateRewards rewardModel = true ∧ (0 : ℚ) ∈ exitRateVector)
    ∧ (computeTotalRewardsGuarded dtmc goal rateMatrix backwardTransitions exitRateVector
        rewardModel qualitative = none
      ↔ RewardModel.hasStateRewards rewardModel = true ∧ (0 : ℚ) ∈ exitRateVector)
    ∧ (¬ (RewardModel.hasStateRewards rewardModel = true ∧ (0 : ℚ) ∈ exitRateVector) →
        computeReachabilityRewardsGuarded dtmc goal rateMatrix backwardTransitions
            exitRateVector rewardModel targetStates qualitative
          = some (computeReachabilityRewards dtmc goal rateMatrix backwardTransitions
              exitRateVector rewardModel targetStates qualitative)
        ∧ computeTotalRewardsGuarded dtmc goal rateMatrix backwardTransitions exitRateVector
            rewardModel qualitative
          = some (computeTotalRewards dtmc goal rateMatrix backwardTransitions exitRateVector
              rewardModel qualitative))
    ∧ computeReachabilityTimesGuarded dtmc goal rateMatrix backwardTransitions exitRateVector
        targetStates qualitative
      = some (computeReachabilityTimesTraced dtmc goal rateMatrix backwardTransitions
          exitRateVector targetStates qualitative).2
    ∧ reachabilityTimesRewardVectorGuarded exitRateVector targetStates
      = some (computeReachabilityTimesTraced dtmc goal rateMatrix backwardTransitions
          exitRateVector targetStates qualitative).1
    ∧ ∀ i, i < exitRateVector.length →
        (computeReachabilityTimesTraced dtmc goal rateMatrix backwardTransitions
            exitRateVector targetStates qualitative).1.getD i 0
          = if BitVector.get targetStates i = true ∨ exitRateVector.getD i 0 = 0 then 0
            else 1 / exitRateVector.getD i 0 := by
  have hP := computeProbabilityMatrixGuarded_eq rateMatrix exitRateVector hrows
  obtain ⟨hnone, hsome⟩ := totalRewardVectorGuarded_spec
    (computeProbabilityMatrix rateMatrix exitRateVector) exitRateVector rewardModel hlength
  have hreach : ¬ (RewardModel.hasStateRewards rewardModel = true
        ∧ (0 : ℚ) ∈ exitRateVector) →
      computeReachabilityRewardsGuarded dtmc goal rateMatrix backwardTransitions
          exitRateVector rewardModel targetStates qualitative
        = some (computeReachabilityRewards dtmc goal rateMatrix backwardTransitions
            exitRateVector rewardModel targetStates qualitative) := by
    intro hnot
    unfold computeReachabilityRewardsGuarded computeReachabilityRewards
      computeReachabilityRewardsTraced
    by_cases hempty : RewardModel.empty rewardModel = true
    · rw [if_pos hempty, if_pos hempty]
    · rw [if_neg hempty, if_neg hempty, hP]
      simp only [hsome hnot]
  have htotal : ¬ (RewardModel.hasStateRewards rewardModel = true
        ∧ (0 : ℚ) ∈ exitRateVector) →
      computeTotalRewardsGuarded dtmc goal rateMatrix backwardTransitions exitRateVector
          rewardModel qualitative
        = some (computeTotalRewards dtmc goal rateMatrix backwardTransitions exitRateVector
            rewardModel qualitative) := by
    intro hnot
    unfold computeTotalRewardsGuarded computeTotalRewards computeTotalRewardsTraced
    by_cases hempty : RewardModel.empty rewardModel = true
    · rw [if_pos hempty, if_pos hempty]
    · rw [if_neg hempty, if_neg hempty, hP]
      simp only [hsome hnot]
      rfl
  have hfail : RewardModel.hasStateRewards rewardModel = true ∧ (0 : ℚ) ∈ exitRateVector →
      RewardModel.empty rewardModel = false
        ∧ totalRewardVectorGuarded (computeProbabilityMatrix rateMatrix exitRateVector)
            exitRateVector rewardModel = none := by
    intro h
    refine ⟨?_, hnone.mpr h⟩
    cases hempty : RewardModel.empty rewardModel
    · rfl
    · rw [hasStateRewards_of_empty rewardModel hempty] at h
      exact absurd h.1 Bool.false_ne_true
  refine ⟨?_, ?_, fun hnot => ⟨hreach hnot, htotal hnot⟩, ?_, ?_, ?_⟩
  · constructor
    · intro h
      by_contra hnot
      rw [hreach hnot] at h
      cases h
    · intro h
      obtain ⟨hempty, hvector⟩ := hfail h
      unfold computeReachabilityRewardsGuarded
      rw [hempty, hP]
      simp only [Bool.false_eq_true, if_false, hvector]
  · constructor
    · intro h
      by_contra hnot
      rw [htotal hnot] at h
      cases h
    · intro h
      obtain ⟨hempty, hvector⟩ := hfail h
      unfold computeTotalRewardsGuarded
      rw [hempty, hP]
      simp only [Bool.false_eq_true, if_false, hvector]
  · unfold computeReachabilityTimesGuarded computeReachabilityTimesTraced
    rw [hP]
    simp only [reachabilityTimesRewardVectorGuarded_eq]
  · rw [reachabilityTimesRewardVectorGuarded_eq]
    rfl
  · intro i hi
    unfold computeReachabilityTimesTraced
    simp only []
    rw [getD_map_range, if_pos hi]
    by_cases htarget : BitVector.get targetStates i = true
    · simp [htarget]
    · by_cases hzero : exitRateVector.getD i 0 = 0
      · rw [hzero]
        simp
      · have hcond : ¬ ((BitVector.get targetStates i
            || decide (exitRateVector.getD i 0 = 0)) = true) := by
          rw [Bool.or_eq_true, decide_eq_true_eq]
          exact fun h => h.elim htarget hzero
        rw [if_neg hcond, if_neg (fun h => h.elim htarget hzero)]

theorem roundHalfEven_of_lt (x : ℚ) (m : ℤ) (hlow : (m : ℚ) - 1 / 2 < x)
    (hhigh : x < (m : ℚ) + 1 / 2) : roundHalfEven x = m := by
  have hfloor := Int.floor_le x
  have hlt := Int.lt_floor_add_one x
  unfold roundHalfEven
  by_cases h1 : x - ⌊x⌋ < 1 / 2
  · rw [if_pos h1]
    have ha : ((⌊x⌋ : ℤ) : ℚ) < (m : ℚ) + 1 := by linarith
    have hb : (m : ℚ) < ((⌊x⌋ : ℤ) : ℚ) + 1 := by linarith
    have ha' : ⌊x⌋ < m + 1 := by exact_mod_cast ha
    have hb' : m < ⌊x⌋ + 1 := by exact_mod_cast hb
    omega
  · rw [if_neg h1]
    have h1' : 1 / 2 ≤ x - ⌊x⌋ := not_lt.mp h1
    have ha : ((⌊x⌋ : ℤ) : ℚ) < (m : ℚ) := by linarith
    have hb : (m : ℚ) < ((⌊x⌋ : ℤ) : ℚ) + 2 := by linarith
    have ha' : ⌊x⌋ < m := by exact_mod_cast ha
    have hb' : m < ⌊x⌋ + 2 := by exact_mod_cast hb
    have hm : m = ⌊x⌋ + 1 := by omega
    have h2 : 1 / 2 < x - ⌊x⌋ := by
      rw [hm] at hlow
      push_cast at hlow
      linarith
    rw [if_pos h2, hm]

theorem roundHalfEven_tie (m : ℤ) :
    roundHalfEven ((m : ℚ) + 1 / 2) = if m % 2 = 0 then m else m + 1 := by
  have hfloor : ⌊(m : ℚ) + 1 / 2⌋ = m := by
    rw [Int.floor_eq_iff]
    constructor <;> norm_num
  unfold roundHalfEven
  rw [hfloor]
  have h1 : ¬ ((m : ℚ) + 1 / 2 - (m : ℚ) < 1 / 2) := by norm_num
  have h2 : ¬ ((1 : ℚ) / 2 < (m : ℚ) + 1 / 2 - (m : ℚ)) := by norm_num
  rw [if_neg h1, if_neg h2]

theorem roundToDouble_zero : roundToDouble 0 = 0 := by
  simp [roundToDouble]

/-- The binary exponent of a rational number between two consecutive powers of two. -/
theorem log_two_abs_eq (x : ℚ) (e : ℤ) (hlow : (2 : ℚ) ^ e ≤ |x|)
    (hhigh : |x| < (2 : ℚ) ^ (e + 1)) : Int.log 2 |x| = e := by
  have hpos : (0 : ℚ) < |x| := lt_of_lt_of_le (by positivity) hlow
  have h1 : e ≤ Int.log 2 |x| :=
    (Int.zpow_le_iff_le_log (b := 2) (by norm_num) hpos).mp (by exact_mod_cast hlow)
  have h2 : Int.log 2 |x| < e + 1 :=
    (Int.lt_zpow_iff_log_lt (b := 2) (by norm_num) hpos).mp (by exact_mod_cast hhigh)
  omega

/-- The rounding of a number in the normal range whose scaled value is closer to the integer `m`
than to any other integer. -/
theorem roundToDouble_of_near (x : ℚ) (e m : ℤ) (he : -1022 ≤ e)
    (hlow : (2 : ℚ) ^ e ≤ |x|) (hhigh : |x| < (2 : ℚ) ^ (e + 1))
    (h1 : (m : ℚ) - 1 / 2 < x / 2 ^ (e - 52)) (h2 : x / 2 ^ (e - 52) < (m : ℚ) + 1 / 2) :
    roundToDouble x = (m : ℚ) * 2 ^ (e - 52) := by
  have hne : x ≠ 0 := by
    intro h
    rw [h, abs_zero] at hlow
    have : (0 : ℚ) < 2 ^ e := by positivity
    linarith
  unfold roundToDouble
  rw [if_neg hne, log_two_abs_eq x e hlow hhigh, max_eq_left he,
    roundHalfEven_of_lt _ m h1 h2]

/-- The rounding of a number in the normal range whose scaled value lies half-way between the
integers `m` and `m + 1`. -/
theorem roundToDouble_of_tie (x : ℚ) (e m : ℤ) (he : -1022 ≤ e)
    (hlow : (2 : ℚ) ^ e ≤ |x|) (hhigh : |x| < (2 : ℚ) ^ (e + 1))
    (h : x / 2 ^ (e - 52) = (m : ℚ) + 1 / 2) :
    roundToDouble x = ((if m % 2 = 0 then m else m + 1 : ℤ) : ℚ) * 2 ^ (e - 52) := by
  have hne : x ≠ 0 := by
    intro h
    rw [h, abs_zero] at hlow
    have : (0 : ℚ) < 2 ^ e := by positivity
    linarith
  unfold roundToDouble
  rw [if_neg hne, log_two_abs_eq x e hlow hhigh, max_eq_left he, h, roundHalfEven_tie]

theorem roundHalfEven_nonneg (x : ℚ) (hx : 0 ≤ x) : 0 ≤ roundHalfEven x := by
  have hfloor : 0 ≤ ⌊x⌋ := Int.floor_nonneg.mpr hx
  unfold roundHalfEven
  split_ifs <;> omega

theorem roundToDouble_nonneg (x : ℚ) (hx : 0 ≤ x) : 0 ≤ roundToDouble x := by
  unfold roundToDouble
  split_ifs
  · exact le_refl 0
  · apply mul_nonneg
    · exact_mod_cast roundHalfEven_nonneg _ (div_nonneg hx (by positivity))
    · positivity

/-! ## The instantiation for `double`: exact rounding gives the exact definitions -/

theorem computeProbabilityMatrixRounded_id (rateMatrix : SparseMatrix) (exitRates : List ℚ) :
    computeProbabilityMatrixRounded id rateMatrix exitRates
      = computeProbabilityMatrix rateMatrix exitRates := rfl

theorem uniformizeEntryRounded_id :
    uniformizeEntryRounded id = uniformizeEntry := rfl

theorem computeUniformizedMatrixRounded_id (rateMatrix : SparseMatrix) (maybeStates : BitVector)
    (uniformizationRate : ℚ) (exitRates : List ℚ) :
    computeUniformizedMatrixRounded id rateMatrix maybeStates uniformizationRate exitRates
      = computeUniformizedMatrix rateMatrix maybeStates uniformizationRate exitRates := rfl

theorem multiplyRowRounded_id (start : ℚ) (row : List (Nat × ℚ)) (x : List ℚ) :
    multiplyRowRounded id start row x = multiplyRow row x + start := by
  unfold multiplyRowRounded multiplyRow
  induction row generalizing start with
  | nil => simp
  | cons e rest ih =>
    rw [List.foldl_cons, ih, List.map_cons, List.sum_cons]
    simp only [id]
    ring

theorem multiplyRounded_id (A : SparseMatrix) (x : List ℚ) (b : Option (List ℚ)) :
    multiplyRounded id A x b = multiply A x b := by
  unfold multiplyRounded multiply
  refine List.map_congr_left ?_
  intro i _
  rw [multiplyRowRounded_id]
  cases b <;> rfl

theorem repeatedMultiplyRounded_id (A : SparseMatrix) (x : List ℚ) (b : Option (List ℚ))
    (n : Nat) : repeatedMultiplyRounded id A x b n = repeatedMultiply A x b n := by
  unfold repeatedMultiplyRounded repeatedMultiply
  congr 1
  funext y
  exact multiplyRounded_id A y b

theorem mixedPoissonWeightsRounded_id (uniformizationRate sum : ℚ) (weights : List ℚ) :
    mixedPoissonWeightsRounded id uniformizationRate sum weights
      = mixedPoissonWeights uniformizationRate sum weights := by
  induction weights generalizing sum with
  | nil => rfl
  | cons element rest ih =>
    simp only [mixedPoissonWeightsRounded, mixedPoissonWeights, id, ih]

theorem transientWeightsRounded_id (useMixedPoissonProbabilities : Bool)
    (uniformizationRate : ℚ) (foxGlynnResult : FoxGlynnResult) :
    transientWeightsRounded id useMixedPoissonProbabilities uniformizationRate foxGlynnResult
      = transientWeights useMixedPoissonProbabilities uniformizationRate foxGlynnResult := by
  unfold transientWeightsRounded transientWeights
  rw [mixedPoissonWeightsRounded_id]
  rfl

theorem belowLeftStepRounded_id (uniformizedMatrix : SparseMatrix) (uniformizationRate : ℚ) :
    belowLeftStepRounded id uniformizedMatrix uniformizationRate
      = belowLeftStep uniformizedMatrix uniformizationRate := by
  funext st index
  simp only [belowLeftStepRounded, belowLeftStep, multiplyRounded_id, id]

theorem windowStepRounded_id (uniformizedMatrix : SparseMatrix) (addVector : Option (List ℚ))
    (weights : List ℚ) (left : Nat) :
    windowStepRounded id uniformizedMatrix addVector weights left
      = windowStep uniformizedMatrix addVector weights left := by
  funext st index
  simp only [windowStepRounded, windowStep, multiplyRounded_id, id]

theorem computeTransientProbabilitiesTracedRounded_id (env : Environment)
    (useMixedPoissonProbabilities : Bool) (uniformizedMatrix : SparseMatrix)
    (addVector : Option (List ℚ)) (timeBound uniformizationRate : ℚ) (values : List ℚ) :
    computeTransientProbabilitiesTracedRounded id env useMixedPoissonProbabilities
        uniformizedMatrix addVector timeBound uniformizationRate values
      = computeTransientProbabilitiesTraced env useMixedPoissonProbabilities uniformizedMatrix
        addVector timeBound uniformizationRate values := by
  simp only [computeTransientProbabilitiesTracedRounded, computeTransientProbabilitiesTraced,
    transientWeightsRounded_id, repeatedMultiplyRounded_id, belowLeftStepRounded_id,
    windowStepRounded_id, id]

theorem computeTransientProbabilitiesRounded_id (env : Environment)
    (useMixedPoissonProbabilities : Bool) (uniformizedMatrix : SparseMatrix)
    (addVector : Option (List ℚ)) (timeBound uniformizationRate : ℚ) (values : List ℚ) :
    computeTransientProbabilitiesRounded id env useMixedPoissonProbabilities
        uniformizedMatrix addVector timeBound uniformizationRate values
      = computeTransientProbabilities env useMixedPoissonProbabilities uniformizedMatrix
        addVector timeBound uniformizationRate values := by
  unfold computeTransientProbabilitiesRounded computeTransientProbabilities
  rw [computeTransientProbabilitiesTracedRounded_id]

theorem uniformizationRateOfRounded_id (states : BitVector) (exitRates : List ℚ) :
    uniformizationRateOfRounded id states exitRates = uniformizationRateOf states exitRates :=
  rfl

theorem computeAllTransientProbabilitiesRounded_id (env : Environment)
    (rateMatrix : SparseMatrix) (initialStates phiStates psiStates : BitVector)
    (exitRates : List ℚ) (timeBound : ℚ) :
    computeAllTransientProbabilitiesRounded id env rateMatrix initialStates phiStates psiStates
        exitRates timeBound
      = computeAllTransientProbabilities env rateMatrix initialStates phiStates psiStates
        exitRates timeBound := by
  simp only [computeAllTransientProbabilitiesRounded, computeAllTransientProbabilities,
    uniformizationRateOfRounded_id, computeUniformizedMatrixRounded_id,
    computeTransientProbabilitiesRounded_id, id]

theorem viUniformizationRateRounded_id (bsccStates : BitVector)
    (exitRateVector : Option (List ℚ)) :
    viUniformizationRateRounded id bsccStates exitRateVector
      = viUniformizationRate bsccStates exitRateVector := rfl

theorem viBsccMatrixRounded_id (rateMatrix : SparseMatrix) (bsccStates : BitVector)
    (uniformizationRate : ℚ) (exitRateVector : Option (List ℚ)) :
    viBsccMatrixRounded id rateMatrix bsccStates uniformizationRate exitRateVector
      = viBsccMatrix rateMatrix bsccStates uniformizationRate exitRateVector := by
  cases exitRateVector <;> rfl

theorem viNewValueRounded_id (bsccMatrix : SparseMatrix) (markovianRewards w : List ℚ) :
    viNewValueRounded id bsccMatrix markovianRewards w
      = viNewValue bsccMatrix markovianRewards w := by
  funext row
  simp only [viNewValueRounded, viNewValue, multiplyRowRounded_id, id, add_zero]

theorem viRoundRounded_id (bsccMatrix : SparseMatrix) (markovianRewards v w : List ℚ) :
    viRoundRounded id bsccMatrix markovianRewards v w
      = viRound bsccMatrix markovianRewards v w := by
  simp only [viRoundRounded, viRound, viNewValueRounded_id, id]

theorem valueIterationRounded_id (bsccMatrix : SparseMatrix) (markovianRewards : List ℚ)
    (precision : ℚ) (relative : Bool) (fuel rounds : Nat) (v w : List ℚ) :
    valueIterationRounded id bsccMatrix markovianRewards precision relative fuel rounds v w
      = valueIteration bsccMatrix markovianRewards precision relative fuel rounds v w := by
  induction fuel generalizing rounds v w with
  | zero => rfl
  | succ fuel ih =>
    simp only [valueIterationRounded, valueIteration, viRoundRounded_id, id, ih]

theorem computeLongRunAveragesForBsccViRounded_id (fuel : Nat)
    (bscc : StronglyConnectedComponent) (rateMatrix backwardTransitions : SparseMatrix)
    (valueGetter : Nat → ℚ) (exitRateVector : Option (List ℚ)) :
    computeLongRunAveragesForBsccViRounded id fuel bscc rateMatrix backwardTransitions
        valueGetter exitRateVector
      = computeLongRunAveragesForBsccVi fuel bscc rateMatrix backwardTransitions valueGetter
        exitRateVector := by
  simp only [computeLongRunAveragesForBsccViRounded, computeLongRunAveragesForBsccVi,
    computeLongRunAveragesForBsccViTracedRounded, computeLongRunAveragesForBsccViTraced,
    viUniformizationRateRounded_id, viBsccMatrixRounded_id, valueIterationRounded_id, id]

/-- The value of `computeLongRunAveragesForBsccViTracedRounded` from its parts, when the loop is
left. -/
theorem computeLongRunAveragesForBsccViTracedRounded_of_some (fl : ℚ → ℚ) (fuel : Nat)
    (bscc : StronglyConnectedComponent) (rateMatrix backwardTransitions : SparseMatrix)
    (valueGetter : Nat → ℚ) (exitRateVector : Option (List ℚ)) (bsccStates : BitVector)
    (rate : ℚ) (bsccMatrix : SparseMatrix) (rewards : List ℚ) (precision : ℚ) (rounds : Nat)
    (v : List ℚ)
    (hstates : bsccStatesOf (SparseMatrix.getRowCount rateMatrix) bscc = bsccStates)
    (hrate : viUniformizationRateRounded fl bsccStates exitRateVector = rate)
    (hmatrix : viBsccMatrixRounded fl rateMatrix bsccStates rate exitRateVector = bsccMatrix)
    (hrewards : (BitVector.setBits bsccStates).map (fun state =>
      fl (valueGetter state * fl (1 / rate))) = rewards)
    (hprecision : fl (fl (1 / 1000000) / rate) = precision)
    (hvi : valueIterationRounded fl bsccMatrix rewards precision true fuel 0
        (List.replicate (SparseMatrix.getRowCount bsccMatrix) 0)
        (List.replicate (SparseMatrix.getRowCount bsccMatrix) 0) = some (rounds, v)) :
    computeLongRunAveragesForBsccViTracedRounded fl fuel bscc rateMatrix backwardTransitions
        valueGetter exitRateVector
      = (⟨some bsccMatrix, rounds⟩, some (fl (v.headD 0 * rate))) := by
  subst hstates hrate hmatrix hrewards hprecision
  unfold computeLongRunAveragesForBsccViTracedRounded
  simp only [hvi]

theorem computeLongRunAveragesForBsccViRounded_of_some (fl : ℚ → ℚ) (fuel : Nat)
    (bscc : StronglyConnectedComponent) (rateMatrix backwardTransitions : SparseMatrix)
    (valueGetter : Nat → ℚ) (exitRateVector : Option (List ℚ)) (bsccStates : BitVector)
    (rate : ℚ) (bsccMatrix : SparseMatrix) (rewards : List ℚ) (precision : ℚ) (rounds : Nat)
    (v : List ℚ)
    (hstates : bsccStatesOf (SparseMatrix.getRowCount rateMatrix) bscc = bsccStates)
    (hrate : viUniformizationRateRounded fl bsccStates exitRateVector = rate)
    (hmatrix : viBsccMatrixRounded fl rateMatrix bsccStates rate exitRateVector = bsccMatrix)
    (hrewards : (BitVector.setBits bsccStates).map (fun state =>
      fl (valueGetter state * fl (1 / rate))) = rewards)
    (hprecision : fl (fl (1 / 1000000) / rate) = precision)
    (hvi : valueIterationRounded fl bsccMatrix rewards precision true fuel 0
        (List.replicate (SparseMatrix.getRowCount bsccMatrix) 0)
        (List.replicate (SparseMatrix.getRowCount bsccMatrix) 0) = some (rounds, v)) :
    computeLongRunAveragesForBsccViRounded fl fuel bscc rateMatrix backwardTransitions
        valueGetter exitRateVector
      = some (fl (v.headD 0 * rate)) := by
  unfold computeLongRunAveragesForBsccViRounded
  rw [computeLongRunAveragesForBsccViTracedRounded_of_some fl fuel bscc rateMatrix
    backwardTransitions valueGetter exitRateVector bsccStates rate bsccMatrix rewards precision
    rounds v hstates hrate hmatrix hrewards hprecision hvi]

theorem repeatedMultiplyRounded_zero (fl : ℚ → ℚ) (A : SparseMatrix) (x : List ℚ)
    (b : Option (List ℚ)) : repeatedMultiplyRounded fl A x b 0 = x := rfl

theorem repeatedMultiplyRounded_succ (fl : ℚ → ℚ) (A : SparseMatrix) (x : List ℚ)
    (b : Option (List ℚ)) (n : Nat) :
    repeatedMultiplyRounded fl A x b (n + 1)
      = multiplyRounded fl A (repeatedMultiplyRounded fl A x b n) b :=
  Function.iterate_succ_apply' _ _ _

/-- The function `computeTransientProbabilitiesTracedRounded` when the rounded product of the
time bound and the rate is not zero. -/
theorem computeTransientProbabilitiesTracedRounded_of_ne_zero (fl : ℚ → ℚ) (env : Environment)
    (useMixedPoissonProbabilities : Bool) (uniformizedMatrix : SparseMatrix)
    (addVector : Option (List ℚ)) (timeBound uniformizationRate : ℚ) (values : List ℚ)
    (lambda : ℚ) (foxGlynnResult : FoxGlynnResult) (weights : List ℚ)
    (hlambda : fl (timeBound * uniformizationRate) = lambda) (hne : lambda ≠ 0)
    (hfoxGlynn : env.foxGlynn lambda (fl (env.precision / 8)) = foxGlynnResult)
    (hweights : transientWeightsRounded fl useMixedPoissonProbabilities uniformizationRate
      foxGlynnResult = weights) :
    computeTransientProbabilitiesTracedRounded fl env useMixedPoissonProbabilities
        uniformizedMatrix addVector timeBound uniformizationRate values
      = (List.range' (if foxGlynnResult.left = 0 then 1 else foxGlynnResult.left)
          (foxGlynnResult.right + 1
            - (if foxGlynnResult.left = 0 then 1 else foxGlynnResult.left))).foldl
          (windowStepRounded fl uniformizedMatrix addVector weights foxGlynnResult.left)
          (if !useMixedPoissonProbabilities && decide (foxGlynnResult.left > 1) then
            { values := repeatedMultiplyRounded fl uniformizedMatrix values addVector
                (foxGlynnResult.left - 1)
              result :=
                if foxGlynnResult.left = 0 then values.map (fun a => fl (a * weights.getD 0 0))
                else if useMixedPoissonProbabilities then
                  values.map (fun a => fl (a / uniformizationRate))
                else List.replicate values.length 0
              applications := List.replicate (foxGlynnResult.left - 1) addVector
              foxGlynnCalls := [(lambda, fl (env.precision / 8))] }
          else if useMixedPoissonProbabilities then
            (List.range' 1 ((if foxGlynnResult.left = 0 then 1 else foxGlynnResult.left)
              - 1)).foldl
              (belowLeftStepRounded fl uniformizedMatrix uniformizationRate)
              { values := values
                result :=
                  if foxGlynnResult.left = 0 then
                    values.map (fun a => fl (a * weights.getD 0 0))
                  else if useMixedPoissonProbabilities then
                    values.map (fun a => fl (a / uniformizationRate))
                  else List.replicate values.length 0
                applications := []
                foxGlynnCalls := [(lambda, fl (env.precision / 8))] }
          else
            { values := values
              result :=
                if foxGlynnResult.left = 0 then values.map (fun a => fl (a * weights.getD 0 0))
                else if useMixedPoissonProbabilities then
                  values.map (fun a => fl (a / uniformizationRate))
                else List.replicate values.length 0
              applications := []
              foxGlynnCalls := [(lambda, fl (env.precision / 8))] }) := by
  subst hlambda hfoxGlynn hweights
  unfold computeTransientProbabilitiesTracedRounded
  simp only []
  rw [if_neg hne]

/-- When the rounded product of the time bound and the rate is zero,
`computeTransientProbabilitiesRounded` returns the vector it is given. -/
theorem computeTransientProbabilitiesRounded_of_zero (fl : ℚ → ℚ) (env : Environment)
    (useMixedPoissonProbabilities : Bool) (uniformizedMatrix : SparseMatrix)
    (addVector : Option (List ℚ)) (timeBound uniformizationRate : ℚ) (values : List ℚ)
    (hlambda : fl (timeBound * uniformizationRate) = 0) :
    computeTransientProbabilitiesRounded fl env useMixedPoissonProbabilities uniformizedMatrix
      addVector timeBound uniformizationRate values = values := by
  unfold computeTransientProbabilitiesRounded computeTransientProbabilitiesTracedRounded
  simp only []
  rw [if_pos hlambda]

/-- With the time bound 0 `computeAllTransientProbabilitiesRounded` returns the initial
distribution. -/
theorem computeAllTransientProbabilitiesRounded_timeBound_zero (fl : ℚ → ℚ)
    (env : Environment) (rateMatrix : SparseMatrix)
    (initialStates phiStates psiStates : BitVector) (exitRates : List ℚ) (hfl : fl 0 = 0)
    (hstates : BitVector.empty
      (BitVector.const (SparseMatrix.getRowCount rateMatrix) true) = false)
    (hrate : 0 < uniformizationRateOfRounded fl
      (BitVector.const (SparseMatrix.getRowCount rateMatrix) true)
      (absorbingExitRates exitRates psiStates)) :
    computeAllTransientProbabilitiesRounded fl env rateMatrix initialStates phiStates psiStates
        exitRates 0
      = Except.ok ((List.range (SparseMatrix.getRowCount rateMatrix)).map (fun state =>
          if BitVector.get initialStates state then
            fl (1 / (BitVector.getNumberOfSetBits initialStates : ℚ))
          else 0)) := by
  unfold computeAllTransientProbabilitiesRounded
  simp only [hstates, Bool.not_false, if_true]
  rw [if_pos hrate, computeTransientProbabilitiesRounded_of_zero fl env false _ none 0 _ _
    (by rw [zero_mul, hfl]), BitVector.setBits_const_true,
    setVectorValues_const_true _ _ (by simp)]

/-- The plain mode of `computeTransientProbabilitiesRounded` for a window that starts at an
index of at least 2. -/
theorem computeTransientProbabilitiesRounded_plain_late (fl : ℚ → ℚ) (env : Environment)
    (uniformizedMatrix : SparseMatrix) (addVector : Option (List ℚ))
    (timeBound uniformizationRate : ℚ) (values : List ℚ) (lambda : ℚ)
    (foxGlynnResult : FoxGlynnResult) (weights : List ℚ)
    (hlambda : fl (timeBound * uniformizationRate) = lambda) (hne : lambda ≠ 0)
    (hfoxGlynn : env.foxGlynn lambda (fl (env.precision / 8)) = foxGlynnResult)
    (hweights : transientWeightsRounded fl false uniformizationRate foxGlynnResult = weights)
    (hleft : 1 < foxGlynnResult.left) :
    computeTransientProbabilitiesRounded fl env false uniformizedMatrix addVector timeBound
        uniformizationRate values
      = ((List.range' foxGlynnResult.left
          (foxGlynnResult.right + 1 - foxGlynnResult.left)).foldl
          (windowStepRounded fl uniformizedMatrix addVector weights foxGlynnResult.left)
          { values := repeatedMultiplyRounded fl uniformizedMatrix values addVector
              (foxGlynnResult.left - 1)
            result := List.replicate values.length 0
            applications := List.replicate (foxGlynnResult.left - 1) addVector
            foxGlynnCalls := [(lambda, fl (env.precision / 8))] }).result := by
  have hzero : foxGlynnResult.left ≠ 0 := by omega
  unfold computeTransientProbabilitiesRounded
  rw [computeTransientProbabilitiesTracedRounded_of_ne_zero fl env false uniformizedMatrix
    addVector timeBound uniformizationRate values lambda foxGlynnResult weights hlambda hne
    hfoxGlynn hweights]
  simp [hzero, hleft]

/-- The block `computeMaybeStateProbabilitiesRounded` from its parts, when the rate is
positive. -/
theorem computeMaybeStateProbabilitiesRounded_of (fl : ℚ → ℚ) (env : Environment)
    (rateMatrix : SparseMatrix) (maybeStates psiStates : BitVector) (exitRates : List ℚ)
    (timeBound : ℚ) (uniformizationRate : ℚ) (uniformizedMatrix : SparseMatrix)
    (b result : List ℚ)
    (hrate : uniformizationRateOfRounded fl maybeStates exitRates = uniformizationRate)
    (hpositive : 0 < uniformizationRate)
    (hmatrix : computeUniformizedMatrixRounded fl rateMatrix maybeStates uniformizationRate
      exitRates = uniformizedMatrix)
    (hb : (getConstrainedRowSumVectorRounded fl rateMatrix maybeStates psiStates).map
      (fun element => fl (element / uniformizationRate)) = b)
    (htransient : computeTransientProbabilitiesRounded fl env false uniformizedMatrix (some b)
      timeBound uniformizationRate
      (List.replicate (BitVector.getNumberOfSetBits maybeStates) 0) = result) :
    computeMaybeStateProbabilitiesRounded fl env rateMatrix maybeStates psiStates exitRates
      timeBound = Except.ok result := by
  subst hrate hmatrix hb htransient
  unfold computeMaybeStateProbabilitiesRounded
  simp only []
  rw [if_pos hpositive]

/-- The interval `[0, t]` of `computeBoundedUntilProbabilitiesRounded` from its parts, when
there are maybe states. -/
theorem computeBoundedUntilProbabilitiesRounded_zero_upper (fl : ℚ → ℚ) (env : Environment)
    (goal : SolveGoal) (rateMatrix backwardTransitions : SparseMatrix)
    (phiStates psiStates : BitVector) (exitRates : List ℚ) (qualitative : Bool) (upper : ℚ)
    (statesWithProbabilityGreater0 maybeStates : BitVector) (subresult : List ℚ)
    (hgreater : performProbGreater0 backwardTransitions phiStates psiStates
      = statesWithProbabilityGreater0)
    (hnonempty : BitVector.empty statesWithProbabilityGreater0 = false)
    (hupper : upper ≠ 0)
    (hmaybe : BitVector.and statesWithProbabilityGreater0 (BitVector.complement psiStates)
      = maybeStates)
    (hmaybeNonempty : BitVector.empty maybeStates = false)
    (hsubresult : computeMaybeStateProbabilitiesRounded fl env rateMatrix maybeStates psiStates
      exitRates upper = Except.ok subresult) :
    computeBoundedUntilProbabilitiesRounded fl env goal rateMatrix backwardTransitions
        phiStates psiStates exitRates qualitative 0 (some upper)
      = Except.ok (setVectorValues
          (setVectorValue (List.replicate (SparseMatrix.getRowCount rateMatrix) 0) psiStates 1)
          maybeStates subresult) := by
  subst hgreater hmaybe
  unfold computeBoundedUntilProbabilitiesRounded computeBoundedUntilProbabilitiesTracedRounded
  simp only [hnonempty, hmaybeNonempty, hsubresult, Bool.not_false, if_true]
  rw [if_neg (by simp), if_neg hupper]

/-- In the instantiation for `double`, the maybe-state block of the chain `twoStateRateMatrix`
for the time bound 1 and the Fox-Glynn stage of `skewedWindowEnvironment`. -/
theorem computeMaybeStateProbabilitiesRounded_skewed_one :
    computeMaybeStateProbabilitiesRounded roundToDouble skewedWindowEnvironment
        twoStateRateMatrix [true, false] [false, true] [1, 0] 1
      = Except.ok [4503599627370497 / 4503599627370496] := by
  have h1 : roundToDouble (51 / 50) = 2296835809958953 / 2251799813685248 := by
    rw [roundToDouble_of_near (51 / 50) (0) (4593671619917906) (by norm_num) (by norm_num [abs_of_pos]) (by norm_num [abs_of_pos]) (by norm_num) (by norm_num)]
    norm_num
  have h2 : roundToDouble (2296835809958953 / 2251799813685248) = 2296835809958953 / 2251799813685248 := by
    rw [roundToDouble_of_near (2296835809958953 / 2251799813685248) (0) (4593671619917906) (by norm_num) (by norm_num [abs_of_pos]) (by norm_num [abs_of_pos]) (by norm_num) (by norm_num)]
    norm_num
  have h3 : roundToDouble ((-1)) = (-1) := by
    rw [roundToDouble_of_near ((-1)) (0) (-4503599627370496) (by norm_num) (by norm_num [abs_of_neg]) (by norm_num [abs_of_neg]) (by norm_num) (by norm_num)]
    norm_num
  have h4 : roundToDouble ((-(2251799813685248 / 2296835809958953))) = (-(8830587504648031 / 9007199254740992)) := by
    rw [roundToDouble_of_near ((-(2251799813685248 / 2296835809958953))) (-1) (-8830587504648031) (by norm_num) (by norm_num [abs_of_neg]) (by norm_num [abs_of_neg]) (by norm_num) (by norm_num)]
    norm_num
  have h5 : roundToDouble (176611750092961 / 9007199254740992) = 176611750092961 / 9007199254740992 := by
    rw [roundToDouble_of_near (176611750092961 / 9007199254740992) (-6) (5651576002974752) (by norm_num) (by norm_num [abs_of_pos]) (by norm_num [abs_of_pos]) (by norm_num) (by norm_num)]
    norm_num
  have h6 : roundToDouble (1) = 1 := by
    rw [roundToDouble_of_near (1) (0) (4503599627370496) (by norm_num) (by norm_num [abs_of_pos]) (by norm_num [abs_of_pos]) (by norm_num) (by norm_num)]
    norm_num
  have h7 : roundToDouble (2251799813685248 / 2296835809958953) = 8830587504648031 / 9007199254740992 := by
    rw [roundToDouble_of_near (2251799813685248 / 2296835809958953) (-1) (8830587504648031) (by norm_num) (by norm_num [abs_of_pos]) (by norm_num [abs_of_pos]) (by norm_num) (by norm_num)]
    norm_num
  have h8 : roundToDouble (1 / 8000000) = 4722366482869645 / 37778931862957161709568 := by
    rw [roundToDouble_of_near (1 / 8000000) (-23) (4722366482869645) (by norm_num) (by norm_num [abs_of_pos]) (by norm_num [abs_of_pos]) (by norm_num) (by norm_num)]
    norm_num
  have h9 : roundToDouble (1 / 5) = 3602879701896397 / 18014398509481984 := by
    rw [roundToDouble_of_near (1 / 5) (-3) (7205759403792794) (by norm_num) (by norm_num [abs_of_pos]) (by norm_num [abs_of_pos]) (by norm_num) (by norm_num)]
    norm_num
  have h10 : roundToDouble (23 / 30) = 6905519428634761 / 9007199254740992 := by
    rw [roundToDouble_of_near (23 / 30) (-1) (6905519428634761) (by norm_num) (by norm_num [abs_of_pos]) (by norm_num [abs_of_pos]) (by norm_num) (by norm_num)]
    norm_num
  have h11 : roundToDouble (1 / 30) = 4803839602528529 / 144115188075855872 := by
    rw [roundToDouble_of_near (1 / 30) (-5) (4803839602528529) (by norm_num) (by norm_num [abs_of_pos]) (by norm_num [abs_of_pos]) (by norm_num) (by norm_num)]
    norm_num
  have h12 : roundToDouble 0 = 0 := roundToDouble_zero
  have h13 : roundToDouble (8830587504648031 / 9007199254740992) = 8830587504648031 / 9007199254740992 := by
    rw [roundToDouble_of_near (8830587504648031 / 9007199254740992) (-1) (8830587504648031) (by norm_num) (by norm_num [abs_of_pos]) (by norm_num [abs_of_pos]) (by norm_num) (by norm_num)]
    norm_num
  have h14 : roundToDouble (1559585513544922133983835609791 / 81129638414606681695789005144064) = 5540760787230149 / 288230376151711744 := by
    rw [roundToDouble_of_near (1559585513544922133983835609791 / 81129638414606681695789005144064) (-6) (5540760787230149) (by norm_num) (by norm_num [abs_of_pos]) (by norm_num [abs_of_pos]) (by norm_num) (by norm_num)]
    norm_num
  have h15 : roundToDouble (288119560935967141 / 288230376151711744) = 9003736279248973 / 9007199254740992 := by
    rw [roundToDouble_of_near (288119560935967141 / 288230376151711744) (-1) (9003736279248973) (by norm_num) (by norm_num [abs_of_pos]) (by norm_num [abs_of_pos]) (by norm_num) (by norm_num)]
    norm_num
  have h16 : roundToDouble (1590165621653646135488013779053 / 81129638414606681695789005144064) = 5649403155607211 / 288230376151711744 := by
    rw [roundToDouble_of_near (1590165621653646135488013779053 / 81129638414606681695789005144064) (-6) (5649403155607211) (by norm_num) (by norm_num [abs_of_pos]) (by norm_num [abs_of_pos]) (by norm_num) (by norm_num)]
    norm_num
  have h17 : roundToDouble (288228203304344203 / 288230376151711744) = 2251782838315189 / 2251799813685248 := by
    rw [roundToDouble_of_near (288228203304344203 / 288230376151711744) (-1) (9007131353260756) (by norm_num) (by norm_num [abs_of_pos]) (by norm_num [abs_of_pos]) (by norm_num) (by norm_num)]
    norm_num
  have h18 : roundToDouble (397691307904140565303368284629 / 20282409603651670423947251286016) = 706441674765551 / 36028797018963968 := by
    rw [roundToDouble_of_near (397691307904140565303368284629 / 20282409603651670423947251286016) (-6) (5651533398124408) (by norm_num) (by norm_num [abs_of_pos]) (by norm_num [abs_of_pos]) (by norm_num) (by norm_num)]
    norm_num
  have h19 : roundToDouble (36028791693357675 / 36028797018963968) = 9007197923339419 / 9007199254740992 := by
    rw [roundToDouble_of_near (36028791693357675 / 36028797018963968) (-1) (9007197923339419) (by norm_num) (by norm_num [abs_of_pos]) (by norm_num [abs_of_pos]) (by norm_num) (by norm_num)]
    norm_num
  have h20 : roundToDouble (1590776988674658759724805729659 / 81129638414606681695789005144064) = 2825787583792765 / 144115188075855872 := by
    rw [roundToDouble_of_near (1590776988674658759724805729659 / 81129638414606681695789005144064) (-6) (5651575167585530) (by norm_num) (by norm_num [abs_of_pos]) (by norm_num [abs_of_pos]) (by norm_num) (by norm_num)]
    norm_num
  have h21 : roundToDouble (144115187658161261 / 144115188075855872) = 9007199228635079 / 9007199254740992 := by
    rw [roundToDouble_of_near (144115187658161261 / 144115188075855872) (-1) (9007199228635079) (by norm_num) (by norm_num [abs_of_pos]) (by norm_num [abs_of_pos]) (by norm_num) (by norm_num)]
    norm_num
  have h22 : roundToDouble (1590777219205209661071395578919 / 81129638414606681695789005144064) = 5651575986594571 / 288230376151711744 := by
    rw [roundToDouble_of_near (1590777219205209661071395578919 / 81129638414606681695789005144064) (-6) (5651575986594571) (by norm_num) (by norm_num [abs_of_pos]) (by norm_num [abs_of_pos]) (by norm_num) (by norm_num)]
    norm_num
  have h23 : roundToDouble (288230376135331563 / 288230376151711744) = 9007199254229111 / 9007199254740992 := by
    rw [roundToDouble_of_near (288230376135331563 / 288230376151711744) (-1) (9007199254229111) (by norm_num) (by norm_num [abs_of_pos]) (by norm_num [abs_of_pos]) (by norm_num) (by norm_num)]
    norm_num
  have h24 : roundToDouble (1590777223725416444526642387671 / 81129638414606681695789005144064) = 1412894000663393 / 72057594037927936 := by
    rw [roundToDouble_of_near (1590777223725416444526642387671 / 81129638414606681695789005144064) (-6) (5651576002653572) (by norm_num) (by norm_num [abs_of_pos]) (by norm_num [abs_of_pos]) (by norm_num) (by norm_num)]
    norm_num
  have h25 : roundToDouble (72057594037847641 / 72057594037927936) = 9007199254730955 / 9007199254740992 := by
    rw [roundToDouble_of_near (72057594037847641 / 72057594037927936) (-1) (9007199254730955) (by norm_num) (by norm_num [abs_of_pos]) (by norm_num [abs_of_pos]) (by norm_num) (by norm_num)]
    norm_num
  have h26 : roundToDouble (1590777223814047991640294307755 / 81129638414606681695789005144064) = 2825788001484227 / 144115188075855872 := by
    rw [roundToDouble_of_near (1590777223814047991640294307755 / 81129638414606681695789005144064) (-6) (5651576002968454) (by norm_num) (by norm_num [abs_of_pos]) (by norm_num [abs_of_pos]) (by norm_num) (by norm_num)]
    norm_num
  have h27 : roundToDouble (144115188075852723 / 144115188075855872) = 9007199254740795 / 9007199254740992 := by
    rw [roundToDouble_of_near (144115188075852723 / 144115188075855872) (-1) (9007199254740795) (by norm_num) (by norm_num [abs_of_pos]) (by norm_num [abs_of_pos]) (by norm_num) (by norm_num)]
    norm_num
  have h28 : roundToDouble (1590777223815785851261209043995 / 81129638414606681695789005144064) = 1412894000743657 / 72057594037927936 := by
    rw [roundToDouble_of_near (1590777223815785851261209043995 / 81129638414606681695789005144064) (-6) (5651576002974628) (by norm_num) (by norm_num [abs_of_pos]) (by norm_num [abs_of_pos]) (by norm_num) (by norm_num)]
    norm_num
  have h29 : roundToDouble (72057594037927905 / 72057594037927936) = 2251799813685247 / 2251799813685248 := by
    rw [roundToDouble_of_near (72057594037927905 / 72057594037927936) (-1) (9007199254740988) (by norm_num) (by norm_num [abs_of_pos]) (by norm_num [abs_of_pos]) (by norm_num) (by norm_num)]
    norm_num
  have h30 : roundToDouble (397694305953954984332244246367 / 20282409603651670423947251286016) = 5651576002974749 / 288230376151711744 := by
    rw [roundToDouble_of_near (397694305953954984332244246367 / 20282409603651670423947251286016) (-6) (5651576002974749) (by norm_num) (by norm_num [abs_of_pos]) (by norm_num [abs_of_pos]) (by norm_num) (by norm_num)]
    norm_num
  have h31 : roundToDouble (288230376151711741 / 288230376151711744) = 1 := by
    rw [roundToDouble_of_near (288230376151711741 / 288230376151711744) (-1) (9007199254740992) (by norm_num) (by norm_num [abs_of_pos]) (by norm_num [abs_of_pos]) (by norm_num) (by norm_num)]
    norm_num
  have h32 : roundToDouble (3602879701896397 / 18014398509481984) = 3602879701896397 / 18014398509481984 := by
    rw [roundToDouble_of_near (3602879701896397 / 18014398509481984) (-3) (7205759403792794) (by norm_num) (by norm_num [abs_of_pos]) (by norm_num [abs_of_pos]) (by norm_num) (by norm_num)]
    norm_num
  have h33 : roundToDouble (6905519428634761 / 9007199254740992) = 6905519428634761 / 9007199254740992 := by
    rw [roundToDouble_of_near (6905519428634761 / 9007199254740992) (-1) (6905519428634761) (by norm_num) (by norm_num [abs_of_pos]) (by norm_num [abs_of_pos]) (by norm_num) (by norm_num)]
    norm_num
  have h34 : roundToDouble (17413918559165919 / 18014398509481984) = 544184954973935 / 562949953421312 := by
    rw [roundToDouble_of_tie (17413918559165919 / 18014398509481984) (-1) (8706959279582959) (by norm_num) (by norm_num [abs_of_pos]) (by norm_num [abs_of_pos]) (by norm_num)]
    norm_num
  have h35 : roundToDouble (4803839602528529 / 144115188075855872) = 4803839602528529 / 144115188075855872 := by
    rw [roundToDouble_of_near (4803839602528529 / 144115188075855872) (-5) (4803839602528529) (by norm_num) (by norm_num [abs_of_pos]) (by norm_num [abs_of_pos]) (by norm_num) (by norm_num)]
    norm_num
  have h36 : roundToDouble (144115188075855889 / 144115188075855872) = 4503599627370497 / 4503599627370496 := by
    rw [roundToDouble_of_near (144115188075855889 / 144115188075855872) (0) (4503599627370497) (by norm_num) (by norm_num [abs_of_pos]) (by norm_num [abs_of_pos]) (by norm_num) (by norm_num)]
    norm_num
  have hrate : uniformizationRateOfRounded roundToDouble [true, false] [1, 0]
      = 2296835809958953 / 2251799813685248 := by
    have hunfold : uniformizationRateOfRounded roundToDouble [true, false] [1, 0]
        = roundToDouble (max 0 1 * roundToDouble 1.02) := rfl
    rw [hunfold]
    norm_num [h1, h2, h3, h4, h5, h6, h7, h8, h9, h10, h11, h12, h13, h14, h15, h16, h17, h18, h19, h20, h21, h22, h23, h24, h25, h26, h27, h28, h29, h30, h31, h32, h33, h34, h35, h36]
  have hmatrix : computeUniformizedMatrixRounded roundToDouble twoStateRateMatrix
      [true, false] (2296835809958953 / 2251799813685248) [1, 0]
      = ⟨1, [[(0, 176611750092961 / 9007199254740992)]]⟩ := by
    have hunfold : computeUniformizedMatrixRounded roundToDouble twoStateRateMatrix
        [true, false] (2296835809958953 / 2251799813685248) [1, 0]
        = ⟨1, [[(0, roundToDouble (roundToDouble (roundToDouble (0 - 1)
            / (2296835809958953 / 2251799813685248)) + 1))]]⟩ := rfl
    rw [hunfold]
    norm_num [h1, h2, h3, h4, h5, h6, h7, h8, h9, h10, h11, h12, h13, h14, h15, h16, h17, h18, h19, h20, h21, h22, h23, h24, h25, h26, h27, h28, h29, h30, h31, h32, h33, h34, h35, h36]
  have hb : (getConstrainedRowSumVectorRounded roundToDouble twoStateRateMatrix [true, false]
        [false, true]).map (fun element => roundToDouble (element / (2296835809958953 / 2251799813685248)))
      = [8830587504648031 / 9007199254740992] := by
    have hunfold : (getConstrainedRowSumVectorRounded roundToDouble twoStateRateMatrix
          [true, false] [false, true]).map
          (fun element => roundToDouble (element / (2296835809958953 / 2251799813685248)))
        = [roundToDouble (roundToDouble (0 + 1) / (2296835809958953 / 2251799813685248))] := rfl
    rw [hunfold]
    norm_num [h1, h2, h3, h4, h5, h6, h7, h8, h9, h10, h11, h12, h13, h14, h15, h16, h17, h18, h19, h20, h21, h22, h23, h24, h25, h26, h27, h28, h29, h30, h31, h32, h33, h34, h35, h36]
  have hlambda : roundToDouble ((1 : ℚ) * (2296835809958953 / 2251799813685248)) = 2296835809958953 / 2251799813685248 := by
    norm_num [h1, h2, h3, h4, h5, h6, h7, h8, h9, h10, h11, h12, h13, h14, h15, h16, h17, h18, h19, h20, h21, h22, h23, h24, h25, h26, h27, h28, h29, h30, h31, h32, h33, h34, h35, h36]
  have hfoxGlynn : skewedWindowEnvironment.foxGlynn (2296835809958953 / 2251799813685248)
      (roundToDouble (skewedWindowEnvironment.precision / 8))
      = ⟨12, 14, 30, [6, 23, 1]⟩ := by
    simp only [skewedWindowEnvironment]
    rw [if_pos (by norm_num)]
  have hweights : transientWeightsRounded roundToDouble false (2296835809958953 / 2251799813685248)
      ⟨12, 14, 30, [6, 23, 1]⟩ = [3602879701896397 / 18014398509481984, 6905519428634761 / 9007199254740992, 4803839602528529 / 144115188075855872] := by
    norm_num [transientWeightsRounded, h1, h2, h3, h4, h5, h6, h7, h8, h9, h10, h11, h12, h13, h14, h15, h16, h17, h18, h19, h20, h21, h22, h23, h24, h25, h26, h27, h28, h29, h30, h31, h32, h33, h34, h35, h36]
  have hmul0 : multiplyRounded roundToDouble ⟨1, [[(0, 176611750092961 / 9007199254740992)]]⟩
      [0] (some [8830587504648031 / 9007199254740992])
      = [8830587504648031 / 9007199254740992] := by
    have hunfold : multiplyRounded roundToDouble ⟨1, [[(0, 176611750092961 / 9007199254740992)]]⟩
        [0] (some [8830587504648031 / 9007199254740992])
        = [roundToDouble (8830587504648031 / 9007199254740992
            + roundToDouble (176611750092961 / 9007199254740992 * (0)))] := rfl
    rw [hunfold]
    norm_num [h1, h2, h3, h4, h5, h6, h7, h8, h9, h10, h11, h12, h13, h14, h15, h16, h17, h18, h19, h20, h21, h22, h23, h24, h25, h26, h27, h28, h29, h30, h31, h32, h33, h34, h35, h36]
  have hmul1 : multiplyRounded roundToDouble ⟨1, [[(0, 176611750092961 / 9007199254740992)]]⟩
      [8830587504648031 / 9007199254740992] (some [8830587504648031 / 9007199254740992])
      = [9003736279248973 / 9007199254740992] := by
    have hunfold : multiplyRounded roundToDouble ⟨1, [[(0, 176611750092961 / 9007199254740992)]]⟩
        [8830587504648031 / 9007199254740992] (some [8830587504648031 / 9007199254740992])
        = [roundToDouble (8830587504648031 / 9007199254740992
            + roundToDouble (176611750092961 / 9007199254740992 * (8830587504648031 / 9007199254740992)))] := rfl
    rw [hunfold]
    norm_num [h1, h2, h3, h4, h5, h6, h7, h8, h9, h10, h11, h12, h13, h14, h15, h16, h17, h18, h19, h20, h21, h22, h23, h24, h25, h26, h27, h28, h29, h30, h31, h32, h33, h34, h35, h36]
  have hmul2 : multiplyRounded roundToDouble ⟨1, [[(0, 176611750092961 / 9007199254740992)]]⟩
      [9003736279248973 / 9007199254740992] (some [8830587504648031 / 9007199254740992])
      = [2251782838315189 / 2251799813685248] := by
    have hunfold : multiplyRounded roundToDouble ⟨1, [[(0, 176611750092961 / 9007199254740992)]]⟩
        [9003736279248973 / 9007199254740992] (some [8830587504648031 / 9007199254740992])
        = [roundToDouble (8830587504648031 / 9007199254740992
            + roundToDouble (176611750092961 / 9007199254740992 * (9003736279248973 / 9007199254740992)))] := rfl
    rw [hunfold]
    norm_num [h1, h2, h3, h4, h5, h6, h7, h8, h9, h10, h11, h12, h13, h14, h15, h16, h17, h18, h19, h20, h21, h22, h23, h24, h25, h26, h27, h28, h29, h30, h31, h32, h33, h34, h35, h36]
  have hmul3 : multiplyRounded roundToDouble ⟨1, [[(0, 176611750092961 / 9007199254740992)]]⟩
      [2251782838315189 / 2251799813685248] (some [8830587504648031 / 9007199254740992])
      = [9007197923339419 / 9007199254740992] := by
    have hunfold : multiplyRounded roundToDouble ⟨1, [[(0, 176611750092961 / 9007199254740992)]]⟩
        [2251782838315189 / 2251799813685248] (some [8830587504648031 / 9007199254740992])
        = [roundToDouble (8830587504648031 / 9007199254740992
            + roundToDouble (176611750092961 / 9007199254740992 * (2251782838315189 / 2251799813685248)))] := rfl
    rw [hunfold]
    norm_num [h1, h2, h3, h4, h5, h6, h7, h8, h9, h10, h11, h12, h13, h14, h15, h16, h17, h18, h19, h20, h21, h22, h23, h24, h25, h26, h27, h28, h29, h30, h31, h32, h33, h34, h35, h36]
  have hmul4 : multiplyRounded roundToDouble ⟨1, [[(0, 176611750092961 / 9007199254740992)]]⟩
      [9007197923339419 / 9007199254740992] (some [8830587504648031 / 9007199254740992])
      = [9007199228635079 / 9007199254740992] := by
    have hunfold : multiplyRounded roundToDouble ⟨1, [[(0, 176611750092961 / 9007199254740992)]]⟩
        [9007197923339419 / 9007199254740992] (some [8830587504648031 / 9007199254740992])
        = [roundToDouble (8830587504648031 / 9007199254740992
            + roundToDouble (176611750092961 / 9007199254740992 * (9007197923339419 / 9007199254740992)))] := rfl
    rw [hunfold]
    norm_num [h1, h2, h3, h4, h5, h6, h7, h8, h9, h10, h11, h12, h13, h14, h15, h16, h17, h18, h19, h20, h21, h22, h23, h24, h25, h26, h27, h28, h29, h30, h31, h32, h33, h34, h35, h36]
  have hmul5 : multiplyRounded roundToDouble ⟨1, [[(0, 176611750092961 / 9007199254740992)]]⟩
      [9007199228635079 / 9007199254740992] (some [8830587504648031 / 9007199254740992])
      = [9007199254229111 / 9007199254740992] := by
    have hunfold : multiplyRounded roundToDouble ⟨1, [[(0, 176611750092961 / 9007199254740992)]]⟩
        [9007199228635079 / 9007199254740992] (some [8830587504648031 / 9007199254740992])
        = [roundToDouble (8830587504648031 / 9007199254740992
            + roundToDouble (176611750092961 / 9007199254740992 * (9007199228635079 / 9007199254740992)))] := rfl
    rw [hunfold]
    norm_num [h1, h2, h3, h4, h5, h6, h7, h8, h9, h10, h11, h12, h13, h14, h15, h16, h17, h18, h19, h20, h21, h22, h23, h24, h25, h26, h27, h28, h29, h30, h31, h32, h33, h34, h35, h36]
  have hmul6 : multiplyRounded roundToDouble ⟨1, [[(0, 176611750092961 / 9007199254740992)]]⟩
      [9007199254229111 / 9007199254740992] (some [8830587504648031 / 9007199254740992])
      = [9007199254730955 / 9007199254740992] := by
    have hunfold : multiplyRounded roundToDouble ⟨1, [[(0, 176611750092961 / 9007199254740992)]]⟩
        [9007199254229111 / 9007199254740992] (some [8830587504648031 / 9007199254740992])
        = [roundToDouble (8830587504648031 / 9007199254740992
            + roundToDouble (176611750092961 / 9007199254740992 * (9007199254229111 / 9007199254740992)))] := rfl
    rw [hunfold]
    norm_num [h1, h2, h3, h4, h5, h6, h7, h8, h9, h10, h11, h12, h13, h14, h15, h16, h17, h18, h19, h20, h21, h22, h23, h24, h25, h26, h27, h28, h29, h30, h31, h32, h33, h34, h35, h36]
  have hmul7 : multiplyRounded roundToDouble ⟨1, [[(0, 176611750092961 / 9007199254740992)]]⟩
      [9007199254730955 / 9007199254740992] (some [8830587504648031 / 9007199254740992])
      = [9007199254740795 / 9007199254740992] := by
    have hunfold : multiplyRounded roundToDouble ⟨1, [[(0, 176611750092961 / 9007199254740992)]]⟩
        [9007199254730955 / 9007199254740992] (some [8830587504648031 / 9007199254740992])
        = [roundToDouble (8830587504648031 / 9007199254740992
            + roundToDouble (176611750092961 / 9007199254740992 * (9007199254730955 / 9007199254740992)))] := rfl
    rw [hunfold]
    norm_num [h1, h2, h3, h4, h5, h6, h7, h8, h9, h10, h11, h12, h13, h14, h15, h16, h17, h18, h19, h20, h21, h22, h23, h24, h25, h26, h27, h28, h29, h30, h31, h32, h33, h34, h35, h36]
  have hmul8 : multiplyRounded roundToDouble ⟨1, [[(0, 176611750092961 / 9007199254740992)]]⟩
      [9007199254740795 / 9007199254740992] (some [8830587504648031 / 9007199254740992])
      = [2251799813685247 / 2251799813685248] := by
    have hunfold : multiplyRounded roundToDouble ⟨1, [[(0, 176611750092961 / 9007199254740992)]]⟩
        [9007199254740795 / 9007199254740992] (some [8830587504648031 / 9007199254740992])
        = [roundToDouble (8830587504648031 / 9007199254740992
            + roundToDouble (176611750092961 / 9007199254740992 * (9007199254740795 / 9007199254740992)))] := rfl
    rw [hunfold]
    norm_num [h1, h2, h3, h4, h5, h6, h7, h8, h9, h10, h11, h12, h13, h14, h15, h16, h17, h18, h19, h20, h21, h22, h23, h24, h25, h26, h27, h28, h29, h30, h31, h32, h33, h34, h35, h36]
  have hmul9 : multiplyRounded roundToDouble ⟨1, [[(0, 176611750092961 / 9007199254740992)]]⟩
      [2251799813685247 / 2251799813685248] (some [8830587504648031 / 9007199254740992])
      = [1] := by
    have hunfold : multiplyRounded roundToDouble ⟨1, [[(0, 176611750092961 / 9007199254740992)]]⟩
        [2251799813685247 / 2251799813685248] (some [8830587504648031 / 9007199254740992])
        = [roundToDouble (8830587504648031 / 9007199254740992
            + roundToDouble (176611750092961 / 9007199254740992 * (2251799813685247 / 2251799813685248)))] := rfl
    rw [hunfold]
    norm_num [h1, h2, h3, h4, h5, h6, h7, h8, h9, h10, h11, h12, h13, h14, h15, h16, h17, h18, h19, h20, h21, h22, h23, h24, h25, h26, h27, h28, h29, h30, h31, h32, h33, h34, h35, h36]
  have hmul10 : multiplyRounded roundToDouble ⟨1, [[(0, 176611750092961 / 9007199254740992)]]⟩
      [1] (some [8830587504648031 / 9007199254740992])
      = [1] := by
    have hunfold : multiplyRounded roundToDouble ⟨1, [[(0, 176611750092961 / 9007199254740992)]]⟩
        [1] (some [8830587504648031 / 9007199254740992])
        = [roundToDouble (8830587504648031 / 9007199254740992
            + roundToDouble (176611750092961 / 9007199254740992 * (1)))] := rfl
    rw [hunfold]
    norm_num [h1, h2, h3, h4, h5, h6, h7, h8, h9, h10, h11, h12, h13, h14, h15, h16, h17, h18, h19, h20, h21, h22, h23, h24, h25, h26, h27, h28, h29, h30, h31, h32, h33, h34, h35, h36]
  have hrep0 : repeatedMultiplyRounded roundToDouble ⟨1, [[(0, 176611750092961 / 9007199254740992)]]⟩
      [0] (some [8830587504648031 / 9007199254740992]) 0 = [0] := rfl
  have hrep1 : repeatedMultiplyRounded roundToDouble ⟨1, [[(0, 176611750092961 / 9007199254740992)]]⟩
      [0] (some [8830587504648031 / 9007199254740992]) (0 + 1) = [8830587504648031 / 9007199254740992] := by
    rw [repeatedMultiplyRounded_succ, hrep0, hmul0]
  have hrep2 : repeatedMultiplyRounded roundToDouble ⟨1, [[(0, 176611750092961 / 9007199254740992)]]⟩
      [0] (some [8830587504648031 / 9007199254740992]) (1 + 1) = [9003736279248973 / 9007199254740992] := by
    rw [repeatedMultiplyRounded_succ, hrep1, hmul1]
  have hrep3 : repeatedMultiplyRounded roundToDouble ⟨1, [[(0, 176611750092961 / 9007199254740992)]]⟩
      [0] (some [8830587504648031 / 9007199254740992]) (2 + 1) = [2251782838315189 / 2251799813685248] := by
    rw [repeatedMultiplyRounded_succ, hrep2, hmul2]
  have hrep4 : repeatedMultiplyRounded roundToDouble ⟨1, [[(0, 176611750092961 / 9007199254740992)]]⟩
      [0] (some [8830587504648031 / 9007199254740992]) (3 + 1) = [9007197923339419 / 9007199254740992] := by
    rw [repeatedMultiplyRounded_succ, hrep3, hmul3]
  have hrep5 : repeatedMultiplyRounded roundToDouble ⟨1, [[(0, 176611750092961 / 9007199254740992)]]⟩
      [0] (some [8830587504648031 / 9007199254740992]) (4 + 1) = [9007199228635079 / 9007199254740992] := by
    rw [repeatedMultiplyRounded_succ, hrep4, hmul4]
  have hrep6 : repeatedMultiplyRounded roundToDouble ⟨1, [[(0, 176611750092961 / 9007199254740992)]]⟩
      [0] (some [8830587504648031 / 9007199254740992]) (5 + 1) = [9007199254229111 / 9007199254740992] := by
    rw [repeatedMultiplyRounded_succ, hrep5, hmul5]
  have hrep7 : repeatedMultiplyRounded roundToDouble ⟨1, [[(0, 176611750092961 / 9007199254740992)]]⟩
      [0] (some [8830587504648031 / 9007199254740992]) (6 + 1) = [9007199254730955 / 9007199254740992] := by
    rw [repeatedMultiplyRounded_succ, hrep6, hmul6]
  have hrep8 : repeatedMultiplyRounded roundToDouble ⟨1, [[(0, 176611750092961 / 9007199254740992)]]⟩
      [0] (some [8830587504648031 / 9007199254740992]) (7 + 1) = [9007199254740795 / 9007199254740992] := by
    rw [repeatedMultiplyRounded_succ, hrep7, hmul7]
  have hrep9 : repeatedMultiplyRounded roundToDouble ⟨1, [[(0, 176611750092961 / 9007199254740992)]]⟩
      [0] (some [8830587504648031 / 9007199254740992]) (8 + 1) = [2251799813685247 / 2251799813685248] := by
    rw [repeatedMultiplyRounded_succ, hrep8, hmul8]
  have hrep10 : repeatedMultiplyRounded roundToDouble ⟨1, [[(0, 176611750092961 / 9007199254740992)]]⟩
      [0] (some [8830587504648031 / 9007199254740992]) (9 + 1) = [1] := by
    rw [repeatedMultiplyRounded_succ, hrep9, hmul9]
  have hrep11 : repeatedMultiplyRounded roundToDouble ⟨1, [[(0, 176611750092961 / 9007199254740992)]]⟩
      [0] (some [8830587504648031 / 9007199254740992]) (10 + 1) = [1] := by
    rw [repeatedMultiplyRounded_succ, hrep10, hmul10]
  have hwin12 : ∀ (applications : List (Option (List ℚ))) (calls : List (ℚ × ℚ)),
      windowStepRounded roundToDouble ⟨1, [[(0, 176611750092961 / 9007199254740992)]]⟩
        (some [8830587504648031 / 9007199254740992]) [3602879701896397 / 18014398509481984, 6905519428634761 / 9007199254740992, 4803839602528529 / 144115188075855872] 12
        ⟨[1], [0], applications, calls⟩ 12
      = ⟨[1], [3602879701896397 / 18014398509481984], applications ++ [some [8830587504648031 / 9007199254740992]], calls⟩ := by
    intro applications calls
    have hvalues := hmul10
    simp only [windowStepRounded, hvalues, applyPointwise, List.zipWith_cons_cons,
      List.zipWith_nil_left]
    norm_num [h1, h2, h3, h4, h5, h6, h7, h8, h9, h10, h11, h12, h13, h14, h15, h16, h17, h18, h19, h20, h21, h22, h23, h24, h25, h26, h27, h28, h29, h30, h31, h32, h33, h34, h35, h36]
  have hwin13 : ∀ (applications : List (Option (List ℚ))) (calls : List (ℚ × ℚ)),
      windowStepRounded roundToDouble ⟨1, [[(0, 176611750092961 / 9007199254740992)]]⟩
        (some [8830587504648031 / 9007199254740992]) [3602879701896397 / 18014398509481984, 6905519428634761 / 9007199254740992, 4803839602528529 / 144115188075855872] 12
        ⟨[1], [3602879701896397 / 18014398509481984], applications, calls⟩ 13
      = ⟨[1], [544184954973935 / 562949953421312], applications ++ [some [8830587504648031 / 9007199254740992]], calls⟩ := by
    intro applications calls
    have hvalues := hmul10
    simp only [windowStepRounded, hvalues, applyPointwise, List.zipWith_cons_cons,
      List.zipWith_nil_left]
    norm_num [h1, h2, h3, h4, h5, h6, h7, h8, h9, h10, h11, h12, h13, h14, h15, h16, h17, h18, h19, h20, h21, h22, h23, h24, h25, h26, h27, h28, h29, h30, h31, h32, h33, h34, h35, h36]
  have hwin14 : ∀ (applications : List (Option (List ℚ))) (calls : List (ℚ × ℚ)),
      windowStepRounded roundToDouble ⟨1, [[(0, 176611750092961 / 9007199254740992)]]⟩
        (some [8830587504648031 / 9007199254740992]) [3602879701896397 / 18014398509481984, 6905519428634761 / 9007199254740992, 4803839602528529 / 144115188075855872] 12
        ⟨[1], [544184954973935 / 562949953421312], applications, calls⟩ 14
      = ⟨[1], [4503599627370497 / 4503599627370496], applications ++ [some [8830587504648031 / 9007199254740992]], calls⟩ := by
    intro applications calls
    have hvalues := hmul10
    simp only [windowStepRounded, hvalues, applyPointwise, List.zipWith_cons_cons,
      List.zipWith_nil_left]
    norm_num [h1, h2, h3, h4, h5, h6, h7, h8, h9, h10, h11, h12, h13, h14, h15, h16, h17, h18, h19, h20, h21, h22, h23, h24, h25, h26, h27, h28, h29, h30, h31, h32, h33, h34, h35, h36]
  have htransient : computeTransientProbabilitiesRounded roundToDouble skewedWindowEnvironment
      false ⟨1, [[(0, 176611750092961 / 9007199254740992)]]⟩ (some [8830587504648031 / 9007199254740992]) 1
      (2296835809958953 / 2251799813685248) (List.replicate (BitVector.getNumberOfSetBits [true, false]) 0)
      = [4503599627370497 / 4503599627370496] := by
    have hzero : List.replicate (BitVector.getNumberOfSetBits [true, false]) (0 : ℚ) = [0] :=
      rfl
    rw [hzero, computeTransientProbabilitiesRounded_plain_late roundToDouble
      skewedWindowEnvironment ⟨1, [[(0, 176611750092961 / 9007199254740992)]]⟩ (some [8830587504648031 / 9007199254740992]) 1
      (2296835809958953 / 2251799813685248) [0] (2296835809958953 / 2251799813685248) ⟨12, 14, 30, [6, 23, 1]⟩ _ hlambda (by norm_num) hfoxGlynn hweights
      (by decide)]
    have hrange : List.range' 12 (14 + 1 - 12) = [12, 13, 14] := rfl
    have hrepeated : repeatedMultiplyRounded roundToDouble ⟨1, [[(0, 176611750092961 / 9007199254740992)]]⟩
        [0] (some [8830587504648031 / 9007199254740992]) (12 - 1) = [1] := hrep11
    have hlength : List.replicate ([0] : List ℚ).length (0 : ℚ) = [0] := rfl
    simp only [hrange, hrepeated, hlength, List.foldl_cons, List.foldl_nil, hwin12, hwin13, hwin14]
  exact computeMaybeStateProbabilitiesRounded_of roundToDouble skewedWindowEnvironment
    twoStateRateMatrix [true, false] [false, true] [1, 0] 1 _ _ _ _ hrate (by norm_num)
    hmatrix hb htransient

/-- In the instantiation for `double`, `computeBoundedUntilProbabilitiesRounded` on the chain
`twoStateRateMatrix` with the psi state 1 for the interval `[0, 1]` and the Fox-Glynn stage of
`skewedWindowEnvironment`. -/
theorem computeBoundedUntilProbabilitiesRounded_skewed_one :
    computeBoundedUntilProbabilitiesRounded roundToDouble skewedWindowEnvironment
        SolveGoal.default twoStateRateMatrix twoStateBackwardTransitions [true, false]
        [false, true] [1, 0] false 0 (some 1)
      = Except.ok [4503599627370497 / 4503599627370496, 1] := by
  rw [computeBoundedUntilProbabilitiesRounded_zero_upper roundToDouble skewedWindowEnvironment
    SolveGoal.default twoStateRateMatrix twoStateBackwardTransitions [true, false]
    [false, true] [1, 0] false 1 [true, true] [true, false] _ performProbGreater0_twoState
    (by decide) one_ne_zero (by decide) (by decide)
    computeMaybeStateProbabilitiesRounded_skewed_one]
  rfl

/-- C1: with upper bound 0 the result of `computeBoundedUntilProbabilities` has one entry per
state, 1 on the psi states and 0 elsewhere, whatever the lower bound is; this holds both on the
branch for the interval `[0, 0]` and on the branch taken when no state has positive probability.
The state sets range over the states of the rate matrix. -/
theorem computeBoundedUntilProbabilities_upperBound_zero (env : Environment) (goal : SolveGoal)
    (rateMatrix backwardTransitions : SparseMatrix) (phiStates psiStates : BitVector)
    (exitRates : List ℚ) (qualitative : Bool) (lowerBound : ℚ)
    (hphi : phiStates.length = SparseMatrix.getRowCount rateMatrix) :
    computeBoundedUntilProbabilities env goal rateMatrix backwardTransitions phiStates psiStates
        exitRates qualitative lowerBound (some 0)
      = Except.ok (indicatorVector (SparseMatrix.getRowCount rateMatrix) psiStates) := by
  unfold computeBoundedUntilProbabilities computeBoundedUntilProbabilitiesTraced
  by_cases hG : BitVector.empty (performProbGreater0 backwardTransitions phiStates psiStates) = true
  · have hpsi : ∀ s, s < SparseMatrix.getRowCount rateMatrix → BitVector.get psiStates s = false := by
      intro s hs
      by_contra hne
      have h1 : BitVector.get psiStates s = true := by simpa using hne
      have h2 := psi_subset_performProbGreater0 backwardTransitions phiStates psiStates s
        (by omega) h1
      rw [BitVector.get_of_empty hG s] at h2
      exact Bool.false_ne_true h2
    simp [hG, replicate_zero_eq_indicatorVector _ _ hpsi]
  · simp [hG, setVectorValue_replicate, indicatorVector]

/-- C1, witness: on the example chain with psi state 1 the interval `[0, 0]` gives the
indicator `[0, 1, 0]`. -/
theorem computeBoundedUntilProbabilities_upperBound_zero_witness :
    [true, true, true].length = SparseMatrix.getRowCount exampleRateMatrix
      ∧ computeBoundedUntilProbabilities exampleEnvironment SolveGoal.default exampleRateMatrix
          exampleBackwardTransitions [true, true, true] [false, true, false] exampleExitRates
          false 0 (some 0) = Except.ok [0, 1, 0] := by
  refine ⟨by decide, ?_⟩
  rw [computeBoundedUntilProbabilities_upperBound_zero exampleEnvironment SolveGoal.default
    exampleRateMatrix exampleBackwardTransitions [true, true, true] [false, true, false]
    exampleExitRates false 0 (by decide)]
  simp [indicatorVector, SparseMatrix.getRowCount, exampleRateMatrix, List.range_succ,
    BitVector.get]

/-- C2: in plain mode, with `timeBound * uniformizationRate` non-zero and a Fox-Glynn result
`(left, right, weights, totalWeight)` of the right shape, `computeTransientProbabilities` returns
the vector whose entry `i` is the sum over `k = left..right` of
`weights[k - left] / totalWeight * x_k[i]`, where `x_0 = v` and `x_(k+1) = P * x_k + a`; the
cases `left = 0`, `left = 1` and `left > 1` of the code give the same formula. -/
theorem computeTransientProbabilities_plain (env : Environment) (P : SparseMatrix)
    (a : Option (List ℚ)) (timeBound uniformizationRate : ℚ) (v : List ℚ)
    (hlambda : timeBound * uniformizationRate ≠ 0)
    (hP : SparseMatrix.getRowCount P = v.length)
    (_hle : (env.foxGlynn (timeBound * uniformizationRate) (env.precision / 8)).left
      ≤ (env.foxGlynn (timeBound * uniformizationRate) (env.precision / 8)).right)
    (_hweights : (env.foxGlynn (timeBound * uniformizationRate) (env.precision / 8)).weights.length
      = (env.foxGlynn (timeBound * uniformizationRate) (env.precision / 8)).right
        - (env.foxGlynn (timeBound * uniformizationRate) (env.precision / 8)).left + 1)
    (_htotal : (env.foxGlynn (timeBound * uniformizationRate) (env.precision / 8)).totalWeight
      ≠ 0) :
    (computeTransientProbabilities env false P a timeBound uniformizationRate v).length
        = v.length
      ∧ ∀ i, (computeTransientProbabilities env false P a timeBound uniformizationRate v).getD
            i 0
          = ∑ k ∈ Finset.Icc
                (env.foxGlynn (timeBound * uniformizationRate) (env.precision / 8)).left
                (env.foxGlynn (timeBound * uniformizationRate) (env.precision / 8)).right,
              (env.foxGlynn (timeBound * uniformizationRate) (env.precision / 8)).weights.getD
                  (k - (env.foxGlynn (timeBound * uniformizationRate)
                    (env.precision / 8)).left) 0
                / (env.foxGlynn (timeBound * uniformizationRate)
                    (env.precision / 8)).totalWeight
                * (transientIterate P a v k).getD i 0 :=
  computeTransientProbabilities_plain_formula env P a timeBound uniformizationRate v hlambda hP

/-- C2, witness: the uniformized matrix of the 'maybe' state 0 of the example chain for the rate
3.06, with the compensation vector `[2 / 3.06]`, the zero vector and time bound 1/3. -/
theorem computeTransientProbabilities_plain_witness :
    ((1 / 3 : ℚ) * 3.06 ≠ 0
      ∧ SparseMatrix.getRowCount ⟨1, [[(0, 1 / 51)]]⟩ = [(0 : ℚ)].length
      ∧ (exampleEnvironment.foxGlynn (1 / 3 * 3.06) (exampleEnvironment.precision / 8)).left
        ≤ (exampleEnvironment.foxGlynn (1 / 3 * 3.06) (exampleEnvironment.precision / 8)).right
      ∧ (exampleEnvironment.foxGlynn (1 / 3 * 3.06)
          (exampleEnvironment.precision / 8)).weights.length
        = (exampleEnvironment.foxGlynn (1 / 3 * 3.06) (exampleEnvironment.precision / 8)).right
          - (exampleEnvironment.foxGlynn (1 / 3 * 3.06)
            (exampleEnvironment.precision / 8)).left + 1
      ∧ (exampleEnvironment.foxGlynn (1 / 3 * 3.06)
          (exampleEnvironment.precision / 8)).totalWeight ≠ 0)
      ∧ (computeTransientProbabilities exampleEnvironment false ⟨1, [[(0, 1 / 51)]]⟩
          (some [100 / 153]) (1 / 3) 3.06 [0]).length = [(0 : ℚ)].length :=
  ⟨⟨by norm_num, by decide, by decide, by decide, by norm_num [exampleEnvironment]⟩,
    (computeTransientProbabilities_plain exampleEnvironment ⟨1, [[(0, 1 / 51)]]⟩
      (some [100 / 153]) (1 / 3) 3.06 [0] (by norm_num) (by decide) (by decide) (by decide)
      (by norm_num [exampleEnvironment])).1⟩

/-- C3: when `timeBound * uniformizationRate` is zero, `computeTransientProbabilities` returns the
initial vector unchanged, in plain and in cumulative mode, for every matrix, add-vector and
Fox-Glynn implementation; no matrix-vector application is performed and Fox-Glynn is not
called. -/
theorem computeTransientProbabilities_lambda_zero (env : Environment)
    (useMixedPoissonProbabilities : Bool) (uniformizedMatrix : SparseMatrix)
    (addVector : Option (List ℚ)) (timeBound uniformizationRate : ℚ) (values : List ℚ)
    (h : timeBound * uniformizationRate = 0) :
    computeTransientProbabilities env useMixedPoissonProbabilities uniformizedMatrix addVector
        timeBound uniformizationRate values = values
      ∧ (computeTransientProbabilitiesTraced env useMixedPoissonProbabilities uniformizedMatrix
          addVector timeBound uniformizationRate values).applications = []
      ∧ (computeTransientProbabilitiesTraced env useMixedPoissonProbabilities uniformizedMatrix
          addVector timeBound uniformizationRate values).foxGlynnCalls = [] := by
  simp [computeTransientProbabilities, computeTransientProbabilitiesTraced, h]

/-- C3, witness: with time bound 0 the vector `[5, 7]` is returned unchanged, in cumulative
mode and with an add-vector. -/
theorem computeTransientProbabilities_lambda_zero_witness :
    (0 : ℚ) * 3 = 0
      ∧ computeTransientProbabilities exampleEnvironment true ⟨2, [[(1, 1)], [(0, 1)]]⟩
          (some [1, 1]) 0 3 [5, 7] = [5, 7] :=
  ⟨by norm_num,
    (computeTransientProbabilities_lambda_zero exampleEnvironment true ⟨2, [[(1, 1)], [(0, 1)]]⟩
      (some [1, 1]) 0 3 [5, 7] (by norm_num)).1⟩

/-- C5: in exact arithmetic, for a well-formed rate matrix with non-negative entries, a positive
uniformization rate and exit rates equal to the row sums, every row of `computeUniformizedMatrix`
sums to at most 1; the row of the retained state `s` sums to `1 - (total rate from s to states
outside K) / rate`, and this is 1 exactly when `s` has no positive-rate transition to a state
outside `K`. -/
theorem computeUniformizedMatrix_row_sums (rateMatrix : SparseMatrix) (maybeStates : BitVector)
    (uniformizationRate : ℚ) (exitRates : List ℚ)
    (hwf : SparseMatrix.WellFormed rateMatrix)
    (hnonneg : ∀ row ∈ rateMatrix.rows, ∀ e ∈ row, 0 ≤ e.2)
    (hq : 0 < uniformizationRate)
    (hK : maybeStates.length = SparseMatrix.getRowCount rateMatrix)
    (hE : ∀ s, s < SparseMatrix.getRowCount rateMatrix →
      exitRates.getD s 0 = SparseMatrix.getRowSum rateMatrix s) :
    (∀ a, SparseMatrix.getRowSum
        (computeUniformizedMatrix rateMatrix maybeStates uniformizationRate exitRates) a ≤ 1)
      ∧ ∀ (a : Nat) (h : a < (BitVector.setBits maybeStates).length),
          SparseMatrix.getRowSum
              (computeUniformizedMatrix rateMatrix maybeStates uniformizationRate exitRates) a
            = 1 - entrySum
                ((SparseMatrix.getRow rateMatrix ((BitVector.setBits maybeStates)[a])).filter
                  (fun e => !BitVector.get maybeStates e.1)) / uniformizationRate
          ∧ (SparseMatrix.getRowSum
              (computeUniformizedMatrix rateMatrix maybeStates uniformizationRate exitRates) a
              = 1
            ↔ ∀ e ∈ SparseMatrix.getRow rateMatrix ((BitVector.setBits maybeStates)[a]),
                BitVector.get maybeStates e.1 = false → ¬ 0 < e.2) := by
  have hrownonneg : ∀ i, ∀ e ∈ SparseMatrix.getRow rateMatrix i, 0 ≤ e.2 := by
    intro i e he
    rcases SparseMatrix.getRow_mem_or_nil rateMatrix i with hmem | hnil
    · exact hnonneg _ hmem e he
    · rw [hnil] at he
      cases he
  have hformula : ∀ (a : Nat) (h : a < (BitVector.setBits maybeStates).length),
      SparseMatrix.getRowSum
          (computeUniformizedMatrix rateMatrix maybeStates uniformizationRate exitRates) a
        = 1 - entrySum
            ((SparseMatrix.getRow rateMatrix ((BitVector.setBits maybeStates)[a])).filter
              (fun e => !BitVector.get maybeStates e.1)) / uniformizationRate := by
    intro a h
    have hs : (BitVector.setBits maybeStates)[a] < SparseMatrix.getRowCount rateMatrix := by
      rw [← hK]
      exact BitVector.lt_length_of_mem_setBits maybeStates (List.getElem_mem h)
    rw [getRowSum_computeUniformizedMatrix rateMatrix maybeStates uniformizationRate exitRates
      hwf a h, hE _ hs]
    unfold SparseMatrix.getRowSum
    rw [← entrySum_filter_add_filter_not (fun e => BitVector.get maybeStates e.1)
      (SparseMatrix.getRow rateMatrix ((BitVector.setBits maybeStates)[a]))]
    have hq0 : uniformizationRate ≠ 0 := ne_of_gt hq
    field_simp
    ring
  have houtside : ∀ i, 0 ≤ entrySum ((SparseMatrix.getRow rateMatrix i).filter
      (fun e => !BitVector.get maybeStates e.1)) := by
    intro i
    apply entrySum_nonneg
    intro e he
    exact hrownonneg i e (List.mem_filter.mp he).1
  refine ⟨?_, ?_⟩
  · intro a
    by_cases h : a < (BitVector.setBits maybeStates).length
    · rw [hformula a h]
      have := div_nonneg (houtside ((BitVector.setBits maybeStates)[a])) (le_of_lt hq)
      linarith
    · unfold SparseMatrix.getRowSum
      rw [getRow_computeUniformizedMatrix_of_le _ _ _ _ a (Nat.le_of_not_lt h), entrySum_nil]
      exact zero_le_one
  · intro a h
    refine ⟨hformula a h, ?_⟩
    rw [hformula a h]
    have hzero := entrySum_eq_zero_iff
      ((SparseMatrix.getRow rateMatrix ((BitVector.setBits maybeStates)[a])).filter
        (fun e => !BitVector.get maybeStates e.1))
      (fun e he => hrownonneg _ e (List.mem_filter.mp he).1)
    constructor
    · intro hone e he hout
      have hsum : entrySum
          ((SparseMatrix.getRow rateMatrix ((BitVector.setBits maybeStates)[a])).filter
            (fun e => !BitVector.get maybeStates e.1)) = 0 := by
        have hdiv : entrySum
            ((SparseMatrix.getRow rateMatrix ((BitVector.setBits maybeStates)[a])).filter
              (fun e => !BitVector.get maybeStates e.1)) / uniformizationRate = 0 := by
          linarith
        rcases div_eq_zero_iff.mp hdiv with h0 | h0
        · exact h0
        · exact absurd h0 (ne_of_gt hq)
      exact hzero.mp hsum e (List.mem_filter.mpr ⟨he, by simp [hout]⟩)
    · intro hall
      have hsum := hzero.mpr (fun e he => hall e (List.mem_filter.mp he).1
        (by simpa using (List.mem_filter.mp he).2))
      rw [hsum, zero_div, sub_zero]

/-- C5, counterexample: in the instantiation for `double`, for the chain with the rates 2, 12
and 3 from state 0, whose exit rate 17 is the sum of the row, with all four states retained and
the rate `fl(17 * fl(1.02))`, the `double` nearest to 17.34 that the callers compute, the stored
row of state 0 sums to `1 + 2^-53`, which is more than 1 although state 0 has no transition to
a state outside the retained set; added from left to right in `double` the sum is
`1 + 2^-52`. -/
theorem computeUniformizedMatrix_row_sums_counterexample :
    SparseMatrix.WellFormed seventeenthsRateMatrix
      ∧ (∀ row ∈ seventeenthsRateMatrix.rows, ∀ e ∈ row, (0 : ℚ) ≤ e.2)
      ∧ (∀ s, s < SparseMatrix.getRowCount seventeenthsRateMatrix →
          ([17, 0, 0, 0] : List ℚ).getD s 0 = SparseMatrix.getRowSum seventeenthsRateMatrix s)
      ∧ uniformizationRateOfRounded roundToDouble [true, true, true, true] [17, 0, 0, 0]
        = 4880776096162775 / 281474976710656
      ∧ SparseMatrix.getRow (computeUniformizedMatrixRounded roundToDouble
          seventeenthsRateMatrix [true, true, true, true] (4880776096162775 / 281474976710656)
          [17, 0, 0, 0]) 0
        = [(0, 176611750092961 / 9007199254740992), (1, 4155570590422603 / 36028797018963968),
            (2, 6233355885633905 / 9007199254740992), (3, 6233355885633905 / 36028797018963968)]
      ∧ SparseMatrix.getRowSum (computeUniformizedMatrixRounded roundToDouble
          seventeenthsRateMatrix [true, true, true, true] (4880776096162775 / 281474976710656)
          [17, 0, 0, 0]) 0
        = 9007199254740993 / 9007199254740992
      ∧ 1 < SparseMatrix.getRowSum (computeUniformizedMatrixRounded roundToDouble
          seventeenthsRateMatrix [true, true, true, true] (4880776096162775 / 281474976710656)
          [17, 0, 0, 0]) 0
      ∧ sumRounded roundToDouble ((SparseMatrix.getRow (computeUniformizedMatrixRounded
          roundToDouble seventeenthsRateMatrix [true, true, true, true]
          (4880776096162775 / 281474976710656) [17, 0, 0, 0]) 0).map (fun e => e.2))
        = 4503599627370497 / 4503599627370496 := by
  have h1 : roundToDouble (51 / 50) = 2296835809958953 / 2251799813685248 := by
    rw [roundToDouble_of_near (51 / 50) (0) (4593671619917906) (by norm_num) (by norm_num [abs_of_pos]) (by norm_num [abs_of_pos]) (by norm_num) (by norm_num)]
    norm_num
  have h2 : roundToDouble (39046208769302201 / 2251799813685248) = 4880776096162775 / 281474976710656 := by
    rw [roundToDouble_of_near (39046208769302201 / 2251799813685248) (4) (4880776096162775) (by norm_num) (by norm_num [abs_of_pos]) (by norm_num [abs_of_pos]) (by norm_num) (by norm_num)]
    norm_num
  have h3 : roundToDouble ((-17)) = (-17) := by
    rw [roundToDouble_of_near ((-17)) (4) (-4785074604081152) (by norm_num) (by norm_num [abs_of_neg]) (by norm_num [abs_of_neg]) (by norm_num) (by norm_num)]
    norm_num
  have h4 : roundToDouble ((-(4785074604081152 / 4880776096162775))) = (-(8830587504648031 / 9007199254740992)) := by
    rw [roundToDouble_of_near ((-(4785074604081152 / 4880776096162775))) (-1) (-8830587504648031) (by norm_num) (by norm_num [abs_of_neg]) (by norm_num [abs_of_neg]) (by norm_num) (by norm_num)]
    norm_num
  have h5 : roundToDouble (176611750092961 / 9007199254740992) = 176611750092961 / 9007199254740992 := by
    rw [roundToDouble_of_near (176611750092961 / 9007199254740992) (-6) (5651576002974752) (by norm_num) (by norm_num [abs_of_pos]) (by norm_num [abs_of_pos]) (by norm_num) (by norm_num)]
    norm_num
  have h6 : roundToDouble (562949953421312 / 4880776096162775) = 4155570590422603 / 36028797018963968 := by
    rw [roundToDouble_of_near (562949953421312 / 4880776096162775) (-4) (8311141180845206) (by norm_num) (by norm_num [abs_of_pos]) (by norm_num [abs_of_pos]) (by norm_num) (by norm_num)]
    norm_num
  have h7 : roundToDouble (3377699720527872 / 4880776096162775) = 6233355885633905 / 9007199254740992 := by
    rw [roundToDouble_of_near (3377699720527872 / 4880776096162775) (-1) (6233355885633905) (by norm_num) (by norm_num [abs_of_pos]) (by norm_num [abs_of_pos]) (by norm_num) (by norm_num)]
    norm_num
  have h8 : roundToDouble (844424930131968 / 4880776096162775) = 6233355885633905 / 36028797018963968 := by
    rw [roundToDouble_of_near (844424930131968 / 4880776096162775) (-3) (6233355885633905) (by norm_num) (by norm_num [abs_of_pos]) (by norm_num [abs_of_pos]) (by norm_num) (by norm_num)]
    norm_num
  have h9 : roundToDouble 0 = 0 := roundToDouble_zero
  have h10 : roundToDouble (1) = 1 := by
    rw [roundToDouble_of_near (1) (0) (4503599627370496) (by norm_num) (by norm_num [abs_of_pos]) (by norm_num [abs_of_pos]) (by norm_num) (by norm_num)]
    norm_num
  have h11 : roundToDouble (4862017590794447 / 36028797018963968) = 4862017590794447 / 36028797018963968 := by
    rw [roundToDouble_of_near (4862017590794447 / 36028797018963968) (-3) (4862017590794447) (by norm_num) (by norm_num [abs_of_pos]) (by norm_num [abs_of_pos]) (by norm_num) (by norm_num)]
    norm_num
  have h12 : roundToDouble (29795441133330067 / 36028797018963968) = 7448860283332517 / 9007199254740992 := by
    rw [roundToDouble_of_near (29795441133330067 / 36028797018963968) (-1) (7448860283332517) (by norm_num) (by norm_num [abs_of_pos]) (by norm_num [abs_of_pos]) (by norm_num) (by norm_num)]
    norm_num
  have h13 : roundToDouble (36028797018963973 / 36028797018963968) = 4503599627370497 / 4503599627370496 := by
    rw [roundToDouble_of_near (36028797018963973 / 36028797018963968) (0) (4503599627370497) (by norm_num) (by norm_num [abs_of_pos]) (by norm_num [abs_of_pos]) (by norm_num) (by norm_num)]
    norm_num
  have hrate : uniformizationRateOfRounded roundToDouble [true, true, true, true] [17, 0, 0, 0]
      = 4880776096162775 / 281474976710656 := by
    have hunfold : uniformizationRateOfRounded roundToDouble [true, true, true, true]
        [17, 0, 0, 0]
        = roundToDouble (max (max (max (max 0 17) 0) 0) 0 * roundToDouble 1.02) := rfl
    rw [hunfold]
    norm_num [h1, h2, h3, h4, h5, h6, h7, h8, h9, h10, h11, h12, h13]
  have hrow : SparseMatrix.getRow (computeUniformizedMatrixRounded roundToDouble
        seventeenthsRateMatrix [true, true, true, true] (4880776096162775 / 281474976710656)
        [17, 0, 0, 0]) 0
      = [(0, roundToDouble (roundToDouble (roundToDouble (0 - 17)
            / (4880776096162775 / 281474976710656)) + 1)),
          (1, roundToDouble (2 / (4880776096162775 / 281474976710656))),
          (2, roundToDouble (12 / (4880776096162775 / 281474976710656))),
          (3, roundToDouble (3 / (4880776096162775 / 281474976710656)))] := rfl
  have hvalue : SparseMatrix.getRow (computeUniformizedMatrixRounded roundToDouble
        seventeenthsRateMatrix [true, true, true, true] (4880776096162775 / 281474976710656)
        [17, 0, 0, 0]) 0
      = [(0, 176611750092961 / 9007199254740992), (1, 4155570590422603 / 36028797018963968),
          (2, 6233355885633905 / 9007199254740992), (3, 6233355885633905 / 36028797018963968)] := by
    rw [hrow]
    norm_num [h1, h2, h3, h4, h5, h6, h7, h8, h9, h10, h11, h12, h13]
  have hE : ∀ s, s < SparseMatrix.getRowCount seventeenthsRateMatrix →
      ([17, 0, 0, 0] : List ℚ).getD s 0 = SparseMatrix.getRowSum seventeenthsRateMatrix s := by
    intro i hi
    have : i < 4 := hi
    interval_cases i <;>
      norm_num [seventeenthsRateMatrix, SparseMatrix.getRowSum, SparseMatrix.getRow, entrySum]
  have hnonneg : ∀ row ∈ seventeenthsRateMatrix.rows, ∀ e ∈ row, (0 : ℚ) ≤ e.2 := by
    simp only [seventeenthsRateMatrix]
    intro row hmem e he
    simp only [List.mem_cons, List.mem_singleton, List.not_mem_nil, or_false] at hmem
    rcases hmem with rfl | rfl | rfl | rfl
    · simp only [List.mem_cons, List.mem_singleton, List.not_mem_nil, or_false] at he
      rcases he with rfl | rfl | rfl <;> norm_num
    · cases he
    · cases he
    · cases he
  have hsum : SparseMatrix.getRowSum (computeUniformizedMatrixRounded roundToDouble
        seventeenthsRateMatrix [true, true, true, true] (4880776096162775 / 281474976710656)
        [17, 0, 0, 0]) 0
      = 9007199254740993 / 9007199254740992 := by
    unfold SparseMatrix.getRowSum
    rw [hvalue]
    norm_num [entrySum]
  refine ⟨by simp [SparseMatrix.WellFormed, seventeenthsRateMatrix], hnonneg, hE, hrate, hvalue,
    hsum, ?_, ?_⟩
  · rw [hsum]
    norm_num
  · rw [hvalue]
    norm_num [sumRounded, h1, h2, h3, h4, h5, h6, h7, h8, h9, h10, h11, h12, h13]

/-- C5, witness: the example chain with the states 0 and 1 retained and rate 3.06; state 0 has
the rate 1 to the dropped state 2 and its row sums to `1 - 1 / 3.06`. -/
theorem computeUniformizedMatrix_row_sums_witness :
    (SparseMatrix.WellFormed exampleRateMatrix
      ∧ (∀ row ∈ exampleRateMatrix.rows, ∀ e ∈ row, 0 ≤ e.2)
      ∧ (0 : ℚ) < 3.06
      ∧ [true, true, false].length = SparseMatrix.getRowCount exampleRateMatrix
      ∧ (∀ s, s < SparseMatrix.getRowCount exampleRateMatrix →
          exampleExitRates.getD s 0 = SparseMatrix.getRowSum exampleRateMatrix s))
      ∧ SparseMatrix.getRowSum
          (computeUniformizedMatrix exampleRateMatrix [true, true, false] 3.06 exampleExitRates)
          0 ≤ 1 := by
  have hwf : SparseMatrix.WellFormed exampleRateMatrix := by
    simp [SparseMatrix.WellFormed, exampleRateMatrix]
  have hnonneg : ∀ row ∈ exampleRateMatrix.rows, ∀ e ∈ row, 0 ≤ e.2 := by
    simp only [exampleRateMatrix]
    intro row hrow e he
    simp only [List.mem_cons, List.mem_singleton, List.not_mem_nil, or_false] at hrow
    rcases hrow with rfl | rfl | rfl
    · simp only [List.mem_cons, List.mem_singleton, List.not_mem_nil, or_false] at he
      rcases he with rfl | rfl <;> norm_num
    · cases he
    · cases he
  have hE : ∀ s, s < SparseMatrix.getRowCount exampleRateMatrix →
      exampleExitRates.getD s 0 = SparseMatrix.getRowSum exampleRateMatrix s := by
    intro i hi
    have : i < 3 := hi
    interval_cases i <;>
      norm_num [exampleExitRates, exampleRateMatrix, SparseMatrix.getRowSum,
        SparseMatrix.getRow, entrySum]
  exact ⟨⟨hwf, hnonneg, by norm_num, by decide, hE⟩,
    (computeUniformizedMatrix_row_sums exampleRateMatrix [true, true, false] 3.06
      exampleExitRates hwf hnonneg (by norm_num) (by decide) hE).1 0⟩

/-- C6: for a well-formed rate matrix `R`, `computeUniformizedMatrix R K q E` is a
`|K| x |K|` matrix whose rows and columns are the retained states in ascending order; its
off-diagonal entry at the positions of the retained states `i` and `j` is stored exactly when
`R` stores an entry `(i, j)` and is `R[i][j] / q`; its diagonal entry is stored for every
retained state and is `1 + (R[i][i] - E[i]) / q`, which is `1 - E[i] / q` when `R` stores no
entry `(i, i)`. -/
theorem computeUniformizedMatrix_entries (rateMatrix : SparseMatrix) (maybeStates : BitVector)
    (uniformizationRate : ℚ) (exitRates : List ℚ)
    (hwf : SparseMatrix.WellFormed rateMatrix) :
    SparseMatrix.getRowCount
        (computeUniformizedMatrix rateMatrix maybeStates uniformizationRate exitRates)
        = BitVector.getNumberOfSetBits maybeStates
      ∧ (computeUniformizedMatrix rateMatrix maybeStates uniformizationRate
          exitRates).columnCount = BitVector.getNumberOfSetBits maybeStates
      ∧ (BitVector.setBits maybeStates).Pairwise (fun x y => x < y)
      ∧ ∀ (a b : Nat) (ha : a < (BitVector.setBits maybeStates).length)
          (hb : b < (BitVector.setBits maybeStates).length),
          (a ≠ b →
            SparseMatrix.entry
                (computeUniformizedMatrix rateMatrix maybeStates uniformizationRate exitRates)
                a b
              = (SparseMatrix.entry rateMatrix ((BitVector.setBits maybeStates)[a])
                  ((BitVector.setBits maybeStates)[b])).map
                  (fun rate => rate / uniformizationRate))
          ∧ SparseMatrix.entry
                (computeUniformizedMatrix rateMatrix maybeStates uniformizationRate exitRates)
                a a
              = some (1 + (SparseMatrix.value rateMatrix ((BitVector.setBits maybeStates)[a])
                    ((BitVector.setBits maybeStates)[a])
                  - exitRates.getD ((BitVector.setBits maybeStates)[a]) 0)
                  / uniformizationRate)
          ∧ (SparseMatrix.entry rateMatrix ((BitVector.setBits maybeStates)[a])
                ((BitVector.setBits maybeStates)[a]) = none →
              SparseMatrix.entry
                  (computeUniformizedMatrix rateMatrix maybeStates uniformizationRate
                    exitRates) a a
                = some (1 - exitRates.getD ((BitVector.setBits maybeStates)[a]) 0
                    / uniformizationRate)) := by
  have hdiag : ∀ (a : Nat) (ha : a < (BitVector.setBits maybeStates).length),
      SparseMatrix.entry
          (computeUniformizedMatrix rateMatrix maybeStates uniformizationRate exitRates) a a
        = some (1 + (SparseMatrix.value rateMatrix ((BitVector.setBits maybeStates)[a])
              ((BitVector.setBits maybeStates)[a])
            - exitRates.getD ((BitVector.setBits maybeStates)[a]) 0)
            / uniformizationRate) := by
    intro a ha
    have hfind := find_getSubmatrixRow_diagonal maybeStates a ha
      (SparseMatrix.getRow rateMatrix ((BitVector.setBits maybeStates)[a]))
      (SparseMatrix.sorted_getRow hwf _)
    rw [find_rank_eq maybeStates a ha] at hfind
    unfold SparseMatrix.entry SparseMatrix.value SparseMatrix.entry
    rw [getRow_computeUniformizedMatrix _ _ _ _ a ha, find_map_uniformizeEntry]
    cases hfound : (getSubmatrixRow maybeStates true a false
        (SparseMatrix.getRow rateMatrix ((BitVector.setBits maybeStates)[a]))).find?
        (fun e => e.1 == a) with
    | none => rw [hfound] at hfind; simp at hfind
    | some e =>
      rw [hfound] at hfind
      have hcol : e.1 = a := by simpa using List.find?_some hfound
      simp only [Option.map_some', Option.some.injEq] at hfind
      simp only [Option.map_some', Option.some.injEq, uniformizeEntry, hcol, if_true]
      rw [← hfind]
      ring
  refine ⟨?_, rfl, BitVector.sorted_setBits maybeStates, ?_⟩
  · simp [SparseMatrix.getRowCount, computeUniformizedMatrix, BitVector.getNumberOfSetBits]
  · intro a b ha hb
    refine ⟨?_, hdiag a ha, ?_⟩
    · intro hab
      have hfind := find_getSubmatrixRow_offDiagonal maybeStates true a b (fun h => hab h.symm)
        (SparseMatrix.getRow rateMatrix ((BitVector.setBits maybeStates)[a])) false
      rw [find_rank_eq maybeStates b hb] at hfind
      unfold SparseMatrix.entry
      rw [getRow_computeUniformizedMatrix _ _ _ _ a ha, find_map_uniformizeEntry, ← hfind]
      cases hfound : (getSubmatrixRow maybeStates true a false
          (SparseMatrix.getRow rateMatrix ((BitVector.setBits maybeStates)[a]))).find?
          (fun e => e.1 == b) with
      | none => rfl
      | some e =>
        have hcol : e.1 = b := by simpa using List.find?_some hfound
        have hne : e.1 ≠ a := by omega
        simp [uniformizeEntry, hne]
    · intro hnone
      rw [hdiag a ha]
      unfold SparseMatrix.value
      rw [hnone]
      simp only [Option.getD_none, Option.some.injEq]
      ring

/-- C6, witness: the example chain with the states 0 and 1 retained and rate 3.06; state 0 has
no self-loop entry and gets the diagonal entry `1 - 3 / 3.06`, its entry to state 1 is
`2 / 3.06`, the entry to the dropped state 2 is gone, and the absorbing state 1 gets the
diagonal entry 1. -/
theorem computeUniformizedMatrix_entries_witness :
    SparseMatrix.WellFormed exampleRateMatrix
      ∧ SparseMatrix.getRowCount
          (computeUniformizedMatrix exampleRateMatrix [true, true, false] 3.06 exampleExitRates)
          = BitVector.getNumberOfSetBits [true, true, false]
      ∧ computeUniformizedMatrix exampleRateMatrix [true, true, false] 3.06 exampleExitRates
          = ⟨2, [[(0, 1 - 3 / 3.06), (1, 2 / 3.06)], [(1, 1)]]⟩ := by
  refine ⟨exampleRateMatrix_wellFormed,
    (computeUniformizedMatrix_entries exampleRateMatrix [true, true, false] 3.06
      exampleExitRates exampleRateMatrix_wellFormed).1, ?_⟩
  simp [computeUniformizedMatrix, SparseMatrix.getSubmatrix, BitVector.getNumberOfSetBits,
    BitVector.setBits, BitVector.get, BitVector.rank, SparseMatrix.getRow, getSubmatrixRow,
    uniformizeEntry, exampleRateMatrix, exampleExitRates, List.range_succ, List.filter]
  norm_num

/-- C7: in exact arithmetic, `computeProbabilityMatrix` keeps the shape and the sparsity pattern
of the rate matrix and divides the entries of row `i` by `exitRates[i]`; when the exit rates are
the row sums, every row with positive exit rate sums to exactly 1; a row without entries stays
empty whatever the exit-rate vector holds for it. -/
theorem computeProbabilityMatrix_stochastic (rateMatrix : SparseMatrix) (exitRates : List ℚ)
    (hE : ∀ i, i < SparseMatrix.getRowCount rateMatrix →
      exitRates.getD i 0 = SparseMatrix.getRowSum rateMatrix i) :
    SparseMatrix.getRowCount (computeProbabilityMatrix rateMatrix exitRates)
        = SparseMatrix.getRowCount rateMatrix
      ∧ (computeProbabilityMatrix rateMatrix exitRates).columnCount = rateMatrix.columnCount
      ∧ (∀ i, (SparseMatrix.getRow (computeProbabilityMatrix rateMatrix exitRates) i).map
            (fun e => e.1) = (SparseMatrix.getRow rateMatrix i).map (fun e => e.1))
      ∧ (∀ i j, SparseMatrix.entry (computeProbabilityMatrix rateMatrix exitRates) i j
            = (SparseMatrix.entry rateMatrix i j).map (fun rate => rate / exitRates.getD i 0))
      ∧ (∀ i, i < SparseMatrix.getRowCount rateMatrix → 0 < exitRates.getD i 0 →
            SparseMatrix.getRowSum (computeProbabilityMatrix rateMatrix exitRates) i = 1)
      ∧ (∀ i (otherRates : List ℚ), SparseMatrix.getRow rateMatrix i = [] →
            SparseMatrix.getRow (computeProbabilityMatrix rateMatrix otherRates) i = []) := by
  refine ⟨?_, rfl, ?_, ?_, ?_, ?_⟩
  · simp [SparseMatrix.getRowCount, computeProbabilityMatrix]
  · intro i
    rw [getRow_computeProbabilityMatrix, List.map_map]
    rfl
  · intro i j
    unfold SparseMatrix.entry
    rw [getRow_computeProbabilityMatrix, List.find?_map, Option.map_map, Option.map_map]
    rfl
  · intro i hi hpos
    unfold SparseMatrix.getRowSum
    rw [getRow_computeProbabilityMatrix, entrySum_map_div]
    have h := hE i hi
    unfold SparseMatrix.getRowSum at h
    rw [← h]
    exact div_self (ne_of_gt hpos)
  · intro i otherRates h
    rw [getRow_computeProbabilityMatrix, h]
    rfl

/-- C7, counterexample: in the instantiation for `double`, for the chain with the rates 1, 4
and 1 from state 0, whose exit rate 6 is the sum of the row, `computeProbabilityMatrix` stores
the row `[fl(1/6), fl(4/6), fl(1/6)]`; its entries sum to `1 - 2^-54` and not to 1, and added
from left to right in `double` they give `1 - 2^-53`. -/
theorem computeProbabilityMatrix_stochastic_counterexample :
    (∀ i, i < SparseMatrix.getRowCount sixthsRateMatrix →
        ([6, 0, 0, 0] : List ℚ).getD i 0 = SparseMatrix.getRowSum sixthsRateMatrix i)
      ∧ (0 : ℚ) < ([6, 0, 0, 0] : List ℚ).getD 0 0
      ∧ SparseMatrix.getRow
          (computeProbabilityMatrixRounded roundToDouble sixthsRateMatrix [6, 0, 0, 0]) 0
        = [(1, 6004799503160661 / 36028797018963968), (2, 6004799503160661 / 9007199254740992),
            (3, 6004799503160661 / 36028797018963968)]
      ∧ SparseMatrix.getRowSum
          (computeProbabilityMatrixRounded roundToDouble sixthsRateMatrix [6, 0, 0, 0]) 0
        = 18014398509481983 / 18014398509481984
      ∧ SparseMatrix.getRowSum
          (computeProbabilityMatrixRounded roundToDouble sixthsRateMatrix [6, 0, 0, 0]) 0 ≠ 1
      ∧ sumRounded roundToDouble ((SparseMatrix.getRow
          (computeProbabilityMatrixRounded roundToDouble sixthsRateMatrix [6, 0, 0, 0]) 0).map
            (fun e => e.2))
        = 9007199254740991 / 9007199254740992 := by
  have h1 : roundToDouble (1 / 6) = 6004799503160661 / 36028797018963968 := by
    rw [roundToDouble_of_near (1 / 6) (-3) (6004799503160661) (by norm_num) (by norm_num [abs_of_pos]) (by norm_num [abs_of_pos]) (by norm_num) (by norm_num)]
    norm_num
  have h2 : roundToDouble (2 / 3) = 6004799503160661 / 9007199254740992 := by
    rw [roundToDouble_of_near (2 / 3) (-1) (6004799503160661) (by norm_num) (by norm_num [abs_of_pos]) (by norm_num [abs_of_pos]) (by norm_num) (by norm_num)]
    norm_num
  have h3 : roundToDouble (6004799503160661 / 36028797018963968) = 6004799503160661 / 36028797018963968 := by
    rw [roundToDouble_of_near (6004799503160661 / 36028797018963968) (-3) (6004799503160661) (by norm_num) (by norm_num [abs_of_pos]) (by norm_num [abs_of_pos]) (by norm_num) (by norm_num)]
    norm_num
  have h4 : roundToDouble (30023997515803305 / 36028797018963968) = 3752999689475413 / 4503599627370496 := by
    rw [roundToDouble_of_near (30023997515803305 / 36028797018963968) (-1) (7505999378950826) (by norm_num) (by norm_num [abs_of_pos]) (by norm_num [abs_of_pos]) (by norm_num) (by norm_num)]
    norm_num
  have h5 : roundToDouble (36028797018963965 / 36028797018963968) = 9007199254740991 / 9007199254740992 := by
    rw [roundToDouble_of_near (36028797018963965 / 36028797018963968) (-1) (9007199254740991) (by norm_num) (by norm_num [abs_of_pos]) (by norm_num [abs_of_pos]) (by norm_num) (by norm_num)]
    norm_num
  have hrow : SparseMatrix.getRow
      (computeProbabilityMatrixRounded roundToDouble sixthsRateMatrix [6, 0, 0, 0]) 0
      = [(1, roundToDouble (1 / 6)), (2, roundToDouble (4 / 6)), (3, roundToDouble (1 / 6))] :=
    rfl
  have hvalue : SparseMatrix.getRow
      (computeProbabilityMatrixRounded roundToDouble sixthsRateMatrix [6, 0, 0, 0]) 0
      = [(1, 6004799503160661 / 36028797018963968), (2, 6004799503160661 / 9007199254740992),
          (3, 6004799503160661 / 36028797018963968)] := by
    rw [hrow]
    norm_num [h1, h2, h3, h4, h5]
  have hE : ∀ i, i < SparseMatrix.getRowCount sixthsRateMatrix →
      ([6, 0, 0, 0] : List ℚ).getD i 0 = SparseMatrix.getRowSum sixthsRateMatrix i := by
    intro i hi
    have : i < 4 := hi
    interval_cases i <;>
      norm_num [sixthsRateMatrix, SparseMatrix.getRowSum, SparseMatrix.getRow, entrySum]
  have hsum : SparseMatrix.getRowSum
      (computeProbabilityMatrixRounded roundToDouble sixthsRateMatrix [6, 0, 0, 0]) 0
      = 18014398509481983 / 18014398509481984 := by
    unfold SparseMatrix.getRowSum
    rw [hvalue]
    norm_num [entrySum]
  refine ⟨hE, by norm_num, hvalue, hsum, ?_, ?_⟩
  · rw [hsum]
    norm_num
  · rw [hvalue]
    norm_num [sumRounded, h1, h2, h3, h4, h5]

/-- C7, witness: the chain with rate 2 from state 0 to state 1 and rate 1 from state 0 to state
2 has the row `[2/3, 1/3]` for state 0, which sums to 1, and empty rows for the absorbing
states. -/
theorem computeProbabilityMatrix_stochastic_witness :
    (∀ i, i < SparseMatrix.getRowCount exampleRateMatrix →
        exampleExitRates.getD i 0 = SparseMatrix.getRowSum exampleRateMatrix i)
      ∧ computeProbabilityMatrix exampleRateMatrix exampleExitRates
          = ⟨3, [[(1, 2 / 3), (2, 1 / 3)], [], []]⟩
      ∧ SparseMatrix.getRowSum (computeProbabilityMatrix exampleRateMatrix exampleExitRates) 0
          = 1 := by
  have hE : ∀ i, i < SparseMatrix.getRowCount exampleRateMatrix →
      exampleExitRates.getD i 0 = SparseMatrix.getRowSum exampleRateMatrix i := by
    intro i hi
    have : i < 3 := hi
    interval_cases i <;>
      norm_num [exampleExitRates, exampleRateMatrix, SparseMatrix.getRowSum,
        SparseMatrix.getRow, entrySum]
  refine ⟨hE, ?_, ?_⟩
  · simp [computeProbabilityMatrix, exampleRateMatrix, exampleExitRates, SparseMatrix.getRow,
      List.range_succ]
  · exact (computeProbabilityMatrix_stochastic exampleRateMatrix exampleExitRates hE).2.2.2.2.1 0
      (by decide) (by norm_num [exampleExitRates])

/-- C8: for the interval `[0, inf]`, `computeBoundedUntilProbabilities` is
`computeUntilProbabilities` on the same arguments, that is the DTMC until computation on
`computeProbabilityMatrix rateMatrix exitRates`; no graph analysis is run and no matrix is
uniformized. -/
theorem computeBoundedUntilProbabilities_unbounded (env : Environment) (goal : SolveGoal)
    (rateMatrix backwardTransitions : SparseMatrix) (phiStates psiStates : BitVector)
    (exitRates : List ℚ) (qualitative : Bool) :
    computeBoundedUntilProbabilities env goal rateMatrix backwardTransitions phiStates psiStates
        exitRates qualitative 0 none
      = computeUntilProbabilities env goal rateMatrix backwardTransitions exitRates phiStates
          psiStates qualitative
    ∧ computeUntilProbabilities env goal rateMatrix backwardTransitions exitRates phiStates
          psiStates qualitative
      = env.dtmcComputeUntilProbabilities goal (computeProbabilityMatrix rateMatrix exitRates)
          backwardTransitions phiStates psiStates qualitative
    ∧ (computeBoundedUntilProbabilitiesTraced env goal rateMatrix backwardTransitions phiStates
        psiStates exitRates qualitative 0 none).1 = ⟨false, []⟩ := by
  simp [computeBoundedUntilProbabilities, computeBoundedUntilProbabilitiesTraced,
    computeUntilProbabilities]

/-- C9: for every interval other than `[0, inf]` and every input on which
`computeBoundedUntilProbabilities` returns a vector, the entry of every state outside
`performProbGreater0 backwardTransitions phiStates psiStates` is 0, and every state set handed to
`computeUniformizedMatrix` lies inside that set. The state sets range over the states of the
rate matrix. -/
theorem computeBoundedUntilProbabilities_probability_zero (env : Environment) (goal : SolveGoal)
    (rateMatrix backwardTransitions : SparseMatrix) (phiStates psiStates : BitVector)
    (exitRates : List ℚ) (qualitative : Bool) (lowerBound : ℚ) (upperBound : Option ℚ)
    (result : List ℚ)
    (hphi : phiStates.length = SparseMatrix.getRowCount rateMatrix)
    (hinterval : ¬ (lowerBound = 0 ∧ upperBound = none))
    (hreturn : computeBoundedUntilProbabilities env goal rateMatrix backwardTransitions phiStates
      psiStates exitRates qualitative lowerBound upperBound = Except.ok result) :
    (∀ s, s < SparseMatrix.getRowCount rateMatrix →
        BitVector.get (performProbGreater0 backwardTransitions phiStates psiStates) s = false →
        ∀ v, result[s]? = some v → v = 0)
      ∧ ∀ states ∈ (computeBoundedUntilProbabilitiesTraced env goal rateMatrix
            backwardTransitions phiStates psiStates exitRates qualitative lowerBound
            upperBound).1.uniformized,
          ∀ s, BitVector.get states s = true →
            BitVector.get (performProbGreater0 backwardTransitions phiStates psiStates) s
              = true := by
  -- the facts about the state sets of the function
  have hpsi : ∀ s, s < SparseMatrix.getRowCount rateMatrix →
      BitVector.get (performProbGreater0 backwardTransitions phiStates psiStates) s = false →
      BitVector.get psiStates s = false := by
    intro s hs hout
    by_contra hne
    have h1 : BitVector.get psiStates s = true := by simpa using hne
    have h2 := psi_subset_performProbGreater0 backwardTransitions phiStates psiStates s
      (by omega) h1
    rw [hout] at h2
    exact Bool.false_ne_true h2
  have hand : ∀ (other : BitVector) s,
      BitVector.get (performProbGreater0 backwardTransitions phiStates psiStates) s = false →
      BitVector.get
        (BitVector.and (performProbGreater0 backwardTransitions phiStates psiStates) other) s
        = false :=
    fun other s h => BitVector.get_and_eq_false_left _ other s h
  have hrel : SparseMatrix.getRowCount rateMatrix
      ≤ (BitVector.and (performProbGreater0 backwardTransitions phiStates psiStates)
          phiStates).length := by
    rw [BitVector.length_and, length_performProbGreater0, hphi]
    simp
  have hG : SparseMatrix.getRowCount rateMatrix
      ≤ (performProbGreater0 backwardTransitions phiStates psiStates).length := by
    rw [length_performProbGreater0, hphi]
  have hzero : ZeroOutside (performProbGreater0 backwardTransitions phiStates psiStates)
      (SparseMatrix.getRowCount rateMatrix) result
      ∧ ∀ states ∈ (computeBoundedUntilProbabilitiesTraced env goal rateMatrix
            backwardTransitions phiStates psiStates exitRates qualitative lowerBound
            upperBound).1.uniformized,
          ∀ s, BitVector.get states s = true →
            BitVector.get (performProbGreater0 backwardTransitions phiStates psiStates) s
              = true := by
    unfold computeBoundedUntilProbabilities at hreturn
    unfold computeBoundedUntilProbabilitiesTraced at hreturn ⊢
    rw [if_neg hinterval] at hreturn ⊢
    simp only at hreturn ⊢
    by_cases hnonempty :
        (!BitVector.empty (performProbGreater0 backwardTransitions phiStates psiStates)) = true
    · -- some state has positive probability
      rw [if_pos hnonempty] at hreturn ⊢
      cases upperBound with
      | some upper =>
        simp only at hreturn ⊢
        by_cases hupper : upper = 0
        · -- the interval [0, 0]
          rw [if_pos hupper] at hreturn ⊢
          rw [← Except.ok.inj hreturn]
          exact ⟨zeroOutside_setVectorValue (zeroOutside_replicate _ _ _) _ _ hpsi,
            fun _ h => absurd h (List.not_mem_nil _)⟩
        · rw [if_neg hupper] at hreturn ⊢
          by_cases hlower : lowerBound = 0
          · -- the interval [0, t]
            rw [if_pos hlower] at hreturn ⊢
            by_cases hmaybe : (!BitVector.empty (BitVector.and
                (performProbGreater0 backwardTransitions phiStates psiStates)
                (BitVector.complement psiStates))) = true
            · rw [if_pos hmaybe] at hreturn ⊢
              cases hstage : computeMaybeStateProbabilities env rateMatrix
                  (BitVector.and (performProbGreater0 backwardTransitions phiStates psiStates)
                    (BitVector.complement psiStates)) psiStates exitRates upper with
              | error e => rw [hstage] at hreturn; cases hreturn
              | ok subresult =>
                rw [hstage] at hreturn
                simp only at hreturn ⊢
                rw [← Except.ok.inj hreturn]
                refine ⟨zeroOutside_setVectorValues
                  (zeroOutside_setVectorValue (zeroOutside_replicate _ _ _) _ _ hpsi) _ _
                  (fun s _ h => hand _ s h), ?_⟩
                intro states hstates s hs
                rw [List.mem_singleton] at hstates
                subst hstates
                exact BitVector.get_and_left hs
            · rw [if_neg hmaybe] at hreturn ⊢
              rw [← Except.ok.inj hreturn]
              exact ⟨zeroOutside_setVectorValue (zeroOutside_replicate _ _ _) _ _ hpsi,
                fun _ h => absurd h (List.not_mem_nil _)⟩
          · rw [if_neg hlower] at hreturn ⊢
            by_cases hne : lowerBound ≠ upper
            · -- the interval [t, t'] with t ≠ t'
              rw [if_pos hne] at hreturn ⊢
              have hfinal : ∀ newSubresult : List ℚ,
                  ZeroOutside (performProbGreater0 backwardTransitions phiStates psiStates)
                    (SparseMatrix.getRowCount rateMatrix)
                    (setVectorValues
                      (setVectorValue (List.replicate (SparseMatrix.getRowCount rateMatrix) 0)
                        (BitVector.complement (BitVector.and
                          (performProbGreater0 backwardTransitions phiStates psiStates)
                          phiStates)) 0)
                      (BitVector.and
                        (performProbGreater0 backwardTransitions phiStates psiStates) phiStates)
                      newSubresult) :=
                fun newSubresult => zeroOutside_setVectorValues
                  (zeroOutside_setVectorValue_complement _ _ _ _ hrel (fun s h => hand _ s h))
                  _ _ (fun s _ h => hand _ s h)
              by_cases hmaybe : (!BitVector.empty (BitVector.and
                  (performProbGreater0 backwardTransitions phiStates psiStates)
                  (BitVector.complement psiStates))) = true
              · rw [if_pos hmaybe] at hreturn ⊢
                cases hstage : computeMaybeStateProbabilities env rateMatrix
                    (BitVector.and (performProbGreater0 backwardTransitions phiStates psiStates)
                      (BitVector.complement psiStates)) psiStates exitRates
                    (upper - lowerBound) with
                | error e => rw [hstage] at hreturn; cases hreturn
                | ok subresult =>
                  rw [hstage] at hreturn
                  simp only at hreturn ⊢
                  cases hprop : propagateOver env rateMatrix
                      (BitVector.and
                        (performProbGreater0 backwardTransitions phiStates psiStates) phiStates)
                      exitRates lowerBound
                      (setVectorValues
                        (setVectorValue
                          (List.replicate (BitVector.getNumberOfSetBits (BitVector.and
                            (performProbGreater0 backwardTransitions phiStates psiStates)
                            phiStates)) 0)
                          (BitVector.restrict psiStates (BitVector.and
                            (performProbGreater0 backwardTransitions phiStates psiStates)
                            phiStates)) 1)
                        (BitVector.restrict
                          (BitVector.and
                            (performProbGreater0 backwardTransitions phiStates psiStates)
                            (BitVector.complement psiStates))
                          (BitVector.and
                            (performProbGreater0 backwardTransitions phiStates psiStates)
                            phiStates))
                        subresult) with
                  | error e => rw [hprop] at hreturn; cases hreturn
                  | ok newSubresult =>
                    rw [hprop] at hreturn
                    simp only at hreturn ⊢
                    rw [← Except.ok.inj hreturn]
                    refine ⟨hfinal newSubresult, ?_⟩
                    intro states hstates s hs
                    simp only [List.cons_append, List.nil_append, List.mem_cons,
                      List.mem_singleton, List.not_mem_nil, or_false] at hstates
                    rcases hstates with rfl | rfl <;> exact BitVector.get_and_left hs
              · rw [if_neg hmaybe] at hreturn ⊢
                simp only at hreturn ⊢
                cases hprop : propagateOver env rateMatrix
                    (BitVector.and
                      (performProbGreater0 backwardTransitions phiStates psiStates) phiStates)
                    exitRates lowerBound
                    (setVectorValue
                      (List.replicate (BitVector.getNumberOfSetBits (BitVector.and
                        (performProbGreater0 backwardTransitions phiStates psiStates)
                        phiStates)) 0)
                      (BitVector.restrict psiStates (BitVector.and
                        (performProbGreater0 backwardTransitions phiStates psiStates)
                        phiStates)) 1) with
                | error e => rw [hprop] at hreturn; cases hreturn
                | ok newSubresult =>
                  rw [hprop] at hreturn
                  simp only at hreturn ⊢
                  rw [← Except.ok.inj hreturn]
                  refine ⟨hfinal newSubresult, ?_⟩
                  intro states hstates s hs
                  simp only [List.nil_append, List.mem_singleton] at hstates
                  subst hstates
                  exact BitVector.get_and_left hs
            · -- the interval [t, t]
              rw [if_neg hne] at hreturn ⊢
              cases hprop : propagateOver env rateMatrix
                  (performProbGreater0 backwardTransitions phiStates psiStates) exitRates
                  lowerBound
                  (setVectorValue
                    (List.replicate (BitVector.getNumberOfSetBits
                      (performProbGreater0 backwardTransitions phiStates psiStates)) 0)
                    (BitVector.restrict psiStates
                      (performProbGreater0 backwardTransitions phiStates psiStates)) 1) with
              | error e => rw [hprop] at hreturn; cases hreturn
              | ok newSubresult =>
                rw [hprop] at hreturn
                simp only at hreturn ⊢
                rw [← Except.ok.inj hreturn]
                refine ⟨zeroOutside_setVectorValues
                  (zeroOutside_setVectorValue_complement _ _ _ _ hG (fun s h => h))
                  _ _ (fun s _ h => h), ?_⟩
                intro states hstates s hs
                rw [List.mem_singleton] at hstates
                subst hstates
                exact hs
      | none =>
        -- the interval [t, inf]
        simp only at hreturn ⊢
        cases huntil : computeUntilProbabilities env SolveGoal.default rateMatrix
            backwardTransitions exitRates phiStates psiStates qualitative with
        | error e => rw [huntil] at hreturn; cases hreturn
        | ok untilResult =>
          rw [huntil] at hreturn
          simp only at hreturn ⊢
          cases hprop : propagateOver env rateMatrix
              (BitVector.and
                (performProbGreater0 backwardTransitions phiStates psiStates) phiStates)
              exitRates lowerBound
              (selectVectorValues
                (BitVector.and
                  (performProbGreater0 backwardTransitions phiStates psiStates) phiStates)
                untilResult) with
          | error e => rw [hprop] at hreturn; cases hreturn
          | ok subResult =>
            rw [hprop] at hreturn
            simp only at hreturn ⊢
            rw [← Except.ok.inj hreturn]
            refine ⟨zeroOutside_setVectorValues
              (zeroOutside_setVectorValue_complement _ _ _ _ hrel (fun s h => hand _ s h))
              _ _ (fun s _ h => hand _ s h), ?_⟩
            intro states hstates s hs
            rw [List.mem_singleton] at hstates
            subst hstates
            exact BitVector.get_and_left hs
    · -- no state has positive probability
      rw [if_neg hnonempty] at hreturn ⊢
      rw [← Except.ok.inj hreturn]
      exact ⟨zeroOutside_replicate _ _ _, fun _ h => absurd h (List.not_mem_nil _)⟩
  exact hzero

/-- C9, witness: on the example chain and the interval `[0, 1]` the function returns
`[15200/38103, 1, 0]`; state 2 cannot reach the psi state 1, it has result 0, and the only
uniformized state set `{0}` lies inside the probability-greater-0 set `{0, 1}`. -/
theorem computeBoundedUntilProbabilities_probability_zero_witness :
    ([true, true, true].length = SparseMatrix.getRowCount exampleRateMatrix
      ∧ ¬ ((0 : ℚ) = 0 ∧ (some 1 : Option ℚ) = none)
      ∧ computeBoundedUntilProbabilities exampleEnvironment SolveGoal.default exampleRateMatrix
          exampleBackwardTransitions [true, true, true] [false, true, false] exampleExitRates
          false 0 (some 1) = Except.ok [15200 / 38103, 1, 0])
      ∧ (∀ s, s < SparseMatrix.getRowCount exampleRateMatrix →
          BitVector.get (performProbGreater0 exampleBackwardTransitions [true, true, true]
            [false, true, false]) s = false →
          ∀ v, ([15200 / 38103, 1, 0] : List ℚ)[s]? = some v → v = 0) := by
  have hreturn : computeBoundedUntilProbabilities exampleEnvironment SolveGoal.default
      exampleRateMatrix exampleBackwardTransitions [true, true, true] [false, true, false]
      exampleExitRates false 0 (some 1) = Except.ok [15200 / 38103, 1, 0] := by
    unfold computeBoundedUntilProbabilities
    rw [computeBoundedUntilProbabilitiesTraced_example]
  exact ⟨⟨by decide, by simp, hreturn⟩,
    (computeBoundedUntilProbabilities_probability_zero exampleEnvironment SolveGoal.default
      exampleRateMatrix exampleBackwardTransitions [true, true, true] [false, true, false]
      exampleExitRates false 0 (some 1) [15200 / 38103, 1, 0] (by decide) (by simp)
      hreturn).1⟩

/-- C10: the claim fails on the chain with rate 1 from state 0 to the absorbing state 1, with phi
state 0, psi state 1 and the interval `[1, 1]`. For every Fox-Glynn result whose total weight is
the non-zero sum of its weights, the code uniformizes across both probability-greater-0 states,
the psi state 1 included although it is no phi state, and returns 1 for state 1. The
specification of the case, the branch for `t ≠ t'` with the indicator of the psi states as first
stage, uniformizes across the phi state 0 only and gives `[0, 0]`. -/
theorem computeBoundedUntilProbabilities_point_interval_psi_not_phi (env : Environment)
    (htotal : (env.foxGlynn (1 * 1.02) (env.precision / 8)).totalWeight ≠ 0)
    (hsum : (env.foxGlynn (1 * 1.02) (env.precision / 8)).totalWeight
      = ∑ k ∈ Finset.Icc (env.foxGlynn (1 * 1.02) (env.precision / 8)).left
          (env.foxGlynn (1 * 1.02) (env.precision / 8)).right,
          (env.foxGlynn (1 * 1.02) (env.precision / 8)).weights.getD
            (k - (env.foxGlynn (1 * 1.02) (env.precision / 8)).left) 0) :
    (∃ p : ℚ, computeBoundedUntilProbabilitiesTraced env SolveGoal.default twoStateRateMatrix
        twoStateBackwardTransitions [true, false] [false, true] [1, 0] false 1 (some 1)
      = (⟨true, [[true, true]]⟩, Except.ok [p, 1]))
    ∧ pointIntervalBySpecification env twoStateRateMatrix twoStateBackwardTransitions
        [true, false] [false, true] [1, 0] 1 = Except.ok [0, 0] := by
  have hG : (!BitVector.empty [true, true]) = true := by decide
  have hn : BitVector.getNumberOfSetBits [true, true] = 2 := by decide
  have hrestrict : BitVector.restrict [false, true] [true, true] = [false, true] := by decide
  have hrel : BitVector.and [true, true] [true, false] = [true, false] := by decide
  have hnrel : BitVector.getNumberOfSetBits [true, false] = 1 := by decide
  have hrestrict2 : BitVector.restrict [false, true] [true, false] = [false] := by decide
  have hseed : setVectorValue (List.replicate 2 0) [false, true] 1 = [0, 1] := by
    simp [setVectorValue, BitVector.get, List.mapIdx_cons]
  have hseed2 : setVectorValue (List.replicate 1 0) [false] 1 = [0] := by
    simp [setVectorValue, BitVector.get, List.mapIdx_cons]
  have hrows : SparseMatrix.getRowCount twoStateRateMatrix = 2 := rfl
  constructor
  · -- the code
    obtain ⟨hlen, hformula⟩ := computeTransientProbabilities_plain_formula env
      ⟨2, [[(0, 1 / 51), (1, 50 / 51)], [(1, 1)]]⟩ none 1 1.02 [0, 1] (by norm_num) rfl
    have hone : (computeTransientProbabilities env false
        ⟨2, [[(0, 1 / 51), (1, 50 / 51)], [(1, 1)]]⟩ none 1 1.02 [0, 1]).getD 1 0 = 1 := by
      rw [hformula 1]
      simp only [transientIterate_twoState_all, mul_one]
      rw [← Finset.sum_div, ← hsum]
      exact div_self htotal
    obtain ⟨p, p1, hp⟩ : ∃ p p1, computeTransientProbabilities env false
        ⟨2, [[(0, 1 / 51), (1, 50 / 51)], [(1, 1)]]⟩ none 1 1.02 [0, 1] = [p, p1] := by
      match hv : computeTransientProbabilities env false
          ⟨2, [[(0, 1 / 51), (1, 50 / 51)], [(1, 1)]]⟩ none 1 1.02 [0, 1], hlen with
      | [p, p1], _ => exact ⟨p, p1, rfl⟩
    rw [hp] at hone
    have hp1 : p1 = 1 := hone
    subst hp1
    refine ⟨p, ?_⟩
    have hfinal : setVectorValues
        (setVectorValue (List.replicate 2 0) (BitVector.complement [true, true]) 0)
        [true, true] [p, 1] = [p, 1] := rfl
    unfold computeBoundedUntilProbabilitiesTraced
    simp only [performProbGreater0_twoState, hG, if_true, hn, hrestrict, hseed,
      propagateOver_twoState_all, hrows, hp, hfinal]
    simp
  · -- the specification
    obtain ⟨hlen, hformula⟩ := computeTransientProbabilities_plain_formula env
      ⟨1, [[(0, 1 / 51)]]⟩ none 1 1.02 [0] (by norm_num) rfl
    have hzero : (computeTransientProbabilities env false ⟨1, [[(0, 1 / 51)]]⟩ none 1 1.02
        [0]).getD 0 0 = 0 := by
      rw [hformula 0]
      simp only [transientIterate_twoState_phi]
      simp
    have hp : computeTransientProbabilities env false ⟨1, [[(0, 1 / 51)]]⟩ none 1 1.02 [0]
        = [0] := by
      match hv : computeTransientProbabilities env false ⟨1, [[(0, 1 / 51)]]⟩ none 1 1.02 [0],
        hlen with
      | [p], _ =>
        rw [hv] at hzero
        have : p = 0 := hzero
        rw [this]
    have hfinal2 : setVectorValues
        (setVectorValue (List.replicate 2 0) (BitVector.complement [true, false]) 0)
        [true, false] [0] = [0, 0] := by
      have h : setVectorValues
          (setVectorValue (List.replicate 2 0) (BitVector.complement [true, false]) 0)
          [true, false] [0] = [0, if false = true then 0 else 0] := rfl
      rw [h]
      simp
    unfold pointIntervalBySpecification
    simp only [performProbGreater0_twoState, hG, if_true, hrel, hnrel, hrestrict2, hseed2,
      propagateOver_twoState_phi, hrows, hp, hfinal2]

/-- C10, witness: with the Poisson masses of the indices 0, 1 and 2 for the rate 1.02 as
Fox-Glynn result, the code returns `[7600/12701, 1]` and uniformizes across `{0, 1}`, while the
specification gives `[0, 0]`. -/
theorem computeBoundedUntilProbabilities_point_interval_psi_not_phi_witness :
    ((exampleEnvironment.foxGlynn (1 * 1.02) (exampleEnvironment.precision / 8)).totalWeight ≠ 0
      ∧ (exampleEnvironment.foxGlynn (1 * 1.02) (exampleEnvironment.precision / 8)).totalWeight
        = ∑ k ∈ Finset.Icc
            (exampleEnvironment.foxGlynn (1 * 1.02) (exampleEnvironment.precision / 8)).left
            (exampleEnvironment.foxGlynn (1 * 1.02) (exampleEnvironment.precision / 8)).right,
            (exampleEnvironment.foxGlynn (1 * 1.02)
              (exampleEnvironment.precision / 8)).weights.getD
              (k - (exampleEnvironment.foxGlynn (1 * 1.02)
                (exampleEnvironment.precision / 8)).left) 0)
      ∧ computeBoundedUntilProbabilitiesTraced exampleEnvironment SolveGoal.default
          twoStateRateMatrix twoStateBackwardTransitions [true, false] [false, true] [1, 0]
          false 1 (some 1)
        = (⟨true, [[true, true]]⟩, Except.ok [7600 / 12701, 1])
      ∧ pointIntervalBySpecification exampleEnvironment twoStateRateMatrix
          twoStateBackwardTransitions [true, false] [false, true] [1, 0] 1
        = Except.ok [0, 0] := by
  have htotal : (exampleEnvironment.foxGlynn (1 * 1.02)
      (exampleEnvironment.precision / 8)).totalWeight ≠ 0 := by
    norm_num [exampleEnvironment]
  have hsum : (exampleEnvironment.foxGlynn (1 * 1.02)
      (exampleEnvironment.precision / 8)).totalWeight
      = ∑ k ∈ Finset.Icc
          (exampleEnvironment.foxGlynn (1 * 1.02) (exampleEnvironment.precision / 8)).left
          (exampleEnvironment.foxGlynn (1 * 1.02) (exampleEnvironment.precision / 8)).right,
          (exampleEnvironment.foxGlynn (1 * 1.02)
            (exampleEnvironment.precision / 8)).weights.getD
            (k - (exampleEnvironment.foxGlynn (1 * 1.02)
              (exampleEnvironment.precision / 8)).left) 0 := by
    rw [sum_Icc_eq_sum_range]
    simp only [exampleEnvironment]
    norm_num [Finset.sum_range_succ]
  obtain ⟨⟨p, hp⟩, hspec⟩ :=
    computeBoundedUntilProbabilities_point_interval_psi_not_phi exampleEnvironment htotal hsum
  refine ⟨⟨htotal, hsum⟩, ?_, hspec⟩
  have hvalue : computeTransientProbabilities exampleEnvironment false
      ⟨2, [[(0, 1 / 51), (1, 50 / 51)], [(1, 1)]]⟩ none 1 1.02 [0, 1]
      = [7600 / 12701, 1] := by
    simp [computeTransientProbabilities, computeTransientProbabilitiesTraced,
      exampleEnvironment, transientWeights, windowStep, List.range'_succ, multiply,
      multiplyRow, applyPointwise, SparseMatrix.getRow, List.range_succ, getElem_one_cons]
    norm_num
  have hG : (!BitVector.empty [true, true]) = true := by decide
  have hn : BitVector.getNumberOfSetBits [true, true] = 2 := by decide
  have hrestrict : BitVector.restrict [false, true] [true, true] = [false, true] := by decide
  have hseed : setVectorValue (List.replicate 2 0) [false, true] 1 = [0, 1] := by
    simp [setVectorValue, BitVector.get, List.mapIdx_cons]
  have hrows : SparseMatrix.getRowCount twoStateRateMatrix = 2 := rfl
  have hfinal : setVectorValues
      (setVectorValue (List.replicate 2 0) (BitVector.complement [true, true]) 0) [true, true]
      [7600 / 12701, 1] = [7600 / 12701, 1] := rfl
  unfold computeBoundedUntilProbabilitiesTraced
  simp only [performProbGreater0_twoState, hG, if_true, hn, hrestrict, hseed,
    propagateOver_twoState_all, hrows, hvalue, hfinal]
  simp

/-- C11: for the interval `[0, t]` with `0 < t < inf`, with `M` the states of positive
probability that are not psi states and `q` the rate computed over `M`, which is positive
whenever `M` is not empty: `computeBoundedUntilProbabilities` returns a vector with one entry
per state that is 1 on every psi state, 0 on every state outside `M` and the psi states, and on
every state of `M` the entry, at the position of the state in `M`, of the plain output of
`computeTransientProbabilities` for `computeUniformizedMatrix rateMatrix M q exitRates`, the
add-vector `b[s] = (sum of the rates from s into the psi states) / q`, the zero initial vector
and the time bound `t`; and `q` is `1.02` times the maximal exit rate over `M`. The state sets
range over the states of the rate matrix. -/
theorem computeBoundedUntilProbabilities_upperBounded (env : Environment) (goal : SolveGoal)
    (rateMatrix backwardTransitions : SparseMatrix) (phiStates psiStates : BitVector)
    (exitRates : List ℚ) (qualitative : Bool) (t : ℚ)
    (hphi : phiStates.length = SparseMatrix.getRowCount rateMatrix)
    (ht : 0 < t)
    (hrate : BitVector.empty (maybeStatesOf backwardTransitions phiStates psiStates) = false →
      0 < uniformizationRateOf (maybeStatesOf backwardTransitions phiStates psiStates)
        exitRates) :
    ∃ result : List ℚ,
      computeBoundedUntilProbabilities env goal rateMatrix backwardTransitions phiStates
          psiStates exitRates qualitative 0 (some t) = Except.ok result
      ∧ result.length = SparseMatrix.getRowCount rateMatrix
      ∧ (∀ s, s < SparseMatrix.getRowCount rateMatrix →
          (BitVector.get psiStates s = true → result[s]? = some 1)
          ∧ (BitVector.get psiStates s = false →
              BitVector.get (maybeStatesOf backwardTransitions phiStates psiStates) s = false →
              result[s]? = some 0)
          ∧ (BitVector.get (maybeStatesOf backwardTransitions phiStates psiStates) s = true →
              result[s]? = some ((computeTransientProbabilities env false
                (computeUniformizedMatrix rateMatrix
                  (maybeStatesOf backwardTransitions phiStates psiStates)
                  (uniformizationRateOf (maybeStatesOf backwardTransitions phiStates psiStates)
                    exitRates) exitRates)
                (some ((BitVector.setBits
                    (maybeStatesOf backwardTransitions phiStates psiStates)).map (fun m =>
                  entrySum ((SparseMatrix.getRow rateMatrix m).filter
                    (fun e => BitVector.get psiStates e.1))
                  / uniformizationRateOf (maybeStatesOf backwardTransitions phiStates psiStates)
                      exitRates)))
                t
                (uniformizationRateOf (maybeStatesOf backwardTransitions phiStates psiStates)
                  exitRates)
                (List.replicate (BitVector.getNumberOfSetBits
                  (maybeStatesOf backwardTransitions phiStates psiStates)) 0)).getD
                (BitVector.rank (maybeStatesOf backwardTransitions phiStates psiStates) s) 0)))
      ∧ (BitVector.empty (maybeStatesOf backwardTransitions phiStates psiStates) = false →
          IsInflatedMaximalExitRate (maybeStatesOf backwardTransitions phiStates psiStates)
            exitRates
            (uniformizationRateOf (maybeStatesOf backwardTransitions phiStates psiStates)
              exitRates)) := by
  have hlast : BitVector.empty (maybeStatesOf backwardTransitions phiStates psiStates) = false →
      IsInflatedMaximalExitRate (maybeStatesOf backwardTransitions phiStates psiStates)
        exitRates
        (uniformizationRateOf (maybeStatesOf backwardTransitions phiStates psiStates)
          exitRates) :=
    fun h => isInflatedMaximalExitRate_uniformizationRateOf _ _ (hrate h)
  have hMpsi : ∀ s, BitVector.get psiStates s = true →
      BitVector.get (maybeStatesOf backwardTransitions phiStates psiStates) s = false := by
    intro s hs
    rw [BitVector.get_and, BitVector.get_complement, hs]
    simp
  rw [computeBoundedUntilProbabilities_zero_to _ _ _ _ _ _ _ _ _ (ne_of_gt ht)]
  by_cases hG : BitVector.empty (performProbGreater0 backwardTransitions phiStates psiStates)
      = true
  · -- no state has positive probability: there is no psi state and `M` is empty
    rw [if_pos hG]
    have hM := BitVector.empty_and_of_empty_left (BitVector.complement psiStates) hG
    refine ⟨_, rfl, List.length_replicate _ _, ?_, fun h => hlast h⟩
    intro s hs
    refine ⟨?_, ?_, ?_⟩
    · intro hpsi
      have h1 := psi_subset_performProbGreater0 backwardTransitions phiStates psiStates s
        (by omega) hpsi
      rw [BitVector.get_of_empty hG] at h1
      cases h1
    · intro _ _
      simp [List.getElem?_replicate, hs]
    · intro h
      rw [BitVector.get_of_empty hM] at h
      cases h
  · rw [if_neg hG]
    by_cases hM : BitVector.empty (maybeStatesOf backwardTransitions phiStates psiStates) = true
    · -- the set `M` is empty: the indicator of the psi states
      rw [if_pos hM]
      refine ⟨_, rfl, ?_, ?_, fun h => hlast h⟩
      · rw [length_setVectorValue, List.length_replicate]
      · intro s hs
        refine ⟨?_, ?_, ?_⟩
        · intro hpsi
          rw [getElem?_setVectorValue]
          simp [List.getElem?_replicate, hs, hpsi]
        · intro hpsi _
          rw [getElem?_setVectorValue]
          simp [List.getElem?_replicate, hs, hpsi]
        · intro h
          rw [BitVector.get_of_empty hM] at h
          cases h
    · -- the set `M` is uniformized
      rw [if_neg hM]
      have hq := hrate (by simpa using hM)
      rw [computeMaybeStateProbabilities_of_pos _ _ _ _ _ _ hq]
      refine ⟨_, rfl, ?_, ?_, fun h => hlast h⟩
      · rw [length_setVectorValues, length_setVectorValue, List.length_replicate]
      · intro s hs
        refine ⟨?_, ?_, ?_⟩
        · intro hpsi
          rw [getElem?_setVectorValues, getElem?_setVectorValue]
          simp [List.getElem?_replicate, hs, hpsi, hMpsi s hpsi]
        · intro hpsi hout
          rw [getElem?_setVectorValues, getElem?_setVectorValue]
          simp [List.getElem?_replicate, hs, hpsi, hout]
        · intro hin
          rw [getElem?_setVectorValues, getElem?_setVectorValue]
          simp [List.getElem?_replicate, hs, hin]

/-- C11, witness: on the example chain with the psi state 1 and the interval `[0, 1]` the set
`M` is `{0}` and its rate `3.06` is positive. -/
theorem computeBoundedUntilProbabilities_upperBounded_witness :
    ∃ result : List ℚ,
      computeBoundedUntilProbabilities exampleEnvironment SolveGoal.default exampleRateMatrix
          exampleBackwardTransitions [true, true, true] [false, true, false] exampleExitRates
          false 0 (some 1) = Except.ok result
      ∧ result.length = 3 ∧ result[1]? = some 1 ∧ result[2]? = some 0 := by
  obtain ⟨result, hreturn, hlength, hvalues, _⟩ :=
    computeBoundedUntilProbabilities_upperBounded exampleEnvironment SolveGoal.default
      exampleRateMatrix exampleBackwardTransitions [true, true, true] [false, true, false]
      exampleExitRates false 1 (by decide) (by norm_num)
      (fun _ => by rw [maybeStatesOf_example, uniformizationRateOf_example]; norm_num)
  refine ⟨result, hreturn, hlength, (hvalues 1 (by decide)).1 (by decide), ?_⟩
  exact (hvalues 2 (by decide)).2.1 (by decide) (by rw [maybeStatesOf_example]; decide)

/-- C12: for the interval `[t, t']` with `0 < t < t' < inf`, with `M` the states of positive
probability that are not psi states, `Rel` the phi states of positive probability, and the
rates `q_a` over `M` and `q_b` over `Rel` positive whenever they are computed:
`computeBoundedUntilProbabilities` returns a vector with one entry per state that is 0 on every
state outside `Rel` and on every state of `Rel` the entry, at the position of the state in
`Rel`, of the plain output of `computeTransientProbabilities` for
`computeUniformizedMatrix rateMatrix Rel q_b exitRates`, no add-vector, the time bound `t` and
the seed that is 1 on the psi states of `Rel` and on each state of `M` the value of the
`[0, t' - t]` computation over `M`; `q_a` and `q_b` are `1.02` times the maximal exit rate over
`M` and over `Rel`. The state sets range over the states of the rate matrix. -/
theorem computeBoundedUntilProbabilities_interval (env : Environment) (goal : SolveGoal)
    (rateMatrix backwardTransitions : SparseMatrix) (phiStates psiStates : BitVector)
    (exitRates : List ℚ) (qualitative : Bool) (t u : ℚ)
    (hphi : phiStates.length = SparseMatrix.getRowCount rateMatrix)
    (ht : 0 < t) (htu : t < u)
    (hrateA : BitVector.empty (maybeStatesOf backwardTransitions phiStates psiStates) = false →
      0 < uniformizationRateOf (maybeStatesOf backwardTransitions phiStates psiStates)
        exitRates)
    (hrateB : BitVector.empty (performProbGreater0 backwardTransitions phiStates psiStates)
        = false →
      0 < uniformizationRateOf (relevantStatesOf backwardTransitions phiStates psiStates)
        exitRates) :
    ∃ result : List ℚ,
      computeBoundedUntilProbabilities env goal rateMatrix backwardTransitions phiStates
          psiStates exitRates qualitative t (some u) = Except.ok result
      ∧ result.length = SparseMatrix.getRowCount rateMatrix
      ∧ (∀ s, s < SparseMatrix.getRowCount rateMatrix →
          (BitVector.get (relevantStatesOf backwardTransitions phiStates psiStates) s = false →
              result[s]? = some 0)
          ∧ (BitVector.get (relevantStatesOf backwardTransitions phiStates psiStates) s = true →
              result[s]? = some ((computeTransientProbabilities env false
                (computeUniformizedMatrix rateMatrix
                  (relevantStatesOf backwardTransitions phiStates psiStates)
                  (uniformizationRateOf
                    (relevantStatesOf backwardTransitions phiStates psiStates) exitRates)
                  exitRates)
                none t
                (uniformizationRateOf
                  (relevantStatesOf backwardTransitions phiStates psiStates) exitRates)
                (secondStageSeedBySpecification
                  (maybeStatesOf backwardTransitions phiStates psiStates)
                  (relevantStatesOf backwardTransitions phiStates psiStates) psiStates
                  (maybeStateValuesBySpecification env rateMatrix
                    (maybeStatesOf backwardTransitions phiStates psiStates) psiStates exitRates
                    (u - t)))).getD
                (BitVector.rank (relevantStatesOf backwardTransitions phiStates psiStates) s)
                0)))
      ∧ (BitVector.empty (maybeStatesOf backwardTransitions phiStates psiStates) = false →
          IsInflatedMaximalExitRate (maybeStatesOf backwardTransitions phiStates psiStates)
            exitRates
            (uniformizationRateOf (maybeStatesOf backwardTransitions phiStates psiStates)
              exitRates))
      ∧ (BitVector.empty (performProbGreater0 backwardTransitions phiStates psiStates) = false →
          IsInflatedMaximalExitRate (relevantStatesOf backwardTransitions phiStates psiStates)
            exitRates
            (uniformizationRateOf (relevantStatesOf backwardTransitions phiStates psiStates)
              exitRates)) := by
  have hlastA : BitVector.empty (maybeStatesOf backwardTransitions phiStates psiStates)
        = false →
      IsInflatedMaximalExitRate (maybeStatesOf backwardTransitions phiStates psiStates)
        exitRates
        (uniformizationRateOf (maybeStatesOf backwardTransitions phiStates psiStates)
          exitRates) :=
    fun h => isInflatedMaximalExitRate_uniformizationRateOf _ _ (hrateA h)
  have hlastB : BitVector.empty (performProbGreater0 backwardTransitions phiStates psiStates)
        = false →
      IsInflatedMaximalExitRate (relevantStatesOf backwardTransitions phiStates psiStates)
        exitRates
        (uniformizationRateOf (relevantStatesOf backwardTransitions phiStates psiStates)
          exitRates) :=
    fun h => isInflatedMaximalExitRate_uniformizationRateOf _ _ (hrateB h)
  -- the entries of the vector that the second stage writes
  have hfinal : ∀ (seed : List ℚ) (s : Nat), s < SparseMatrix.getRowCount rateMatrix →
      (BitVector.get (relevantStatesOf backwardTransitions phiStates psiStates) s = false →
        (setVectorValues
          (setVectorValue (List.replicate (SparseMatrix.getRowCount rateMatrix) 0)
            (BitVector.complement (relevantStatesOf backwardTransitions phiStates psiStates))
            0)
          (relevantStatesOf backwardTransitions phiStates psiStates) seed)[s]? = some 0)
      ∧ (BitVector.get (relevantStatesOf backwardTransitions phiStates psiStates) s = true →
        (setVectorValues
          (setVectorValue (List.replicate (SparseMatrix.getRowCount rateMatrix) 0)
            (BitVector.complement (relevantStatesOf backwardTransitions phiStates psiStates))
            0)
          (relevantStatesOf backwardTransitions phiStates psiStates) seed)[s]?
          = some (seed.getD
              (BitVector.rank (relevantStatesOf backwardTransitions phiStates psiStates) s)
              0)) := by
    intro seed s hs
    have hrel : s < (relevantStatesOf backwardTransitions phiStates psiStates).length := by
      rw [BitVector.length_and, length_performProbGreater0, hphi]
      simpa using hs
    rw [getElem?_setVectorValues_complement _ _ _ _ (by simpa using hs) hrel]
    exact ⟨fun hout => by rw [hout]; rfl, fun hin => by rw [hin]; rfl⟩
  rw [computeBoundedUntilProbabilities_from_to _ _ _ _ _ _ _ _ _ _ (ne_of_gt ht)
    (ne_of_gt (lt_trans ht htu)) (ne_of_lt htu)]
  by_cases hG : BitVector.empty (performProbGreater0 backwardTransitions phiStates psiStates)
      = true
  · -- no state has positive probability: `Rel` is empty
    rw [if_pos hG]
    have hRel := BitVector.empty_and_of_empty_left phiStates hG
    refine ⟨_, rfl, List.length_replicate _ _, ?_, fun h => hlastA h, fun h => hlastB h⟩
    intro s hs
    refine ⟨?_, ?_⟩
    · intro _
      simp [List.getElem?_replicate, hs]
    · intro h
      rw [BitVector.get_of_empty hRel] at h
      cases h
  · rw [if_neg hG]
    have hqB := hrateB (by simpa using hG)
    by_cases hM : BitVector.empty (maybeStatesOf backwardTransitions phiStates psiStates) = true
    · -- the first stage is skipped
      rw [if_pos hM]
      simp only []
      rw [secondStageSeed_of_empty _ _ _ (maybeStateValuesBySpecification env rateMatrix
          (maybeStatesOf backwardTransitions phiStates psiStates) psiStates exitRates (u - t))
        hM, propagateOver_of_pos _ _ _ _ _ _ hqB]
      simp only []
      refine ⟨_, rfl, ?_, fun s hs => hfinal _ s hs, fun h => hlastA h, fun h => hlastB h⟩
      rw [length_setVectorValues, length_setVectorValue, List.length_replicate]
    · -- both stages
      rw [if_neg hM]
      have hqA := hrateA (by simpa using hM)
      rw [computeMaybeStateProbabilities_of_pos _ _ _ _ _ _ hqA]
      simp only []
      rw [secondStageSeed_eq _ _ _ _
        (maybeStatesOf_subset_relevantStatesOf backwardTransitions phiStates psiStates),
        propagateOver_of_pos _ _ _ _ _ _ hqB]
      simp only []
      refine ⟨_, rfl, ?_, fun s hs => hfinal _ s hs, fun h => hlastA h, fun h => hlastB h⟩
      rw [length_setVectorValues, length_setVectorValue, List.length_replicate]

/-- C12, witness: on the example chain with the psi state 1 and the interval `[1, 2]` the sets
are `M = {0}` and `Rel = {0, 1}`, both with the positive rate `3.06`, and state 2 gets the
value 0. -/
theorem computeBoundedUntilProbabilities_interval_witness :
    ∃ result : List ℚ,
      computeBoundedUntilProbabilities exampleEnvironment SolveGoal.default exampleRateMatrix
          exampleBackwardTransitions [true, true, true] [false, true, false] exampleExitRates
          false 1 (some 2) = Except.ok result
      ∧ result.length = 3 ∧ result[2]? = some 0 := by
  obtain ⟨result, hreturn, hlength, hvalues, _⟩ :=
    computeBoundedUntilProbabilities_interval exampleEnvironment SolveGoal.default
      exampleRateMatrix exampleBackwardTransitions [true, true, true] [false, true, false]
      exampleExitRates false 1 2 (by decide) (by norm_num) (by norm_num)
      (fun _ => by rw [maybeStatesOf_example, uniformizationRateOf_example]; norm_num)
      (fun _ => by
        rw [relevantStatesOf_example, uniformizationRateOf_example_relevant]; norm_num)
  exact ⟨result, hreturn, hlength,
    (hvalues 2 (by decide)).1 (by rw [relevantStatesOf_example]; decide)⟩

/-- C13: for the interval `[t, inf]` with `t > 0`, with `Rel` the phi states of positive
probability and `q` the rate computed over `Rel`, which is positive whenever some state has
positive probability, and with `computeUntilProbabilities` returning a vector with one entry per
state: `computeBoundedUntilProbabilities` returns a vector with one entry per state that is 0 on
every state outside `Rel` and on every state of `Rel` the entry, at the position of the state in
`Rel`, of the plain output of `computeTransientProbabilities` for
`computeUniformizedMatrix rateMatrix Rel q exitRates`, no add-vector, the time bound `t` and
the until-probabilities restricted to `Rel` as initial vector; and `q` is `1.02` times the
maximal exit rate over `Rel`. The state sets range over the states of the rate matrix. -/
theorem computeBoundedUntilProbabilities_lowerBounded (env : Environment) (goal : SolveGoal)
    (rateMatrix backwardTransitions : SparseMatrix) (phiStates psiStates : BitVector)
    (exitRates : List ℚ) (qualitative : Bool) (t : ℚ) (untilResult : List ℚ)
    (hphi : phiStates.length = SparseMatrix.getRowCount rateMatrix)
    (ht : 0 < t)
    (huntil : computeUntilProbabilities env SolveGoal.default rateMatrix backwardTransitions
      exitRates phiStates psiStates qualitative = Except.ok untilResult)
    (hlength : untilResult.length = SparseMatrix.getRowCount rateMatrix)
    (hrate : BitVector.empty (performProbGreater0 backwardTransitions phiStates psiStates)
        = false →
      0 < uniformizationRateOf (relevantStatesOf backwardTransitions phiStates psiStates)
        exitRates) :
    ∃ result : List ℚ,
      computeBoundedUntilProbabilities env goal rateMatrix backwardTransitions phiStates
          psiStates exitRates qualitative t none = Except.ok result
      ∧ result.length = SparseMatrix.getRowCount rateMatrix
      ∧ (∀ s, s < SparseMatrix.getRowCount rateMatrix →
          (BitVector.get (relevantStatesOf backwardTransitions phiStates psiStates) s = false →
              result[s]? = some 0)
          ∧ (BitVector.get (relevantStatesOf backwardTransitions phiStates psiStates) s = true →
              result[s]? = some ((computeTransientProbabilities env false
                (computeUniformizedMatrix rateMatrix
                  (relevantStatesOf backwardTransitions phiStates psiStates)
                  (uniformizationRateOf
                    (relevantStatesOf backwardTransitions phiStates psiStates) exitRates)
                  exitRates)
                none t
                (uniformizationRateOf
                  (relevantStatesOf backwardTransitions phiStates psiStates) exitRates)
                (selectVectorValues (relevantStatesOf backwardTransitions phiStates psiStates)
                  untilResult)).getD
                (BitVector.rank (relevantStatesOf backwardTransitions phiStates psiStates) s)
                0)))
      ∧ (BitVector.empty (performProbGreater0 backwardTransitions phiStates psiStates) = false →
          IsInflatedMaximalExitRate (relevantStatesOf backwardTransitions phiStates psiStates)
            exitRates
            (uniformizationRateOf (relevantStatesOf backwardTransitions phiStates psiStates)
              exitRates)) := by
  have hlast : BitVector.empty (performProbGreater0 backwardTransitions phiStates psiStates)
        = false →
      IsInflatedMaximalExitRate (relevantStatesOf backwardTransitions phiStates psiStates)
        exitRates
        (uniformizationRateOf (relevantStatesOf backwardTransitions phiStates psiStates)
          exitRates) :=
    fun h => isInflatedMaximalExitRate_uniformizationRateOf _ _ (hrate h)
  rw [computeBoundedUntilProbabilities_from _ _ _ _ _ _ _ _ _ (ne_of_gt ht)]
  by_cases hG : BitVector.empty (performProbGreater0 backwardTransitions phiStates psiStates)
      = true
  · -- no state has positive probability: `Rel` is empty
    rw [if_pos hG]
    have hRel := BitVector.empty_and_of_empty_left phiStates hG
    refine ⟨_, rfl, List.length_replicate _ _, ?_, fun h => hlast h⟩
    intro s hs
    refine ⟨?_, ?_⟩
    · intro _
      simp [List.getElem?_replicate, hs]
    · intro h
      rw [BitVector.get_of_empty hRel] at h
      cases h
  · rw [if_neg hG, huntil]
    simp only []
    have hq := hrate (by simpa using hG)
    rw [propagateOver_of_pos _ _ _ _ _ _ hq]
    simp only []
    refine ⟨_, rfl, ?_, ?_, fun h => hlast h⟩
    · rw [length_setVectorValues, length_setVectorValue, hlength]
    · intro s hs
      have hrel : s < (relevantStatesOf backwardTransitions phiStates psiStates).length := by
        rw [BitVector.length_and, length_performProbGreater0, hphi]
        simpa using hs
      rw [getElem?_setVectorValues_complement _ _ _ _ (by omega) hrel]
      refine ⟨?_, ?_⟩
      · intro hout
        rw [hout]
        rfl
      · intro hin
        rw [hin]
        rfl

/-- C13, witness: on the example chain with the psi state 1 and the interval `[1, inf]` the set
`Rel` is `{0, 1}` with the positive rate `3.06`, and state 2 gets the value 0. -/
theorem computeBoundedUntilProbabilities_lowerBounded_witness :
    ∃ result : List ℚ,
      computeBoundedUntilProbabilities exampleEnvironment SolveGoal.default exampleRateMatrix
          exampleBackwardTransitions [true, true, true] [false, true, false] exampleExitRates
          false 1 none = Except.ok result
      ∧ result.length = 3 ∧ result[2]? = some 0 := by
  obtain ⟨result, hreturn, hlength, hvalues, _⟩ :=
    computeBoundedUntilProbabilities_lowerBounded exampleEnvironment SolveGoal.default
      exampleRateMatrix exampleBackwardTransitions [true, true, true] [false, true, false]
      exampleExitRates false 1 [2 / 3, 1, 0] (by decide) (by norm_num) rfl (by decide)
      (fun _ => by
        rw [relevantStatesOf_example, uniformizationRateOf_example_relevant]; norm_num)
  exact ⟨result, hreturn, hlength,
    (hvalues 2 (by decide)).1 (by rw [relevantStatesOf_example]; decide)⟩

/-- C14: every uniformizing entry point meets the contract of the specification: the rate is
`1.02 * max(0, max of the relevant exit rates)`, the entry point fails with invalid-state if
and only if no relevant exit rate is positive, and when it does not fail it returns what it
computes with that rate, which is positive and at least every relevant exit rate. The entry
points are `computeBoundedUntilProbabilities` on the interval `[0, t]` with a maybe state
(relevant states `M`), on `[t, t]` (the states of positive probability), on `[t, inf]` after
the until computation has returned (`Rel`), on `[t, t']` without maybe states (`Rel`) and with
a maybe state (`M`, whose positive rate makes the rate over `Rel` positive as well),
`computeInstantaneousRewards` with `timeBound > 0` and `computeCumulativeRewards` with
`timeBound ≠ 0` for a reward model that is not empty (all entries of the exit-rate vector), and
`computeAllTransientProbabilities` when its set of relevant states, which holds every state, is
not empty (all states, with the exit rates that are 1 on the psi states). -/
theorem uniformizationRate_contract :
    (∀ (env : Environment) (goal : SolveGoal) (rateMatrix backwardTransitions : SparseMatrix)
        (phiStates psiStates : BitVector) (exitRates : List ℚ) (qualitative : Bool) (t : ℚ),
      t ≠ 0 →
      BitVector.empty (maybeStatesOf backwardTransitions phiStates psiStates) = false →
      UniformizationContract
        ((BitVector.setBits (maybeStatesOf backwardTransitions phiStates psiStates)).map
          (fun s => exitRates.getD s 0))
        (uniformizationRateOf (maybeStatesOf backwardTransitions phiStates psiStates)
          exitRates)
        (fun q => setVectorValues
          (setVectorValue (List.replicate (SparseMatrix.getRowCount rateMatrix) 0)
            psiStates 1)
          (maybeStatesOf backwardTransitions phiStates psiStates)
          (computeTransientProbabilities env false
            (computeUniformizedMatrix rateMatrix
              (maybeStatesOf backwardTransitions phiStates psiStates) q exitRates)
            (some ((SparseMatrix.getConstrainedRowSumVector rateMatrix
              (maybeStatesOf backwardTransitions phiStates psiStates) psiStates).map
              (fun element => element / q)))
            t q (List.replicate (BitVector.getNumberOfSetBits
              (maybeStatesOf backwardTransitions phiStates psiStates)) 0)))
        (computeBoundedUntilProbabilities env goal rateMatrix backwardTransitions phiStates
          psiStates exitRates qualitative 0 (some t)))
    ∧ (∀ (env : Environment) (goal : SolveGoal) (rateMatrix backwardTransitions : SparseMatrix)
        (phiStates psiStates : BitVector) (exitRates : List ℚ) (qualitative : Bool) (t : ℚ),
      t ≠ 0 →
      BitVector.empty (performProbGreater0 backwardTransitions phiStates psiStates) = false →
      UniformizationContract
        ((BitVector.setBits (performProbGreater0 backwardTransitions phiStates psiStates)).map
          (fun s => exitRates.getD s 0))
        (uniformizationRateOf (performProbGreater0 backwardTransitions phiStates psiStates)
          exitRates)
        (fun q => setVectorValues
          (setVectorValue (List.replicate (SparseMatrix.getRowCount rateMatrix) 0)
            (BitVector.complement
              (performProbGreater0 backwardTransitions phiStates psiStates)) 0)
          (performProbGreater0 backwardTransitions phiStates psiStates)
          (computeTransientProbabilities env false
            (computeUniformizedMatrix rateMatrix
              (performProbGreater0 backwardTransitions phiStates psiStates) q exitRates)
            none t q
            (setVectorValue
              (List.replicate (BitVector.getNumberOfSetBits
                (performProbGreater0 backwardTransitions phiStates psiStates)) 0)
              (BitVector.restrict psiStates
                (performProbGreater0 backwardTransitions phiStates psiStates)) 1)))
        (computeBoundedUntilProbabilities env goal rateMatrix backwardTransitions phiStates
          psiStates exitRates qualitative t (some t)))
    ∧ (∀ (env : Environment) (goal : SolveGoal) (rateMatrix backwardTransitions : SparseMatrix)
        (phiStates psiStates : BitVector) (exitRates : List ℚ) (qualitative : Bool) (t : ℚ)
        (untilResult : List ℚ),
      t ≠ 0 →
      BitVector.empty (performProbGreater0 backwardTransitions phiStates psiStates) = false →
      computeUntilProbabilities env SolveGoal.default rateMatrix backwardTransitions
        exitRates phiStates psiStates qualitative = Except.ok untilResult →
      UniformizationContract
        ((BitVector.setBits (relevantStatesOf backwardTransitions phiStates psiStates)).map
          (fun s => exitRates.getD s 0))
        (uniformizationRateOf (relevantStatesOf backwardTransitions phiStates psiStates)
          exitRates)
        (fun q => setVectorValues
          (setVectorValue untilResult
            (BitVector.complement
              (relevantStatesOf backwardTransitions phiStates psiStates)) 0)
          (relevantStatesOf backwardTransitions phiStates psiStates)
          (computeTransientProbabilities env false
            (computeUniformizedMatrix rateMatrix
              (relevantStatesOf backwardTransitions phiStates psiStates) q exitRates)
            none t q
            (selectVectorValues (relevantStatesOf backwardTransitions phiStates psiStates)
              untilResult)))
        (computeBoundedUntilProbabilities env goal rateMatrix backwardTransitions phiStates
          psiStates exitRates qualitative t none))
    ∧ (∀ (env : Environment) (goal : SolveGoal) (rateMatrix backwardTransitions : SparseMatrix)
        (phiStates psiStates : BitVector) (exitRates : List ℚ) (qualitative : Bool) (t u : ℚ),
      t ≠ 0 → u ≠ 0 → t ≠ u →
      BitVector.empty (performProbGreater0 backwardTransitions phiStates psiStates) = false →
      BitVector.empty (maybeStatesOf backwardTransitions phiStates psiStates) = true →
      UniformizationContract
        ((BitVector.setBits (relevantStatesOf backwardTransitions phiStates psiStates)).map
          (fun s => exitRates.getD s 0))
        (uniformizationRateOf (relevantStatesOf backwardTransitions phiStates psiStates)
          exitRates)
        (fun q => setVectorValues
          (setVectorValue (List.replicate (SparseMatrix.getRowCount rateMatrix) 0)
            (BitVector.complement
              (relevantStatesOf backwardTransitions phiStates psiStates)) 0)
          (relevantStatesOf backwardTransitions phiStates psiStates)
          (computeTransientProbabilities env false
            (computeUniformizedMatrix rateMatrix
              (relevantStatesOf backwardTransitions phiStates psiStates) q exitRates)
            none t q
            (setVectorValue (List.replicate (BitVector.getNumberOfSetBits
                (relevantStatesOf backwardTransitions phiStates psiStates)) 0)
              (BitVector.restrict psiStates
                (relevantStatesOf backwardTransitions phiStates psiStates)) 1)))
        (computeBoundedUntilProbabilities env goal rateMatrix backwardTransitions phiStates
          psiStates exitRates qualitative t (some u)))
    ∧ (∀ (env : Environment) (goal : SolveGoal) (rateMatrix backwardTransitions : SparseMatrix)
        (phiStates psiStates : BitVector) (exitRates : List ℚ) (qualitative : Bool) (t u : ℚ),
      t ≠ 0 → u ≠ 0 → t ≠ u →
      BitVector.empty (maybeStatesOf backwardTransitions phiStates psiStates) = false →
      UniformizationContract
          ((BitVector.setBits (maybeStatesOf backwardTransitions phiStates psiStates)).map
            (fun s => exitRates.getD s 0))
          (uniformizationRateOf (maybeStatesOf backwardTransitions phiStates psiStates)
            exitRates)
          (fun q => setVectorValues
            (setVectorValue (List.replicate (SparseMatrix.getRowCount rateMatrix) 0)
              (BitVector.complement
                (relevantStatesOf backwardTransitions phiStates psiStates)) 0)
            (relevantStatesOf backwardTransitions phiStates psiStates)
            (computeTransientProbabilities env false
              (computeUniformizedMatrix rateMatrix
                (relevantStatesOf backwardTransitions phiStates psiStates)
                (uniformizationRateOf
                  (relevantStatesOf backwardTransitions phiStates psiStates) exitRates)
                exitRates)
              none t
              (uniformizationRateOf
                (relevantStatesOf backwardTransitions phiStates psiStates) exitRates)
              (setVectorValues
                (setVectorValue (List.replicate (BitVector.getNumberOfSetBits
                    (relevantStatesOf backwardTransitions phiStates psiStates)) 0)
                  (BitVector.restrict psiStates
                    (relevantStatesOf backwardTransitions phiStates psiStates)) 1)
                (BitVector.restrict (maybeStatesOf backwardTransitions phiStates psiStates)
                  (relevantStatesOf backwardTransitions phiStates psiStates))
                (computeTransientProbabilities env false
                  (computeUniformizedMatrix rateMatrix
                    (maybeStatesOf backwardTransitions phiStates psiStates) q exitRates)
                  (some ((SparseMatrix.getConstrainedRowSumVector rateMatrix
                    (maybeStatesOf backwardTransitions phiStates psiStates) psiStates).map
                    (fun element => element / q)))
                  (u - t) q (List.replicate (BitVector.getNumberOfSetBits
                    (maybeStatesOf backwardTransitions phiStates psiStates)) 0)))))
          (computeBoundedUntilProbabilities env goal rateMatrix backwardTransitions phiStates
            psiStates exitRates qualitative t (some u))
        ∧ (0 < uniformizationRateOf (maybeStatesOf backwardTransitions phiStates psiStates)
              exitRates →
            IsInflatedMaximalExitRate
                (relevantStatesOf backwardTransitions phiStates psiStates) exitRates
                (uniformizationRateOf
                  (relevantStatesOf backwardTransitions phiStates psiStates) exitRates)
              ∧ 0 < uniformizationRateOf
                  (relevantStatesOf backwardTransitions phiStates psiStates) exitRates
              ∧ ∀ s ∈ BitVector.setBits
                    (relevantStatesOf backwardTransitions phiStates psiStates),
                  exitRates.getD s 0 ≤ uniformizationRateOf
                    (relevantStatesOf backwardTransitions phiStates psiStates) exitRates))
    ∧ (∀ (env : Environment) (goal : SolveGoal) (rateMatrix : SparseMatrix)
        (exitRateVector : List ℚ) (rewardModel : RewardModel) (timeBound : ℚ),
      RewardModel.empty rewardModel = false → 0 < timeBound →
      UniformizationContract exitRateVector (exitRateVector.foldl max 0 * 1.02)
        (fun q => computeTransientProbabilities env false
          (computeUniformizedMatrix rateMatrix
            (BitVector.const (SparseMatrix.getRowCount rateMatrix) true) q exitRateVector)
          none timeBound q (RewardModel.getStateRewardVector rewardModel))
        (computeInstantaneousRewards env goal rateMatrix exitRateVector rewardModel timeBound))
    ∧ (∀ (env : Environment) (goal : SolveGoal) (rateMatrix : SparseMatrix)
        (exitRateVector : List ℚ) (rewardModel : RewardModel) (timeBound : ℚ),
      RewardModel.empty rewardModel = false → timeBound ≠ 0 →
      UniformizationContract exitRateVector (exitRateVector.foldl max 0 * 1.02)
        (fun q => computeTransientProbabilities env true
          (computeUniformizedMatrix rateMatrix
            (BitVector.const (SparseMatrix.getRowCount rateMatrix) true) q exitRateVector)
          none timeBound q (rewardModel.getTotalRewardVector rateMatrix exitRateVector))
        (computeCumulativeRewards env goal rateMatrix exitRateVector rewardModel timeBound))
    ∧ (∀ (env : Environment) (rateMatrix : SparseMatrix)
        (initialStates phiStates psiStates : BitVector) (exitRates : List ℚ) (timeBound : ℚ),
      BitVector.empty (BitVector.const (SparseMatrix.getRowCount rateMatrix) true) = false →
      UniformizationContract
        ((BitVector.setBits (BitVector.const (SparseMatrix.getRowCount rateMatrix) true)).map
          (fun s => (absorbingExitRates exitRates psiStates).getD s 0))
        (uniformizationRateOf (BitVector.const (SparseMatrix.getRowCount rateMatrix) true)
          (absorbingExitRates exitRates psiStates))
        (fun q => setVectorValues (List.replicate (SparseMatrix.getRowCount rateMatrix) 0)
          (BitVector.const (SparseMatrix.getRowCount rateMatrix) true)
          (computeTransientProbabilities env false
            (computeUniformizedMatrix
              (SparseMatrix.transpose (SparseMatrix.makeRowsAbsorbing rateMatrix psiStates))
              (BitVector.const (SparseMatrix.getRowCount rateMatrix) true) q
              (absorbingExitRates exitRates psiStates))
            none timeBound q
            ((BitVector.setBits
                (BitVector.const (SparseMatrix.getRowCount rateMatrix) true)).map
              (fun state => if BitVector.get initialStates state
                then 1 / (BitVector.getNumberOfSetBits initialStates : ℚ) else 0))))
        (computeAllTransientProbabilities env rateMatrix initialStates phiStates psiStates
          exitRates timeBound)) := by
  refine ⟨?_, ?_, ?_, ?_, ?_, ?_, ?_, ?_⟩
  · intro env goal rateMatrix backwardTransitions phiStates psiStates exitRates qualitative t
      ht hM
    rw [uniformizationRateOf_eq]
    exact uniformizationContract_of_loop _ _ _
      (computeBoundedUntilProbabilities_zero_to_ite _ _ _ _ _ _ _ _ _ ht hM)
  · intro env goal rateMatrix backwardTransitions phiStates psiStates exitRates qualitative t
      ht hG
    rw [uniformizationRateOf_eq]
    exact uniformizationContract_of_loop _ _ _
      (computeBoundedUntilProbabilities_point_ite _ _ _ _ _ _ _ _ _ ht hG)
  · intro env goal rateMatrix backwardTransitions phiStates psiStates exitRates qualitative t
      untilResult ht hG huntil
    rw [uniformizationRateOf_eq]
    exact uniformizationContract_of_loop _ _ _
      (computeBoundedUntilProbabilities_from_ite _ _ _ _ _ _ _ _ _ _ ht hG huntil)
  · intro env goal rateMatrix backwardTransitions phiStates psiStates exitRates qualitative t u
      ht hu htu hG hM
    rw [uniformizationRateOf_eq]
    exact uniformizationContract_of_loop _ _ _
      (computeBoundedUntilProbabilities_from_to_ite_empty _ _ _ _ _ _ _ _ _ _ ht hu htu hG hM)
  · intro env goal rateMatrix backwardTransitions phiStates psiStates exitRates qualitative t u
      ht hu htu hM
    refine ⟨?_, ?_⟩
    · rw [uniformizationRateOf_eq
        (maybeStatesOf backwardTransitions phiStates psiStates) exitRates]
      exact uniformizationContract_of_loop _ _ _
        (computeBoundedUntilProbabilities_from_to_ite _ _ _ _ _ _ _ _ _ _ ht hu htu hM)
    · intro hq
      have hRel := uniformizationRateOf_relevant_pos _ _ _ _ hq
      exact ⟨isInflatedMaximalExitRate_uniformizationRateOf _ _ hRel, hRel,
        uniformizationRateOf_ge _ _⟩
  · intro env goal rateMatrix exitRateVector rewardModel timeBound hmodel htime
    apply uniformizationContract_of_loop
    unfold computeInstantaneousRewards
    simp only [hmodel, Bool.false_eq_true, if_false, gt_iff_lt, htime, if_true]
  · intro env goal rateMatrix exitRateVector rewardModel timeBound hmodel htime
    apply uniformizationContract_of_loop
    unfold computeCumulativeRewards
    simp only [hmodel, Bool.false_eq_true, if_false, htime]
  · intro env rateMatrix initialStates phiStates psiStates exitRates timeBound hstates
    rw [uniformizationRateOf_eq]
    apply uniformizationContract_of_loop
    unfold computeAllTransientProbabilities
    simp only [hstates, Bool.not_false, if_true]
    rw [uniformizationRateOf_eq]

/-- C14, witness: on the example chain with all exit rates 0 and a state reward,
`computeInstantaneousRewards` with time bound 1 fails with invalid-state, and with the exit
rates `[3, 0, 0]` it does not. -/
theorem uniformizationRate_contract_witness :
    computeInstantaneousRewards exampleEnvironment SolveGoal.default exampleRateMatrix
        [0, 0, 0] ⟨some [1, 0, 0], none, none, fun _ _ => []⟩ 1
      = Except.error Error.invalidState
    ∧ computeInstantaneousRewards exampleEnvironment SolveGoal.default exampleRateMatrix
        exampleExitRates ⟨some [1, 0, 0], none, none, fun _ _ => []⟩ 1
      ≠ Except.error Error.invalidState := by
  constructor
  · exact (uniformizationRate_contract.2.2.2.2.2.1 exampleEnvironment SolveGoal.default
      exampleRateMatrix [0, 0, 0] ⟨some [1, 0, 0], none, none, fun _ _ => []⟩ 1 rfl
      (by norm_num)).2.1.mpr (by simp)
  · intro h
    have := (uniformizationRate_contract.2.2.2.2.2.1 exampleEnvironment SolveGoal.default
      exampleRateMatrix exampleExitRates ⟨some [1, 0, 0], none, none, fun _ _ => []⟩ 1 rfl
      (by norm_num)).2.1.mp h 3 (by simp [exampleExitRates])
    norm_num at this

/-- C15: for a block that consists of the single state `s`, every rate matrix, exit-rate vector
(present or absent) and value function, `computeLongRunAveragesForBscc` returns
`valueGetter s`, for every bound on the rounds of the iteration, even 0, and neither builds the
uniformized matrix of the block nor runs a round of the iteration; the one matrix that it builds
is the submatrix of the block, which it extracts before the size test and prints. Every vector
that `computeLongRunAverages` returns holds `valueGetter s` at `s`, for a block `{s}` of the
decomposition whose state lies in no other block; the function returns (a vector, or the error
of the solver) exactly when the value iteration of every block with other than one state
stops, and returns a vector when in addition the solver reports no critical requirement for
the system of the states outside the blocks. -/
theorem computeLongRunAveragesForBscc_singleton (fuel s : Nat)
    (rateMatrix : SparseMatrix) (valueGetter : Nat → ℚ) (exitRateVector : Option (List ℚ)) :
    (∀ backwardTransitions : SparseMatrix,
      computeLongRunAveragesForBsccTraced fuel [s] rateMatrix backwardTransitions valueGetter
        exitRateVector
        = (⟨SparseMatrix.getSubmatrix rateMatrix
              (bsccStatesOf (SparseMatrix.getRowCount rateMatrix) [s])
              (bsccStatesOf (SparseMatrix.getRowCount rateMatrix) [s]) false, ⟨none, 0⟩⟩,
            some (valueGetter s)))
    ∧ (∀ (env : LongRunEnvironment) (goal : SolveGoal) (i : Nat) (bsccLra : List ℚ),
        s < SparseMatrix.getRowCount rateMatrix →
        i < (env.bsccDecomposition rateMatrix).length →
        (env.bsccDecomposition rateMatrix).getD i [] = [s] →
        (∀ j, j ≠ i → ((env.bsccDecomposition rateMatrix).getD j []).contains s = false) →
        computeBsccLra (fun bscc => computeLongRunAveragesForBscc fuel bscc rateMatrix
            (SparseMatrix.transpose rateMatrix) valueGetter exitRateVector)
          (env.bsccDecomposition rateMatrix) = some bsccLra →
        env.hasEnabledCriticalRequirement
            (rewardEquationSystemMatrixOf env.isEquationSystemFormat rateMatrix
              (BitVector.complement (statesInBsccsOf (SparseMatrix.getRowCount rateMatrix)
                (env.bsccDecomposition rateMatrix))) exitRateVector)
            (minValueOf bsccLra) (maxValueOf bsccLra) = false →
        ∃ result : List ℚ,
          computeLongRunAverages env fuel goal rateMatrix valueGetter exitRateVector
            = some (Except.ok result)
          ∧ result[s]? = some (valueGetter s))
    ∧ (∀ (env : LongRunEnvironment) (goal : SolveGoal) (i : Nat) (result : List ℚ),
        s < SparseMatrix.getRowCount rateMatrix →
        i < (env.bsccDecomposition rateMatrix).length →
        (env.bsccDecomposition rateMatrix).getD i [] = [s] →
        (∀ j, j ≠ i → ((env.bsccDecomposition rateMatrix).getD j []).contains s = false) →
        computeLongRunAverages env fuel goal rateMatrix valueGetter exitRateVector
          = some (Except.ok result) →
        result[s]? = some (valueGetter s))
    ∧ (∀ (env : LongRunEnvironment) (goal : SolveGoal),
        computeLongRunAverages env fuel goal rateMatrix valueGetter exitRateVector = none
          ↔ ∃ bscc ∈ env.bsccDecomposition rateMatrix, bscc.length ≠ 1
              ∧ computeLongRunAveragesForBsccVi fuel bscc rateMatrix
                  (SparseMatrix.transpose rateMatrix) valueGetter exitRateVector = none)
    ∧ (∀ (env : LongRunEnvironment) (goal : SolveGoal),
        (∀ bscc ∈ env.bsccDecomposition rateMatrix, bscc.length = 1) →
        computeLongRunAverages env fuel goal rateMatrix valueGetter exitRateVector ≠ none) :=
  ⟨(computeLongRunAveragesForBscc_singleton_of_some fuel s rateMatrix valueGetter
      exitRateVector).1,
    (computeLongRunAveragesForBscc_singleton_of_some fuel s rateMatrix valueGetter
      exitRateVector).2,
    fun env goal i result hs hi hblock hunique hreturn =>
      computeLongRunAverages_singleton_entry env fuel goal rateMatrix valueGetter
        exitRateVector s i result hs hi hblock hunique hreturn,
    fun env goal => computeLongRunAverages_eq_none_iff_valueIteration env fuel goal rateMatrix
      valueGetter exitRateVector,
    fun env goal hblocks => computeLongRunAverages_ne_none_of_singletons env fuel goal
      rateMatrix valueGetter exitRateVector hblocks⟩

/-- C15, counterexample: on the chain `cycleAndSinkRateMatrix` with the blocks `{0, 1}` and
`{2}`, the call of `computeLongRunAveragesForBscc` for the block `{2}` builds a matrix, the
submatrix of the block with one row and no entry; and with the value -1 at the states 0 and 1
and 5 at state 2, `computeLongRunAverages` returns no vector, whatever the bound on the rounds,
so that no result is assigned at state 2. -/
theorem computeLongRunAveragesForBscc_singleton_counterexample :
    (computeLongRunAveragesForBsccTraced 0 [2] cycleAndSinkRateMatrix
        (SparseMatrix.transpose cycleAndSinkRateMatrix)
        (fun state => if state = 2 then 5 else -1) (some [1, 1, 0])).1.subm = ⟨1, [[]]⟩
    ∧ ∀ fuel : Nat,
        computeLongRunAverages cycleAndSinkLongRunEnvironment fuel SolveGoal.default
          cycleAndSinkRateMatrix (fun state => if state = 2 then 5 else -1) (some [1, 1, 0])
          = none := by
  refine ⟨?_, fun fuel => computeLongRunAverages_cycleAndSink_negative _ (-1) rfl rfl
    (by norm_num) fuel _⟩
  rw [computeLongRunAveragesForBsccTraced_singleton]
  exact getSubmatrix_cycleAndSink

/-- C15, witness: on the example chain with the blocks `{1}` and `{2}` and the indicator of
state 1 as value function, `computeLongRunAverages` returns a vector with the value 1 at
state 1. -/
theorem computeLongRunAveragesForBscc_singleton_witness :
    ∃ result : List ℚ,
      computeLongRunAverages exampleLongRunEnvironment 0 SolveGoal.default exampleRateMatrix
        (fun state => if state = 1 then 1 else 0) (some exampleExitRates)
        = some (Except.ok result)
      ∧ result[1]? = some 1 := by
  have h := (computeLongRunAveragesForBscc_singleton 0 1 exampleRateMatrix
    (fun state => if state = 1 then 1 else 0) (some exampleExitRates)).2.1
    exampleLongRunEnvironment SolveGoal.default 0 [1, 0] (by decide) (by decide) rfl
    (by
      intro j hj
      cases j with
      | zero => exact absurd rfl hj
      | succ j =>
        cases j with
        | zero => rfl
        | succ j => rfl)
    (by simp [computeBsccLra, computeLongRunAveragesForBscc,
      computeLongRunAveragesForBsccTraced, exampleLongRunEnvironment])
    rfl
  simpa using h

/-- C16: for the chain with rate 1 from state 0 to state 1 and rate 1 from state 1 to state 0,
the exit rates `[1, 1]`, the psi state 1 and the single block `{0, 1}`,
`computeLongRunAverageProbabilities` returns exactly `[1/2, 1/2]` as soon as the iteration may
run two rounds: the uniformization rate is 2, and the iteration is left in its second round
with `v = [1/4, 3/4]`, so that the value of the block is `1/4 * 2`. -/
theorem computeLongRunAverageProbabilities_cycle (env : LongRunEnvironment) (goal : SolveGoal)
    (fuel : Nat) (hblock : env.bsccDecomposition cycleRateMatrix = [[0, 1]])
    (hfuel : 2 ≤ fuel) :
    computeLongRunAverageProbabilities env fuel goal cycleRateMatrix [false, true]
        (some [1, 1]) = some (Except.ok [1 / 2, 1 / 2])
    ∧ viUniformizationRate (bsccStatesOf (SparseMatrix.getRowCount cycleRateMatrix) [0, 1])
        (some [1, 1]) = 2
    ∧ valueIteration
        (viBsccMatrix cycleRateMatrix
          (bsccStatesOf (SparseMatrix.getRowCount cycleRateMatrix) [0, 1]) 2 (some [1, 1]))
        [0, 1 / 2] (1 / 1000000 / 2) true fuel 0 [0, 0] [0, 0]
        = some (2, [1 / 4, 3 / 4])
    ∧ computeLongRunAveragesForBsccViTraced fuel [0, 1] cycleRateMatrix
        (SparseMatrix.transpose cycleRateMatrix)
        (fun state => if BitVector.get [false, true] state then 1 else 0) (some [1, 1])
        = (⟨some ⟨2, [[(0, 1 / 2), (1, 1 / 2)], [(0, 1 / 2), (1, 1 / 2)]]⟩, 2⟩,
            some (1 / 2)) := by
  obtain ⟨k, rfl⟩ : ∃ k, fuel = k + 2 := ⟨fuel - 2, by omega⟩
  have hn : SparseMatrix.getRowCount cycleRateMatrix = 2 := rfl
  refine ⟨?_, ?_, ?_, computeLongRunAveragesForBsccViTraced_cycle k _⟩
  · have hlra : computeBsccLra (fun bscc => computeLongRunAveragesForBscc (k + 2) bscc
          cycleRateMatrix (SparseMatrix.transpose cycleRateMatrix)
          (fun state => if BitVector.get [false, true] state then 1 else 0) (some [1, 1]))
        (env.bsccDecomposition cycleRateMatrix) = some [1 / 2] := by
      rw [hblock]
      simp only [computeBsccLra, computeLongRunAveragesForBscc,
        computeLongRunAveragesForBsccTraced, computeLongRunAveragesForBsccViTraced_cycle]
      rfl
    have hpsi1 : BitVector.empty [false, true] = false := by decide
    have hpsi2 : BitVector.full [false, true] = false := by decide
    have hin : (!BitVector.empty (BitVector.complement (statesInBsccsOf
        (SparseMatrix.getRowCount cycleRateMatrix) (env.bsccDecomposition cycleRateMatrix))))
        = false := by
      rw [hblock]
      decide
    unfold computeLongRunAverageProbabilities computeLongRunAverageProbabilitiesTraced
    simp only [hpsi1, hpsi2, Bool.false_eq_true, if_false]
    rw [computeLongRunAveragesTraced_of_some env (k + 2) goal cycleRateMatrix _ _ _ hlra, hin]
    simp only [Bool.false_eq_true, if_false, hblock, hn]
    rfl
  · rw [hn, bsccStatesOf_cycle, viUniformizationRate_cycle]
  · rw [hn, bsccStatesOf_cycle, viBsccMatrix_cycle, valueIteration_cycle]

/-- C16, witness: with the collaborators `cycleLongRunEnvironment` and two rounds of the
iteration the function returns `[1/2, 1/2]`. -/
theorem computeLongRunAverageProbabilities_cycle_witness :
    computeLongRunAverageProbabilities cycleLongRunEnvironment 2 SolveGoal.default
      cycleRateMatrix [false, true] (some [1, 1]) = some (Except.ok [1 / 2, 1 / 2]) :=
  (computeLongRunAverageProbabilities_cycle cycleLongRunEnvironment SolveGoal.default 2 rfl
    (by decide)).1

/-- C17: the claim fails on the code. The loop of `computeLongRunAveragesForBsccVi` has no
bound on its rounds, and its convergence test
`maxDiff - minDiff <= precision * (v.front() + minDiff)` is never met for a negative constant
value function: on the block `{0, 1}` of the chain `cycleRateMatrix` with the exit rates
`[1, 1]` and the value `c < 0` at both states the function has not returned after any number of
rounds, and neither has `computeLongRunAverageRewards` for the state rewards `[c, c]` when the
decomposition yields that block. -/
theorem computeLongRunAveragesForBsccVi_negative_diverges (c : ℚ) (hc : c < 0) (fuel : Nat) :
    computeLongRunAveragesForBsccVi fuel [0, 1] cycleRateMatrix
        (SparseMatrix.transpose cycleRateMatrix) (fun _ => c) (some [1, 1]) = none
    ∧ ∀ (env : LongRunEnvironment) (goal : SolveGoal),
        env.bsccDecomposition cycleRateMatrix = [[0, 1]] →
        (computeLongRunAverageStateRewardsTraced env fuel goal cycleRateMatrix [c, c]
          (some [1, 1])).2 = none := by
  refine ⟨computeLongRunAveragesForBsccVi_cycle_negative _ c rfl rfl hc fuel _, ?_⟩
  intro env goal hblock
  have hvi := computeLongRunAveragesForBsccVi_cycle_negative
    (fun state => ([c, c] : List ℚ).getD state 0) c rfl rfl hc fuel
    (SparseMatrix.transpose cycleRateMatrix)
  unfold computeLongRunAverageStateRewardsTraced
  rw [computeLongRunAveragesTraced_of_none]
  rw [hblock]
  unfold computeBsccLra computeLongRunAveragesForBscc computeLongRunAveragesForBsccTraced
  unfold computeLongRunAveragesForBsccVi at hvi
  simp only [List.length_cons, List.length_nil, Nat.reduceAdd, OfNat.ofNat_ne_one, if_false]
  rw [hvi]

/-- C17, witness: with the value `-1` at both states the function has not returned after a
thousand rounds. -/
theorem computeLongRunAveragesForBsccVi_negative_diverges_witness :
    computeLongRunAveragesForBsccVi 1000 [0, 1] cycleRateMatrix
      (SparseMatrix.transpose cycleRateMatrix) (fun _ => -1) (some [1, 1]) = none :=
  (computeLongRunAveragesForBsccVi_negative_diverges (-1) (by norm_num) 1000).1

/-- C18: the claim fails on the code. `computeLongRunAverages` returns nothing exactly when
the value iteration of a block with other than one state does not stop, and on the chain
`cycleRateMatrix` with the single block `{0, 1}`, the exit rates `[1, 1]` and a value function
that is a negative constant it returns no vector, for every bound on the rounds. Whenever the
loop over the blocks returns, the solver reports no critical requirement and the blocks are
pairwise disjoint, the function returns a vector with exactly one entry per state in which every
state of the `i`-th block holds the value that `computeLongRunAveragesForBscc` returned for the
`i`-th block, and every state outside the blocks holds the entry of the solution of the one
call of `solveEquations` at the position `n`, where the state is the `n`-th state outside the
blocks in ascending order; when every state lies in a block no linear solver is created or
invoked. -/
theorem computeLongRunAverages_assembly (env : LongRunEnvironment) (fuel : Nat)
    (goal : SolveGoal) (rateMatrix : SparseMatrix) (valueGetter : Nat → ℚ)
    (exitRateVector : Option (List ℚ)) :
    (computeLongRunAverages env fuel goal rateMatrix valueGetter exitRateVector = none
      ↔ ∃ bscc ∈ env.bsccDecomposition rateMatrix, bscc.length ≠ 1
          ∧ computeLongRunAveragesForBsccVi fuel bscc rateMatrix
              (SparseMatrix.transpose rateMatrix) valueGetter exitRateVector = none)
    ∧ (∀ (c : ℚ) (rounds : Nat) (solveGoal : SolveGoal), c < 0 →
        computeLongRunAverages cycleLongRunEnvironment rounds solveGoal cycleRateMatrix
          (fun _ => c) (some [1, 1]) = none)
    ∧ ((∀ i j s, i ≠ j →
          ((env.bsccDecomposition rateMatrix).getD i []).contains s = true →
          ((env.bsccDecomposition rateMatrix).getD j []).contains s = false) →
        ∀ bsccLra : List ℚ,
        computeBsccLra (fun bscc => computeLongRunAveragesForBscc fuel bscc rateMatrix
            (SparseMatrix.transpose rateMatrix) valueGetter exitRateVector)
          (env.bsccDecomposition rateMatrix) = some bsccLra →
        env.hasEnabledCriticalRequirement
            (rewardEquationSystemMatrixOf env.isEquationSystemFormat rateMatrix
              (BitVector.complement (statesInBsccsOf (SparseMatrix.getRowCount rateMatrix)
                (env.bsccDecomposition rateMatrix))) exitRateVector)
            (minValueOf bsccLra) (maxValueOf bsccLra) = false →
        ∃ result : List ℚ,
          computeLongRunAverages env fuel goal rateMatrix valueGetter exitRateVector
            = some (Except.ok result)
          ∧ result.length = SparseMatrix.getRowCount rateMatrix
          ∧ (∀ i s, i < (env.bsccDecomposition rateMatrix).length →
              s < SparseMatrix.getRowCount rateMatrix →
              ((env.bsccDecomposition rateMatrix).getD i []).contains s = true →
              computeLongRunAveragesForBscc fuel ((env.bsccDecomposition rateMatrix).getD i [])
                  rateMatrix (SparseMatrix.transpose rateMatrix) valueGetter exitRateVector
                = some (bsccLra.getD i 0)
              ∧ result[s]? = some (bsccLra.getD i 0))
          ∧ (∀ s, s < SparseMatrix.getRowCount rateMatrix →
              (env.bsccDecomposition rateMatrix).any (fun bscc => bscc.contains s) = false →
              ∃ (A : SparseMatrix) (x b : List ℚ),
                (computeLongRunAveragesTraced env fuel goal rateMatrix valueGetter
                  exitRateVector).1.solver.solved = [(A, x, b)]
                ∧ result[s]? = some ((env.solveEquations A (minValueOf bsccLra)
                    (maxValueOf bsccLra) x b).getD
                    (BitVector.rank (BitVector.complement (statesInBsccsOf
                      (SparseMatrix.getRowCount rateMatrix)
                      (env.bsccDecomposition rateMatrix))) s) 0))
          ∧ (BitVector.empty (BitVector.complement (statesInBsccsOf
                (SparseMatrix.getRowCount rateMatrix) (env.bsccDecomposition rateMatrix)))
                = true →
              (computeLongRunAveragesTraced env fuel goal rateMatrix valueGetter
                  exitRateVector).1.solver.created = []
              ∧ (computeLongRunAveragesTraced env fuel goal rateMatrix valueGetter
                  exitRateVector).1.solver.solved = [])) :=
  ⟨computeLongRunAverages_eq_none_iff_valueIteration env fuel goal rateMatrix valueGetter
      exitRateVector,
    fun c rounds solveGoal hc =>
      computeLongRunAverages_cycle_negative (fun _ => c) c rfl rfl hc rounds solveGoal,
    fun hdisjoint bsccLra hlra hreq =>
      computeLongRunAverages_assembly_of_some env fuel goal rateMatrix valueGetter
        exitRateVector bsccLra hdisjoint hlra hreq⟩

/-- C18, witness: on the chain `cycleRateMatrix` with the value `-1` at both states the
function has returned no vector after a thousand rounds; on the example chain with the blocks
`{1}` and `{2}`, the indicator of state 1 as value function and a solver that returns the
right-hand side, the function returns a vector with three entries whose entries at the states
1 and 2 are 1 and 0. -/
theorem computeLongRunAverages_assembly_witness :
    computeLongRunAverages cycleLongRunEnvironment 1000 SolveGoal.default cycleRateMatrix
        (fun _ => -1) (some [1, 1]) = none
    ∧ ∃ result : List ℚ,
      computeLongRunAverages exampleLongRunEnvironment 0 SolveGoal.default exampleRateMatrix
        (fun state => if state = 1 then 1 else 0) (some exampleExitRates)
        = some (Except.ok result)
      ∧ result.length = 3 ∧ result[1]? = some 1 ∧ result[2]? = some 0 := by
  obtain ⟨_, hdiverges, hassembly⟩ :=
    computeLongRunAverages_assembly exampleLongRunEnvironment 0 SolveGoal.default
      exampleRateMatrix (fun state => if state = 1 then 1 else 0) (some exampleExitRates)
  obtain ⟨result, hreturn, hlength, hblocks, _, _⟩ := hassembly exampleBlocks_disjoint [1, 0]
    (by simp [computeBsccLra, computeLongRunAveragesForBscc,
      computeLongRunAveragesForBsccTraced, exampleLongRunEnvironment])
    rfl
  exact ⟨hdiverges (-1) 1000 SolveGoal.default (by norm_num),
    result, hreturn, hlength, (hblocks 0 1 (by decide) (by decide) rfl).2,
    (hblocks 1 2 (by decide) (by decide) rfl).2⟩

/-- C19: for pairwise disjoint blocks of states of the chain, the vector `rewardRightSide` that
`computeLongRunAverages` builds is the right-hand side of the specification: one entry per
state `s` outside the blocks, in ascending order of the states, that is the sum over the
transitions from `s` to a state `j` of a block of `(rate / exitRate(s)) * bsccLra[block of j]`
with exit rates and of `rate * bsccLra[block of j]` without, transitions to states outside all
blocks contributing nothing; and when the loop over the blocks returns, some state lies
outside the blocks and the solver reports no critical requirement, this vector is the
right-hand side of the one call of `solveEquations`. -/
theorem computeLongRunAverages_rightHandSide (env : LongRunEnvironment) (fuel : Nat)
    (goal : SolveGoal) (rateMatrix : SparseMatrix) (valueGetter : Nat → ℚ)
    (exitRateVector : Option (List ℚ)) (bsccLra : List ℚ)
    (hdisjoint : ∀ i j s, i ≠ j →
      ((env.bsccDecomposition rateMatrix).getD i []).contains s = true →
      ((env.bsccDecomposition rateMatrix).getD j []).contains s = false)
    (hrange : ∀ bscc ∈ env.bsccDecomposition rateMatrix, ∀ s ∈ bscc,
      s < SparseMatrix.getRowCount rateMatrix) :
    rewardRightSideOf rateMatrix (env.bsccDecomposition rateMatrix) bsccLra exitRateVector
      = rightHandSideBySpecification rateMatrix (env.bsccDecomposition rateMatrix) bsccLra
          exitRateVector
    ∧ (computeBsccLra (fun bscc => computeLongRunAveragesForBscc fuel bscc rateMatrix
          (SparseMatrix.transpose rateMatrix) valueGetter exitRateVector)
        (env.bsccDecomposition rateMatrix) = some bsccLra →
      BitVector.empty (BitVector.complement (statesInBsccsOf
        (SparseMatrix.getRowCount rateMatrix) (env.bsccDecomposition rateMatrix))) = false →
      env.hasEnabledCriticalRequirement
        (rewardEquationSystemMatrixOf env.isEquationSystemFormat rateMatrix
          (BitVector.complement (statesInBsccsOf (SparseMatrix.getRowCount rateMatrix)
            (env.bsccDecomposition rateMatrix))) exitRateVector)
        (minValueOf bsccLra) (maxValueOf bsccLra) = false →
      ∃ (A : SparseMatrix) (x : List ℚ),
        (computeLongRunAveragesTraced env fuel goal rateMatrix valueGetter
          exitRateVector).1.solver.solved
          = [(A, x, rightHandSideBySpecification rateMatrix (env.bsccDecomposition rateMatrix)
              bsccLra exitRateVector)]) := by
  have heq := rewardRightSideOf_eq rateMatrix (env.bsccDecomposition rateMatrix) bsccLra
    exitRateVector hdisjoint hrange
  refine ⟨heq, ?_⟩
  intro hlra hout hreq
  rw [computeLongRunAveragesTraced_of_some env fuel goal rateMatrix valueGetter exitRateVector
    bsccLra hlra, if_pos (by rw [hout]; rfl), if_neg (by rw [hreq]; exact Bool.false_ne_true),
    heq]
  exact ⟨_, _, rfl⟩

/-- C19, witness: on the example chain with the blocks `{1}` and `{2}` and the values 1 and 0
of the blocks, the right-hand side of the only transient state 0 is `2/3 * 1 + 1/3 * 0`. -/
theorem computeLongRunAverages_rightHandSide_witness :
    rewardRightSideOf exampleRateMatrix [[1], [2]] [1, 0] (some exampleExitRates) = [2 / 3] := by
  have h := (computeLongRunAverages_rightHandSide exampleLongRunEnvironment 0
    SolveGoal.default exampleRateMatrix (fun state => if state = 1 then 1 else 0)
    (some exampleExitRates) [1, 0] exampleBlocks_disjoint
    (by
      intro bscc hb s hs
      have hb2 : bscc = [1] ∨ bscc = [2] := by
        simpa [exampleLongRunEnvironment] using hb
      rcases hb2 with rfl | rfl
      · have : s = 1 := by simpa using hs
        subst this
        decide
      · have : s = 2 := by simpa using hs
        subst this
        decide)).1
  rw [← rightHandSideBySpecification_example]
  exact h

/-- C20: when the solver reports an enabled critical requirement, the long-run-average
computation fails with unchecked-requirement and `solveEquations` is not called. In
`computeLongRunAverages`, after the loop over the blocks has returned and with a state outside
the blocks, the solver is created for the system of the states outside the blocks, the check
is made on it and no vector is returned; `computeLongRunAverageProbabilities` with a psi set
that is neither empty nor full and both overloads of `computeLongRunAverageRewards` (with a
reward model that is not empty) are this computation for their value function; and
`computeLongRunAveragesForBsccEqSys` fails in the same way for the system of its block. -/
theorem longRunAverage_uncheckedRequirement (env : LongRunEnvironment) (fuel : Nat)
    (goal : SolveGoal) (rateMatrix : SparseMatrix) (exitRateVector : Option (List ℚ)) :
    (∀ (valueGetter : Nat → ℚ) (bsccLra : List ℚ),
      computeBsccLra (fun bscc => computeLongRunAveragesForBscc fuel bscc rateMatrix
          (SparseMatrix.transpose rateMatrix) valueGetter exitRateVector)
        (env.bsccDecomposition rateMatrix) = some bsccLra →
      BitVector.empty (BitVector.complement (statesInBsccsOf
        (SparseMatrix.getRowCount rateMatrix) (env.bsccDecomposition rateMatrix))) = false →
      env.hasEnabledCriticalRequirement
        (rewardEquationSystemMatrixOf env.isEquationSystemFormat rateMatrix
          (BitVector.complement (statesInBsccsOf (SparseMatrix.getRowCount rateMatrix)
            (env.bsccDecomposition rateMatrix))) exitRateVector)
        (minValueOf bsccLra) (maxValueOf bsccLra) = true →
      computeLongRunAverages env fuel goal rateMatrix valueGetter exitRateVector
          = some (Except.error Error.uncheckedRequirement)
        ∧ (computeLongRunAveragesTraced env fuel goal rateMatrix valueGetter
            exitRateVector).1.solver.solved = []
        ∧ (computeLongRunAveragesTraced env fuel goal rateMatrix valueGetter
            exitRateVector).1.solver.created
          = [rewardEquationSystemMatrixOf env.isEquationSystemFormat rateMatrix
              (BitVector.complement (statesInBsccsOf (SparseMatrix.getRowCount rateMatrix)
                (env.bsccDecomposition rateMatrix))) exitRateVector])
    ∧ (∀ psiStates : BitVector, BitVector.empty psiStates = false →
        BitVector.full psiStates = false →
        computeLongRunAverageProbabilitiesTraced env fuel goal rateMatrix psiStates
            exitRateVector
          = computeLongRunAveragesTraced env fuel goal rateMatrix
              (fun state => if BitVector.get psiStates state then 1 else 0) exitRateVector)
    ∧ (∀ rewardModel : RewardModel, RewardModel.empty rewardModel = false →
        computeLongRunAverageRewardsTraced env fuel goal rateMatrix rewardModel exitRateVector
          = computeLongRunAveragesTraced env fuel goal rateMatrix
              (rewardValueGetter rateMatrix rewardModel exitRateVector) exitRateVector)
    ∧ (∀ stateRewardVector : List ℚ,
        computeLongRunAverageStateRewardsTraced env fuel goal rateMatrix stateRewardVector
            exitRateVector
          = computeLongRunAveragesTraced env fuel goal rateMatrix
              (fun state => stateRewardVector.getD state 0) exitRateVector)
    ∧ (∀ (bscc : StronglyConnectedComponent) (backwardTransitions : SparseMatrix)
        (valueGetter : Nat → ℚ),
      env.hasEnabledCriticalRequirement
        (eqSysMatrix env.isEquationSystemFormat bscc backwardTransitions exitRateVector) 0 1
        = true →
      (computeLongRunAveragesForBsccEqSysTraced env bscc rateMatrix backwardTransitions
          valueGetter exitRateVector).2 = Except.error Error.uncheckedRequirement
        ∧ (computeLongRunAveragesForBsccEqSysTraced env bscc rateMatrix backwardTransitions
          valueGetter exitRateVector).1.solved = []) := by
  refine ⟨?_, ?_, ?_, fun _ => rfl, ?_⟩
  · intro valueGetter bsccLra hlra hout hreq
    unfold computeLongRunAverages
    rw [computeLongRunAveragesTraced_of_some env fuel goal rateMatrix valueGetter
      exitRateVector bsccLra hlra, if_pos (by rw [hout]; rfl), if_pos hreq]
    exact ⟨rfl, rfl, rfl⟩
  · intro psiStates hempty hfull
    unfold computeLongRunAverageProbabilitiesTraced
    simp only [hempty, hfull, Bool.false_eq_true, if_false]
  · intro rewardModel hmodel
    unfold computeLongRunAverageRewardsTraced
    simp only [hmodel, Bool.false_eq_true, if_false]
  · intro bscc backwardTransitions valueGetter hreq
    unfold computeLongRunAveragesForBsccEqSysTraced
    simp only [hreq, if_true, and_self]

/-- C20, witness: on the example chain with the blocks `{1}` and `{2}` and a solver that
reports a critical requirement, `computeLongRunAverages` fails with unchecked-requirement. -/
theorem longRunAverage_uncheckedRequirement_witness :
    computeLongRunAverages strictLongRunEnvironment 0 SolveGoal.default exampleRateMatrix
      (fun state => if state = 1 then 1 else 0) (some exampleExitRates)
      = some (Except.error Error.uncheckedRequirement) :=
  ((longRunAverage_uncheckedRequirement strictLongRunEnvironment 0 SolveGoal.default
    exampleRateMatrix (some exampleExitRates)).1 (fun state => if state = 1 then 1 else 0)
    [1, 0]
    (by simp [computeBsccLra, computeLongRunAveragesForBscc,
      computeLongRunAveragesForBsccTraced, strictLongRunEnvironment])
    (by decide) rfl).1

/-- C21: with an empty reward model `computeInstantaneousRewards`, `computeCumulativeRewards`
(both for a numeric domain with exponential support), `computeReachabilityRewards`,
`computeTotalRewards` and the overload of `computeLongRunAverageRewards` for a reward model
fail with invalid-property, whatever the other arguments; with a reward model that is not
empty, the first two and the long-run average do not fail with invalid-property, and the two
reductions return what the discrete-time helper returns for the arguments handed to it, so
that they raise no error of their own. -/
theorem rewardModel_empty_invalidProperty (env : Environment) (longRun : LongRunEnvironment)
    (dtmc : SparseDtmcPrctlHelper) (fuel : Nat) (goal : SolveGoal)
    (rateMatrix backwardTransitions : SparseMatrix) (exitRateVector : List ℚ)
    (optionalExitRateVector : Option (List ℚ)) (rewardModel : RewardModel)
    (targetStates : BitVector) (qualitative : Bool) (timeBound : ℚ) :
    (RewardModel.empty rewardModel = true →
      computeInstantaneousRewards env goal rateMatrix exitRateVector rewardModel timeBound
          = Except.error Error.invalidProperty
        ∧ computeCumulativeRewards env goal rateMatrix exitRateVector rewardModel timeBound
          = Except.error Error.invalidProperty
        ∧ computeReachabilityRewards dtmc goal rateMatrix backwardTransitions exitRateVector
            rewardModel targetStates qualitative = Except.error Error.invalidProperty
        ∧ computeTotalRewards dtmc goal rateMatrix backwardTransitions exitRateVector
            rewardModel qualitative = Except.error Error.invalidProperty
        ∧ computeLongRunAverageRewards longRun fuel goal rateMatrix rewardModel
            optionalExitRateVector = some (Except.error Error.invalidProperty))
    ∧ (RewardModel.empty rewardModel = false →
      computeInstantaneousRewards env goal rateMatrix exitRateVector rewardModel timeBound
          ≠ Except.error Error.invalidProperty
        ∧ computeCumulativeRewards env goal rateMatrix exitRateVector rewardModel timeBound
          ≠ Except.error Error.invalidProperty
        ∧ computeReachabilityRewards dtmc goal rateMatrix backwardTransitions exitRateVector
            rewardModel targetStates qualitative
          = dtmc.computeReachabilityRewards goal
              (computeProbabilityMatrix rateMatrix exitRateVector) backwardTransitions
              (reachabilityRewardsTotalRewardVector
                (computeProbabilityMatrix rateMatrix exitRateVector) exitRateVector rewardModel)
              targetStates qualitative
        ∧ computeTotalRewards dtmc goal rateMatrix backwardTransitions exitRateVector
            rewardModel qualitative
          = dtmc.computeTotalRewards goal
              (computeProbabilityMatrix rateMatrix exitRateVector) backwardTransitions
              (totalRewardsTotalRewardVector
                (computeProbabilityMatrix rateMatrix exitRateVector) exitRateVector rewardModel)
              qualitative
        ∧ computeLongRunAverageRewards longRun fuel goal rateMatrix rewardModel
            optionalExitRateVector ≠ some (Except.error Error.invalidProperty)) := by
  constructor
  · intro h
    refine ⟨?_, ?_, ?_, ?_, ?_⟩
    · simp [computeInstantaneousRewards, h]
    · simp [computeCumulativeRewards, h]
    · simp [computeReachabilityRewards, computeReachabilityRewardsTraced, h]
    · simp [computeTotalRewards, computeTotalRewardsTraced, h]
    · simp [computeLongRunAverageRewards, computeLongRunAverageRewardsTraced, h]
  · intro h
    refine ⟨computeInstantaneousRewards_ne_invalidProperty _ _ _ _ _ _ h,
      computeCumulativeRewards_ne_invalidProperty _ _ _ _ _ _ h, ?_, ?_, ?_⟩
    · simp [computeReachabilityRewards, computeReachabilityRewardsTraced, h]
    · simp [computeTotalRewards, computeTotalRewardsTraced, h]
    · unfold computeLongRunAverageRewards computeLongRunAverageRewardsTraced
      simp only [h, Bool.false_eq_true, if_false]
      exact computeLongRunAveragesTraced_ne_invalidProperty _ _ _ _ _ _

/-- C21, witness: on the example chain `computeInstantaneousRewards` fails with
invalid-property for the reward model without rewards, and `computeReachabilityRewards`
returns the vector of the discrete-time helper for the reward model with state rewards. -/
theorem rewardModel_empty_invalidProperty_witness :
    computeInstantaneousRewards exampleEnvironment SolveGoal.default exampleRateMatrix
        exampleExitRates emptyRewardModel 1 = Except.error Error.invalidProperty
    ∧ computeReachabilityRewards exampleDtmcHelper SolveGoal.default exampleRateMatrix
        exampleBackwardTransitions exampleExitRates exampleRewardModel [false, true, true] false
      = exampleDtmcHelper.computeReachabilityRewards SolveGoal.default
          (computeProbabilityMatrix exampleRateMatrix exampleExitRates)
          exampleBackwardTransitions
          (reachabilityRewardsTotalRewardVector
            (computeProbabilityMatrix exampleRateMatrix exampleExitRates) exampleExitRates
            exampleRewardModel)
          [false, true, true] false :=
  ⟨((rewardModel_empty_invalidProperty exampleEnvironment exampleLongRunEnvironment
      exampleDtmcHelper 0 SolveGoal.default exampleRateMatrix exampleBackwardTransitions
      exampleExitRates (some exampleExitRates) emptyRewardModel [false, true, true] false
      1).1 rfl).1,
    ((rewardModel_empty_invalidProperty exampleEnvironment exampleLongRunEnvironment
      exampleDtmcHelper 0 SolveGoal.default exampleRateMatrix exampleBackwardTransitions
      exampleExitRates (some exampleExitRates) exampleRewardModel [false, true, true] false
      1).2 rfl).2.2.1⟩

/-- C22: for a numeric domain without exponential support `computeBoundedUntilProbabilities`,
`computeInstantaneousRewards`, `computeCumulativeRewards` and
`computeAllTransientProbabilities` fail with the invalid-operation exception, the
unsupported-operation error of the specification, for every input; no vector is returned. -/
theorem withoutExponentialSupport_unsupported (env : Environment) (goal : SolveGoal)
    (rateMatrix backwardTransitions : SparseMatrix)
    (initialStates phiStates psiStates : BitVector) (exitRates : List ℚ) (qualitative : Bool)
    (lowerBound timeBound : ℚ) (upperBound : Option ℚ) (rewardModel : RewardModel) :
    computeBoundedUntilProbabilitiesFor false env goal rateMatrix backwardTransitions phiStates
        psiStates exitRates qualitative lowerBound upperBound
      = Except.error Error.invalidOperation
    ∧ computeInstantaneousRewardsFor false env goal rateMatrix exitRates rewardModel timeBound
      = Except.error Error.invalidOperation
    ∧ computeCumulativeRewardsFor false env goal rateMatrix exitRates rewardModel timeBound
      = Except.error Error.invalidOperation
    ∧ computeAllTransientProbabilitiesFor false env rateMatrix initialStates phiStates
        psiStates exitRates timeBound = Except.error Error.invalidOperation
    ∧ Error.isUnsupportedOperation Error.invalidOperation = true :=
  ⟨rfl, rfl, rfl, rfl, rfl⟩

/-- C23: for the domain of rational functions `computeLongRunAveragesForBsccVi` fails with the
not-supported exception, the unsupported-operation error of the specification, for every
block, rate matrix, value function and bound on the rounds; hence
`computeLongRunAveragesForBscc` fails for every block that does not consist of exactly one
state, returns `valueGetter s` for the block `{s}`, and returns a value only for blocks of one
state. -/
theorem rationalFunction_valueIteration_unsupported (fuel : Nat)
    (bscc : StronglyConnectedComponent) (rateMatrix backwardTransitions : SparseMatrix)
    (valueGetter : Nat → ℚ) (exitRateVector : Option (List ℚ)) :
    computeLongRunAveragesForBsccViFor NumericDomain.rationalFunction fuel bscc rateMatrix
        backwardTransitions valueGetter exitRateVector
      = some (Except.error Error.notSupported)
    ∧ Error.isUnsupportedOperation Error.notSupported = true
    ∧ (2 ≤ bscc.length →
        computeLongRunAveragesForBsccFor NumericDomain.rationalFunction fuel bscc rateMatrix
          backwardTransitions valueGetter exitRateVector
          = some (Except.error Error.notSupported))
    ∧ (∀ s, computeLongRunAveragesForBsccFor NumericDomain.rationalFunction fuel [s]
          rateMatrix backwardTransitions valueGetter exitRateVector
          = some (Except.ok (valueGetter s)))
    ∧ ((∃ value, computeLongRunAveragesForBsccFor NumericDomain.rationalFunction fuel bscc
          rateMatrix backwardTransitions valueGetter exitRateVector
          = some (Except.ok value)) ↔ bscc.length = 1) := by
  refine ⟨rfl, rfl, ?_, ?_, ?_⟩
  · intro h
    have hne : bscc.length ≠ 1 := by omega
    simp [computeLongRunAveragesForBsccFor, computeLongRunAveragesForBsccViFor, hne]
  · intro s
    simp [computeLongRunAveragesForBsccFor]
  · constructor
    · rintro ⟨value, h⟩
      by_contra hne
      simp [computeLongRunAveragesForBsccFor, computeLongRunAveragesForBsccViFor, hne] at h
    · intro h
      exact ⟨valueGetter (bscc.headD 0), by simp [computeLongRunAveragesForBsccFor, h]⟩

/-- C23, witness: the block `{0, 1}` of the chain `cycleRateMatrix` fails in the domain of
rational functions. -/
theorem rationalFunction_valueIteration_unsupported_witness :
    computeLongRunAveragesForBsccFor NumericDomain.rationalFunction 2 [0, 1] cycleRateMatrix
      (SparseMatrix.transpose cycleRateMatrix) (fun _ => 1) (some [1, 1])
      = some (Except.error Error.notSupported) :=
  (rationalFunction_valueIteration_unsupported 2 [0, 1] cycleRateMatrix
    (SparseMatrix.transpose cycleRateMatrix) (fun _ => 1) (some [1, 1])).2.2.1 (by decide)

/-- C24: for every rate matrix, exit-rate vector, environment and reward model that is not
empty, `computeInstantaneousRewards` with a time bound `timeBound <= 0` returns the state-reward
vector of the reward model unchanged. The result does not depend on the rate matrix, the exit
rates or the Fox-Glynn stage, so no uniformization rate is computed and tested: the function
does not fail with invalid-state, also when every exit rate is 0. -/
theorem computeInstantaneousRewards_timeBound_zero (env : Environment) (goal : SolveGoal)
    (rateMatrix : SparseMatrix) (exitRateVector : List ℚ) (rewardModel : RewardModel)
    (timeBound : ℚ) (hmodel : RewardModel.empty rewardModel = false)
    (htime : timeBound ≤ 0) :
    computeInstantaneousRewards env goal rateMatrix exitRateVector rewardModel timeBound
        = Except.ok (RewardModel.getStateRewardVector rewardModel)
    ∧ (∀ stateRewards, rewardModel.optionalStateRewardVector = some stateRewards →
        computeInstantaneousRewards env goal rateMatrix exitRateVector rewardModel timeBound
          = Except.ok stateRewards)
    ∧ computeInstantaneousRewards env goal rateMatrix exitRateVector rewardModel timeBound
        ≠ Except.error Error.invalidState
    ∧ computeInstantaneousRewards env goal rateMatrix
        (List.replicate exitRateVector.length 0) rewardModel timeBound
        = computeInstantaneousRewards env goal rateMatrix exitRateVector rewardModel
            timeBound := by
  have h : ∀ rates : List ℚ,
      computeInstantaneousRewards env goal rateMatrix rates rewardModel timeBound
        = Except.ok (RewardModel.getStateRewardVector rewardModel) := by
    intro rates
    unfold computeInstantaneousRewards
    simp only [hmodel, Bool.false_eq_true, if_false, gt_iff_lt, not_lt.mpr htime]
  refine ⟨h _, ?_, ?_, ?_⟩
  · intro stateRewards hstate
    rw [h, RewardModel.getStateRewardVector, hstate]
    rfl
  · rw [h]
    intro hne
    cases hne
  · rw [h, h]

/-- C24, witness: on the example chain with all exit rates 0 and the state rewards `[1, 0, 0]`
the function returns `[1, 0, 0]` for the time bound 0. -/
theorem computeInstantaneousRewards_timeBound_zero_witness :
    computeInstantaneousRewards exampleEnvironment SolveGoal.default exampleRateMatrix
      [0, 0, 0] exampleRewardModel 0 = Except.ok [1, 0, 0] :=
  (computeInstantaneousRewards_timeBound_zero exampleEnvironment SolveGoal.default
    exampleRateMatrix [0, 0, 0] exampleRewardModel 0 rfl (le_refl 0)).2.1 [1, 0, 0] rfl

/-- C25: for every rate matrix, exit-rate vector, environment and reward model that is not
empty, `computeCumulativeRewards` with the time bound 0 returns the zero vector with one entry
per state, whatever the exit rates (no uniformization rate is computed and tested), whereas
`computeTransientProbabilities` in cumulative mode returns its initial vector unchanged for the
time bound 0. -/
theorem computeCumulativeRewards_timeBound_zero (env : Environment) (goal : SolveGoal)
    (rateMatrix : SparseMatrix) (exitRateVector : List ℚ) (rewardModel : RewardModel)
    (hmodel : RewardModel.empty rewardModel = false) :
    computeCumulativeRewards env goal rateMatrix exitRateVector rewardModel 0
        = Except.ok (List.replicate (SparseMatrix.getRowCount rateMatrix) 0)
    ∧ computeCumulativeRewards env goal rateMatrix (List.replicate exitRateVector.length 0)
        rewardModel 0
        = Except.ok (List.replicate (SparseMatrix.getRowCount rateMatrix) 0)
    ∧ ∀ (uniformizedMatrix : SparseMatrix) (uniformizationRate : ℚ) (values : List ℚ),
        computeTransientProbabilities env true uniformizedMatrix none 0 uniformizationRate
            values = values := by
  have h : ∀ rates : List ℚ,
      computeCumulativeRewards env goal rateMatrix rates rewardModel 0
        = Except.ok (List.replicate (SparseMatrix.getRowCount rateMatrix) 0) := by
    intro rates
    unfold computeCumulativeRewards
    simp only [hmodel, Bool.false_eq_true, if_false, if_true]
  refine ⟨h _, h _, ?_⟩
  intro uniformizedMatrix uniformizationRate values
  simp [computeTransientProbabilities, computeTransientProbabilitiesTraced]

/-- C25, witness: on the example chain with the state rewards `[1, 0, 0]`, whose total reward
vector is `[1, 0, 0]`, the function returns `[0, 0, 0]` for the time bound 0. -/
theorem computeCumulativeRewards_timeBound_zero_witness :
    computeCumulativeRewards exampleEnvironment SolveGoal.default exampleRateMatrix
      exampleExitRates exampleRewardModel 0 = Except.ok [0, 0, 0] :=
  (computeCumulativeRewards_timeBound_zero exampleEnvironment SolveGoal.default
    exampleRateMatrix exampleExitRates exampleRewardModel rfl).1

/-- C26: in exact arithmetic, in cumulative mode with `timeBound * q ≠ 0`, without add-vector and
with a Fox-Glynn result whose weights are those of the indices `left..right` and whose total
weight is their sum, `computeTransientProbabilities` returns, with `x_k = P^k * v`, the sum over
`k = 0..left-1` of `x_k / q` plus the sum over `k = left..right` of `c_k * x_k`, where `c_k = (1 -
sum over i = left..k of weights[i - left] / totalWeight) / q`; the total weight is not 0, `c_k` is
the sum of the normalized weights above `k` divided by `q` and `c_right = 0`; and for `0 < q` and
non-negative weights the `c_k` are non-increasing in `k`. -/
theorem computeTransientProbabilities_cumulative (env : Environment) (P : SparseMatrix)
    (timeBound uniformizationRate : ℚ) (v : List ℚ) (fg : FoxGlynnResult)
    (hlambda : timeBound * uniformizationRate ≠ 0)
    (hP : SparseMatrix.getRowCount P = v.length)
    (hfg : env.foxGlynn (timeBound * uniformizationRate) (env.precision / 8) = fg)
    (hlength : fg.weights.length = fg.right + 1 - fg.left)
    (htotal : fg.totalWeight = fg.weights.sum)
    (hne : fg.totalWeight ≠ 0) :
    (computeTransientProbabilities env true P none timeBound uniformizationRate v).length
        = v.length
    ∧ (∀ i, (computeTransientProbabilities env true P none timeBound uniformizationRate
          v).getD i 0
        = ∑ k ∈ Finset.range fg.left,
            (transientIterate P none v k).getD i 0 / uniformizationRate
          + ∑ k ∈ Finset.Icc fg.left fg.right,
            cumulativeCoefficient fg uniformizationRate k
              * (transientIterate P none v k).getD i 0)
    ∧ (∀ k, fg.left ≤ k → k ≤ fg.right →
        cumulativeCoefficient fg uniformizationRate k
          = (∑ i ∈ Finset.Icc (k + 1) fg.right,
              fg.weights.getD (i - fg.left) 0 / fg.totalWeight) / uniformizationRate)
    ∧ cumulativeCoefficient fg uniformizationRate fg.right = 0
    ∧ (0 < uniformizationRate → (∀ w ∈ fg.weights, 0 ≤ w) →
        ∀ k, fg.left ≤ k →
          cumulativeCoefficient fg uniformizationRate (k + 1)
            ≤ cumulativeCoefficient fg uniformizationRate k) := by
  have hformula := computeTransientProbabilities_cumulative_formula env P timeBound
    uniformizationRate v hlambda hP (by rw [hfg, hlength])
  rw [hfg] at hformula
  refine ⟨hformula.1, hformula.2, fun k hleft hright =>
    cumulativeCoefficient_eq_tail fg uniformizationRate hlength htotal hne k hleft hright,
    ?_, ?_⟩
  · rw [cumulativeCoefficient_eq_tail fg uniformizationRate hlength htotal hne fg.right
      (left_le_right_of_totalWeight_ne_zero fg hlength htotal hne) (le_refl _)]
    simp
  · intro hq hnonneg k hleft
    exact cumulativeCoefficient_succ_le fg uniformizationRate htotal hq hnonneg k hleft

/-- C26, counterexample: in the instantiation for `double`, for the Fox-Glynn result with the
window `0..2`, the weights 1, 4 and 1 and the total weight 6, which is their sum, and the rate
1, the adjusted weights are about 5/6, about 1/6 and `2^-53`: the coefficient of the index `right`
is `2^-53` and not 0, because the rounded normalized weights add up to `1 - 2^-53` in `double`.
On the chain `shiftMatrix` with the initial vector `[0, 0, 1]`, for which `x_0` and `x_1` are
0 and `x_2` is 1 at state 0, the function returns `2^-53` for state 0, while the sum of the
claim with `c_right = 0`, which exact arithmetic returns, gives 0. -/
theorem computeTransientProbabilities_cumulative_counterexample :
    sixthsEnvironment.foxGlynn 1 (roundToDouble (sixthsEnvironment.precision / 8))
        = ⟨0, 2, 6, [1, 4, 1]⟩
      ∧ (6 : ℚ) = ([1, 4, 1] : List ℚ).sum
      ∧ transientWeightsRounded roundToDouble true 1 ⟨0, 2, 6, [1, 4, 1]⟩
        = [7505999378950827 / 9007199254740992, 750599937895083 / 4503599627370496, 1 / 9007199254740992]
      ∧ cumulativeCoefficient ⟨0, 2, 6, [1, 4, 1]⟩ 1 2 = 0
      ∧ computeTransientProbabilitiesRounded roundToDouble sixthsEnvironment true shiftMatrix
          none 1 1 [0, 0, 1]
        = [1 / 9007199254740992, 1501199875790167 / 9007199254740992, 1]
      ∧ computeTransientProbabilities sixthsEnvironment true shiftMatrix none 1 1 [0, 0, 1]
        = [0, 1 / 6, 1] := by
  have h1 : roundToDouble (1 / 6) = 6004799503160661 / 36028797018963968 := by
    rw [roundToDouble_of_near (1 / 6) (-3) (6004799503160661) (by norm_num) (by norm_num [abs_of_pos]) (by norm_num [abs_of_pos]) (by norm_num) (by norm_num)]
    norm_num
  have h2 : roundToDouble (2 / 3) = 6004799503160661 / 9007199254740992 := by
    rw [roundToDouble_of_near (2 / 3) (-1) (6004799503160661) (by norm_num) (by norm_num [abs_of_pos]) (by norm_num [abs_of_pos]) (by norm_num) (by norm_num)]
    norm_num
  have h3 : roundToDouble (6004799503160661 / 36028797018963968) = 6004799503160661 / 36028797018963968 := by
    rw [roundToDouble_of_near (6004799503160661 / 36028797018963968) (-3) (6004799503160661) (by norm_num) (by norm_num [abs_of_pos]) (by norm_num [abs_of_pos]) (by norm_num) (by norm_num)]
    norm_num
  have h4 : roundToDouble (30023997515803307 / 36028797018963968) = 7505999378950827 / 9007199254740992 := by
    rw [roundToDouble_of_near (30023997515803307 / 36028797018963968) (-1) (7505999378950827) (by norm_num) (by norm_num [abs_of_pos]) (by norm_num [abs_of_pos]) (by norm_num) (by norm_num)]
    norm_num
  have h5 : roundToDouble (7505999378950827 / 9007199254740992) = 7505999378950827 / 9007199254740992 := by
    rw [roundToDouble_of_near (7505999378950827 / 9007199254740992) (-1) (7505999378950827) (by norm_num) (by norm_num [abs_of_pos]) (by norm_num [abs_of_pos]) (by norm_num) (by norm_num)]
    norm_num
  have h6 : roundToDouble (30023997515803305 / 36028797018963968) = 3752999689475413 / 4503599627370496 := by
    rw [roundToDouble_of_near (30023997515803305 / 36028797018963968) (-1) (7505999378950826) (by norm_num) (by norm_num [abs_of_pos]) (by norm_num [abs_of_pos]) (by norm_num) (by norm_num)]
    norm_num
  have h7 : roundToDouble (750599937895083 / 4503599627370496) = 750599937895083 / 4503599627370496 := by
    rw [roundToDouble_of_near (750599937895083 / 4503599627370496) (-3) (6004799503160664) (by norm_num) (by norm_num [abs_of_pos]) (by norm_num [abs_of_pos]) (by norm_num) (by norm_num)]
    norm_num
  have h8 : roundToDouble (36028797018963965 / 36028797018963968) = 9007199254740991 / 9007199254740992 := by
    rw [roundToDouble_of_near (36028797018963965 / 36028797018963968) (-1) (9007199254740991) (by norm_num) (by norm_num [abs_of_pos]) (by norm_num [abs_of_pos]) (by norm_num) (by norm_num)]
    norm_num
  have h9 : roundToDouble (1 / 9007199254740992) = 1 / 9007199254740992 := by
    rw [roundToDouble_of_near (1 / 9007199254740992) (-53) (4503599627370496) (by norm_num) (by norm_num [abs_of_pos]) (by norm_num [abs_of_pos]) (by norm_num) (by norm_num)]
    norm_num
  have h10 : roundToDouble (1) = 1 := by
    rw [roundToDouble_of_near (1) (0) (4503599627370496) (by norm_num) (by norm_num [abs_of_pos]) (by norm_num [abs_of_pos]) (by norm_num) (by norm_num)]
    norm_num
  have h11 : roundToDouble (1 / 8000000) = 4722366482869645 / 37778931862957161709568 := by
    rw [roundToDouble_of_near (1 / 8000000) (-23) (4722366482869645) (by norm_num) (by norm_num [abs_of_pos]) (by norm_num [abs_of_pos]) (by norm_num) (by norm_num)]
    norm_num
  have h12 : roundToDouble 0 = 0 := roundToDouble_zero
  have h13 : roundToDouble (9007199254740993 / 9007199254740992) = 1 := by
    rw [roundToDouble_of_tie (9007199254740993 / 9007199254740992) (0) (4503599627370496) (by norm_num) (by norm_num [abs_of_pos]) (by norm_num [abs_of_pos]) (by norm_num)]
    norm_num
  have h14 : roundToDouble (1501199875790167 / 9007199254740992) = 1501199875790167 / 9007199254740992 := by
    rw [roundToDouble_of_near (1501199875790167 / 9007199254740992) (-3) (6004799503160668) (by norm_num) (by norm_num [abs_of_pos]) (by norm_num [abs_of_pos]) (by norm_num) (by norm_num)]
    norm_num
  have hweights : transientWeightsRounded roundToDouble true 1 ⟨0, 2, 6, [1, 4, 1]⟩
      = [7505999378950827 / 9007199254740992, 750599937895083 / 4503599627370496, 1 / 9007199254740992] := by
    norm_num [transientWeightsRounded, mixedPoissonWeightsRounded, h1, h2, h3, h4, h5, h6, h7, h8, h9, h10, h11, h12, h13, h14]
  have hstep1 : windowStepRounded roundToDouble shiftMatrix none
      [7505999378950827 / 9007199254740992, 750599937895083 / 4503599627370496, 1 / 9007199254740992] 0
      ⟨[0, 0, 1], [0, 0, 7505999378950827 / 9007199254740992], [], [(1, 4722366482869645 / 37778931862957161709568)]⟩ 1
      = ⟨[0, 1, 1], [0, 750599937895083 / 4503599627370496, 1], [none], [(1, 4722366482869645 / 37778931862957161709568)]⟩ := by
    norm_num [windowStepRounded, multiplyRounded, multiplyRowRounded, applyPointwise,
      shiftMatrix, SparseMatrix.getRow, List.range_succ, getElem_one_cons, h1, h2, h3, h4, h5, h6, h7, h8, h9, h10, h11, h12, h13, h14]
  have hstep2 : windowStepRounded roundToDouble shiftMatrix none
      [7505999378950827 / 9007199254740992, 750599937895083 / 4503599627370496, 1 / 9007199254740992] 0
      ⟨[0, 1, 1], [0, 750599937895083 / 4503599627370496, 1], [none], [(1, 4722366482869645 / 37778931862957161709568)]⟩ 2
      = ⟨[1, 1, 1], [1 / 9007199254740992, 1501199875790167 / 9007199254740992, 1], [none, none], [(1, 4722366482869645 / 37778931862957161709568)]⟩ := by
    norm_num [windowStepRounded, multiplyRounded, multiplyRowRounded, applyPointwise,
      shiftMatrix, SparseMatrix.getRow, List.range_succ, getElem_one_cons, h1, h2, h3, h4, h5, h6, h7, h8, h9, h10, h11, h12, h13, h14]
  have hlambda : roundToDouble ((1 : ℚ) * 1) = 1 := by
    norm_num [h1, h2, h3, h4, h5, h6, h7, h8, h9, h10, h11, h12, h13, h14]
  have hprecision : roundToDouble (sixthsEnvironment.precision / 8) = 4722366482869645 / 37778931862957161709568 := by
    norm_num [sixthsEnvironment, h1, h2, h3, h4, h5, h6, h7, h8, h9, h10, h11, h12, h13, h14]
  have hinitial : ([0, 0, 1] : List ℚ).map (fun a => roundToDouble
        (a * ([7505999378950827 / 9007199254740992, 750599937895083 / 4503599627370496, 1 / 9007199254740992] : List ℚ).getD 0 0))
      = [0, 0, 7505999378950827 / 9007199254740992] := by
    norm_num [h1, h2, h3, h4, h5, h6, h7, h8, h9, h10, h11, h12, h13, h14]
  have hrange : List.range' 1 (2 + 1 - 1) = [1, 2] := rfl
  refine ⟨rfl, by norm_num, hweights, ?_, ?_, ?_⟩
  · norm_num [cumulativeCoefficient, Finset.sum_Icc_succ_top, Finset.Icc_self]
  · unfold computeTransientProbabilitiesRounded
    rw [computeTransientProbabilitiesTracedRounded_of_ne_zero roundToDouble sixthsEnvironment
      true shiftMatrix none 1 1 [0, 0, 1] 1 ⟨0, 2, 6, [1, 4, 1]⟩ _ hlambda one_ne_zero rfl
      hweights]
    simp only [if_true, Bool.not_true, Bool.false_and, Bool.false_eq_true, if_false,
      Nat.sub_self, List.range'_zero, List.foldl_nil, hrange, List.foldl_cons, hinitial,
      hprecision, hstep1, hstep2]
  · simp [computeTransientProbabilities, computeTransientProbabilitiesTraced,
      sixthsEnvironment, transientWeights, mixedPoissonWeights, windowStep, List.range'_succ,
      multiply, multiplyRow, applyPointwise, shiftMatrix, SparseMatrix.getRow, List.range_succ,
      getElem_one_cons]
    norm_num

/-- C26, witness: with the Fox-Glynn result of the example environment, whose window is `0..2`
with the weights `[1, 1.02, 0.5202]` and the total weight `2.5402`, the rate 1 and the time
bound 1, the result has one entry per state and the last coefficient is 0. -/
theorem computeTransientProbabilities_cumulative_witness :
    (computeTransientProbabilities exampleEnvironment true exampleRateMatrix none 1 1
        [1, 0, 0]).length = 3
    ∧ cumulativeCoefficient ⟨0, 2, 2.5402, [1, 1.02, 0.5202]⟩ 1 2 = 0 :=
  have h := computeTransientProbabilities_cumulative exampleEnvironment exampleRateMatrix 1 1
    [1, 0, 0] ⟨0, 2, 2.5402, [1, 1.02, 0.5202]⟩ (by norm_num) rfl rfl rfl (by norm_num)
    (by norm_num)
  ⟨h.1, h.2.2.2.1⟩

/-- C28: for every rate matrix and exit-rate argument, `computeLongRunAverageProbabilities`
returns the zero vector with one entry per state when the psi set is empty, and the vector of
ones with one entry per state when the psi set holds every state (one bit per state); in both
cases no chain is decomposed into blocks and no solver is created or called, for every bound on
the rounds of the iteration. -/
theorem computeLongRunAverageProbabilities_degenerate (env : LongRunEnvironment) (fuel : Nat)
    (goal : SolveGoal) (rateMatrix : SparseMatrix) (psiStates : BitVector)
    (exitRateVector : Option (List ℚ)) :
    (BitVector.empty psiStates = true →
      computeLongRunAverageProbabilitiesTraced env fuel goal rateMatrix psiStates
          exitRateVector
        = (⟨[], ⟨[], []⟩⟩,
            some (Except.ok (List.replicate (SparseMatrix.getRowCount rateMatrix) 0))))
    ∧ (BitVector.full psiStates = true →
        psiStates.length = SparseMatrix.getRowCount rateMatrix →
        computeLongRunAverageProbabilitiesTraced env fuel goal rateMatrix psiStates
            exitRateVector
          = (⟨[], ⟨[], []⟩⟩,
              some (Except.ok (List.replicate (SparseMatrix.getRowCount rateMatrix) 1)))) := by
  constructor
  · intro hempty
    unfold computeLongRunAverageProbabilitiesTraced
    simp only [hempty, if_true]
  · intro hfull hlength
    unfold computeLongRunAverageProbabilitiesTraced
    by_cases hempty : BitVector.empty psiStates = true
    · have hnil := BitVector.eq_nil_of_empty_of_full hempty hfull
      rw [hnil] at hlength
      simp only [hempty, if_true]
      rw [← hlength]
      rfl
    · simp only [hempty, hfull, Bool.false_eq_true, if_false, if_true]

/-- C28, witness: on the example chain the psi set of all three states gives `[1, 1, 1]` and
the empty psi set gives `[0, 0, 0]`, without decomposition and without solver. -/
theorem computeLongRunAverageProbabilities_degenerate_witness :
    computeLongRunAverageProbabilitiesTraced exampleLongRunEnvironment 0 SolveGoal.default
        exampleRateMatrix [true, true, true] (some exampleExitRates)
      = (⟨[], ⟨[], []⟩⟩, some (Except.ok [1, 1, 1]))
    ∧ computeLongRunAverageProbabilitiesTraced exampleLongRunEnvironment 0 SolveGoal.default
        exampleRateMatrix [false, false, false] (some exampleExitRates)
      = (⟨[], ⟨[], []⟩⟩, some (Except.ok [0, 0, 0])) :=
  ⟨(computeLongRunAverageProbabilities_degenerate exampleLongRunEnvironment 0
      SolveGoal.default exampleRateMatrix [true, true, true] (some exampleExitRates)).2
      (by decide) (by decide),
    (computeLongRunAverageProbabilities_degenerate exampleLongRunEnvironment 0
      SolveGoal.default exampleRateMatrix [false, false, false] (some exampleExitRates)).1
      (by decide)⟩

/-- C29: for every reward model that is not empty, on a well-formed rate matrix with exit rates
that are all nonzero (one per state, as the reward vectors that are present),
`computeReachabilityRewards` and `computeTotalRewards` hand to the discrete-time helper the
probability matrix `computeProbabilityMatrix rateMatrix exitRateVector` and the same reward
vector; this vector has one entry per state and at every state the value
`totalRewardBySpecification`: state reward divided by exit rate, plus state-action reward,
plus the sum over the columns of probability times transition reward, each if present. -/
theorem rewardReduction_totalRewardVector (dtmc : SparseDtmcPrctlHelper) (goal : SolveGoal)
    (rateMatrix backwardTransitions : SparseMatrix) (exitRateVector : List ℚ)
    (rewardModel : RewardModel) (targetStates : BitVector) (qualitative : Bool)
    (hmodel : RewardModel.empty rewardModel = false)
    (hwf : SparseMatrix.WellFormed rateMatrix)
    (hcols : ∀ row ∈ rateMatrix.rows, ∀ e ∈ row, e.1 < rateMatrix.columnCount)
    (hrates : exitRateVector.length = SparseMatrix.getRowCount rateMatrix)
    (_hnonzero : ∀ rate ∈ exitRateVector, rate ≠ 0)
    (hstate : ∀ stateRewards, rewardModel.optionalStateRewardVector = some stateRewards →
      stateRewards.length = SparseMatrix.getRowCount rateMatrix)
    (hstateAction : ∀ stateActionRewards,
      rewardModel.optionalStateActionRewardVector = some stateActionRewards →
      stateActionRewards.length = SparseMatrix.getRowCount rateMatrix) :
    ∃ totalRewardVector : List ℚ,
      (computeReachabilityRewardsTraced dtmc goal rateMatrix backwardTransitions
          exitRateVector rewardModel targetStates qualitative).1
        = some (computeProbabilityMatrix rateMatrix exitRateVector, totalRewardVector)
      ∧ (computeTotalRewardsTraced dtmc goal rateMatrix backwardTransitions exitRateVector
          rewardModel qualitative).1
        = some (computeProbabilityMatrix rateMatrix exitRateVector, totalRewardVector)
      ∧ totalRewardVector.length = SparseMatrix.getRowCount rateMatrix
      ∧ ∀ state, state < SparseMatrix.getRowCount rateMatrix →
          totalRewardVector.getD state 0
            = totalRewardBySpecification (computeProbabilityMatrix rateMatrix exitRateVector)
                exitRateVector rewardModel state := by
  have hformula := reachabilityRewardsTotalRewardVector_formula rateMatrix exitRateVector
    rewardModel hmodel hwf hcols hrates hstate hstateAction
  refine ⟨reachabilityRewardsTotalRewardVector
    (computeProbabilityMatrix rateMatrix exitRateVector) exitRateVector rewardModel,
    ?_, ?_, hformula.1, hformula.2⟩
  · unfold computeReachabilityRewardsTraced
    rw [hmodel]
    rfl
  · unfold computeTotalRewardsTraced
    rw [hmodel]
    rfl

/-- C29, witness: for the chain with the rates 2 and 4, the exit rates `[2, 4]` and the reward
model with state rewards `[2, 4]`, state-action rewards `[1, 3]` and transition rewards 5 and
7, both functions hand over a vector with two entries that agree with the formula. -/
theorem rewardReduction_totalRewardVector_witness :
    ∃ totalRewardVector : List ℚ,
      (computeReachabilityRewardsTraced exampleDtmcHelper SolveGoal.default rewardRateMatrix
          (SparseMatrix.transpose rewardRateMatrix) [2, 4] fullRewardModel [false, true]
          false).1
        = some (computeProbabilityMatrix rewardRateMatrix [2, 4], totalRewardVector)
      ∧ (computeTotalRewardsTraced exampleDtmcHelper SolveGoal.default rewardRateMatrix
          (SparseMatrix.transpose rewardRateMatrix) [2, 4] fullRewardModel false).1
        = some (computeProbabilityMatrix rewardRateMatrix [2, 4], totalRewardVector)
      ∧ totalRewardVector.length = SparseMatrix.getRowCount rewardRateMatrix
      ∧ ∀ state, state < SparseMatrix.getRowCount rewardRateMatrix →
          totalRewardVector.getD state 0
            = totalRewardBySpecification (computeProbabilityMatrix rewardRateMatrix [2, 4])
                [2, 4] fullRewardModel state :=
  rewardReduction_totalRewardVector exampleDtmcHelper SolveGoal.default rewardRateMatrix
    (SparseMatrix.transpose rewardRateMatrix) [2, 4] fullRewardModel [false, true] false rfl
    (by simp [SparseMatrix.WellFormed, rewardRateMatrix])
    (by simp [rewardRateMatrix])
    rfl
    (by simp)
    (by intro stateRewards h; cases h; rfl)
    (by intro stateActionRewards h; cases h; rfl)

/-- C30: `computeAllTransientProbabilities` returns the plain output of
`computeTransientProbabilities` over all states for the uniformized transpose of the rate matrix
with the psi rows made absorbing, with the exit rates that are the given ones except 1 on psi
states, the rate `q` computed over all states with these exit rates (1.02 times their maximum),
no add-vector, the time bound `timeBound` and the initial vector that is `1 / |initialStates|`
on every initial state and 0 elsewhere; the rate is positive whenever the chain has a state
(otherwise the source throws invalid-state and there is no result). -/
theorem computeAllTransientProbabilities_iterator (env : Environment)
    (rateMatrix : SparseMatrix) (initialStates phiStates psiStates : BitVector)
    (exitRates : List ℚ) (timeBound : ℚ)
    (hrate : 0 < SparseMatrix.getRowCount rateMatrix →
      0 < uniformizationRateOf (BitVector.const (SparseMatrix.getRowCount rateMatrix) true)
        (absorbingExitRates exitRates psiStates)) :
    computeAllTransientProbabilities env rateMatrix initialStates phiStates psiStates exitRates
        timeBound
      = Except.ok (computeTransientProbabilities env false
          (computeUniformizedMatrix
            (SparseMatrix.transpose (SparseMatrix.makeRowsAbsorbing rateMatrix psiStates))
            (BitVector.const (SparseMatrix.getRowCount rateMatrix) true)
            (uniformizationRateOf (BitVector.const (SparseMatrix.getRowCount rateMatrix) true)
              (absorbingExitRates exitRates psiStates))
            (absorbingExitRates exitRates psiStates))
          none timeBound
          (uniformizationRateOf (BitVector.const (SparseMatrix.getRowCount rateMatrix) true)
            (absorbingExitRates exitRates psiStates))
          ((List.range (SparseMatrix.getRowCount rateMatrix)).map (fun state =>
            if BitVector.get initialStates state
            then 1 / (BitVector.getNumberOfSetBits initialStates : ℚ) else 0)))
    ∧ (∀ state, (absorbingExitRates exitRates psiStates).getD state 0
        = if BitVector.get psiStates state = true ∧ state < exitRates.length then 1
          else exitRates.getD state 0)
    ∧ (0 < SparseMatrix.getRowCount rateMatrix →
        IsInflatedMaximalExitRate (BitVector.const (SparseMatrix.getRowCount rateMatrix) true)
          (absorbingExitRates exitRates psiStates)
          (uniformizationRateOf (BitVector.const (SparseMatrix.getRowCount rateMatrix) true)
            (absorbingExitRates exitRates psiStates))) := by
  refine ⟨?_, getD_absorbingExitRates exitRates psiStates,
    fun hn => isInflatedMaximalExitRate_uniformizationRateOf _ _ (hrate hn)⟩
  unfold computeAllTransientProbabilities
  by_cases hn : 0 < SparseMatrix.getRowCount rateMatrix
  · have hq := hrate hn
    simp only [BitVector.empty_const_true _ hn, Bool.not_false, if_true, gt_iff_lt, hq,
      BitVector.setBits_const_true]
    rw [setVectorValues_const_true]
    rw [length_computeTransientProbabilities_plain]
    · simp
    · rw [getRowCount_computeUniformizedMatrix, BitVector.setBits_const_true]
      simp
  · have hzero : SparseMatrix.getRowCount rateMatrix = 0 := Nat.eq_zero_of_not_pos hn
    rw [hzero]
    simp [BitVector.const, BitVector.empty, computeTransientProbabilities,
      computeTransientProbabilitiesTraced, uniformizationRateOf, BitVector.setBits]

/-- C30, witness: on the example chain with the initial state 0, the psi state 1 and the time
bound 1, where the exit rates become `[3, 1, 0]` and the rate is positive. -/
theorem computeAllTransientProbabilities_iterator_witness :
    computeAllTransientProbabilities exampleEnvironment exampleRateMatrix
        [true, false, false] [true, true, true] [false, true, false] exampleExitRates 1
      = Except.ok (computeTransientProbabilities exampleEnvironment false
          (computeUniformizedMatrix
            (SparseMatrix.transpose
              (SparseMatrix.makeRowsAbsorbing exampleRateMatrix [false, true, false]))
            (BitVector.const (SparseMatrix.getRowCount exampleRateMatrix) true)
            (uniformizationRateOf
              (BitVector.const (SparseMatrix.getRowCount exampleRateMatrix) true)
              (absorbingExitRates exampleExitRates [false, true, false]))
            (absorbingExitRates exampleExitRates [false, true, false]))
          none 1
          (uniformizationRateOf
            (BitVector.const (SparseMatrix.getRowCount exampleRateMatrix) true)
            (absorbingExitRates exampleExitRates [false, true, false]))
          ((List.range (SparseMatrix.getRowCount exampleRateMatrix)).map (fun state =>
            if BitVector.get [true, false, false] state
            then 1 / (BitVector.getNumberOfSetBits [true, false, false] : ℚ) else 0))) :=
  (computeAllTransientProbabilities_iterator exampleEnvironment exampleRateMatrix
    [true, false, false] [true, true, true] [false, true, false] exampleExitRates 1
    (fun _ => (uniformizationRateOf_pos_iff _ _).mpr
      ⟨0, by decide, by
        rw [getD_absorbingExitRates]
        simp [exampleExitRates, BitVector.get]⟩)).1

/-- C31: for every block with at least two states and every other argument,
`computeLongRunAveragesForBscc` is `computeLongRunAveragesForBsccVi`: the same value for every
bound on the rounds, with the same ghost record of the iteration (the dispatcher records in
addition the submatrix that it prints), and for every numeric domain; neither function
has an argument that selects a variant. The variant `computeLongRunAveragesForBsccEqSys` is
not called: every solver that `computeLongRunAverages` creates is the one for the states
outside the blocks, whereas the variant would create a solver for its block. -/
theorem computeLongRunAveragesForBscc_valueIteration (fuel : Nat)
    (bscc : StronglyConnectedComponent) (rateMatrix backwardTransitions : SparseMatrix)
    (valueGetter : Nat → ℚ) (exitRateVector : Option (List ℚ)) (hsize : 2 ≤ bscc.length) :
    ((computeLongRunAveragesForBsccTraced fuel bscc rateMatrix backwardTransitions valueGetter
          exitRateVector).1.iteration,
        (computeLongRunAveragesForBsccTraced fuel bscc rateMatrix backwardTransitions valueGetter
          exitRateVector).2)
      = computeLongRunAveragesForBsccViTraced fuel bscc rateMatrix backwardTransitions
          valueGetter exitRateVector
    ∧ computeLongRunAveragesForBscc fuel bscc rateMatrix backwardTransitions valueGetter
        exitRateVector
      = computeLongRunAveragesForBsccVi fuel bscc rateMatrix backwardTransitions valueGetter
          exitRateVector
    ∧ (∀ domain : NumericDomain,
        computeLongRunAveragesForBsccFor domain fuel bscc rateMatrix backwardTransitions
            valueGetter exitRateVector
          = computeLongRunAveragesForBsccViFor domain fuel bscc rateMatrix backwardTransitions
              valueGetter exitRateVector)
    ∧ (∀ (env : LongRunEnvironment) (goal : SolveGoal),
        ∀ matrix ∈ (computeLongRunAveragesTraced env fuel goal rateMatrix valueGetter
            exitRateVector).1.solver.created,
          matrix = rewardEquationSystemMatrixOf env.isEquationSystemFormat rateMatrix
            (BitVector.complement (statesInBsccsOf (SparseMatrix.getRowCount rateMatrix)
              (env.bsccDecomposition rateMatrix))) exitRateVector) := by
  have hne : bscc.length ≠ 1 := by omega
  refine ⟨?_, ?_, ?_, ?_⟩
  · unfold computeLongRunAveragesForBsccTraced
    rw [if_neg hne]
  · unfold computeLongRunAveragesForBscc computeLongRunAveragesForBsccVi
      computeLongRunAveragesForBsccTraced
    rw [if_neg hne]
  · intro domain
    unfold computeLongRunAveragesForBsccFor
    rw [if_neg hne]
  · intro env goal
    exact created_computeLongRunAveragesTraced env fuel goal rateMatrix valueGetter
      exitRateVector

/-- C31, witness: for the block `{0, 1}` of the chain `cycleRateMatrix` the function is the
value iteration. -/
theorem computeLongRunAveragesForBscc_valueIteration_witness :
    computeLongRunAveragesForBscc 3 [0, 1] cycleRateMatrix
        (SparseMatrix.transpose cycleRateMatrix) (fun _ => 1) (some [1, 1])
      = computeLongRunAveragesForBsccVi 3 [0, 1] cycleRateMatrix
          (SparseMatrix.transpose cycleRateMatrix) (fun _ => 1) (some [1, 1]) :=
  (computeLongRunAveragesForBscc_valueIteration 3 [0, 1] cycleRateMatrix
    (SparseMatrix.transpose cycleRateMatrix) (fun _ => 1) (some [1, 1]) (by decide)).2.1

/-- C32: for a block without repeated states of a well-formed rate matrix whose backward
transitions are its transpose, with at least two states, whose exit rates are the row sums and
whose transitions all stay inside the block, every vector `x` that solves the system built by
`computeLongRunAveragesForBsccEqSys` in equation-system format with the right-hand side
`(1, 0, ..., 0)` sums to 1 over the block and satisfies global balance `x * Q = 0` at every
state of the block, the first one included, where `Q[s][s'] = R(s, s')` for `s ≠ s'` and
`Q[s][s] = R(s, s) - r(s)`; and when the solver has no enabled critical requirement and
returns `x`, the function returns the sum over the block of `x(s) * valueGetter(s)`. -/
theorem computeLongRunAveragesForBsccEqSys_globalBalance (env : LongRunEnvironment)
    (bscc : StronglyConnectedComponent) (rateMatrix : SparseMatrix) (valueGetter : Nat → ℚ)
    (exitRateVector : Option (List ℚ)) (x : List ℚ)
    (hsize : 2 ≤ bscc.length)
    (hformat : env.isEquationSystemFormat = true)
    (hnodup : bscc.Nodup)
    (hwf : SparseMatrix.WellFormed rateMatrix)
    (hstates : ∀ s ∈ bscc, s < SparseMatrix.getRowCount rateMatrix ∧ s < rateMatrix.columnCount)
    (hclosed : ∀ s ∈ bscc, ∀ e ∈ SparseMatrix.getRow rateMatrix s, e.1 ∈ bscc)
    (hexit : ∀ s ∈ bscc, viExitRate exitRateVector s = SparseMatrix.getRowSum rateMatrix s)
    (hsolve : multiply
        (eqSysMatrix true bscc (SparseMatrix.transpose rateMatrix) exitRateVector) x none
      = (List.replicate bscc.length (0 : ℚ)).set 0 1) :
    ∑ l ∈ Finset.range bscc.length, x.getD l 0 = 1
    ∧ (∀ k, k < bscc.length →
        ∑ l ∈ Finset.range bscc.length,
          x.getD l 0 * generatorEntry rateMatrix exitRateVector (bscc.getD l 0) (bscc.getD k 0)
          = 0)
    ∧ (env.hasEnabledCriticalRequirement
          (eqSysMatrix true bscc (SparseMatrix.transpose rateMatrix) exitRateVector) 0 1 = false →
        env.solveEquations
          (eqSysMatrix true bscc (SparseMatrix.transpose rateMatrix) exitRateVector) 0 1
          (List.replicate bscc.length (1 / (bscc.length : ℚ)))
          ((List.replicate bscc.length (0 : ℚ)).set 0 1) = x →
        (computeLongRunAveragesForBsccEqSysTraced env bscc rateMatrix
            (SparseMatrix.transpose rateMatrix) valueGetter exitRateVector).2
          = Except.ok (∑ l ∈ Finset.range bscc.length,
              x.getD l 0 * valueGetter (bscc.getD l 0))) := by
  have hpos : 0 < bscc.length := by omega
  have hrows := length_rows_eqSysMatrix true bscc (SparseMatrix.transpose rateMatrix)
    exitRateVector hpos
  have hsucc : ∀ k, k + 1 < bscc.length →
      ∑ l ∈ Finset.range bscc.length,
        x.getD l 0
          * generatorEntry rateMatrix exitRateVector (bscc.getD l 0) (bscc.getD (k + 1) 0)
        = 0 := by
    intro k hk
    have h := congrArg (fun v => v.getD (k + 1) 0) hsolve
    simp only [getD_multiply, hrows, if_pos hk, add_zero, getD_rightSide_succ] at h
    rw [← multiplyRow_eqSysMatrix_succ rateMatrix bscc exitRateVector x hwf hnodup hstates k hk]
    exact h
  have htotal : ∑ k ∈ Finset.range bscc.length, ∑ l ∈ Finset.range bscc.length,
      x.getD l 0 * generatorEntry rateMatrix exitRateVector (bscc.getD l 0) (bscc.getD k 0)
      = 0 := by
    rw [Finset.sum_comm]
    apply Finset.sum_eq_zero
    intro l hl
    have hl' := Finset.mem_range.mp hl
    rw [← Finset.mul_sum, sum_generatorEntry_block rateMatrix bscc exitRateVector hwf hnodup l
      hl' (hclosed _ (getD_mem bscc l hl')) (hexit _ (getD_mem bscc l hl')), mul_zero]
  refine ⟨?_, ?_, ?_⟩
  · have h := congrArg (fun v => v.getD 0 0) hsolve
    simp only [getD_multiply, hrows, if_pos hpos, add_zero, getD_rightSide_zero _ hpos,
      getRow_eqSysMatrix_zero, multiplyRow_ones] at h
    exact h
  · intro k hk
    cases k with
    | succ j => exact hsucc j hk
    | zero =>
      obtain ⟨n, hn⟩ : ∃ n, bscc.length = n + 1 := ⟨bscc.length - 1, by omega⟩
      have hrest : ∑ k ∈ Finset.range n, ∑ l ∈ Finset.range bscc.length,
          x.getD l 0
            * generatorEntry rateMatrix exitRateVector (bscc.getD l 0) (bscc.getD (k + 1) 0)
          = 0 := by
        apply Finset.sum_eq_zero
        intro k hk'
        exact hsucc k (by have := Finset.mem_range.mp hk'; omega)
      have hsplit := htotal
      nth_rewrite 1 [hn] at hsplit
      rw [Finset.sum_range_succ', hrest, zero_add] at hsplit
      exact hsplit
  · intro hrequirement hsolution
    unfold computeLongRunAveragesForBsccEqSysTraced
    simp only [hformat, hrequirement, Bool.false_eq_true, if_false, hsolution]
    rw [sum_map_range]
    congr 1
    apply Finset.sum_congr rfl
    intro l _
    ring

/-- C32, witness: on the two-state cycle with rates 1, the block of both states and the exit
rates `[1, 1]`, the uniform vector `[1 / 2, 1 / 2]` solves the system, and a solver that returns
it makes the function return the mean of the values of the two states. -/
theorem computeLongRunAveragesForBsccEqSys_globalBalance_witness :
    ∑ l ∈ Finset.range ([0, 1] : List Nat).length, ([1 / 2, 1 / 2] : List ℚ).getD l 0 = 1
    ∧ (∀ k, k < ([0, 1] : List Nat).length →
        ∑ l ∈ Finset.range ([0, 1] : List Nat).length,
          ([1 / 2, 1 / 2] : List ℚ).getD l 0
            * generatorEntry cycleRateMatrix (some [1, 1]) (([0, 1] : List Nat).getD l 0)
                (([0, 1] : List Nat).getD k 0)
          = 0)
    ∧ (computeLongRunAveragesForBsccEqSysTraced cycleLongRunEnvironment [0, 1] cycleRateMatrix
          (SparseMatrix.transpose cycleRateMatrix) (fun s => if s = 0 then 3 else 5)
          (some [1, 1])).2
        = Except.ok (∑ l ∈ Finset.range ([0, 1] : List Nat).length,
            ([1 / 2, 1 / 2] : List ℚ).getD l 0
              * (fun s => if s = 0 then (3 : ℚ) else 5) (([0, 1] : List Nat).getD l 0)) :=
  have h := computeLongRunAveragesForBsccEqSys_globalBalance cycleLongRunEnvironment [0, 1]
    cycleRateMatrix (fun s => if s = 0 then 3 else 5) (some [1, 1]) [1 / 2, 1 / 2]
    (by decide) rfl (by decide) (by decide) (by decide) (by decide)
    (by
      intro s hs
      simp only [List.mem_cons, List.mem_singleton, List.not_mem_nil, or_false] at hs
      rcases hs with rfl | rfl
      · rw [show SparseMatrix.getRowSum cycleRateMatrix 0 = 1 + 0 from rfl,
          show viExitRate (some [1, 1]) 0 = 1 from rfl]
        norm_num
      · rw [show SparseMatrix.getRowSum cycleRateMatrix 1 = 1 + 0 from rfl,
          show viExitRate (some [1, 1]) 1 = 1 from rfl]
        norm_num)
    multiply_eqSysMatrix_cycle
  ⟨h.1, h.2.1, h.2.2 rfl (by
    show List.replicate 2 (1 / ((2 : ℕ) : ℚ)) = [1 / 2, 1 / 2]
    simp)⟩

/-- C34: for every reward model that is not empty, `computeLongRunAverageRewards` is
`computeLongRunAverages` for the value function `rewardValueGetter`, and on a well-formed rate
matrix this function is, at every state `s`, the state reward of `s` if state rewards are
present, plus the state-action reward of `s` if state-action rewards are present, multiplied
by the exit rate of `s` when exit rates are given and unscaled when they are not, plus the sum
over all columns `j` of `rate(s, j) * transitionReward(s, j)`, with the rates of the rate
matrix, if transition rewards are present. -/
theorem computeLongRunAverageRewards_valueGetter (env : LongRunEnvironment) (fuel : Nat)
    (goal : SolveGoal) (rateMatrix : SparseMatrix) (rewardModel : RewardModel)
    (exitRateVector : Option (List ℚ))
    (hmodel : RewardModel.empty rewardModel = false)
    (hwf : SparseMatrix.WellFormed rateMatrix)
    (hcols : ∀ row ∈ rateMatrix.rows, ∀ e ∈ row, e.1 < rateMatrix.columnCount) :
    computeLongRunAverageRewardsTraced env fuel goal rateMatrix rewardModel exitRateVector
      = computeLongRunAveragesTraced env fuel goal rateMatrix
          (rewardValueGetter rateMatrix rewardModel exitRateVector) exitRateVector
    ∧ ∀ state, rewardValueGetter rateMatrix rewardModel exitRateVector state
        = longRunRewardBySpecification rateMatrix rewardModel exitRateVector state := by
  refine ⟨?_, fun state => rewardValueGetter_eq rateMatrix rewardModel exitRateVector state
    hwf hcols⟩
  unfold computeLongRunAverageRewardsTraced
  rw [hmodel]
  rfl

/-- C34, witness: for the chain with the rates 2 and 4, the exit rates `[2, 4]` and the reward
model with state rewards `[2, 4]`, state-action rewards `[1, 3]` and transition rewards 5 and
7, the value function agrees with the formula at state 0. -/
theorem computeLongRunAverageRewards_valueGetter_witness :
    rewardValueGetter rewardRateMatrix fullRewardModel (some [2, 4]) 0
      = longRunRewardBySpecification rewardRateMatrix fullRewardModel (some [2, 4]) 0 :=
  (computeLongRunAverageRewards_valueGetter exampleLongRunEnvironment 0 SolveGoal.default
    rewardRateMatrix fullRewardModel (some [2, 4]) rfl
    (by simp [SparseMatrix.WellFormed, rewardRateMatrix])
    (by simp [rewardRateMatrix])).2 0

/-- C35: in exact arithmetic, for the lower bound 0 and a finite upper bound `t > 0`, a
well-formed rate matrix without negative rates whose exit rates on the maybe states `M` are the
row sums, and a Fox-Glynn result with weights that are not negative and a total weight that is
their sum and positive, `computeBoundedUntilProbabilities` returns a vector with one entry per
state whose entries all lie in `[0, 1]`, and every iterate `x_0 = 0`, `x_(k+1) = P * x_k + b` over
`M` lies in `[0, 1]`. The rate `q` over `M` is positive whenever `M` is not empty (otherwise the
source throws invalid-state). -/
theorem computeBoundedUntilProbabilities_unit_interval (env : Environment) (goal : SolveGoal)
    (rateMatrix backwardTransitions : SparseMatrix) (phiStates psiStates : BitVector)
    (exitRates : List ℚ) (qualitative : Bool) (t : ℚ) (ht : 0 < t)
    (hwf : SparseMatrix.WellFormed rateMatrix)
    (hrates : ∀ row ∈ rateMatrix.rows, ∀ e ∈ row, 0 ≤ e.2)
    (hexit : ∀ s ∈ BitVector.setBits (maybeStatesOf backwardTransitions phiStates psiStates),
      exitRates.getD s 0 = SparseMatrix.getRowSum rateMatrix s)
    (hrate : BitVector.empty (maybeStatesOf backwardTransitions phiStates psiStates) = false →
      0 < uniformizationRateOf (maybeStatesOf backwardTransitions phiStates psiStates)
        exitRates)
    (hweights : ∀ w ∈ (env.foxGlynn
        (t * uniformizationRateOf (maybeStatesOf backwardTransitions phiStates psiStates)
          exitRates) (env.precision / 8)).weights, 0 ≤ w)
    (htotal : (env.foxGlynn
        (t * uniformizationRateOf (maybeStatesOf backwardTransitions phiStates psiStates)
          exitRates) (env.precision / 8)).totalWeight
      = (env.foxGlynn
        (t * uniformizationRateOf (maybeStatesOf backwardTransitions phiStates psiStates)
          exitRates) (env.precision / 8)).weights.sum)
    (hpositive : 0 < (env.foxGlynn
        (t * uniformizationRateOf (maybeStatesOf backwardTransitions phiStates psiStates)
          exitRates) (env.precision / 8)).totalWeight) :
    ∃ result : List ℚ,
      computeBoundedUntilProbabilities env goal rateMatrix backwardTransitions phiStates
          psiStates exitRates qualitative 0 (some t) = Except.ok result
      ∧ result.length = SparseMatrix.getRowCount rateMatrix
      ∧ (∀ s, 0 ≤ result.getD s 0 ∧ result.getD s 0 ≤ 1)
      ∧ (BitVector.empty (maybeStatesOf backwardTransitions phiStates psiStates) = false →
          ∀ k i,
            0 ≤ (transientIterate
                (computeUniformizedMatrix rateMatrix
                  (maybeStatesOf backwardTransitions phiStates psiStates)
                  (uniformizationRateOf (maybeStatesOf backwardTransitions phiStates psiStates)
                    exitRates) exitRates)
                (some ((BitVector.setBits
                    (maybeStatesOf backwardTransitions phiStates psiStates)).map (fun m =>
                  entrySum ((SparseMatrix.getRow rateMatrix m).filter
                    (fun e => BitVector.get psiStates e.1))
                  / uniformizationRateOf (maybeStatesOf backwardTransitions phiStates psiStates)
                      exitRates)))
                (List.replicate (BitVector.getNumberOfSetBits
                  (maybeStatesOf backwardTransitions phiStates psiStates)) 0) k).getD i 0
            ∧ (transientIterate
                (computeUniformizedMatrix rateMatrix
                  (maybeStatesOf backwardTransitions phiStates psiStates)
                  (uniformizationRateOf (maybeStatesOf backwardTransitions phiStates psiStates)
                    exitRates) exitRates)
                (some ((BitVector.setBits
                    (maybeStatesOf backwardTransitions phiStates psiStates)).map (fun m =>
                  entrySum ((SparseMatrix.getRow rateMatrix m).filter
                    (fun e => BitVector.get psiStates e.1))
                  / uniformizationRateOf (maybeStatesOf backwardTransitions phiStates psiStates)
                      exitRates)))
                (List.replicate (BitVector.getNumberOfSetBits
                  (maybeStatesOf backwardTransitions phiStates psiStates)) 0) k).getD i 0
              ≤ 1) := by
  have _ := hpositive
  have hiterates : BitVector.empty (maybeStatesOf backwardTransitions phiStates psiStates)
      = false → ∀ k i,
        0 ≤ (transientIterate
            (computeUniformizedMatrix rateMatrix
              (maybeStatesOf backwardTransitions phiStates psiStates)
              (uniformizationRateOf (maybeStatesOf backwardTransitions phiStates psiStates)
                exitRates) exitRates)
            (some ((BitVector.setBits
                (maybeStatesOf backwardTransitions phiStates psiStates)).map (fun m =>
              entrySum ((SparseMatrix.getRow rateMatrix m).filter
                (fun e => BitVector.get psiStates e.1))
              / uniformizationRateOf (maybeStatesOf backwardTransitions phiStates psiStates)
                  exitRates)))
            (List.replicate (BitVector.getNumberOfSetBits
              (maybeStatesOf backwardTransitions phiStates psiStates)) 0) k).getD i 0
        ∧ (transientIterate
            (computeUniformizedMatrix rateMatrix
              (maybeStatesOf backwardTransitions phiStates psiStates)
              (uniformizationRateOf (maybeStatesOf backwardTransitions phiStates psiStates)
                exitRates) exitRates)
            (some ((BitVector.setBits
                (maybeStatesOf backwardTransitions phiStates psiStates)).map (fun m =>
              entrySum ((SparseMatrix.getRow rateMatrix m).filter
                (fun e => BitVector.get psiStates e.1))
              / uniformizationRateOf (maybeStatesOf backwardTransitions phiStates psiStates)
                  exitRates)))
            (List.replicate (BitVector.getNumberOfSetBits
              (maybeStatesOf backwardTransitions phiStates psiStates)) 0) k).getD i 0
          ≤ 1 := by
    intro hM
    have hq := hrate hM
    exact transientIterate_mem_unit _ _ _
      (computeUniformizedMatrix_nonneg rateMatrix _ _ exitRates hrates hq
        (uniformizationRateOf_ge _ exitRates))
      (constrainedRowSums_nonneg rateMatrix _ psiStates _ hq hrates)
      (fun i hi => uniformized_rowSum_add_le_one rateMatrix _ psiStates _ exitRates hwf hrates
        hq hexit (maybeStatesOf_disjoint_psi backwardTransitions phiStates psiStates) i hi)
  rw [computeBoundedUntilProbabilities_zero_to _ _ _ _ _ _ _ _ _ (ne_of_gt ht)]
  by_cases hG : BitVector.empty (performProbGreater0 backwardTransitions phiStates psiStates)
      = true
  · rw [if_pos hG]
    refine ⟨_, rfl, List.length_replicate _ _, ?_, hiterates⟩
    intro s
    rw [getD_replicate_zero]
    exact ⟨le_refl 0, zero_le_one⟩
  · rw [if_neg hG]
    have hbase : ∀ s, 0 ≤ (setVectorValue
          (List.replicate (SparseMatrix.getRowCount rateMatrix) 0) psiStates 1).getD s 0
        ∧ (setVectorValue
          (List.replicate (SparseMatrix.getRowCount rateMatrix) 0) psiStates 1).getD s 0
          ≤ 1 := by
      intro s
      rw [getD_setVectorValue]
      split
      · split
        · exact ⟨zero_le_one, le_refl 1⟩
        · rw [getD_replicate_zero]
          exact ⟨le_refl 0, zero_le_one⟩
      · exact ⟨le_refl 0, zero_le_one⟩
    by_cases hM : BitVector.empty (maybeStatesOf backwardTransitions phiStates psiStates) = true
    · rw [if_pos hM]
      refine ⟨_, rfl, ?_, hbase, hiterates⟩
      rw [length_setVectorValue, List.length_replicate]
    · rw [if_neg hM]
      have hM' : BitVector.empty (maybeStatesOf backwardTransitions phiStates psiStates)
          = false := by simpa using hM
      have hq := hrate hM'
      have hlambda : t * uniformizationRateOf
          (maybeStatesOf backwardTransitions phiStates psiStates) exitRates ≠ 0 :=
        ne_of_gt (mul_pos ht hq)
      have hP := computeUniformizedMatrix_nonneg rateMatrix
        (maybeStatesOf backwardTransitions phiStates psiStates) _ exitRates hrates hq
        (uniformizationRateOf_ge _ exitRates)
      have hb := constrainedRowSums_nonneg rateMatrix
        (maybeStatesOf backwardTransitions phiStates psiStates) psiStates _ hq hrates
      have hrows := getRowCount_computeUniformizedMatrix rateMatrix
        (maybeStatesOf backwardTransitions phiStates psiStates)
        (uniformizationRateOf (maybeStatesOf backwardTransitions phiStates psiStates)
          exitRates) exitRates
      have hnonnegTotal : 0 ≤ (env.foxGlynn
          (t * uniformizationRateOf (maybeStatesOf backwardTransitions phiStates psiStates)
            exitRates) (env.precision / 8)).totalWeight := by
        rw [htotal]
        exact List.sum_nonneg hweights
      rw [computeMaybeStateProbabilities_of_pos _ _ _ _ _ _ hq]
      refine ⟨_, rfl, ?_, ?_, hiterates⟩
      · rw [length_setVectorValues, length_setVectorValue, List.length_replicate]
      · intro s
        rw [getD_setVectorValues]
        split
        · split
          · exact ⟨computeTransientProbabilities_plain_nonneg env _ _ _ t _ hP hb hrows
                hlambda hweights hnonnegTotal _,
              computeTransientProbabilities_plain_le_one env _ _ _ t _ hrows hlambda
                (fun k i => ((hiterates hM') k i).2) hweights htotal _⟩
          · exact hbase s
        · exact ⟨le_refl 0, zero_le_one⟩

/-- C35, counterexample: in the instantiation for `double`, on the chain with the rate 1 from
state 0 to the absorbing psi state 1, whose exit rate 1 is the sum of the row, for the interval
`[0, 1]` and the Fox-Glynn result with the window `12..14`, the weights 6, 23 and 1 and the
total weight 30, which is their sum, `computeBoundedUntilProbabilities` returns `1 + 2^-52` for
state 0, which is more than 1. The iterates `x_k` are 1 from the index 10 on, and the rounded
normalized weights `fl(6/30)`, `fl(23/30)` and `fl(1/30)` add up to `1 + 2^-52` in
`double`. -/
theorem computeBoundedUntilProbabilities_unit_interval_counterexample :
    SparseMatrix.WellFormed twoStateRateMatrix
      ∧ (∀ row ∈ twoStateRateMatrix.rows, ∀ e ∈ row, (0 : ℚ) ≤ e.2)
      ∧ (∀ s, s < SparseMatrix.getRowCount twoStateRateMatrix →
          ([1, 0] : List ℚ).getD s 0 = SparseMatrix.getRowSum twoStateRateMatrix s)
      ∧ (∀ lambda precision : ℚ,
          (∀ w ∈ (skewedWindowEnvironment.foxGlynn lambda precision).weights, 0 ≤ w)
          ∧ (skewedWindowEnvironment.foxGlynn lambda precision).totalWeight
            = (skewedWindowEnvironment.foxGlynn lambda precision).weights.sum
          ∧ 0 < (skewedWindowEnvironment.foxGlynn lambda precision).totalWeight)
      ∧ computeBoundedUntilProbabilitiesRounded roundToDouble skewedWindowEnvironment
          SolveGoal.default twoStateRateMatrix twoStateBackwardTransitions [true, false]
          [false, true] [1, 0] false 0 (some 1)
        = Except.ok [4503599627370497 / 4503599627370496, 1]
      ∧ (1 : ℚ) < ([4503599627370497 / 4503599627370496, 1] : List ℚ).getD 0 0 := by
  refine ⟨by simp [SparseMatrix.WellFormed, twoStateRateMatrix], by simp [twoStateRateMatrix],
    ?_, ?_, computeBoundedUntilProbabilitiesRounded_skewed_one, by norm_num⟩
  · intro s hs
    have hs' : s < 2 := hs
    interval_cases s <;>
      norm_num [twoStateRateMatrix, SparseMatrix.getRowSum, SparseMatrix.getRow, entrySum]
  · intro lambda precision
    by_cases h : lambda < 2
    · simp only [skewedWindowEnvironment, if_pos h]
      refine ⟨?_, by norm_num, by norm_num⟩
      intro w hw
      simp only [List.mem_cons, List.mem_singleton, List.not_mem_nil, or_false] at hw
      rcases hw with rfl | rfl | rfl <;> norm_num
    · simp only [skewedWindowEnvironment, if_neg h]
      refine ⟨?_, by norm_num, by norm_num⟩
      intro w hw
      simp only [List.mem_cons, List.mem_singleton, List.not_mem_nil, or_false] at hw
      rcases hw with rfl | rfl | rfl <;> norm_num

/-- C35, witness: on the example chain, whose exit rates `[3, 0, 0]` are the row sums, with the
psi state 1 and the interval `[0, 1]`, every entry of the result lies in `[0, 1]`. -/
theorem computeBoundedUntilProbabilities_unit_interval_witness :
    ∃ result : List ℚ,
      computeBoundedUntilProbabilities exampleEnvironment SolveGoal.default exampleRateMatrix
          exampleBackwardTransitions [true, true, true] [false, true, false] exampleExitRates
          false 0 (some 1) = Except.ok result
      ∧ result.length = SparseMatrix.getRowCount exampleRateMatrix
      ∧ ∀ s, 0 ≤ result.getD s 0 ∧ result.getD s 0 ≤ 1 := by
  obtain ⟨result, hreturn, hlength, hvalues, _⟩ :=
    computeBoundedUntilProbabilities_unit_interval exampleEnvironment SolveGoal.default
      exampleRateMatrix exampleBackwardTransitions [true, true, true] [false, true, false]
      exampleExitRates false 1 (by norm_num) exampleRateMatrix_wellFormed
      (by
        intro row hrow e he
        simp only [exampleRateMatrix, List.mem_cons, List.mem_singleton, List.not_mem_nil,
          or_false] at hrow
        rcases hrow with rfl | rfl | rfl
        · simp only [List.mem_cons, List.mem_singleton, List.not_mem_nil, or_false] at he
          rcases he with rfl | rfl <;> norm_num
        · cases he
        · cases he)
      (by
        rw [maybeStatesOf_example]
        intro s hs
        have h : BitVector.setBits [true, false, false] = [0] := by decide
        rw [h, List.mem_singleton] at hs
        subst hs
        norm_num [exampleExitRates, exampleRateMatrix, SparseMatrix.getRowSum,
          SparseMatrix.getRow, entrySum])
      (fun _ => by rw [maybeStatesOf_example, uniformizationRateOf_example]; norm_num)
      (by
        intro w hw
        simp only [exampleEnvironment, List.mem_cons, List.mem_singleton, List.not_mem_nil,
          or_false] at hw
        rcases hw with rfl | rfl | rfl <;> norm_num)
      (by
        simp only [exampleEnvironment]
        norm_num)
      (by
        simp only [exampleEnvironment]
        norm_num)
  exact ⟨result, hreturn, hlength, hvalues⟩

/-- C36: in exact arithmetic, for every block with at least two states, all of them states of the
chain, exit rates that are not negative on the block (or absent) and a value function that is a
constant `c ≥ 0` on the block, `computeLongRunAveragesForBsccVi` leaves its loop in the first
round and returns exactly `c`, for every rate matrix and every bound of at least one round; hence
for the indicator of the psi states it returns 1 for a block inside the psi states and 0 for a
block disjoint from them. -/
theorem computeLongRunAveragesForBsccVi_constant (fuel : Nat)
    (bscc : StronglyConnectedComponent) (rateMatrix backwardTransitions : SparseMatrix)
    (valueGetter : Nat → ℚ) (exitRateVector : Option (List ℚ)) (c : ℚ)
    (hsize : 2 ≤ bscc.length)
    (hstates : ∀ s ∈ bscc, s < SparseMatrix.getRowCount rateMatrix)
    (hexit : ∀ exitRates, exitRateVector = some exitRates →
      ∀ s ∈ bscc, 0 ≤ exitRates.getD s 0)
    (hvalue : ∀ s ∈ bscc, valueGetter s = c) (hc : 0 ≤ c) :
    computeLongRunAveragesForBsccVi (fuel + 1) bscc rateMatrix backwardTransitions valueGetter
        exitRateVector = some c
    ∧ (computeLongRunAveragesForBsccViTraced (fuel + 1) bscc rateMatrix backwardTransitions
        valueGetter exitRateVector).1.rounds = 1
    ∧ computeLongRunAveragesForBscc (fuel + 1) bscc rateMatrix backwardTransitions valueGetter
        exitRateVector = some c
    ∧ (∀ psiStates : BitVector, (∀ s ∈ bscc, BitVector.get psiStates s = true) →
        computeLongRunAveragesForBsccVi (fuel + 1) bscc rateMatrix backwardTransitions
          (fun state => if BitVector.get psiStates state then 1 else 0) exitRateVector
          = some 1)
    ∧ (∀ psiStates : BitVector, (∀ s ∈ bscc, BitVector.get psiStates s = false) →
        computeLongRunAveragesForBsccVi (fuel + 1) bscc rateMatrix backwardTransitions
          (fun state => if BitVector.get psiStates state then 1 else 0) exitRateVector
          = some 0) := by
  have hpos : 0 < bscc.length := by omega
  have hne : bscc.length ≠ 1 := by omega
  have hmain := computeLongRunAveragesForBsccViTraced_const fuel bscc rateMatrix
    backwardTransitions valueGetter exitRateVector c hpos hstates hexit hvalue hc
  refine ⟨?_, ?_, ?_, ?_, ?_⟩
  · unfold computeLongRunAveragesForBsccVi
    rw [hmain]
  · rw [hmain]
  · unfold computeLongRunAveragesForBscc computeLongRunAveragesForBsccTraced
    rw [if_neg hne, hmain]
  · intro psiStates hpsi
    unfold computeLongRunAveragesForBsccVi
    rw [computeLongRunAveragesForBsccViTraced_const fuel bscc rateMatrix backwardTransitions
      _ exitRateVector 1 hpos hstates hexit (fun s hs => by simp [hpsi s hs]) zero_le_one]
  · intro psiStates hpsi
    unfold computeLongRunAveragesForBsccVi
    rw [computeLongRunAveragesForBsccViTraced_const fuel bscc rateMatrix backwardTransitions
      _ exitRateVector 0 hpos hstates hexit (fun s hs => by simp [hpsi s hs]) (le_refl 0)]

/-- C36, counterexample: in the instantiation for `double`, for the block of both states of the
chain with the rate 48 from each state to the other one, the exit rates `[48, 48]` and the
value function that is 1 everywhere (the indicator of a psi set that contains the block), the
value iteration leaves its loop in the first round and returns
`fl(fl(1 * fl(1 / 49)) * 49) = 1 - 2^-53`, which is not 1. -/
theorem computeLongRunAveragesForBsccVi_constant_counterexample :
    (∀ s ∈ [0, 1], ([48, 48] : List ℚ).getD s 0 = SparseMatrix.getRowSum fastCycleRateMatrix s)
      ∧ (∀ fuel : Nat,
        computeLongRunAveragesForBsccViTracedRounded roundToDouble (fuel + 1) [0, 1]
            fastCycleRateMatrix (SparseMatrix.transpose fastCycleRateMatrix) (fun _ => 1)
            (some [48, 48])
          = (⟨some ⟨2, [[(0, 91910196476949 / 4503599627370496), (1, 4411689430893547 / 4503599627370496)], [(0, 4411689430893547 / 4503599627370496), (1, 91910196476949 / 4503599627370496)]]⟩, 1⟩,
              some (9007199254740991 / 9007199254740992)))
      ∧ (∀ fuel : Nat,
        computeLongRunAveragesForBsccViRounded roundToDouble (fuel + 1) [0, 1]
            fastCycleRateMatrix (SparseMatrix.transpose fastCycleRateMatrix) (fun _ => 1)
            (some [48, 48]) ≠ some 1) := by
  have h1 : roundToDouble (49) = 49 := by
    rw [roundToDouble_of_near (49) (5) (6896136929411072) (by norm_num) (by norm_num [abs_of_pos]) (by norm_num [abs_of_pos]) (by norm_num) (by norm_num)]
    norm_num
  have h2 : roundToDouble ((-48)) = (-48) := by
    rw [roundToDouble_of_near ((-48)) (5) (-6755399441055744) (by norm_num) (by norm_num [abs_of_neg]) (by norm_num [abs_of_neg]) (by norm_num) (by norm_num)]
    norm_num
  have h3 : roundToDouble ((-(48 / 49))) = (-(4411689430893547 / 4503599627370496)) := by
    rw [roundToDouble_of_near ((-(48 / 49))) (-1) (-8823378861787094) (by norm_num) (by norm_num [abs_of_neg]) (by norm_num [abs_of_neg]) (by norm_num) (by norm_num)]
    norm_num
  have h4 : roundToDouble (91910196476949 / 4503599627370496) = 91910196476949 / 4503599627370496 := by
    rw [roundToDouble_of_near (91910196476949 / 4503599627370496) (-6) (5882252574524736) (by norm_num) (by norm_num [abs_of_pos]) (by norm_num [abs_of_pos]) (by norm_num) (by norm_num)]
    norm_num
  have h5 : roundToDouble (48 / 49) = 4411689430893547 / 4503599627370496 := by
    rw [roundToDouble_of_near (48 / 49) (-1) (8823378861787094) (by norm_num) (by norm_num [abs_of_pos]) (by norm_num [abs_of_pos]) (by norm_num) (by norm_num)]
    norm_num
  have h6 : roundToDouble (1 / 49) = 5882252574524729 / 288230376151711744 := by
    rw [roundToDouble_of_near (1 / 49) (-6) (5882252574524729) (by norm_num) (by norm_num [abs_of_pos]) (by norm_num [abs_of_pos]) (by norm_num) (by norm_num)]
    norm_num
  have h7 : roundToDouble (5882252574524729 / 288230376151711744) = 5882252574524729 / 288230376151711744 := by
    rw [roundToDouble_of_near (5882252574524729 / 288230376151711744) (-6) (5882252574524729) (by norm_num) (by norm_num [abs_of_pos]) (by norm_num [abs_of_pos]) (by norm_num) (by norm_num)]
    norm_num
  have h8 : roundToDouble (1 / 1000000) = 4722366482869645 / 4722366482869645213696 := by
    rw [roundToDouble_of_near (1 / 1000000) (-20) (4722366482869645) (by norm_num) (by norm_num [abs_of_pos]) (by norm_num [abs_of_pos]) (by norm_num) (by norm_num)]
    norm_num
  have h9 : roundToDouble (4722366482869645 / 231395957660612615471104) = 3083994437792421 / 151115727451828646838272 := by
    rw [roundToDouble_of_near (4722366482869645 / 231395957660612615471104) (-26) (6167988875584842) (by norm_num) (by norm_num [abs_of_pos]) (by norm_num [abs_of_pos]) (by norm_num) (by norm_num)]
    norm_num
  have h10 : roundToDouble 0 = 0 := roundToDouble_zero
  have h11 : roundToDouble (5882252574524729 / 144115188075855872) = 5882252574524729 / 144115188075855872 := by
    rw [roundToDouble_of_near (5882252574524729 / 144115188075855872) (-5) (5882252574524729) (by norm_num) (by norm_num [abs_of_pos]) (by norm_num [abs_of_pos]) (by norm_num) (by norm_num)]
    norm_num
  have h12 : roundToDouble (18140834221524412622290033278909 / 21778071482940061661655974875633165533184) = 1007018591932219 / 1208925819614629174706176 := by
    rw [roundToDouble_of_near (18140834221524412622290033278909 / 21778071482940061661655974875633165533184) (-31) (8056148735457752) (by norm_num) (by norm_num [abs_of_pos]) (by norm_num [abs_of_pos]) (by norm_num) (by norm_num)]
    norm_num
  have h13 : roundToDouble (288230376151711721 / 288230376151711744) = 9007199254740991 / 9007199254740992 := by
    rw [roundToDouble_of_near (288230376151711721 / 288230376151711744) (-1) (9007199254740991) (by norm_num) (by norm_num [abs_of_pos]) (by norm_num [abs_of_pos]) (by norm_num) (by norm_num)]
    norm_num
  have hE : ∀ s ∈ [0, 1],
      ([48, 48] : List ℚ).getD s 0 = SparseMatrix.getRowSum fastCycleRateMatrix s := by
    intro s hs
    simp only [List.mem_cons, List.mem_singleton, List.not_mem_nil, or_false] at hs
    rcases hs with rfl | rfl <;>
      norm_num [fastCycleRateMatrix, SparseMatrix.getRowSum, SparseMatrix.getRow, entrySum]
  have hstates : bsccStatesOf (SparseMatrix.getRowCount fastCycleRateMatrix) [0, 1]
      = [true, true] := by decide
  have hrate : viUniformizationRateRounded roundToDouble [true, true] (some [48, 48]) = 49 := by
    have hunfold : viUniformizationRateRounded roundToDouble [true, true] (some [48, 48])
        = roundToDouble (max 48 48 + 1) := rfl
    rw [hunfold]
    norm_num [h1, h2, h3, h4, h5, h6, h7, h8, h9, h10, h11, h12, h13]
  have hmatrix : viBsccMatrixRounded roundToDouble fastCycleRateMatrix [true, true] 49
      (some [48, 48]) = ⟨2, [[(0, 91910196476949 / 4503599627370496), (1, 4411689430893547 / 4503599627370496)], [(0, 4411689430893547 / 4503599627370496), (1, 91910196476949 / 4503599627370496)]]⟩ := by
    have hunfold : viBsccMatrixRounded roundToDouble fastCycleRateMatrix [true, true] 49
        (some [48, 48])
        = ⟨2, [[(0, roundToDouble (1 + roundToDouble (roundToDouble (0 - 48) / 49))),
              (1, roundToDouble (48 / 49))],
            [(0, roundToDouble (48 / 49)),
              (1, roundToDouble (1 + roundToDouble (roundToDouble (0 - 48) / 49)))]]⟩ := rfl
    rw [hunfold]
    norm_num [h1, h2, h3, h4, h5, h6, h7, h8, h9, h10, h11, h12, h13]
  have hrewards : (BitVector.setBits [true, true]).map (fun _ =>
        roundToDouble ((1 : ℚ) * roundToDouble (1 / 49)))
      = [5882252574524729 / 288230376151711744, 5882252574524729 / 288230376151711744] := by
    have hbits : BitVector.setBits [true, true] = [0, 1] := by decide
    rw [hbits]
    norm_num [h1, h2, h3, h4, h5, h6, h7, h8, h9, h10, h11, h12, h13]
  have hprecision : roundToDouble (roundToDouble (1 / 1000000) / 49) = 3083994437792421 / 151115727451828646838272 := by
    norm_num [h1, h2, h3, h4, h5, h6, h7, h8, h9, h10, h11, h12, h13]
  have hround : viRoundRounded roundToDouble ⟨2, [[(0, 91910196476949 / 4503599627370496), (1, 4411689430893547 / 4503599627370496)], [(0, 4411689430893547 / 4503599627370496), (1, 91910196476949 / 4503599627370496)]]⟩
      [5882252574524729 / 288230376151711744, 5882252574524729 / 288230376151711744] [0, 0] [0, 0]
      = ⟨[5882252574524729 / 288230376151711744, 5882252574524729 / 288230376151711744], 5882252574524729 / 288230376151711744, 5882252574524729 / 288230376151711744⟩ := by
    have hunfold : viRoundRounded roundToDouble ⟨2, [[(0, 91910196476949 / 4503599627370496), (1, 4411689430893547 / 4503599627370496)], [(0, 4411689430893547 / 4503599627370496), (1, 91910196476949 / 4503599627370496)]]⟩
        [5882252574524729 / 288230376151711744, 5882252574524729 / 288230376151711744] [0, 0] [0, 0]
        = ⟨[roundToDouble (5882252574524729 / 288230376151711744 + roundToDouble (roundToDouble (0
                + roundToDouble (91910196476949 / 4503599627370496 * 0))
                + roundToDouble (4411689430893547 / 4503599627370496 * 0))),
              roundToDouble (5882252574524729 / 288230376151711744 + roundToDouble (roundToDouble (0
                + roundToDouble (4411689430893547 / 4503599627370496 * 0))
                + roundToDouble (91910196476949 / 4503599627370496 * 0)))],
            max (roundToDouble (roundToDouble (5882252574524729 / 288230376151711744 + roundToDouble (roundToDouble (0
                + roundToDouble (91910196476949 / 4503599627370496 * 0))
                + roundToDouble (4411689430893547 / 4503599627370496 * 0))) - 0))
              (roundToDouble (roundToDouble (5882252574524729 / 288230376151711744 + roundToDouble (roundToDouble (0
                + roundToDouble (4411689430893547 / 4503599627370496 * 0))
                + roundToDouble (91910196476949 / 4503599627370496 * 0))) - 0)),
            min (roundToDouble (roundToDouble (5882252574524729 / 288230376151711744 + roundToDouble (roundToDouble (0
                + roundToDouble (91910196476949 / 4503599627370496 * 0))
                + roundToDouble (4411689430893547 / 4503599627370496 * 0))) - 0))
              (roundToDouble (roundToDouble (5882252574524729 / 288230376151711744 + roundToDouble (roundToDouble (0
                + roundToDouble (4411689430893547 / 4503599627370496 * 0))
                + roundToDouble (91910196476949 / 4503599627370496 * 0))) - 0))⟩ := rfl
    rw [hunfold]
    norm_num [h1, h2, h3, h4, h5, h6, h7, h8, h9, h10, h11, h12, h13]
  have hvi : ∀ fuel : Nat, valueIterationRounded roundToDouble ⟨2, [[(0, 91910196476949 / 4503599627370496), (1, 4411689430893547 / 4503599627370496)], [(0, 4411689430893547 / 4503599627370496), (1, 91910196476949 / 4503599627370496)]]⟩
      [5882252574524729 / 288230376151711744, 5882252574524729 / 288230376151711744]
      (3083994437792421 / 151115727451828646838272) true (fuel + 1) 0
      (List.replicate (SparseMatrix.getRowCount
        (⟨2, [[(0, 91910196476949 / 4503599627370496), (1, 4411689430893547 / 4503599627370496)], [(0, 4411689430893547 / 4503599627370496), (1, 91910196476949 / 4503599627370496)]]⟩ : SparseMatrix)) 0)
      (List.replicate (SparseMatrix.getRowCount
        (⟨2, [[(0, 91910196476949 / 4503599627370496), (1, 4411689430893547 / 4503599627370496)], [(0, 4411689430893547 / 4503599627370496), (1, 91910196476949 / 4503599627370496)]]⟩ : SparseMatrix)) 0)
      = some (1, [5882252574524729 / 288230376151711744, 5882252574524729 / 288230376151711744]) := by
    intro fuel
    have hzero : List.replicate (SparseMatrix.getRowCount
        (⟨2, [[(0, 91910196476949 / 4503599627370496), (1, 4411689430893547 / 4503599627370496)], [(0, 4411689430893547 / 4503599627370496), (1, 91910196476949 / 4503599627370496)]]⟩ : SparseMatrix)) (0 : ℚ) = [0, 0] := rfl
    rw [hzero]
    unfold valueIterationRounded
    simp only [hround, List.headD_cons, if_true]
    rw [if_pos (by norm_num [h1, h2, h3, h4, h5, h6, h7, h8, h9, h10, h11, h12, h13])]
  have hlast : roundToDouble (([5882252574524729 / 288230376151711744, 5882252574524729 / 288230376151711744] : List ℚ).headD 0 * 49)
      = 9007199254740991 / 9007199254740992 := by
    simp only [List.headD_cons]
    rw [show (5882252574524729 / 288230376151711744 : ℚ) * 49 = 288230376151711721 / 288230376151711744 by norm_num, h13]
  refine ⟨hE, ?_, ?_⟩
  · intro fuel
    rw [computeLongRunAveragesForBsccViTracedRounded_of_some roundToDouble (fuel + 1) [0, 1]
      fastCycleRateMatrix (SparseMatrix.transpose fastCycleRateMatrix) (fun _ => 1)
      (some [48, 48]) [true, true] 49 _ _ _ 1 _ hstates hrate hmatrix hrewards hprecision
      (hvi fuel), hlast]
  · intro fuel
    rw [computeLongRunAveragesForBsccViRounded_of_some roundToDouble (fuel + 1) [0, 1]
      fastCycleRateMatrix (SparseMatrix.transpose fastCycleRateMatrix) (fun _ => 1)
      (some [48, 48]) [true, true] 49 _ _ _ 1 _ hstates hrate hmatrix hrewards hprecision
      (hvi fuel), hlast]
    intro h
    have hvalue := Option.some.inj h
    norm_num at hvalue

/-- C36, witness: for the block `{0, 1}` of the chain `cycleRateMatrix` with the exit rates
`[1, 1]` and the value function that is 3 everywhere the value iteration returns 3, with a
bound of one round. -/
theorem computeLongRunAveragesForBsccVi_constant_witness :
    computeLongRunAveragesForBsccVi 1 [0, 1] cycleRateMatrix
      (SparseMatrix.transpose cycleRateMatrix) (fun _ => 3) (some [1, 1]) = some 3 :=
  (computeLongRunAveragesForBsccVi_constant 0 [0, 1] cycleRateMatrix
    (SparseMatrix.transpose cycleRateMatrix) (fun _ => 3) (some [1, 1]) 3 (by decide)
    (by decide)
    (by
      intro exitRates h s hs
      cases h
      simp only [List.mem_cons, List.mem_singleton, List.not_mem_nil, or_false] at hs
      rcases hs with rfl | rfl <;> norm_num)
    (fun _ _ => rfl) (by norm_num)).1

/-- C37: in exact arithmetic, for a well-formed square rate matrix whose exit rates are its row
sums, a non-empty set of initial states, every set of psi states and a Fox-Glynn result whose
total weight is the sum of its weights (one per index of the window) and not 0,
`computeAllTransientProbabilities` returns a vector with one entry per state whose entries sum to
exactly 1. The uniformized transpose of the matrix with absorbing psi rows has column sums 1, and
applying it to a vector keeps the sum of the vector. The rate `q` is positive (otherwise the
source throws invalid-state and returns nothing). -/
theorem computeAllTransientProbabilities_mass (env : Environment)
    (rateMatrix : SparseMatrix) (initialStates phiStates psiStates : BitVector)
    (exitRates : List ℚ) (timeBound : ℚ)
    (hwf : SparseMatrix.WellFormed rateMatrix)
    (hsquare : rateMatrix.columnCount = SparseMatrix.getRowCount rateMatrix)
    (hcols : ∀ j, ∀ e ∈ SparseMatrix.getRow rateMatrix j,
      e.1 < SparseMatrix.getRowCount rateMatrix)
    (hrates : exitRates.length = SparseMatrix.getRowCount rateMatrix)
    (hexit : ∀ s, s < SparseMatrix.getRowCount rateMatrix →
      exitRates.getD s 0 = SparseMatrix.getRowSum rateMatrix s)
    (hstates : initialStates.length = SparseMatrix.getRowCount rateMatrix)
    (hinitial : 0 < BitVector.getNumberOfSetBits initialStates)
    (hrate : 0 < uniformizationRateOf
      (BitVector.const (SparseMatrix.getRowCount rateMatrix) true)
      (absorbingExitRates exitRates psiStates))
    (hlength : (env.foxGlynn
        (timeBound * uniformizationRateOf
          (BitVector.const (SparseMatrix.getRowCount rateMatrix) true)
          (absorbingExitRates exitRates psiStates)) (env.precision / 8)).weights.length
      = (env.foxGlynn
        (timeBound * uniformizationRateOf
          (BitVector.const (SparseMatrix.getRowCount rateMatrix) true)
          (absorbingExitRates exitRates psiStates)) (env.precision / 8)).right + 1
        - (env.foxGlynn
        (timeBound * uniformizationRateOf
          (BitVector.const (SparseMatrix.getRowCount rateMatrix) true)
          (absorbingExitRates exitRates psiStates)) (env.precision / 8)).left)
    (htotal : (env.foxGlynn
        (timeBound * uniformizationRateOf
          (BitVector.const (SparseMatrix.getRowCount rateMatrix) true)
          (absorbingExitRates exitRates psiStates)) (env.precision / 8)).totalWeight
      = (env.foxGlynn
        (timeBound * uniformizationRateOf
          (BitVector.const (SparseMatrix.getRowCount rateMatrix) true)
          (absorbingExitRates exitRates psiStates)) (env.precision / 8)).weights.sum)
    (hne : (env.foxGlynn
        (timeBound * uniformizationRateOf
          (BitVector.const (SparseMatrix.getRowCount rateMatrix) true)
          (absorbingExitRates exitRates psiStates)) (env.precision / 8)).totalWeight ≠ 0) :
    (∃ result : List ℚ,
      computeAllTransientProbabilities env rateMatrix initialStates phiStates psiStates
          exitRates timeBound = Except.ok result
      ∧ result.length = SparseMatrix.getRowCount rateMatrix
      ∧ result.sum = 1)
    ∧ (∀ column, column < SparseMatrix.getRowCount rateMatrix →
        ∑ row ∈ Finset.range (SparseMatrix.getRowCount rateMatrix),
          entrySum ((SparseMatrix.getRow
            (computeUniformizedMatrix
              (SparseMatrix.transpose (SparseMatrix.makeRowsAbsorbing rateMatrix psiStates))
              (BitVector.const (SparseMatrix.getRowCount rateMatrix) true)
              (uniformizationRateOf
                (BitVector.const (SparseMatrix.getRowCount rateMatrix) true)
                (absorbingExitRates exitRates psiStates))
              (absorbingExitRates exitRates psiStates)) row).filter
            (fun e => e.1 == column)) = 1)
    ∧ (∀ values : List ℚ,
        ∑ row ∈ Finset.range (SparseMatrix.getRowCount rateMatrix),
          (multiply
            (computeUniformizedMatrix
              (SparseMatrix.transpose (SparseMatrix.makeRowsAbsorbing rateMatrix psiStates))
              (BitVector.const (SparseMatrix.getRowCount rateMatrix) true)
              (uniformizationRateOf
                (BitVector.const (SparseMatrix.getRowCount rateMatrix) true)
                (absorbingExitRates exitRates psiStates))
              (absorbingExitRates exitRates psiStates)) values none).getD row 0
        = ∑ row ∈ Finset.range (SparseMatrix.getRowCount rateMatrix), values.getD row 0) := by
  generalize hqdef : uniformizationRateOf
    (BitVector.const (SparseMatrix.getRowCount rateMatrix) true)
    (absorbingExitRates exitRates psiStates) = q at hrate hlength htotal hne ⊢
  have hcount := getRowCount_makeRowsAbsorbing rateMatrix psiStates
  have hwf' := wellFormed_makeRowsAbsorbing rateMatrix psiStates hwf
  have hsquare' : (SparseMatrix.makeRowsAbsorbing rateMatrix psiStates).columnCount
      = SparseMatrix.getRowCount (SparseMatrix.makeRowsAbsorbing rateMatrix psiStates) := by
    rw [hcount]
    exact hsquare
  have hcols' := columns_makeRowsAbsorbing rateMatrix psiStates hcols
  have hexit' : ∀ j, j < SparseMatrix.getRowCount
      (SparseMatrix.makeRowsAbsorbing rateMatrix psiStates) →
      (absorbingExitRates exitRates psiStates).getD j 0
        = SparseMatrix.getRowSum (SparseMatrix.makeRowsAbsorbing rateMatrix psiStates) j := by
    intro j hj
    rw [hcount] at hj
    exact absorbingExitRates_eq_getRowSum rateMatrix psiStates exitRates hrates hexit j hj
  have hmass : ∀ values : List ℚ,
      ∑ row ∈ Finset.range (SparseMatrix.getRowCount rateMatrix),
        (multiply
          (computeUniformizedMatrix
            (SparseMatrix.transpose (SparseMatrix.makeRowsAbsorbing rateMatrix psiStates))
            (BitVector.const (SparseMatrix.getRowCount rateMatrix) true) q
            (absorbingExitRates exitRates psiStates)) values none).getD row 0
      = ∑ row ∈ Finset.range (SparseMatrix.getRowCount rateMatrix), values.getD row 0 := by
    intro values
    have h := sum_multiply_uniformized_transpose
      (SparseMatrix.makeRowsAbsorbing rateMatrix psiStates) q
      (absorbingExitRates exitRates psiStates) values hwf' hsquare' hcols' hexit'
    rw [hcount] at h
    exact h
  have hn : 0 < SparseMatrix.getRowCount rateMatrix := by
    rw [← hstates]
    unfold BitVector.getNumberOfSetBits BitVector.setBits at hinitial
    cases hlen : initialStates.length with
    | zero => rw [hlen] at hinitial; simp at hinitial
    | succ k => omega
  refine ⟨?_, ?_, hmass⟩
  · refine ⟨computeTransientProbabilities env false
      (computeUniformizedMatrix
        (SparseMatrix.transpose (SparseMatrix.makeRowsAbsorbing rateMatrix psiStates))
        (BitVector.const (SparseMatrix.getRowCount rateMatrix) true) q
        (absorbingExitRates exitRates psiStates))
      none timeBound q
      ((List.range (SparseMatrix.getRowCount rateMatrix)).map (fun state =>
        if BitVector.get initialStates state
        then 1 / (BitVector.getNumberOfSetBits initialStates : ℚ) else 0)), ?_, ?_, ?_⟩
    · rw [← hqdef]
      exact computeAllTransientProbabilities_of_pos env rateMatrix initialStates phiStates
        psiStates exitRates timeBound hn (by rw [hqdef]; exact hrate)
    · rw [length_computeTransientProbabilities_plain]
      · simp
      · rw [getRowCount_computeUniformizedMatrix, BitVector.setBits_const_true]
        simp
    · have h := sum_computeTransientProbabilities_uniformized_transpose env
        (SparseMatrix.makeRowsAbsorbing rateMatrix psiStates) timeBound q
        (absorbingExitRates exitRates psiStates)
        ((List.range (SparseMatrix.getRowCount rateMatrix)).map (fun state =>
          if BitVector.get initialStates state
          then 1 / (BitVector.getNumberOfSetBits initialStates : ℚ) else 0))
        hwf' hsquare' hcols' hexit' (by rw [hcount]; simp)
        (fun _ => hlength) (fun _ => htotal) (fun _ => hne)
      rw [hcount] at h
      rw [h, ← hstates]
      exact sum_initialDistribution initialStates hinitial
  · intro column hcolumn
    have h := hmass ((List.range (SparseMatrix.getRowCount rateMatrix)).map
      (fun s => if s = column then (1 : ℚ) else 0))
    have hrows : (computeUniformizedMatrix
        (SparseMatrix.transpose (SparseMatrix.makeRowsAbsorbing rateMatrix psiStates))
        (BitVector.const (SparseMatrix.getRowCount rateMatrix) true) q
        (absorbingExitRates exitRates psiStates)).rows.length
        = SparseMatrix.getRowCount rateMatrix := by
      have h := getRowCount_computeUniformizedMatrix
        (SparseMatrix.transpose (SparseMatrix.makeRowsAbsorbing rateMatrix psiStates))
        (BitVector.const (SparseMatrix.getRowCount rateMatrix) true) q
        (absorbingExitRates exitRates psiStates)
      rw [BitVector.setBits_const_true, List.length_range] at h
      exact h
    have hleft : ∀ row ∈ Finset.range (SparseMatrix.getRowCount rateMatrix),
        (multiply
          (computeUniformizedMatrix
            (SparseMatrix.transpose (SparseMatrix.makeRowsAbsorbing rateMatrix psiStates))
            (BitVector.const (SparseMatrix.getRowCount rateMatrix) true) q
            (absorbingExitRates exitRates psiStates))
          ((List.range (SparseMatrix.getRowCount rateMatrix)).map
            (fun s => if s = column then (1 : ℚ) else 0)) none).getD row 0
        = entrySum ((SparseMatrix.getRow
            (computeUniformizedMatrix
              (SparseMatrix.transpose (SparseMatrix.makeRowsAbsorbing rateMatrix psiStates))
              (BitVector.const (SparseMatrix.getRowCount rateMatrix) true) q
              (absorbingExitRates exitRates psiStates)) row).filter
            (fun e => e.1 == column)) := by
      intro row hrow
      rw [getD_multiply, hrows, if_pos (Finset.mem_range.mp hrow),
        multiplyRow_unitVector _ _ _ hcolumn, add_zero]
    have hright : ∀ row ∈ Finset.range (SparseMatrix.getRowCount rateMatrix),
        ((List.range (SparseMatrix.getRowCount rateMatrix)).map
            (fun s => if s = column then (1 : ℚ) else 0)).getD row 0
        = if row = column then 1 else 0 := by
      intro row hrow
      rw [getD_map_range, if_pos (Finset.mem_range.mp hrow)]
    rw [Finset.sum_congr rfl hleft, Finset.sum_congr rfl hright, Finset.sum_ite_eq',
      if_pos (Finset.mem_range.mpr hcolumn)] at h
    exact h

/-- C37, counterexample: in the instantiation for `double`, for the chain of ten states with
the rate 1 from every state to the next one, the exit rates 1, all ten states initial, no psi
state and the time bound 0, `computeAllTransientProbabilities` returns ten copies of
`initDist = fl(1 / 10)`, the `double` nearest to one tenth, which sum to `1 + 2^-54` and not to
1; added from left to right in `double` they give `1 - 2^-53`. -/
theorem computeAllTransientProbabilities_mass_counterexample :
    SparseMatrix.WellFormed tenCycleRateMatrix
      ∧ tenCycleRateMatrix.columnCount = SparseMatrix.getRowCount tenCycleRateMatrix
      ∧ (∀ s, s < SparseMatrix.getRowCount tenCycleRateMatrix →
          ([1, 1, 1, 1, 1, 1, 1, 1, 1, 1] : List ℚ).getD s 0
            = SparseMatrix.getRowSum tenCycleRateMatrix s)
      ∧ 0 < BitVector.getNumberOfSetBits
          [true, true, true, true, true, true, true, true, true, true]
      ∧ (∀ env : Environment,
        computeAllTransientProbabilitiesRounded roundToDouble env tenCycleRateMatrix
            [true, true, true, true, true, true, true, true, true, true]
            [true, true, true, true, true, true, true, true, true, true]
            [false, false, false, false, false, false, false, false, false, false]
            [1, 1, 1, 1, 1, 1, 1, 1, 1, 1] 0
          = Except.ok [3602879701896397 / 36028797018963968, 3602879701896397 / 36028797018963968, 3602879701896397 / 36028797018963968, 3602879701896397 / 36028797018963968, 3602879701896397 / 36028797018963968, 3602879701896397 / 36028797018963968, 3602879701896397 / 36028797018963968, 3602879701896397 / 36028797018963968, 3602879701896397 / 36028797018963968, 3602879701896397 / 36028797018963968])
      ∧ ([3602879701896397 / 36028797018963968, 3602879701896397 / 36028797018963968, 3602879701896397 / 36028797018963968, 3602879701896397 / 36028797018963968, 3602879701896397 / 36028797018963968, 3602879701896397 / 36028797018963968, 3602879701896397 / 36028797018963968, 3602879701896397 / 36028797018963968, 3602879701896397 / 36028797018963968, 3602879701896397 / 36028797018963968] : List ℚ).sum = 18014398509481985 / 18014398509481984
      ∧ ([3602879701896397 / 36028797018963968, 3602879701896397 / 36028797018963968, 3602879701896397 / 36028797018963968, 3602879701896397 / 36028797018963968, 3602879701896397 / 36028797018963968, 3602879701896397 / 36028797018963968, 3602879701896397 / 36028797018963968, 3602879701896397 / 36028797018963968, 3602879701896397 / 36028797018963968, 3602879701896397 / 36028797018963968] : List ℚ).sum ≠ 1
      ∧ sumRounded roundToDouble [3602879701896397 / 36028797018963968, 3602879701896397 / 36028797018963968, 3602879701896397 / 36028797018963968, 3602879701896397 / 36028797018963968, 3602879701896397 / 36028797018963968, 3602879701896397 / 36028797018963968, 3602879701896397 / 36028797018963968, 3602879701896397 / 36028797018963968, 3602879701896397 / 36028797018963968, 3602879701896397 / 36028797018963968]
        = 9007199254740991 / 9007199254740992 := by
  have h1 : roundToDouble (51 / 50) = 2296835809958953 / 2251799813685248 := by
    rw [roundToDouble_of_near (51 / 50) (0) (4593671619917906) (by norm_num) (by norm_num [abs_of_pos]) (by norm_num [abs_of_pos]) (by norm_num) (by norm_num)]
    norm_num
  have h2 : roundToDouble (2296835809958953 / 2251799813685248) = 2296835809958953 / 2251799813685248 := by
    rw [roundToDouble_of_near (2296835809958953 / 2251799813685248) (0) (4593671619917906) (by norm_num) (by norm_num [abs_of_pos]) (by norm_num [abs_of_pos]) (by norm_num) (by norm_num)]
    norm_num
  have h3 : roundToDouble (1 / 10) = 3602879701896397 / 36028797018963968 := by
    rw [roundToDouble_of_near (1 / 10) (-4) (7205759403792794) (by norm_num) (by norm_num [abs_of_pos]) (by norm_num [abs_of_pos]) (by norm_num) (by norm_num)]
    norm_num
  have h4 : roundToDouble 0 = 0 := roundToDouble_zero
  have h5 : roundToDouble (3602879701896397 / 36028797018963968) = 3602879701896397 / 36028797018963968 := by
    rw [roundToDouble_of_near (3602879701896397 / 36028797018963968) (-4) (7205759403792794) (by norm_num) (by norm_num [abs_of_pos]) (by norm_num [abs_of_pos]) (by norm_num) (by norm_num)]
    norm_num
  have h6 : roundToDouble (3602879701896397 / 18014398509481984) = 3602879701896397 / 18014398509481984 := by
    rw [roundToDouble_of_near (3602879701896397 / 18014398509481984) (-3) (7205759403792794) (by norm_num) (by norm_num [abs_of_pos]) (by norm_num [abs_of_pos]) (by norm_num) (by norm_num)]
    norm_num
  have h7 : roundToDouble (10808639105689191 / 36028797018963968) = 1351079888211149 / 4503599627370496 := by
    rw [roundToDouble_of_tie (10808639105689191 / 36028797018963968) (-2) (5404319552844595) (by norm_num) (by norm_num [abs_of_pos]) (by norm_num [abs_of_pos]) (by norm_num)]
    norm_num
  have h8 : roundToDouble (14411518807585589 / 36028797018963968) = 3602879701896397 / 9007199254740992 := by
    rw [roundToDouble_of_tie (14411518807585589 / 36028797018963968) (-2) (7205759403792794) (by norm_num) (by norm_num [abs_of_pos]) (by norm_num [abs_of_pos]) (by norm_num)]
    norm_num
  have h9 : roundToDouble (18014398509481985 / 36028797018963968) = 1 / 2 := by
    rw [roundToDouble_of_near (18014398509481985 / 36028797018963968) (-1) (4503599627370496) (by norm_num) (by norm_num [abs_of_pos]) (by norm_num [abs_of_pos]) (by norm_num) (by norm_num)]
    norm_num
  have h10 : roundToDouble (21617278211378381 / 36028797018963968) = 5404319552844595 / 9007199254740992 := by
    rw [roundToDouble_of_near (21617278211378381 / 36028797018963968) (-1) (5404319552844595) (by norm_num) (by norm_num [abs_of_pos]) (by norm_num [abs_of_pos]) (by norm_num) (by norm_num)]
    norm_num
  have h11 : roundToDouble (25220157913274777 / 36028797018963968) = 3152519739159347 / 4503599627370496 := by
    rw [roundToDouble_of_near (25220157913274777 / 36028797018963968) (-1) (6305039478318694) (by norm_num) (by norm_num [abs_of_pos]) (by norm_num [abs_of_pos]) (by norm_num) (by norm_num)]
    norm_num
  have h12 : roundToDouble (28823037615171173 / 36028797018963968) = 7205759403792793 / 9007199254740992 := by
    rw [roundToDouble_of_near (28823037615171173 / 36028797018963968) (-1) (7205759403792793) (by norm_num) (by norm_num [abs_of_pos]) (by norm_num [abs_of_pos]) (by norm_num) (by norm_num)]
    norm_num
  have h13 : roundToDouble (32425917317067569 / 36028797018963968) = 2026619832316723 / 2251799813685248 := by
    rw [roundToDouble_of_near (32425917317067569 / 36028797018963968) (-1) (8106479329266892) (by norm_num) (by norm_num [abs_of_pos]) (by norm_num [abs_of_pos]) (by norm_num) (by norm_num)]
    norm_num
  have h14 : roundToDouble (36028797018963965 / 36028797018963968) = 9007199254740991 / 9007199254740992 := by
    rw [roundToDouble_of_near (36028797018963965 / 36028797018963968) (-1) (9007199254740991) (by norm_num) (by norm_num [abs_of_pos]) (by norm_num [abs_of_pos]) (by norm_num) (by norm_num)]
    norm_num
  have hE : ∀ s, s < SparseMatrix.getRowCount tenCycleRateMatrix →
      ([1, 1, 1, 1, 1, 1, 1, 1, 1, 1] : List ℚ).getD s 0
        = SparseMatrix.getRowSum tenCycleRateMatrix s := by
    intro s hs
    have hs' : s < 10 := hs
    interval_cases s <;>
      norm_num [tenCycleRateMatrix, SparseMatrix.getRowSum, SparseMatrix.getRow, entrySum]
  have hrate : uniformizationRateOfRounded roundToDouble
      (BitVector.const (SparseMatrix.getRowCount tenCycleRateMatrix) true)
      (absorbingExitRates [1, 1, 1, 1, 1, 1, 1, 1, 1, 1]
        [false, false, false, false, false, false, false, false, false, false])
      = 2296835809958953 / 2251799813685248 := by
    have hunfold : uniformizationRateOfRounded roundToDouble
        (BitVector.const (SparseMatrix.getRowCount tenCycleRateMatrix) true)
        (absorbingExitRates [1, 1, 1, 1, 1, 1, 1, 1, 1, 1]
          [false, false, false, false, false, false, false, false, false, false])
        = roundToDouble (max (max (max (max (max (max (max (max (max (max (0) 1) 1) 1) 1) 1) 1) 1) 1) 1) 1 * roundToDouble 1.02) := rfl
    rw [hunfold]
    norm_num [h1, h2, h3, h4, h5, h6, h7, h8, h9, h10, h11, h12, h13, h14]
  have hsum : ([3602879701896397 / 36028797018963968, 3602879701896397 / 36028797018963968, 3602879701896397 / 36028797018963968, 3602879701896397 / 36028797018963968, 3602879701896397 / 36028797018963968, 3602879701896397 / 36028797018963968, 3602879701896397 / 36028797018963968, 3602879701896397 / 36028797018963968, 3602879701896397 / 36028797018963968, 3602879701896397 / 36028797018963968] : List ℚ).sum = 18014398509481985 / 18014398509481984 := by
    norm_num
  refine ⟨by simp [SparseMatrix.WellFormed, tenCycleRateMatrix], rfl, hE, by decide, ?_, hsum,
    ?_, ?_⟩
  · intro env
    rw [computeAllTransientProbabilitiesRounded_timeBound_zero roundToDouble env
      tenCycleRateMatrix _ _ _ _ roundToDouble_zero (by decide)
      (by rw [hrate]; norm_num)]
    have hcount : BitVector.getNumberOfSetBits
        [true, true, true, true, true, true, true, true, true, true] = 10 := by
      decide
    have hrange : List.range (SparseMatrix.getRowCount tenCycleRateMatrix)
        = [0, 1, 2, 3, 4, 5, 6, 7, 8, 9] := by decide
    rw [hcount, hrange]
    simp only [List.map_cons, List.map_nil]
    norm_num [BitVector.get, h1, h2, h3, h4, h5, h6, h7, h8, h9, h10, h11, h12, h13, h14]
  · rw [hsum]
    norm_num
  · norm_num [sumRounded, h1, h2, h3, h4, h5, h6, h7, h8, h9, h10, h11, h12, h13, h14]

/-- C37, witness: on the example chain with the initial state 0, the psi state 1 and the time
bound 1, with the Fox-Glynn result of the example environment. -/
theorem computeAllTransientProbabilities_mass_witness :
    (∃ result : List ℚ,
      computeAllTransientProbabilities exampleEnvironment exampleRateMatrix
          [true, false, false] [true, true, true] [false, true, false] exampleExitRates 1
        = Except.ok result
      ∧ result.length = SparseMatrix.getRowCount exampleRateMatrix
      ∧ result.sum = 1) :=
  (computeAllTransientProbabilities_mass exampleEnvironment exampleRateMatrix
    [true, false, false] [true, true, true] [false, true, false] exampleExitRates 1
    (by decide) (by decide)
    (by
      intro j e he
      have hcases : ∀ row ∈ exampleRateMatrix.rows ++ [[]], ∀ x ∈ row, x.1 < 3 := by
        simp only [exampleRateMatrix]
        decide
      rcases SparseMatrix.getRow_mem_or_nil exampleRateMatrix j with h | h
      · exact hcases _ (List.mem_append_left _ h) e he
      · rw [h] at he; cases he)
    (by decide)
    (by
      intro s hs
      have hs' : s < 3 := hs
      interval_cases s
      · rw [show SparseMatrix.getRowSum exampleRateMatrix 0 = 2 + (1 + 0) from rfl]
        norm_num [exampleExitRates]
      · rw [show SparseMatrix.getRowSum exampleRateMatrix 1 = 0 from rfl]
        rfl
      · rw [show SparseMatrix.getRowSum exampleRateMatrix 2 = 0 from rfl]
        rfl)
    (by decide) (by decide)
    ((uniformizationRateOf_pos_iff _ _).mpr
      ⟨0, by decide, by
        rw [getD_absorbingExitRates]
        simp [exampleExitRates, BitVector.get]⟩)
    (by decide)
    (by
      rw [show (exampleEnvironment.foxGlynn
          (1 * uniformizationRateOf
            (BitVector.const (SparseMatrix.getRowCount exampleRateMatrix) true)
            (absorbingExitRates exampleExitRates [false, true, false]))
          (exampleEnvironment.precision / 8)).totalWeight = 2.5402 from rfl,
        show (exampleEnvironment.foxGlynn
          (1 * uniformizationRateOf
            (BitVector.const (SparseMatrix.getRowCount exampleRateMatrix) true)
            (absorbingExitRates exampleExitRates [false, true, false]))
          (exampleEnvironment.precision / 8)).weights.sum = 1 + (1.02 + (0.5202 + 0)) from rfl]
      norm_num)
    (by
      rw [show (exampleEnvironment.foxGlynn
          (1 * uniformizationRateOf
            (BitVector.const (SparseMatrix.getRowCount exampleRateMatrix) true)
            (absorbingExitRates exampleExitRates [false, true, false]))
          (exampleEnvironment.precision / 8)).totalWeight = 2.5402 from rfl]
      norm_num)).1

/-- C38: for the chain of two states without transitions, with the exit rates `[0, 0]`, the phi
states `{0, 1}` and the psi state `1`, `computeBoundedUntilProbabilities` fails with
invalid-state for every lower bound `t > 0` and every finite upper bound `u ≥ t`, and for the
upper bound infinity once the unbounded until computation of the discrete-time helper has
returned: the relevant states are the psi state alone, whose exit rate is 0, so the
uniformization rate is 0. With the lower bound 0 and a finite upper bound `u > 0` the function
returns the indicator `[0, 1]` of the psi states. -/
theorem computeBoundedUntilProbabilities_absorbing_psi (env : Environment) (goal : SolveGoal)
    (qualitative : Bool) (t u : ℚ) (ht : 0 < t) (htu : t ≤ u) :
    computeBoundedUntilProbabilities env goal isolatedRateMatrix isolatedRateMatrix
        [true, true] [false, true] [0, 0] qualitative t (some u)
      = Except.error Error.invalidState
    ∧ ((∃ untilResult, computeUntilProbabilities env SolveGoal.default isolatedRateMatrix
          isolatedRateMatrix [0, 0] [true, true] [false, true] qualitative
          = Except.ok untilResult) →
        computeBoundedUntilProbabilities env goal isolatedRateMatrix isolatedRateMatrix
          [true, true] [false, true] [0, 0] qualitative t none
          = Except.error Error.invalidState)
    ∧ (∀ result, computeBoundedUntilProbabilities env goal isolatedRateMatrix
          isolatedRateMatrix [true, true] [false, true] [0, 0] qualitative t none
          ≠ Except.ok result)
    ∧ computeBoundedUntilProbabilities env goal isolatedRateMatrix isolatedRateMatrix
        [true, true] [false, true] [0, 0] qualitative 0 (some u)
      = Except.ok [0, 1]
    ∧ uniformizationRateOf
        (relevantStatesOf isolatedRateMatrix [true, true] [false, true]) [0, 0] = 0 := by
  have ht0 : t ≠ 0 := ne_of_gt ht
  have hu0 : u ≠ 0 := ne_of_gt (lt_of_lt_of_le ht htu)
  have hq : ¬ 0 < uniformizationRateOf [false, true] [0, 0] := by
    rw [uniformizationRateOf_isolated]
    exact lt_irrefl 0
  have hG : BitVector.empty
      (performProbGreater0 isolatedRateMatrix [true, true] [false, true]) = false := by
    rw [performProbGreater0_isolated]
    rfl
  have hfrom : ∀ untilResult, computeUntilProbabilities env SolveGoal.default
      isolatedRateMatrix isolatedRateMatrix [0, 0] [true, true] [false, true] qualitative
        = Except.ok untilResult →
      computeBoundedUntilProbabilities env goal isolatedRateMatrix isolatedRateMatrix
        [true, true] [false, true] [0, 0] qualitative t none
        = Except.error Error.invalidState := by
    intro untilResult huntil
    rw [computeBoundedUntilProbabilities_from _ _ _ _ _ _ _ _ _ ht0, if_neg (by rw [hG]; simp),
      huntil, relevantStatesOf_isolated]
    simp only []
    rw [propagateOver_of_not_pos _ _ _ _ _ _ hq]
  refine ⟨?_, ?_, ?_, ?_, ?_⟩
  · by_cases heq : t = u
    · subst heq
      rw [computeBoundedUntilProbabilities_point _ _ _ _ _ _ _ _ _ ht0,
        if_neg (by rw [hG]; simp), performProbGreater0_isolated]
      rw [propagateOver_of_not_pos _ _ _ _ _ _ hq]
    · rw [computeBoundedUntilProbabilities_from_to _ _ _ _ _ _ _ _ _ _ ht0 hu0 heq,
        if_neg (by rw [hG]; simp), maybeStatesOf_isolated, relevantStatesOf_isolated,
        if_pos (by rfl)]
      simp only [propagateOver_of_not_pos _ _ _ _ _ _ hq]
  · rintro ⟨untilResult, huntil⟩
    exact hfrom untilResult huntil
  · intro result hresult
    cases huntil : computeUntilProbabilities env SolveGoal.default isolatedRateMatrix
        isolatedRateMatrix [0, 0] [true, true] [false, true] qualitative with
    | error e =>
      rw [computeBoundedUntilProbabilities_from _ _ _ _ _ _ _ _ _ ht0,
        if_neg (by rw [hG]; simp), huntil] at hresult
      cases hresult
    | ok untilResult =>
      rw [hfrom untilResult huntil] at hresult
      cases hresult
  · rw [computeBoundedUntilProbabilities_zero_to _ _ _ _ _ _ _ _ _ hu0,
      if_neg (by rw [hG]; simp), if_pos (by rw [maybeStatesOf_isolated]; rfl)]
    rfl
  · rw [relevantStatesOf_isolated]
    exact uniformizationRateOf_isolated

/-- C38, witness: the intervals `[1, 1]` and `[1, 2]` fail with invalid-state and the interval
`[0, 2]` gives `[0, 1]`, with the example environment. -/
theorem computeBoundedUntilProbabilities_absorbing_psi_witness :
    computeBoundedUntilProbabilities exampleEnvironment SolveGoal.default isolatedRateMatrix
        isolatedRateMatrix [true, true] [false, true] [0, 0] false 1 (some 1)
      = Except.error Error.invalidState
    ∧ computeBoundedUntilProbabilities exampleEnvironment SolveGoal.default isolatedRateMatrix
        isolatedRateMatrix [true, true] [false, true] [0, 0] false 1 (some 2)
      = Except.error Error.invalidState
    ∧ computeBoundedUntilProbabilities exampleEnvironment SolveGoal.default isolatedRateMatrix
        isolatedRateMatrix [true, true] [false, true] [0, 0] false 0 (some 2)
      = Except.ok [0, 1] :=
  ⟨(computeBoundedUntilProbabilities_absorbing_psi exampleEnvironment SolveGoal.default false
      1 1 (by norm_num) (by norm_num)).1,
    (computeBoundedUntilProbabilities_absorbing_psi exampleEnvironment SolveGoal.default false
      1 2 (by norm_num) (by norm_num)).1,
    (computeBoundedUntilProbabilities_absorbing_psi exampleEnvironment SolveGoal.default false
      1 2 (by norm_num) (by norm_num)).2.2.2.1⟩

/-- C39: with guarded division, for a reward model whose state rewards, if present, have one
entry per exit rate: the conversion to the probability matrix, which the three reductions
perform first, reaches the error branch of a division exactly when a state with exit rate 0 has
a stored transition; `computeReachabilityRewards` and `computeTotalRewards` reach the error
branch exactly when the reward model is not empty and either that is the case or the reward
model has state rewards and some state has the exit rate 0, and otherwise give the outcome of
the functions with total division; `computeReachabilityTimes` reaches it exactly when a state
with exit rate 0 has a stored transition and never in the loop over its rewards: its reward
vector is 0 at every target state and every state with exit rate 0 and `1 / exitRate` at every
other state. -/
theorem rewardReduction_guardedDivision (dtmc : SparseDtmcPrctlHelper) (goal : SolveGoal)
    (rateMatrix backwardTransitions : SparseMatrix) (exitRateVector : List ℚ)
    (rewardModel : RewardModel) (targetStates : BitVector) (qualitative : Bool)
    (hlength : ∀ stateRewards, rewardModel.optionalStateRewardVector = some stateRewards →
      stateRewards.length = exitRateVector.length) :
    (computeProbabilityMatrixGuarded rateMatrix exitRateVector = none
      ↔ ∃ s, exitRateVector.getD s 0 = 0 ∧ SparseMatrix.getRow rateMatrix s ≠ [])
    ∧ (computeReachabilityRewardsGuarded dtmc goal rateMatrix backwardTransitions exitRateVector
        rewardModel targetStates qualitative = none
      ↔ RewardModel.empty rewardModel = false
        ∧ ((∃ s, exitRateVector.getD s 0 = 0 ∧ SparseMatrix.getRow rateMatrix s ≠ [])
          ∨ (RewardModel.hasStateRewards rewardModel = true ∧ (0 : ℚ) ∈ exitRateVector)))
    ∧ (computeTotalRewardsGuarded dtmc goal rateMatrix backwardTransitions exitRateVector
        rewardModel qualitative = none
      ↔ RewardModel.empty rewardModel = false
        ∧ ((∃ s, exitRateVector.getD s 0 = 0 ∧ SparseMatrix.getRow rateMatrix s ≠ [])
          ∨ (RewardModel.hasStateRewards rewardModel = true ∧ (0 : ℚ) ∈ exitRateVector)))
    ∧ (computeReachabilityTimesGuarded dtmc goal rateMatrix backwardTransitions exitRateVector
        targetStates qualitative = none
      ↔ ∃ s, exitRateVector.getD s 0 = 0 ∧ SparseMatrix.getRow rateMatrix s ≠ [])
    ∧ ((∀ s, exitRateVector.getD s 0 = 0 → SparseMatrix.getRow rateMatrix s = []) →
        (computeReachabilityRewardsGuarded dtmc goal rateMatrix backwardTransitions
            exitRateVector rewardModel targetStates qualitative = none
          ↔ RewardModel.hasStateRewards rewardModel = true ∧ (0 : ℚ) ∈ exitRateVector)
        ∧ (computeTotalRewardsGuarded dtmc goal rateMatrix backwardTransitions exitRateVector
            rewardModel qualitative = none
          ↔ RewardModel.hasStateRewards rewardModel = true ∧ (0 : ℚ) ∈ exitRateVector)
        ∧ (¬ (RewardModel.hasStateRewards rewardModel = true ∧ (0 : ℚ) ∈ exitRateVector) →
            computeReachabilityRewardsGuarded dtmc goal rateMatrix backwardTransitions
                exitRateVector rewardModel targetStates qualitative
              = some (computeReachabilityRewards dtmc goal rateMatrix backwardTransitions
                  exitRateVector rewardModel targetStates qualitative)
            ∧ computeTotalRewardsGuarded dtmc goal rateMatrix backwardTransitions
                exitRateVector rewardModel qualitative
              = some (computeTotalRewards dtmc goal rateMatrix backwardTransitions
                  exitRateVector rewardModel qualitative))
        ∧ computeReachabilityTimesGuarded dtmc goal rateMatrix backwardTransitions
            exitRateVector targetStates qualitative
          = some (computeReachabilityTimesTraced dtmc goal rateMatrix backwardTransitions
              exitRateVector targetStates qualitative).2)
    ∧ reachabilityTimesRewardVectorGuarded exitRateVector targetStates
      = some (computeReachabilityTimesTraced dtmc goal rateMatrix backwardTransitions
          exitRateVector targetStates qualitative).1
    ∧ ∀ i, i < exitRateVector.length →
        (computeReachabilityTimesTraced dtmc goal rateMatrix backwardTransitions
            exitRateVector targetStates qualitative).1.getD i 0
          = if BitVector.get targetStates i = true ∨ exitRateVector.getD i 0 = 0 then 0
            else 1 / exitRateVector.getD i 0 := by
  have hmatrix := computeProbabilityMatrixGuarded_eq_none_iff rateMatrix exitRateVector
  have hrowsOf : (¬ ∃ s, exitRateVector.getD s 0 = 0 ∧ SparseMatrix.getRow rateMatrix s ≠ []) →
      ∀ s, exitRateVector.getD s 0 = 0 → SparseMatrix.getRow rateMatrix s = [] := by
    intro hnot s hs
    by_contra hrow
    exact hnot ⟨s, hs, hrow⟩
  have hvector : reachabilityTimesRewardVectorGuarded exitRateVector targetStates
      = some (computeReachabilityTimesTraced dtmc goal rateMatrix backwardTransitions
          exitRateVector targetStates qualitative).1 := by
    rw [reachabilityTimesRewardVectorGuarded_eq]
    rfl
  have hentries : ∀ i, i < exitRateVector.length →
      (computeReachabilityTimesTraced dtmc goal rateMatrix backwardTransitions
          exitRateVector targetStates qualitative).1.getD i 0
        = if BitVector.get targetStates i = true ∨ exitRateVector.getD i 0 = 0 then 0
          else 1 / exitRateVector.getD i 0 := by
    intro i hi
    unfold computeReachabilityTimesTraced
    simp only []
    rw [getD_map_range, if_pos hi]
    by_cases htarget : BitVector.get targetStates i = true
    · simp [htarget]
    · by_cases hzero : exitRateVector.getD i 0 = 0
      · rw [hzero]
        simp
      · have hcond : ¬ ((BitVector.get targetStates i
            || decide (exitRateVector.getD i 0 = 0)) = true) := by
          rw [Bool.or_eq_true, decide_eq_true_eq]
          exact fun h => h.elim htarget hzero
        rw [if_neg hcond, if_neg (fun h => h.elim htarget hzero)]
  have hreach : computeReachabilityRewardsGuarded dtmc goal rateMatrix backwardTransitions
        exitRateVector rewardModel targetStates qualitative = none
      ↔ RewardModel.empty rewardModel = false
        ∧ ((∃ s, exitRateVector.getD s 0 = 0 ∧ SparseMatrix.getRow rateMatrix s ≠ [])
          ∨ (RewardModel.hasStateRewards rewardModel = true ∧ (0 : ℚ) ∈ exitRateVector)) := by
    by_cases hD : ∃ s, exitRateVector.getD s 0 = 0 ∧ SparseMatrix.getRow rateMatrix s ≠ []
    · unfold computeReachabilityRewardsGuarded
      rw [hmatrix.mpr hD]
      cases hempty : RewardModel.empty rewardModel
      · simp only [Bool.false_eq_true, if_false, true_and, true_iff]
        exact Or.inl hD
      · simp
    · have h := (rewardReduction_guardedDivision_of_rows dtmc goal rateMatrix
        backwardTransitions exitRateVector rewardModel targetStates qualitative (hrowsOf hD)
        hlength).1
      rw [h]
      constructor
      · intro hs
        exact ⟨empty_eq_false_of_hasStateRewards rewardModel hs.1, Or.inr hs⟩
      · rintro ⟨_, h1 | h2⟩
        · exact absurd h1 hD
        · exact h2
  have htotal : computeTotalRewardsGuarded dtmc goal rateMatrix backwardTransitions
        exitRateVector rewardModel qualitative = none
      ↔ RewardModel.empty rewardModel = false
        ∧ ((∃ s, exitRateVector.getD s 0 = 0 ∧ SparseMatrix.getRow rateMatrix s ≠ [])
          ∨ (RewardModel.hasStateRewards rewardModel = true ∧ (0 : ℚ) ∈ exitRateVector)) := by
    by_cases hD : ∃ s, exitRateVector.getD s 0 = 0 ∧ SparseMatrix.getRow rateMatrix s ≠ []
    · unfold computeTotalRewardsGuarded
      rw [hmatrix.mpr hD]
      cases hempty : RewardModel.empty rewardModel
      · simp only [Bool.false_eq_true, if_false, true_and, true_iff]
        exact Or.inl hD
      · simp
    · have h := (rewardReduction_guardedDivision_of_rows dtmc goal rateMatrix
        backwardTransitions exitRateVector rewardModel targetStates qualitative (hrowsOf hD)
        hlength).2.1
      rw [h]
      constructor
      · intro hs
        exact ⟨empty_eq_false_of_hasStateRewards rewardModel hs.1, Or.inr hs⟩
      · rintro ⟨_, h1 | h2⟩
        · exact absurd h1 hD
        · exact h2
  have htimes : computeReachabilityTimesGuarded dtmc goal rateMatrix backwardTransitions
        exitRateVector targetStates qualitative = none
      ↔ ∃ s, exitRateVector.getD s 0 = 0 ∧ SparseMatrix.getRow rateMatrix s ≠ [] := by
    by_cases hD : ∃ s, exitRateVector.getD s 0 = 0 ∧ SparseMatrix.getRow rateMatrix s ≠ []
    · unfold computeReachabilityTimesGuarded
      rw [hmatrix.mpr hD]
      exact ⟨fun _ => hD, fun _ => rfl⟩
    · rw [(rewardReduction_guardedDivision_of_rows dtmc goal rateMatrix
        backwardTransitions exitRateVector rewardModel targetStates qualitative (hrowsOf hD)
        hlength).2.2.2.1]
      exact ⟨fun h => (by cases h), fun h => absurd h hD⟩
  refine ⟨hmatrix, hreach, htotal, htimes, ?_, hvector, hentries⟩
  intro hrows
  have h := rewardReduction_guardedDivision_of_rows dtmc goal rateMatrix
    backwardTransitions exitRateVector rewardModel targetStates qualitative hrows hlength
  exact ⟨h.1, h.2.1, h.2.2.1, h.2.2.2.1⟩

/-- C39, counterexample: for the chain of two states in which state 0, with exit rate 0, has a
stored transition of rate 0 to state 1, and the reward model with the state-action rewards
`[1, 1]` only, the reward model has no state rewards and yet `computeReachabilityRewards` and
`computeTotalRewards` reach the error branch of a division, and so does
`computeReachabilityTimes`: the conversion to the probability matrix divides the stored rate by
the exit rate 0. -/
theorem rewardReduction_guardedDivision_counterexample :
    RewardModel.hasStateRewards (⟨none, some [1, 1], none, fun _ _ => [1, 1]⟩ : RewardModel)
      = false
    ∧ computeReachabilityRewardsGuarded exampleDtmcHelper SolveGoal.default ⟨2, [[(1, 0)], []]⟩
        ⟨2, [[], [(0, 0)]]⟩ [0, 0] ⟨none, some [1, 1], none, fun _ _ => [1, 1]⟩ [false, true]
        false = none
    ∧ computeTotalRewardsGuarded exampleDtmcHelper SolveGoal.default ⟨2, [[(1, 0)], []]⟩
        ⟨2, [[], [(0, 0)]]⟩ [0, 0] ⟨none, some [1, 1], none, fun _ _ => [1, 1]⟩ false = none
    ∧ computeReachabilityTimesGuarded exampleDtmcHelper SolveGoal.default ⟨2, [[(1, 0)], []]⟩
        ⟨2, [[], [(0, 0)]]⟩ [0, 0] [false, true] false = none := by
  have hmatrix : computeProbabilityMatrixGuarded ⟨2, [[(1, 0)], []]⟩ [0, 0] = none :=
    (computeProbabilityMatrixGuarded_eq_none_iff _ _).mpr ⟨0, rfl, by
      intro h
      cases h⟩
  refine ⟨rfl, ?_, ?_, ?_⟩
  · unfold computeReachabilityRewardsGuarded
    rw [hmatrix]
    rfl
  · unfold computeTotalRewardsGuarded
    rw [hmatrix]
    rfl
  · unfold computeReachabilityTimesGuarded
    rw [hmatrix]

/-- C39, witness: on the example chain, whose states 1 and 2 are absorbing with exit rate 0
and have no stored transition, the reward model with the state rewards `[1, 0, 0]` makes
`computeReachabilityRewards` reach the error branch of the division, and
`computeReachabilityTimes` returns what the discrete-time helper returns. -/
theorem rewardReduction_guardedDivision_witness :
    computeReachabilityRewardsGuarded exampleDtmcHelper SolveGoal.default exampleRateMatrix
        exampleBackwardTransitions exampleExitRates exampleRewardModel [false, true, true]
        false = none
    ∧ computeReachabilityTimesGuarded exampleDtmcHelper SolveGoal.default exampleRateMatrix
        exampleBackwardTransitions exampleExitRates [false, true, true] false
      = some (computeReachabilityTimesTraced exampleDtmcHelper SolveGoal.default
          exampleRateMatrix exampleBackwardTransitions exampleExitRates [false, true, true]
          false).2 :=
  have h := rewardReduction_guardedDivision exampleDtmcHelper SolveGoal.default
    exampleRateMatrix exampleBackwardTransitions exampleExitRates exampleRewardModel
    [false, true, true] false
    (by intro stateRewards h; cases h; rfl)
  ⟨h.2.1.mpr ⟨rfl, Or.inr ⟨rfl, by simp [exampleExitRates]⟩⟩,
    (h.2.2.2.2.1 (by
      intro s hs
      rcases s with _ | _ | _ | s
      · norm_num [exampleExitRates] at hs
      · rfl
      · rfl
      · rfl)).2.2.2⟩

/-- C40: `LinearityCheckVisitor` classifies a division exactly like a multiplication: for all
operands `e1` and `e2` the status of `e1 / e2` is the status of `e1 * e2`, which is `NonLinear`
if an operand is `NonLinear` or both operands contain variables, `LinearContainsVariables` if
exactly one operand contains variables, and `LinearWithoutVariables` otherwise; a variable has
the status `LinearContainsVariables` and an integer or rational literal the status
`LinearWithoutVariables`, so that a literal divided by a variable and a variable divided by a
literal are `LinearContainsVariables` and accepted by `check`, a literal divided by a literal
is `LinearWithoutVariables`, and a variable divided by a variable is `NonLinear` and rejected
by `check`. -/
theorem linearityCheck_divide_as_times (e1 e2 : BaseExpression) :
    LinearityCheckVisitor.visit
        (BaseExpression.BinaryNumericalFunctionExpression BinaryNumericalOperatorType.Divide
          e1 e2)
      = LinearityCheckVisitor.visit
          (BaseExpression.BinaryNumericalFunctionExpression BinaryNumericalOperatorType.Times
            e1 e2)
    ∧ LinearityCheckVisitor.visit
        (BaseExpression.BinaryNumericalFunctionExpression BinaryNumericalOperatorType.Times
          e1 e2)
      = (if LinearityCheckVisitor.visit e1 = LinearityStatus.NonLinear
            ∨ LinearityCheckVisitor.visit e2 = LinearityStatus.NonLinear
            ∨ (LinearityCheckVisitor.visit e1 = LinearityStatus.LinearContainsVariables
              ∧ LinearityCheckVisitor.visit e2 = LinearityStatus.LinearContainsVariables) then
          LinearityStatus.NonLinear
        else if LinearityCheckVisitor.visit e1 = LinearityStatus.LinearContainsVariables
            ∨ LinearityCheckVisitor.visit e2 = LinearityStatus.LinearContainsVariables then
          LinearityStatus.LinearContainsVariables
        else LinearityStatus.LinearWithoutVariables)
    ∧ (∀ (c : ℚ) (x : String), LinearityCheckVisitor.check
        (BaseExpression.BinaryNumericalFunctionExpression BinaryNumericalOperatorType.Divide
          (BaseExpression.RationalLiteralExpression c) (BaseExpression.VariableExpression x))
        = true)
    ∧ (∀ (c : Int) (x : String), LinearityCheckVisitor.check
        (BaseExpression.BinaryNumericalFunctionExpression BinaryNumericalOperatorType.Divide
          (BaseExpression.IntegerLiteralExpression c) (BaseExpression.VariableExpression x))
        = true)
    ∧ (∀ x : String, LinearityCheckVisitor.visit (BaseExpression.VariableExpression x)
        = LinearityStatus.LinearContainsVariables)
    ∧ (∀ c : ℚ, LinearityCheckVisitor.visit (BaseExpression.RationalLiteralExpression c)
        = LinearityStatus.LinearWithoutVariables)
    ∧ (∀ c : Int, LinearityCheckVisitor.visit (BaseExpression.IntegerLiteralExpression c)
        = LinearityStatus.LinearWithoutVariables)
    ∧ (∀ (c : ℚ) (x : String), LinearityCheckVisitor.visit
        (BaseExpression.BinaryNumericalFunctionExpression BinaryNumericalOperatorType.Divide
          (BaseExpression.RationalLiteralExpression c) (BaseExpression.VariableExpression x))
        = LinearityStatus.LinearContainsVariables)
    ∧ (∀ (x : String) (c : ℚ), LinearityCheckVisitor.visit
        (BaseExpression.BinaryNumericalFunctionExpression BinaryNumericalOperatorType.Divide
          (BaseExpression.VariableExpression x) (BaseExpression.RationalLiteralExpression c))
        = LinearityStatus.LinearContainsVariables)
    ∧ (∀ c d : ℚ, LinearityCheckVisitor.visit
        (BaseExpression.BinaryNumericalFunctionExpression BinaryNumericalOperatorType.Divide
          (BaseExpression.RationalLiteralExpression c) (BaseExpression.RationalLiteralExpression d))
        = LinearityStatus.LinearWithoutVariables)
    ∧ (∀ x y : String,
        LinearityCheckVisitor.visit
          (BaseExpression.BinaryNumericalFunctionExpression BinaryNumericalOperatorType.Divide
            (BaseExpression.VariableExpression x) (BaseExpression.VariableExpression y))
          = LinearityStatus.NonLinear
        ∧ LinearityCheckVisitor.visit
          (BaseExpression.BinaryNumericalFunctionExpression BinaryNumericalOperatorType.Times
            (BaseExpression.VariableExpression x) (BaseExpression.VariableExpression y))
          = LinearityStatus.NonLinear
        ∧ LinearityCheckVisitor.check
          (BaseExpression.BinaryNumericalFunctionExpression BinaryNumericalOperatorType.Divide
            (BaseExpression.VariableExpression x) (BaseExpression.VariableExpression y))
          = false) := by
  refine ⟨rfl, ?_, fun _ _ => rfl, fun _ _ => rfl, fun _ => rfl, fun _ => rfl, fun _ => rfl,
    fun _ _ => rfl, fun _ _ => rfl, fun _ _ => rfl, fun _ _ => ⟨rfl, rfl, rfl⟩⟩
  simp only [LinearityCheckVisitor.visit]
  cases h1 : LinearityCheckVisitor.visit e1 <;> cases h2 : LinearityCheckVisitor.visit e2 <;>
    simp

end Storm
